import Mathlib

/-!
Natron tile render-state tracker, `Engine/ImageTilesState.cpp`, the cache key
and entry of knob expressions, `Engine/KnobPrivate.h`, and the cache front, the
counter of opened cache files and the script names of `Engine/AppManager.cpp`

Shallow embedding of `TileStateHeader` (`init`, `getTileAt`), of
`ImageTilesState::getABCDRectangles`, of the region solver
`ImageTilesState::getMinimalBboxToRenderFromTilesState` /
`ImageTilesState::getMinimalRectsToRenderFromTilesState`, of the classes
`KnobExpressionKey` and `KnobExpressionResult`, and of the methods
`getImageOrCreate`, `getTextureOrCreate`, `isNCacheFilesOpenedCapped`,
`getNCacheFilesOpened`, `increaseNCacheFilesOpened`, `decreaseNCacheFilesOpened` of
`AppManager` and the functions `makeNameScriptFriendly`,
`makeNameScriptFriendlyWithDots`.

Conventions of the embedding.

* C++ `int` is `Int` (no claim below depends on overflow).
* A failed `assert`, a division by a tile size that is not positive and a loop
  that would not terminate are all the result `none`; `some v` means the C++
  function ran through all its assertions and returned `v`.
* Every `for` loop is a recursive function that tests the loop guard exactly as
  the source does and carries a fuel argument; the callers pass the distance the
  loop variable must travel plus one, which is enough whenever the step (a tile
  size) is at least one.
* `std::vector<TileState>` is `List TileState`, `std::list<RectI>` is `List RectI`.
-/

namespace Natron

/-! ## RectI -/

/-- Integer rectangle, half-open: `[x1,x2) × [y1,y2)`. -/
structure RectI where
  x1 : Int
  y1 : Int
  x2 : Int
  y2 : Int
deriving DecidableEq

namespace RectI

/-- Modelled from the spec: `RectI.h` is not among the sources. The default
constructed rectangle `RectI()`, which is the null rect. -/
def null : RectI := ⟨0, 0, 0, 0⟩

/-- Modelled from the spec: `width()` of `RectI.h`. -/
def width (r : RectI) : Int := r.x2 - r.x1

/-- Modelled from the spec: `height()` of `RectI.h`. -/
def height (r : RectI) : Int := r.y2 - r.y1

/-- Modelled from the spec: `isNull()` of `RectI.h`; a rectangle is non-null
exactly when `x1 < x2` and `y1 < y2`. -/
def isNull (r : RectI) : Bool := decide (r.x2 ≤ r.x1) || decide (r.y2 ≤ r.y1)

/-- Modelled from the spec: `contains(other)` of `RectI.h`, containment of the
coordinates of `other`. -/
def contains (r other : RectI) : Bool :=
  decide (r.x1 ≤ other.x1) && decide (r.y1 ≤ other.y1) &&
  decide (other.x2 ≤ r.x2) && decide (other.y2 ≤ r.y2)

/-- Modelled from the spec: `intersect(other, &out)` of `RectI.h`. Returns
`false` and leaves `out` as it was when the rectangles do not overlap, and
otherwise returns `true` with `out` the common rectangle. -/
def intersect (r other out : RectI) : Bool × RectI :=
  let i : RectI := ⟨max r.x1 other.x1, max r.y1 other.y1, min r.x2 other.x2, min r.y2 other.y2⟩
  if i.isNull then (false, out) else (true, i)

/-- Modelled from the spec: `roundToTileSize(tx, ty)` of `RectI.h`:
`x1 -= x1 mod tx` (toward −∞), `x2 += (tx − x2 mod tx) mod tx` (toward +∞),
the same for y, with the mathematical (non-negative) remainder. -/
def roundToTileSize (r : RectI) (tx ty : Int) : RectI :=
  ⟨r.x1 - r.x1 % tx, r.y1 - r.y1 % ty, r.x2 + (tx - r.x2 % tx) % tx, r.y2 + (ty - r.y2 % ty) % ty⟩

/-- Modelled from the spec: `bottom()` of `RectI.h` (y axis pointing up). -/
def bottom (r : RectI) : Int := r.y1

/-- Modelled from the spec: `top()` of `RectI.h`. -/
def top (r : RectI) : Int := r.y2

/-- Modelled from the spec: `left()` of `RectI.h`. -/
def left (r : RectI) : Int := r.x1

/-- Modelled from the spec: `right()` of `RectI.h`. -/
def right (r : RectI) : Int := r.x2

/-- Modelled from the spec: the area of a rectangle, `width * height` for a
non-null rectangle and zero for a null one. -/
def area (r : RectI) : Nat := (r.x2 - r.x1).toNat * (r.y2 - r.y1).toNat

/-- The pixel `(px, py)` lies in the half-open rectangle `r`. -/
def hasPixel (r : RectI) (px py : Int) : Prop :=
  r.x1 ≤ px ∧ px < r.x2 ∧ r.y1 ≤ py ∧ py < r.y2

instance (r : RectI) (px py : Int) : Decidable (r.hasPixel px py) := by
  unfold hasPixel; infer_instance

end RectI

/-! ## The type `int` -/

/-- The smallest value of an `int`, which has 32 bits. -/
def INT_MIN : Int := -2147483648

/-- The largest value of an `int`. -/
def INT_MAX : Int := 2147483647

/-- The integer is the value of an `int`. -/
def fitsInt (v : Int) : Prop := INT_MIN ≤ v ∧ v ≤ INT_MAX

instance (v : Int) : Decidable (fitsInt v) := by
  unfold fitsInt; infer_instance

/-! ## Tiles -/

/-- Modelled from the spec: the enumeration `TileStatus` of `ImageTilesState.h`. -/
inductive TileStatus where
  | eTileStatusNotRendered
  | eTileStatusPending
  | eTileStatusRendered
deriving DecidableEq

open TileStatus

/-- Modelled from the spec: `struct TileState` of `ImageTilesState.h`. -/
structure TileState where
  bounds : RectI
  status : TileStatus
deriving DecidableEq

/-- Modelled from the spec: the default constructed `TileState`, a null
rectangle with status `NotRendered`. -/
def TileState.default : TileState := ⟨RectI.null, eTileStatusNotRendered⟩

/-- The header `TileStateHeader`; `tiles` is `state->tiles`. The flag
`ownsState` only steers the deallocation and is left out. -/
structure TileStateHeader where
  tileSizeX : Int
  tileSizeY : Int
  bounds : RectI
  boundsRoundedToTileSize : RectI
  tiles : List TileState
deriving DecidableEq

namespace TileStateHeader

/-- The exact value of
`(boundsRoundedToTileSize.width() / tileSizeX) * (boundsRoundedToTileSize.height() / tileSizeY)`,
the number of tiles of the grid. The source computes it in `int`: `init` below
demands that it is the value of an `int`, see `initFitsInt`. -/
def tileCount (h : TileStateHeader) : Int :=
  (h.boundsRoundedToTileSize.width.tdiv h.tileSizeX) * (h.boundsRoundedToTileSize.height.tdiv h.tileSizeY)

/-- Every value that `init(tileSizeXParam, tileSizeYParam, roi)` holds or computes in
`int` is the value of an `int`: its arguments, the rounded bounds, their
`width()` and `height()`, and the product
`(width() / tileSizeX) * (height() / tileSizeY)` passed to `resize`. The loop
variables `tx`, `ty` run up to the rounded bounds and `tile_i` up to the
product. -/
def initFitsInt (tileSizeXParam tileSizeYParam : Int) (roi : RectI) : Prop :=
  fitsInt tileSizeXParam ∧ fitsInt tileSizeYParam ∧
  (fitsInt roi.x1 ∧ fitsInt roi.y1 ∧ fitsInt roi.x2 ∧ fitsInt roi.y2) ∧
  (fitsInt (roi.roundToTileSize tileSizeXParam tileSizeYParam).x1 ∧
    fitsInt (roi.roundToTileSize tileSizeXParam tileSizeYParam).y1 ∧
    fitsInt (roi.roundToTileSize tileSizeXParam tileSizeYParam).x2 ∧
    fitsInt (roi.roundToTileSize tileSizeXParam tileSizeYParam).y2) ∧
  fitsInt (roi.roundToTileSize tileSizeXParam tileSizeYParam).width ∧
  fitsInt (roi.roundToTileSize tileSizeXParam tileSizeYParam).height ∧
  fitsInt (((roi.roundToTileSize tileSizeXParam tileSizeYParam).width.tdiv tileSizeXParam) *
    ((roi.roundToTileSize tileSizeXParam tileSizeYParam).height.tdiv tileSizeYParam))

instance (tileSizeXParam tileSizeYParam : Int) (roi : RectI) :
    Decidable (initFitsInt tileSizeXParam tileSizeYParam roi) := by
  unfold initFitsInt; infer_instance

/-- Body of the filling loops of `init`: the bounds written to tile `tile_i`. -/
def clippedCell (h : TileStateHeader) (tx ty : Int) : RectI :=
  ⟨max tx h.bounds.x1, max ty h.bounds.y1,
   min (tx + h.tileSizeX) h.bounds.x2, min (ty + h.tileSizeY) h.bounds.y2⟩

/-- Inner loop of `init`:
`for (tx = ...; tx < boundsRoundedToTileSize.x2; tx += tileSizeX, ++tile_i)`. -/
def initRow (h : TileStateHeader) (ty : Int) :
    Nat → Int → Nat → List TileState → Option (Nat × List TileState)
  | 0, _, _, _ => none
  | fuel + 1, tx, tile_i, tiles =>
    if tx < h.boundsRoundedToTileSize.x2 then
      if tile_i < tiles.length then
        initRow h ty fuel (tx + h.tileSizeX) (tile_i + 1)
          (tiles.modify (fun t => { t with bounds := h.clippedCell tx ty }) tile_i)
      else none
    else some (tile_i, tiles)

/-- Outer loop of `init`:
`for (ty = boundsRoundedToTileSize.y1; ty < boundsRoundedToTileSize.y2; ty += tileSizeY)`. -/
def initRows (h : TileStateHeader) :
    Nat → Int → Nat → List TileState → Option (Nat × List TileState)
  | 0, _, _, _ => none
  | fuel + 1, ty, tile_i, tiles =>
    if ty < h.boundsRoundedToTileSize.y2 then
      match initRow h ty
          ((h.boundsRoundedToTileSize.x2 - h.boundsRoundedToTileSize.x1).toNat + 1)
          h.boundsRoundedToTileSize.x1 tile_i tiles with
      | none => none
      | some (tile_i, tiles) => initRows h fuel (ty + h.tileSizeY) tile_i tiles
    else some (tile_i, tiles)

/-- The method `TileStateHeader::init(tileSizeXParam, tileSizeYParam, roi)`. The previous
header `old` is overwritten field by field and its state is replaced by a new
one. A tile size that is not positive (division by zero, or loops that never
reach their bound) and a negative size passed to `resize` give `none`. The
arithmetic is that of `int`: when a value is not the value of an `int` the
source overflows, which is undefined, and the result is `none`; so for
`init(1, 1, (0,0,65536,65536))`, where the product `65536 * 65536` wraps around
to `0`, no tile is allocated and `assert(tile_i < (int)state->tiles.size())`
fails. -/
def init (_old : TileStateHeader) (tileSizeXParam tileSizeYParam : Int) (roi : RectI) :
    Option TileStateHeader :=
  if 0 < tileSizeXParam ∧ 0 < tileSizeYParam then
    let boundsRounded := roi.roundToTileSize tileSizeXParam tileSizeYParam
    let h : TileStateHeader :=
      { tileSizeX := tileSizeXParam, tileSizeY := tileSizeYParam, bounds := roi,
        boundsRoundedToTileSize := boundsRounded, tiles := [] }
    if initFitsInt tileSizeXParam tileSizeYParam roi ∧ 0 ≤ h.tileCount then
      let h : TileStateHeader := { h with tiles := List.replicate h.tileCount.toNat TileState.default }
      match initRows h ((boundsRounded.y2 - boundsRounded.y1).toNat + 1) boundsRounded.y1 0 h.tiles with
      | none => none
      | some (_, tiles) => some { h with tiles := tiles }
    else none
  else none

/-- The method `TileStateHeader::getTileAt(tx, ty)` (both overloads compute the same
index); `none` when one of its two assertions fails. -/
def getTileAt (h : TileStateHeader) (tx ty : Int) : Option TileState :=
  if tx.tmod h.tileSizeX = 0 ∧ ty.tmod h.tileSizeY = 0 then
    let index : Int :=
      ((ty - h.boundsRoundedToTileSize.y1).tdiv h.tileSizeY) *
        (h.boundsRoundedToTileSize.width.tdiv h.tileSizeX) +
      (tx - h.boundsRoundedToTileSize.x1).tdiv h.tileSizeX
    if 0 ≤ index ∧ index < (h.tiles.length : Int) then h.tiles[index.toNat]? else none
  else none

/-- The write `getTileAt(tx, ty)->status = s` through the mutable overload. -/
def setStatusAt (h : TileStateHeader) (tx ty : Int) (s : TileStatus) : TileStateHeader :=
  let index : Int :=
    ((ty - h.boundsRoundedToTileSize.y1).tdiv h.tileSizeY) *
      (h.boundsRoundedToTileSize.width.tdiv h.tileSizeX) +
    (tx - h.boundsRoundedToTileSize.x1).tdiv h.tileSizeX
  { h with tiles := h.tiles.modify (fun t => { t with status := s }) index.toNat }

end TileStateHeader

/-! ## Region solver -/

/-- The test `tile->status == eTileStatusNotRendered` of the bounding-box scans. -/
def isNotRendered (s : TileStatus) : Bool := decide (s = eTileStatusNotRendered)

/-- The test `tile->status != eTileStatusNotRendered` of the band scans. -/
def isNotNotRendered (s : TileStatus) : Bool := decide (s ≠ eTileStatusNotRendered)

/-- Inner loop over one tile row: `for (x = x1; x < x2; x += tileSizeX)`, which
sets its flag and breaks at the first tile whose status passes `hit`. -/
def scanRow (h : TileStateHeader) (hit : TileStatus → Bool) (y x2 : Int) : Nat → Int → Option Bool
  | 0, _ => none
  | fuel + 1, x =>
    if x < x2 then
      match h.getTileAt x y with
      | none => none
      | some tile => if hit tile.status then some true else scanRow h hit y x2 fuel (x + h.tileSizeX)
    else some false

/-- Inner loop over one tile column: `for (y = y1; y < y2; y += tileSizeY)`. -/
def scanCol (h : TileStateHeader) (hit : TileStatus → Bool) (x y2 : Int) : Nat → Int → Option Bool
  | 0, _ => none
  | fuel + 1, y =>
    if y < y2 then
      match h.getTileAt x y with
      | none => none
      | some tile => if hit tile.status then some true else scanCol h hit x y2 fuel (y + h.tileSizeY)
    else some false

/-- The row scan as the outer loops call it, over `[r.x1, r.x2)`. -/
def rowHas (h : TileStateHeader) (hit : TileStatus → Bool) (r : RectI) (y : Int) : Option Bool :=
  scanRow h hit y r.x2 ((r.x2 - r.x1).toNat + 1) r.x1

/-- The column scan as the outer loops call it, over `[r.y1, r.y2)`. -/
def colHas (h : TileStateHeader) (hit : TileStatus → Bool) (r : RectI) (x : Int) : Option Bool :=
  scanCol h hit x r.y2 ((r.y2 - r.y1).toNat + 1) r.y1

/-- Search for rendered lines from bottom to top:
`for (y = r.y1; y < r.y2; y += tileSizeY)`, raising `r.y1` by one tile while
the row holds no tile passing `hit`. -/
def shrinkBottom (h : TileStateHeader) (hit : TileStatus → Bool) : Nat → Int → RectI → Option RectI
  | 0, _, _ => none
  | fuel + 1, y, r =>
    if y < r.y2 then
      match rowHas h hit r y with
      | none => none
      | some hasTileOnLine =>
        if !hasTileOnLine then shrinkBottom h hit fuel (y + h.tileSizeY) { r with y1 := r.y1 + h.tileSizeY }
        else some r
    else some r

/-- Search for rendered lines from top to bottom:
`for (y = r.y2 - tileSizeY; y >= r.y1; y -= tileSizeY)`. -/
def shrinkTop (h : TileStateHeader) (hit : TileStatus → Bool) : Nat → Int → RectI → Option RectI
  | 0, _, _ => none
  | fuel + 1, y, r =>
    if y ≥ r.y1 then
      match rowHas h hit r y with
      | none => none
      | some hasTileOnLine =>
        if !hasTileOnLine then shrinkTop h hit fuel (y - h.tileSizeY) { r with y2 := r.y2 - h.tileSizeY }
        else some r
    else some r

/-- Search for rendered columns from left to right:
`for (x = r.x1; x < r.x2; x += tileSizeX)`. -/
def shrinkLeft (h : TileStateHeader) (hit : TileStatus → Bool) : Nat → Int → RectI → Option RectI
  | 0, _, _ => none
  | fuel + 1, x, r =>
    if x < r.x2 then
      match colHas h hit r x with
      | none => none
      | some hasTileOnCol =>
        if !hasTileOnCol then shrinkLeft h hit fuel (x + h.tileSizeX) { r with x1 := r.x1 + h.tileSizeX }
        else some r
    else some r

/-- Search for rendered columns from right to left:
`for (x = r.x2 - tileSizeX; x >= r.x1; x -= tileSizeX)`. -/
def shrinkRight (h : TileStateHeader) (hit : TileStatus → Bool) : Nat → Int → RectI → Option RectI
  | 0, _, _ => none
  | fuel + 1, x, r =>
    if x ≥ r.x1 then
      match colHas h hit r x with
      | none => none
      | some hasTileOnCol =>
        if !hasTileOnCol then shrinkRight h hit fuel (x - h.tileSizeX) { r with x2 := r.x2 - h.tileSizeX }
        else some r
    else some r

/-- Fuel of the loops over the rows of `r`. -/
def rowFuel (r : RectI) : Nat := (r.y2 - r.y1).toNat + 1

/-- Fuel of the loops over the columns of `r`. -/
def colFuel (r : RectI) : Nat := (r.x2 - r.x1).toNat + 1

/-- The function `ImageTilesState::getMinimalBboxToRenderFromTilesState(roi, stateMap)`.
The local `roiRoundedToTileSize` is `r0` after the rounding and `r1`, `r2`,
`r3`, `r4` after each of the four loops; `ret` starts as `RectI()`. -/
def getMinimalBboxToRenderFromTilesState (roi : RectI) (stateMap : TileStateHeader) : Option RectI :=
  if stateMap.tiles.isEmpty then some RectI.null
  else if !stateMap.boundsRoundedToTileSize.contains roi then none
  else
    let r0 := roi.roundToTileSize stateMap.tileSizeX stateMap.tileSizeY
    match shrinkBottom stateMap isNotRendered (rowFuel r0) r0.y1 r0 with
    | none => none
    | some r1 =>
      match shrinkTop stateMap isNotRendered (rowFuel r1) (r1.y2 - stateMap.tileSizeY) r1 with
      | none => none
      | some r2 =>
        if r2.isNull then some r2
        else
          match shrinkLeft stateMap isNotRendered (colFuel r2) r2.x1 r2 with
          | none => none
          | some r3 =>
            if r3.isNull then some r3
            else
              match shrinkRight stateMap isNotRendered (colFuel r3) (r3.x2 - stateMap.tileSizeX) r3 with
              | none => none
              | some r4 => some (r4.intersect stateMap.bounds RectI.null).2

/-- The block repeated after each band of `getMinimalRectsToRenderFromTilesState`:
`if ( !bbox.isNull() ) { RectI i; bbox.intersect(roi, &i); rectsToRender->push_back(i); }`. -/
def pushClipped (bbox roi : RectI) (rectsToRender : List RectI) : List RectI :=
  if !bbox.isNull then rectsToRender ++ [(bbox.intersect roi RectI.null).2] else rectsToRender

/-- Find bottom: `for (y = bboxX.y1; y < bboxX.y2; y += tileSizeY)`, moving
rows without any rendered tile from `bboxX` to `bboxA`. The state is the pair
`(bboxX, bboxA)`. -/
def peelBottom (h : TileStateHeader) : Nat → Int → RectI × RectI → Option (RectI × RectI)
  | 0, _, _ => none
  | fuel + 1, y, (bboxX, bboxA) =>
    if y < bboxX.y2 then
      match rowHas h isNotNotRendered bboxX y with
      | none => none
      | some hasRenderedTileOnLine =>
        if hasRenderedTileOnLine then some (bboxX, bboxA)
        else
          let bboxX := { bboxX with y1 := bboxX.y1 + h.tileSizeY }
          peelBottom h fuel (y + h.tileSizeY) (bboxX, { bboxA with y2 := bboxX.y1 })
    else some (bboxX, bboxA)

/-- Find top: `for (y = bboxX.y2 - tileSizeY; y >= bboxX.y1; y -= tileSizeY)`,
state `(bboxX, bboxB)`. -/
def peelTop (h : TileStateHeader) : Nat → Int → RectI × RectI → Option (RectI × RectI)
  | 0, _, _ => none
  | fuel + 1, y, (bboxX, bboxB) =>
    if y ≥ bboxX.y1 then
      match rowHas h isNotNotRendered bboxX y with
      | none => none
      | some hasRenderedTileOnLine =>
        if hasRenderedTileOnLine then some (bboxX, bboxB)
        else
          let bboxX := { bboxX with y2 := bboxX.y2 - h.tileSizeY }
          peelTop h fuel (y - h.tileSizeY) (bboxX, { bboxB with y1 := bboxX.y2 })
    else some (bboxX, bboxB)

/-- Find left: `for (x = bboxX.x1; x < bboxX.x2; x += tileSizeX)`, state
`(bboxX, bboxC)`. -/
def peelLeft (h : TileStateHeader) : Nat → Int → RectI × RectI → Option (RectI × RectI)
  | 0, _, _ => none
  | fuel + 1, x, (bboxX, bboxC) =>
    if x < bboxX.x2 then
      match colHas h isNotNotRendered bboxX x with
      | none => none
      | some hasRenderedTileOnCol =>
        if hasRenderedTileOnCol then some (bboxX, bboxC)
        else
          let bboxX := { bboxX with x1 := bboxX.x1 + h.tileSizeX }
          peelLeft h fuel (x + h.tileSizeX) (bboxX, { bboxC with x2 := bboxX.x1 })
    else some (bboxX, bboxC)

/-- Find right: `for (x = bboxX.x2 - tileSizeX; x >= bboxX.x1; x -= tileSizeX)`,
state `(bboxX, bboxD)`. -/
def peelRight (h : TileStateHeader) : Nat → Int → RectI × RectI → Option (RectI × RectI)
  | 0, _, _ => none
  | fuel + 1, x, (bboxX, bboxD) =>
    if x ≥ bboxX.x1 then
      match colHas h isNotNotRendered bboxX x with
      | none => none
      | some hasRenderedTileOnCol =>
        if hasRenderedTileOnCol then some (bboxX, bboxD)
        else
          let bboxX := { bboxX with x2 := bboxX.x2 - h.tileSizeX }
          peelRight h fuel (x - h.tileSizeX) (bboxX, { bboxD with x1 := bboxX.x2 })
    else some (bboxX, bboxD)

/-- The sixteen assertions that follow the four bands. -/
def bandAsserts (bboxM bboxX bboxA bboxB bboxC bboxD : RectI) : Bool :=
  decide (bboxA.bottom = bboxM.bottom) && decide (bboxA.left = bboxM.left) &&
  decide (bboxA.right = bboxM.right) && decide (bboxA.top = bboxX.bottom) &&
  decide (bboxB.top = bboxM.top) && decide (bboxB.left = bboxM.left) &&
  decide (bboxB.right = bboxM.right) && decide (bboxB.bottom = bboxX.top) &&
  decide (bboxC.top = bboxX.top) && decide (bboxC.left = bboxM.left) &&
  decide (bboxC.right = bboxX.left) && decide (bboxC.bottom = bboxX.bottom) &&
  decide (bboxD.top = bboxX.top) && decide (bboxD.left = bboxX.right) &&
  decide (bboxD.right = bboxM.right) && decide (bboxD.bottom = bboxX.bottom)

/-- The function `ImageTilesState::getMinimalRectsToRenderFromTilesState(roi, stateMap, rectsToRender)`;
the result is the list `*rectsToRender` after the call. The local
`roiRoundedToTileSize` of the source is never read and is left out. -/
def getMinimalRectsToRenderFromTilesState (roi : RectI) (stateMap : TileStateHeader)
    (rectsToRender : List RectI) : Option (List RectI) :=
  if stateMap.tiles.isEmpty then some rectsToRender
  else
    match getMinimalBboxToRenderFromTilesState roi stateMap with
    | none => none
    | some bboxM =>
      if bboxM.isNull then some rectsToRender
      else
        let bboxM := bboxM.roundToTileSize stateMap.tileSizeX stateMap.tileSizeY
        let bboxX := bboxM
        let bboxA : RectI := { bboxX with y2 := bboxX.y1 }
        match peelBottom stateMap (rowFuel bboxX) bboxX.y1 (bboxX, bboxA) with
        | none => none
        | some (bboxX, bboxA) =>
          let rectsToRender := pushClipped bboxA roi rectsToRender
          let bboxB : RectI := { bboxX with y1 := bboxX.y2 }
          match peelTop stateMap (rowFuel bboxX) (bboxX.y2 - stateMap.tileSizeY) (bboxX, bboxB) with
          | none => none
          | some (bboxX, bboxB) =>
            let rectsToRender := pushClipped bboxB roi rectsToRender
            let bboxC : RectI := { bboxX with x2 := bboxX.x1 }
            match (if bboxX.y1 < bboxX.y2 then peelLeft stateMap (colFuel bboxX) bboxX.x1 (bboxX, bboxC)
                   else some (bboxX, bboxC)) with
            | none => none
            | some (bboxX, bboxC) =>
              let rectsToRender := pushClipped bboxC roi rectsToRender
              let bboxD : RectI := { bboxX with x1 := bboxX.x2 }
              match (if bboxX.y1 < bboxX.y2 then
                       peelRight stateMap (colFuel bboxX) (bboxX.x2 - stateMap.tileSizeX) (bboxX, bboxD)
                     else some (bboxX, bboxD)) with
              | none => none
              | some (bboxX, bboxD) =>
                let rectsToRender := pushClipped bboxD roi rectsToRender
                if !bandAsserts bboxM bboxX bboxA bboxB bboxC bboxD then none
                else
                  match getMinimalBboxToRenderFromTilesState bboxX stateMap with
                  | none => none
                  | some bboxX => some (pushClipped bboxX roi rectsToRender)

/-! ## Concrete grids -/

/-- Scenario B: bounds `(0,0,100,100)`, 64x64 tiles, every tile `Rendered`
except the one at origin `(64,64)`. -/
def scenarioB : TileStateHeader :=
  { tileSizeX := 64, tileSizeY := 64, bounds := ⟨0, 0, 100, 100⟩,
    boundsRoundedToTileSize := ⟨0, 0, 128, 128⟩,
    tiles := [⟨⟨0, 0, 64, 64⟩, eTileStatusRendered⟩, ⟨⟨64, 0, 100, 64⟩, eTileStatusRendered⟩,
              ⟨⟨0, 64, 64, 100⟩, eTileStatusRendered⟩,
              ⟨⟨64, 64, 100, 100⟩, eTileStatusNotRendered⟩] }

/-- Scenario C in small: bounds `(0,0,3,6)`, 2x2 tiles, three tile rows, the
bottom and top rows `Rendered` and the middle row `NotRendered`. -/
def scenarioC : TileStateHeader :=
  { tileSizeX := 2, tileSizeY := 2, bounds := ⟨0, 0, 3, 6⟩,
    boundsRoundedToTileSize := ⟨0, 0, 4, 6⟩,
    tiles := [⟨⟨0, 0, 2, 2⟩, eTileStatusRendered⟩, ⟨⟨2, 0, 3, 2⟩, eTileStatusRendered⟩,
              ⟨⟨0, 2, 2, 4⟩, eTileStatusNotRendered⟩, ⟨⟨2, 2, 3, 4⟩, eTileStatusNotRendered⟩,
              ⟨⟨0, 4, 2, 6⟩, eTileStatusRendered⟩, ⟨⟨2, 4, 3, 6⟩, eTileStatusRendered⟩] }

/-- A grid with one tile that sticks out of the image: bounds `(0,0,1,1)`, 2x2
tiles, the tile `NotRendered`. -/
def cornerGrid : TileStateHeader :=
  { tileSizeX := 2, tileSizeY := 2, bounds := ⟨0, 0, 1, 1⟩,
    boundsRoundedToTileSize := ⟨0, 0, 2, 2⟩,
    tiles := [⟨⟨0, 0, 1, 1⟩, eTileStatusNotRendered⟩] }

/-- A grid whose last tile column sticks out of the image: bounds
`(0,0,3,10)`, 2x2 tiles, five tile rows; the left column is `Rendered` and the
right column alternates `NotRendered`, `Rendered`, `NotRendered`, `Rendered`,
`NotRendered` from bottom to top. -/
def marginGrid : TileStateHeader :=
  { tileSizeX := 2, tileSizeY := 2, bounds := ⟨0, 0, 3, 10⟩,
    boundsRoundedToTileSize := ⟨0, 0, 4, 10⟩,
    tiles := [⟨⟨0, 0, 2, 2⟩, eTileStatusRendered⟩, ⟨⟨2, 0, 3, 2⟩, eTileStatusNotRendered⟩,
              ⟨⟨0, 2, 2, 4⟩, eTileStatusRendered⟩, ⟨⟨2, 2, 3, 4⟩, eTileStatusRendered⟩,
              ⟨⟨0, 4, 2, 6⟩, eTileStatusRendered⟩, ⟨⟨2, 4, 3, 6⟩, eTileStatusNotRendered⟩,
              ⟨⟨0, 6, 2, 8⟩, eTileStatusRendered⟩, ⟨⟨2, 6, 3, 8⟩, eTileStatusRendered⟩,
              ⟨⟨0, 8, 2, 10⟩, eTileStatusRendered⟩, ⟨⟨2, 8, 3, 10⟩, eTileStatusNotRendered⟩] }

/-! ## Predicates used by the statements -/

/-- The header invariant the constructor `TileStateHeader(tileSizeX, tileSizeY,
bounds, state)` establishes and asserts: positive tile sizes, the rounded
bounds are the bounds rounded to the tile size, and the tile vector is empty or
has `(width / tileSizeX) * (height / tileSizeY)` entries. -/
def WellFormed (g : TileStateHeader) : Prop :=
  0 < g.tileSizeX ∧ 0 < g.tileSizeY ∧
  g.boundsRoundedToTileSize = g.bounds.roundToTileSize g.tileSizeX g.tileSizeY ∧
  (g.tiles = [] ∨ (g.tiles.length : Int) = g.tileCount)

instance (g : TileStateHeader) : Decidable (WellFormed g) := by
  unfold WellFormed; infer_instance

/-- The grid `g` was built by `init` (which demands positive tile sizes) over
`g.bounds`, after which its tiles may have received any status: `init` run
with the tile sizes and bounds of `g` yields the rounded bounds of `g` and
tiles with the bounds of the tiles of `g`. -/
def BuiltByInit (g : TileStateHeader) : Prop :=
  (TileStateHeader.init g g.tileSizeX g.tileSizeY g.bounds).map
      (fun g0 => (g0.boundsRoundedToTileSize, g0.tiles.map (fun t => t.bounds))) =
    some (g.boundsRoundedToTileSize, g.tiles.map (fun t => t.bounds))

instance (g : TileStateHeader) : Decidable (BuiltByInit g) := by
  unfold BuiltByInit; infer_instance

/-- The point `(tx, ty)` is the origin of a tile of the grid: tile aligned and
inside the rounded bounds. -/
def IsOrigin (g : TileStateHeader) (tx ty : Int) : Prop :=
  g.tileSizeX ∣ tx ∧ g.tileSizeY ∣ ty ∧
  g.boundsRoundedToTileSize.x1 ≤ tx ∧ tx < g.boundsRoundedToTileSize.x2 ∧
  g.boundsRoundedToTileSize.y1 ≤ ty ∧ ty < g.boundsRoundedToTileSize.y2

/-- The tile at `(tx, ty)` exists and its status passes `hit`. -/
def TileHas (g : TileStateHeader) (hit : TileStatus → Bool) (tx ty : Int) : Prop :=
  ∃ t, g.getTileAt tx ty = some t ∧ hit t.status = true

/-- Some tile of row `y` with tile-aligned origin in `[x1, x2)` passes `hit`. -/
def RowHit (g : TileStateHeader) (hit : TileStatus → Bool) (x1 x2 y : Int) : Prop :=
  ∃ x, g.tileSizeX ∣ x ∧ x1 ≤ x ∧ x < x2 ∧ TileHas g hit x y

/-- Some tile of column `x` with tile-aligned origin in `[y1, y2)` passes `hit`. -/
def ColHit (g : TileStateHeader) (hit : TileStatus → Bool) (y1 y2 x : Int) : Prop :=
  ∃ y, g.tileSizeY ∣ y ∧ y1 ≤ y ∧ y < y2 ∧ TileHas g hit x y

/-- The rectangle `r` is tile aligned and lies inside the rounded bounds of `g`. -/
def Inside (g : TileStateHeader) (r : RectI) : Prop :=
  (g.tileSizeX ∣ r.x1 ∧ g.tileSizeX ∣ r.x2 ∧ g.tileSizeY ∣ r.y1 ∧ g.tileSizeY ∣ r.y2) ∧
  (g.boundsRoundedToTileSize.x1 ≤ r.x1 ∧ r.x2 ≤ g.boundsRoundedToTileSize.x2 ∧
   g.boundsRoundedToTileSize.y1 ≤ r.y1 ∧ r.y2 ≤ g.boundsRoundedToTileSize.y2)

/-- The tile with origin `(tx, ty)` is a `NotRendered` tile of the grid whose
cell lies in the tile-aligned rectangle `r`. -/
def UnrenderedIn (g : TileStateHeader) (r : RectI) (tx ty : Int) : Prop :=
  g.tileSizeX ∣ tx ∧ g.tileSizeY ∣ ty ∧ r.x1 ≤ tx ∧ tx < r.x2 ∧ r.y1 ≤ ty ∧ ty < r.y2 ∧
  TileHas g isNotRendered tx ty

/-- The cell of the tile with origin `(tx, ty)` lies in the rectangle `S`. -/
def CellIn (g : TileStateHeader) (S : RectI) (tx ty : Int) : Prop :=
  S.x1 ≤ tx ∧ tx + g.tileSizeX ≤ S.x2 ∧ S.y1 ≤ ty ∧ ty + g.tileSizeY ≤ S.y2

/-- The rectangle `S` is the smallest tile-aligned rectangle that contains the
cells of all `NotRendered` tiles of the tile-aligned rectangle `R`: it is tile
aligned, contains these cells, and lies in every rectangle containing them. -/
def SmallestCover (g : TileStateHeader) (R S : RectI) : Prop :=
  (g.tileSizeX ∣ S.x1 ∧ g.tileSizeX ∣ S.x2 ∧ g.tileSizeY ∣ S.y1 ∧ g.tileSizeY ∣ S.y2) ∧
  (∀ tx ty, UnrenderedIn g R tx ty → CellIn g S tx ty) ∧
  ∀ S' : RectI, (∀ tx ty, UnrenderedIn g R tx ty → CellIn g S' tx ty) → S'.contains S = true

/-- The outcome of the band peeling of `getMinimalRectsToRenderFromTilesState`
on the rounded bounding box `M`: the bands are `A = [M.x1,M.x2) × [M.y1,a)`,
`B = [M.x1,M.x2) × [b,M.y2)`, `C = [M.x1,c) × [a,b)`, `D = [d,M.x2) × [a,b)`, the
rest is `[c,d) × [a,b)` with bounding box `X'`; every peeled row or column holds
only `NotRendered` tiles and the peeling stopped at a rendered tile. -/
def BandFacts (g : TileStateHeader) (roi : RectI) (out : List RectI) (M : RectI)
    (a b c d : Int) (X' : RectI) : Prop :=
  (M.y1 ≤ a ∧ a ≤ b ∧ b ≤ M.y2 ∧ M.x1 ≤ c ∧ c ≤ d ∧ d ≤ M.x2) ∧
  Inside g ⟨c, a, d, b⟩ ∧
  getMinimalBboxToRenderFromTilesState ⟨c, a, d, b⟩ g = some X' ∧
  getMinimalRectsToRenderFromTilesState roi g out =
    some (pushClipped X' roi (pushClipped ⟨d, a, M.x2, b⟩ roi
      (pushClipped ⟨M.x1, a, c, b⟩ roi (pushClipped ⟨M.x1, b, M.x2, M.y2⟩ roi
        (pushClipped ⟨M.x1, M.y1, M.x2, a⟩ roi out))))) ∧
  (∀ y, g.tileSizeY ∣ y → M.y1 ≤ y → y < a → ¬ RowHit g isNotNotRendered M.x1 M.x2 y) ∧
  (a < M.y2 → RowHit g isNotNotRendered M.x1 M.x2 a) ∧
  (∀ y, g.tileSizeY ∣ y → b ≤ y → y < M.y2 → ¬ RowHit g isNotNotRendered M.x1 M.x2 y) ∧
  (a < b → RowHit g isNotNotRendered M.x1 M.x2 (b - g.tileSizeY)) ∧
  (∀ x, g.tileSizeX ∣ x → M.x1 ≤ x → x < c → ¬ ColHit g isNotNotRendered a b x) ∧
  (a < b → c < M.x2 → ColHit g isNotNotRendered a b c) ∧
  (∀ x, g.tileSizeX ∣ x → d ≤ x → x < M.x2 → ¬ ColHit g isNotNotRendered a b x) ∧
  (a < b → c < d → ColHit g isNotNotRendered a b (d - g.tileSizeX)) ∧
  (¬ a < b → c = M.x1 ∧ d = M.x2)

/-- Sum of the areas of the rectangles of a list. -/
def totalArea (rs : List RectI) : Nat := (rs.map RectI.area).sum

/-! ## Further definitions of the tile grid -/

/-- Scenario A: the grid `init` builds over `(0,0,100,100)` with 64x64 tiles,
every tile `NotRendered`. -/
def scenarioA : TileStateHeader :=
  { tileSizeX := 64, tileSizeY := 64, bounds := ⟨0, 0, 100, 100⟩,
    boundsRoundedToTileSize := ⟨0, 0, 128, 128⟩,
    tiles := [⟨⟨0, 0, 64, 64⟩, eTileStatusNotRendered⟩, ⟨⟨64, 0, 100, 64⟩, eTileStatusNotRendered⟩,
              ⟨⟨0, 64, 64, 100⟩, eTileStatusNotRendered⟩,
              ⟨⟨64, 64, 100, 100⟩, eTileStatusNotRendered⟩] }

/-- The index `getTileAt(tx, ty)` computes:
`((ty - y1) / tileSizeY) * (width() / tileSizeX) + (tx - x1) / tileSizeX`. -/
def TileStateHeader.tileIndex (h : TileStateHeader) (tx ty : Int) : Int :=
  ((ty - h.boundsRoundedToTileSize.y1).tdiv h.tileSizeY) *
    (h.boundsRoundedToTileSize.width.tdiv h.tileSizeX) +
  (tx - h.boundsRoundedToTileSize.x1).tdiv h.tileSizeX

/-- The function `ImageTilesState::getABCDRectangles(srcBounds, biggerBounds, aRect,
bRect, cRect, dRect)`; the result is `(aRect, bRect, cRect, dRect)`, every field
of which the function assigns. -/
def getABCDRectangles (srcBounds biggerBounds : RectI) : RectI × RectI × RectI × RectI :=
  let aRect : RectI :=
    { x1 := biggerBounds.x1, y1 := srcBounds.y2, y2 := biggerBounds.y2, x2 := biggerBounds.x2 }
  let bRect : RectI :=
    { x1 := srcBounds.x2, y1 := srcBounds.y1, x2 := biggerBounds.x2, y2 := srcBounds.y2 }
  let cRect : RectI :=
    { x1 := biggerBounds.x1, y1 := biggerBounds.y1, x2 := biggerBounds.x2, y2 := srcBounds.y1 }
  let dRect : RectI :=
    { x1 := biggerBounds.x1, y1 := srcBounds.y1, x2 := srcBounds.x1, y2 := srcBounds.y2 }
  (aRect, bRect, cRect, dRect)

/-! ## The lookups of the region solver

For each loop of the solver, the list of the coordinates at which it calls
`getTileAt`, in the order of the calls. Each function follows the control flow
of the loop it belongs to and stops where that loop stops. -/

/-- Coordinates at which `scanRow` calls `getTileAt`. -/
def scanRowLookups (h : TileStateHeader) (hit : TileStatus → Bool) (y x2 : Int) :
    Nat → Int → List (Int × Int)
  | 0, _ => []
  | fuel + 1, x =>
    if x < x2 then
      (x, y) ::
        (match h.getTileAt x y with
         | none => []
         | some tile =>
           if hit tile.status then [] else scanRowLookups h hit y x2 fuel (x + h.tileSizeX))
    else []

/-- Coordinates at which `scanCol` calls `getTileAt`. -/
def scanColLookups (h : TileStateHeader) (hit : TileStatus → Bool) (x y2 : Int) :
    Nat → Int → List (Int × Int)
  | 0, _ => []
  | fuel + 1, y =>
    if y < y2 then
      (x, y) ::
        (match h.getTileAt x y with
         | none => []
         | some tile =>
           if hit tile.status then [] else scanColLookups h hit x y2 fuel (y + h.tileSizeY))
    else []

/-- Coordinates at which `rowHas` calls `getTileAt`. -/
def rowLookups (h : TileStateHeader) (hit : TileStatus → Bool) (r : RectI) (y : Int) :
    List (Int × Int) :=
  scanRowLookups h hit y r.x2 ((r.x2 - r.x1).toNat + 1) r.x1

/-- Coordinates at which `colHas` calls `getTileAt`. -/
def colLookups (h : TileStateHeader) (hit : TileStatus → Bool) (r : RectI) (x : Int) :
    List (Int × Int) :=
  scanColLookups h hit x r.y2 ((r.y2 - r.y1).toNat + 1) r.y1

/-- Coordinates at which `shrinkBottom` calls `getTileAt`. -/
def shrinkBottomLookups (h : TileStateHeader) (hit : TileStatus → Bool) :
    Nat → Int → RectI → List (Int × Int)
  | 0, _, _ => []
  | fuel + 1, y, r =>
    if y < r.y2 then
      rowLookups h hit r y ++
        (match rowHas h hit r y with
         | none => []
         | some hasTileOnLine =>
           if !hasTileOnLine then
             shrinkBottomLookups h hit fuel (y + h.tileSizeY) { r with y1 := r.y1 + h.tileSizeY }
           else [])
    else []

/-- Coordinates at which `shrinkTop` calls `getTileAt`. -/
def shrinkTopLookups (h : TileStateHeader) (hit : TileStatus → Bool) :
    Nat → Int → RectI → List (Int × Int)
  | 0, _, _ => []
  | fuel + 1, y, r =>
    if y ≥ r.y1 then
      rowLookups h hit r y ++
        (match rowHas h hit r y with
         | none => []
         | some hasTileOnLine =>
           if !hasTileOnLine then
             shrinkTopLookups h hit fuel (y - h.tileSizeY) { r with y2 := r.y2 - h.tileSizeY }
           else [])
    else []

/-- Coordinates at which `shrinkLeft` calls `getTileAt`. -/
def shrinkLeftLookups (h : TileStateHeader) (hit : TileStatus → Bool) :
    Nat → Int → RectI → List (Int × Int)
  | 0, _, _ => []
  | fuel + 1, x, r =>
    if x < r.x2 then
      colLookups h hit r x ++
        (match colHas h hit r x with
         | none => []
         | some hasTileOnCol =>
           if !hasTileOnCol then
             shrinkLeftLookups h hit fuel (x + h.tileSizeX) { r with x1 := r.x1 + h.tileSizeX }
           else [])
    else []

/-- Coordinates at which `shrinkRight` calls `getTileAt`. -/
def shrinkRightLookups (h : TileStateHeader) (hit : TileStatus → Bool) :
    Nat → Int → RectI → List (Int × Int)
  | 0, _, _ => []
  | fuel + 1, x, r =>
    if x ≥ r.x1 then
      colLookups h hit r x ++
        (match colHas h hit r x with
         | none => []
         | some hasTileOnCol =>
           if !hasTileOnCol then
             shrinkRightLookups h hit fuel (x - h.tileSizeX) { r with x2 := r.x2 - h.tileSizeX }
           else [])
    else []

/-- Coordinates at which `getMinimalBboxToRenderFromTilesState` calls
`getTileAt`. -/
def bboxLookups (roi : RectI) (stateMap : TileStateHeader) : List (Int × Int) :=
  if stateMap.tiles.isEmpty then []
  else if !stateMap.boundsRoundedToTileSize.contains roi then []
  else
    let r0 := roi.roundToTileSize stateMap.tileSizeX stateMap.tileSizeY
    shrinkBottomLookups stateMap isNotRendered (rowFuel r0) r0.y1 r0 ++
    match shrinkBottom stateMap isNotRendered (rowFuel r0) r0.y1 r0 with
    | none => []
    | some r1 =>
      shrinkTopLookups stateMap isNotRendered (rowFuel r1) (r1.y2 - stateMap.tileSizeY) r1 ++
      match shrinkTop stateMap isNotRendered (rowFuel r1) (r1.y2 - stateMap.tileSizeY) r1 with
      | none => []
      | some r2 =>
        if r2.isNull then []
        else
          shrinkLeftLookups stateMap isNotRendered (colFuel r2) r2.x1 r2 ++
          match shrinkLeft stateMap isNotRendered (colFuel r2) r2.x1 r2 with
          | none => []
          | some r3 =>
            if r3.isNull then []
            else
              shrinkRightLookups stateMap isNotRendered (colFuel r3)
                (r3.x2 - stateMap.tileSizeX) r3

/-- Coordinates at which `peelBottom` calls `getTileAt`. -/
def peelBottomLookups (h : TileStateHeader) : Nat → Int → RectI × RectI → List (Int × Int)
  | 0, _, _ => []
  | fuel + 1, y, (bboxX, bboxA) =>
    if y < bboxX.y2 then
      rowLookups h isNotNotRendered bboxX y ++
        (match rowHas h isNotNotRendered bboxX y with
         | none => []
         | some hasRenderedTileOnLine =>
           if hasRenderedTileOnLine then []
           else
             let bboxX := { bboxX with y1 := bboxX.y1 + h.tileSizeY }
             peelBottomLookups h fuel (y + h.tileSizeY) (bboxX, { bboxA with y2 := bboxX.y1 }))
    else []

/-- Coordinates at which `peelTop` calls `getTileAt`. -/
def peelTopLookups (h : TileStateHeader) : Nat → Int → RectI × RectI → List (Int × Int)
  | 0, _, _ => []
  | fuel + 1, y, (bboxX, bboxB) =>
    if y ≥ bboxX.y1 then
      rowLookups h isNotNotRendered bboxX y ++
        (match rowHas h isNotNotRendered bboxX y with
         | none => []
         | some hasRenderedTileOnLine =>
           if hasRenderedTileOnLine then []
           else
             let bboxX := { bboxX with y2 := bboxX.y2 - h.tileSizeY }
             peelTopLookups h fuel (y - h.tileSizeY) (bboxX, { bboxB with y1 := bboxX.y2 }))
    else []

/-- Coordinates at which `peelLeft` calls `getTileAt`. -/
def peelLeftLookups (h : TileStateHeader) : Nat → Int → RectI × RectI → List (Int × Int)
  | 0, _, _ => []
  | fuel + 1, x, (bboxX, bboxC) =>
    if x < bboxX.x2 then
      colLookups h isNotNotRendered bboxX x ++
        (match colHas h isNotNotRendered bboxX x with
         | none => []
         | some hasRenderedTileOnCol =>
           if hasRenderedTileOnCol then []
           else
             let bboxX := { bboxX with x1 := bboxX.x1 + h.tileSizeX }
             peelLeftLookups h fuel (x + h.tileSizeX) (bboxX, { bboxC with x2 := bboxX.x1 }))
    else []

/-- Coordinates at which `peelRight` calls `getTileAt`. -/
def peelRightLookups (h : TileStateHeader) : Nat → Int → RectI × RectI → List (Int × Int)
  | 0, _, _ => []
  | fuel + 1, x, (bboxX, bboxD) =>
    if x ≥ bboxX.x1 then
      colLookups h isNotNotRendered bboxX x ++
        (match colHas h isNotNotRendered bboxX x with
         | none => []
         | some hasRenderedTileOnCol =>
           if hasRenderedTileOnCol then []
           else
             let bboxX := { bboxX with x2 := bboxX.x2 - h.tileSizeX }
             peelRightLookups h fuel (x - h.tileSizeX) (bboxX, { bboxD with x1 := bboxX.x2 }))
    else []

/-- Coordinates at which `getMinimalRectsToRenderFromTilesState` calls
`getTileAt`, the calls made by its two calls of
`getMinimalBboxToRenderFromTilesState` included. -/
def rectsLookups (roi : RectI) (stateMap : TileStateHeader) : List (Int × Int) :=
  if stateMap.tiles.isEmpty then []
  else
    bboxLookups roi stateMap ++
    match getMinimalBboxToRenderFromTilesState roi stateMap with
    | none => []
    | some bboxM =>
      if bboxM.isNull then []
      else
        let bboxM := bboxM.roundToTileSize stateMap.tileSizeX stateMap.tileSizeY
        let bboxX := bboxM
        let bboxA : RectI := { bboxX with y2 := bboxX.y1 }
        peelBottomLookups stateMap (rowFuel bboxX) bboxX.y1 (bboxX, bboxA) ++
        match peelBottom stateMap (rowFuel bboxX) bboxX.y1 (bboxX, bboxA) with
        | none => []
        | some (bboxX, _) =>
          let bboxB : RectI := { bboxX with y1 := bboxX.y2 }
          peelTopLookups stateMap (rowFuel bboxX) (bboxX.y2 - stateMap.tileSizeY) (bboxX, bboxB) ++
          match peelTop stateMap (rowFuel bboxX) (bboxX.y2 - stateMap.tileSizeY) (bboxX, bboxB) with
          | none => []
          | some (bboxX, _) =>
            let bboxC : RectI := { bboxX with x2 := bboxX.x1 }
            (if bboxX.y1 < bboxX.y2 then
               peelLeftLookups stateMap (colFuel bboxX) bboxX.x1 (bboxX, bboxC)
             else []) ++
            match (if bboxX.y1 < bboxX.y2 then
                     peelLeft stateMap (colFuel bboxX) bboxX.x1 (bboxX, bboxC)
                   else some (bboxX, bboxC)) with
            | none => []
            | some (bboxX, _) =>
              let bboxD : RectI := { bboxX with x1 := bboxX.x2 }
              (if bboxX.y1 < bboxX.y2 then
                 peelRightLookups stateMap (colFuel bboxX) (bboxX.x2 - stateMap.tileSizeX)
                   (bboxX, bboxD)
               else []) ++
              match (if bboxX.y1 < bboxX.y2 then
                       peelRight stateMap (colFuel bboxX) (bboxX.x2 - stateMap.tileSizeX)
                         (bboxX, bboxD)
                     else some (bboxX, bboxD)) with
              | none => []
              | some (bboxX, _) => bboxLookups bboxX stateMap

/-! ## Cache key and cache entry of knob expressions (`Engine/KnobPrivate.h`)

Conventions of this part.

* `U64` is a natural number and `int` an integer; the values are stored and
  copied, never computed with.
* A `double` is its 64-bit pattern; it is stored and copied, never computed with.
* An iterator into the handle list is a position in the list, `*it` is the
  element at that position and `++it` adds one.
* A call of `fromMemorySegment` yields the object after the call, the positions
  it dereferenced, in order, and the way control left the function.
-/

/-- The type `double`, as a 64-bit pattern. -/
structure Double where
  bits : Nat
deriving DecidableEq

/-- The struct `KnobExpressionKey::ShmData`. -/
structure ShmData where
  nodeTimeViewVariantHash : Nat
  dimension : Int
deriving DecidableEq

/-- Modelled from the spec: an object held by a memory segment; one constructor
for each type that `KnobPrivate.h` writes with `writeAnonymousSharedObject`. -/
inductive SharedObject where
  | shmData (object : ShmData)
  | string (object : String)
  | int (object : Int)
  | double (object : Double)
deriving DecidableEq

/-- Modelled from the spec: the memory segment `ExternalSegmentType`, the
sequence of the objects constructed in it. -/
abbrev ExternalSegmentType := List SharedObject

/-- Modelled from the spec: the handle list `ExternalSegmentTypeHandleList`; a
handle is the position of its object in the segment. -/
abbrev ExternalSegmentTypeHandleList := List Nat

/-- Modelled from the spec: `writeAnonymousSharedObject(object, segment)`
constructs a copy of `object` in the segment and returns its handle. The
result is the handle and the segment after the call; a segment that is full
(where the original throws) is not modelled. -/
def writeAnonymousSharedObject (object : SharedObject) (segment : ExternalSegmentType) :
    Nat × ExternalSegmentType :=
  (segment.length, segment ++ [object])

/-- Modelled from the spec: `readAnonymousSharedObject(handle, segment, &object)`
copies the object the handle refers to; `none` when the handle refers to no
object of the segment. The callers check that the object has the type they
read. -/
def readAnonymousSharedObject (handle : Nat) (segment : ExternalSegmentType) :
    Option SharedObject :=
  segment[handle]?

/-- Modelled from the spec: the enumeration `FromMemorySegmentRetCodeEnum`, of
which the source names `eFromMemorySegmentRetCodeFailed`. -/
inductive FromMemorySegmentRetCodeEnum where
  | eFromMemorySegmentRetCodeOk
  | eFromMemorySegmentRetCodeFailed
deriving DecidableEq

/-- The way control leaves a call of `fromMemorySegment`. -/
inductive Outcome where
  /-- A `return` statement was executed with this value. -/
  | returned (code : FromMemorySegmentRetCodeEnum)
  /-- Control reached the closing brace of the function body without a `return`
  statement: the call yields no value. -/
  | noReturnStatement
  /-- The statement `throw std::bad_alloc()` was executed. -/
  | threwBadAlloc
  /-- An iterator outside the handle list was dereferenced, or a handle was read
  that refers to no object of the requested type. -/
  | undefinedRead
deriving DecidableEq

/-- The result of a call of `fromMemorySegment` on an object of type `σ`. -/
structure Call (σ : Type) where
  /-- The object after the call. -/
  self : σ
  /-- The positions of the handle list that were dereferenced, in order. -/
  reads : List Nat
  /-- How control left the function. -/
  outcome : Outcome
deriving DecidableEq

/-- Modelled from the spec: one call made on a `Hash64`. -/
inductive HashAppend where
  /-- The call `hash->append(value)` with a `U64`. -/
  | appendU64 (value : Nat)
  /-- The call `hash->append(value)` with an `int`. -/
  | appendInt (value : Int)
  /-- The call `Hash64::appendQString(QString::fromUtf8(str), hash)`. -/
  | appendQString (str : String)
deriving DecidableEq

/-- Modelled from the spec: a `Hash64`, the sequence of the calls made on it. -/
abbrev Hash64 := List HashAppend

/-- The data members of the class `KnobExpressionKey`. -/
structure KnobExpressionKey where
  _data : ShmData
  _knobScriptName : String
deriving DecidableEq

namespace KnobExpressionKey

/-- The constructor `KnobExpressionKey(nodeTimeViewVariantHash, dimension, knobScriptName)`. -/
def create (nodeTimeViewVariantHash : Nat) (dimension : Int) (knobScriptName : String) :
    KnobExpressionKey :=
  { _data := ⟨nodeTimeViewVariantHash, dimension⟩, _knobScriptName := knobScriptName }

/-- The method `KnobExpressionKey::toMemorySegment(segment, objectPointers)`; the result is
the segment and the handle list after the call. -/
def toMemorySegment (self : KnobExpressionKey) (segment : ExternalSegmentType)
    (objectPointers : ExternalSegmentTypeHandleList) :
    ExternalSegmentType × ExternalSegmentTypeHandleList :=
  let (handle, segment) := writeAnonymousSharedObject (.shmData self._data) segment
  let objectPointers := objectPointers ++ [handle]
  let (handle, segment) := writeAnonymousSharedObject (.string self._knobScriptName) segment
  let objectPointers := objectPointers ++ [handle]
  (segment, objectPointers)

/-- The method `KnobExpressionKey::fromMemorySegment(segment, start, end)`, the iterators
being positions in `objectPointers`. After the second read the body ends
without a `return` statement. -/
def fromMemorySegment (self : KnobExpressionKey) (segment : ExternalSegmentType)
    (objectPointers : ExternalSegmentTypeHandleList) (start end_ : Nat) :
    Call KnobExpressionKey :=
  if start = end_ then
    ⟨self, [], .returned .eFromMemorySegmentRetCodeFailed⟩
  else
    match (objectPointers[start]?).bind (fun handle => readAnonymousSharedObject handle segment) with
    | some (.shmData data) =>
      let self := { self with _data := data }
      let reads := [start]
      let start := start + 1
      if start = end_ then
        ⟨self, reads, .returned .eFromMemorySegmentRetCodeFailed⟩
      else
        match (objectPointers[start]?).bind
            (fun handle => readAnonymousSharedObject handle segment) with
        | some (.string knobScriptName) =>
          ⟨{ self with _knobScriptName := knobScriptName }, reads ++ [start], .noReturnStatement⟩
        | _ => ⟨self, reads ++ [start], .undefinedRead⟩
    | _ => ⟨self, [start], .undefinedRead⟩

/-- The method `KnobExpressionKey::appendToHash(hash)`; the result is the hash after the
call. -/
def appendToHash (self : KnobExpressionKey) (hash : Hash64) : Hash64 :=
  let hash := hash ++ [.appendU64 self._data.nodeTimeViewVariantHash]
  let hash := hash ++ [.appendInt self._data.dimension]
  hash ++ [.appendQString self._knobScriptName]

end KnobExpressionKey

/-- The enumeration `KnobExpressionResult::KnobExpressionResultTypeEnum`. -/
inductive KnobExpressionResultTypeEnum where
  | eKnobExpressionResultTypePod
  | eKnobExpressionResultTypeString
deriving DecidableEq

/-- The value of an enumerator, as the cast `(int)type` gives it. -/
def KnobExpressionResultTypeEnum.toInt : KnobExpressionResultTypeEnum → Int
  | .eKnobExpressionResultTypePod => 0
  | .eKnobExpressionResultTypeString => 1

/-- The data members of the class `KnobExpressionResult`; the members of the base
class `CacheEntryBase` are not modelled. -/
structure KnobExpressionResult where
  _stringResult : String
  _valueResult : Double
deriving DecidableEq

namespace KnobExpressionResult

/-- The method `KnobExpressionResult::getResult(value, valueAsString)`. A pointer is `none`
when null and otherwise holds what it points to; the result is the two
pointers after the call. -/
def getResult (self : KnobExpressionResult) (value : Option Double)
    (valueAsString : Option String) : Option Double × Option String :=
  let value := if value.isSome then some self._valueResult else value
  let valueAsString := if valueAsString.isSome then some self._stringResult else valueAsString
  (value, valueAsString)

/-- The method `KnobExpressionResult::setResult(value, valueAsString)`. -/
def setResult (self : KnobExpressionResult) (value : Double) (valueAsString : String) :
    KnobExpressionResult :=
  let self := { self with _stringResult := valueAsString }
  { self with _valueResult := value }

/-- The method `KnobExpressionResult::toMemorySegment(segment, objectPointers)`; the result is
the segment and the handle list after the call. The call
`CacheEntryBase::toMemorySegment`, of a class that is not among the sources,
is the parameter `baseToMemorySegment`. -/
def toMemorySegment
    (baseToMemorySegment : ExternalSegmentType → ExternalSegmentTypeHandleList →
      ExternalSegmentType × ExternalSegmentTypeHandleList)
    (self : KnobExpressionResult) (segment : ExternalSegmentType)
    (objectPointers : ExternalSegmentTypeHandleList) :
    ExternalSegmentType × ExternalSegmentTypeHandleList :=
  let (segment, objectPointers) :=
    if !self._stringResult.isEmpty then
      let type := KnobExpressionResultTypeEnum.eKnobExpressionResultTypeString
      let (handle, segment) := writeAnonymousSharedObject (.int type.toInt) segment
      let objectPointers := objectPointers ++ [handle]
      let (handle, segment) := writeAnonymousSharedObject (.string self._stringResult) segment
      (segment, objectPointers ++ [handle])
    else
      let type := KnobExpressionResultTypeEnum.eKnobExpressionResultTypePod
      let (handle, segment) := writeAnonymousSharedObject (.int type.toInt) segment
      let objectPointers := objectPointers ++ [handle]
      let (handle, segment) := writeAnonymousSharedObject (.double self._valueResult) segment
      (segment, objectPointers ++ [handle])
  baseToMemorySegment segment objectPointers

/-- The method `KnobExpressionResult::fromMemorySegment(isLockedForWriting, segment, start,
end)`, the iterators being positions in `objectPointers`. The call
`CacheEntryBase::fromMemorySegment`, of a class that is not among the sources,
is the parameter `baseFromMemorySegment`; it gives the way control leaves, and
the reads it makes are not recorded. -/
def fromMemorySegment
    (baseFromMemorySegment : Bool → ExternalSegmentType → ExternalSegmentTypeHandleList →
      Nat → Nat → Outcome)
    (self : KnobExpressionResult) (isLockedForWriting : Bool) (segment : ExternalSegmentType)
    (objectPointers : ExternalSegmentTypeHandleList) (start end_ : Nat) :
    Call KnobExpressionResult :=
  if start = end_ then
    ⟨self, [], .threwBadAlloc⟩
  else
    match (objectPointers[start]?).bind (fun handle => readAnonymousSharedObject handle segment) with
    | some (.int type_i) =>
      let reads := [start]
      let start := start + 1
      if start = end_ then
        ⟨self, reads, .threwBadAlloc⟩
      else if type_i = KnobExpressionResultTypeEnum.eKnobExpressionResultTypePod.toInt then
        match (objectPointers[start]?).bind
            (fun handle => readAnonymousSharedObject handle segment) with
        | some (.double valueResult) =>
          ⟨{ self with _valueResult := valueResult }, reads ++ [start],
            baseFromMemorySegment isLockedForWriting segment objectPointers (start + 1) end_⟩
        | _ => ⟨self, reads ++ [start], .undefinedRead⟩
      else if type_i = KnobExpressionResultTypeEnum.eKnobExpressionResultTypeString.toInt then
        match (objectPointers[start]?).bind
            (fun handle => readAnonymousSharedObject handle segment) with
        | some (.string stringResult) =>
          ⟨{ self with _stringResult := stringResult }, reads ++ [start],
            baseFromMemorySegment isLockedForWriting segment objectPointers (start + 1) end_⟩
        | _ => ⟨self, reads ++ [start], .undefinedRead⟩
      else
        ⟨self, reads,
          baseFromMemorySegment isLockedForWriting segment objectPointers (start + 1) end_⟩
    | _ => ⟨self, [start], .undefinedRead⟩

end KnobExpressionResult

/-- The round trip of a key: `self.toMemorySegment` on `segment` with an empty
handle list, then `receiver.fromMemorySegment` on the segment so written, from
the begin to the end of the handle list so produced. -/
def KnobExpressionKey.roundTrip (self receiver : KnobExpressionKey)
    (segment : ExternalSegmentType) : Call KnobExpressionKey :=
  receiver.fromMemorySegment (self.toMemorySegment segment []).1
    (self.toMemorySegment segment []).2 0 (self.toMemorySegment segment []).2.length

/-- The round trip of an entry: `self.toMemorySegment` on `segment` with an empty
handle list, then `receiver.fromMemorySegment` on the segment so written, from
the begin to the end of the handle list so produced. -/
def KnobExpressionResult.roundTrip
    (baseToMemorySegment : ExternalSegmentType → ExternalSegmentTypeHandleList →
      ExternalSegmentType × ExternalSegmentTypeHandleList)
    (baseFromMemorySegment : Bool → ExternalSegmentType → ExternalSegmentTypeHandleList →
      Nat → Nat → Outcome)
    (self receiver : KnobExpressionResult) (isLockedForWriting : Bool)
    (segment : ExternalSegmentType) : Call KnobExpressionResult :=
  receiver.fromMemorySegment baseFromMemorySegment isLockedForWriting
    (self.toMemorySegment baseToMemorySegment segment []).1
    (self.toMemorySegment baseToMemorySegment segment []).2 0
    (self.toMemorySegment baseToMemorySegment segment []).2.length

/-- The call `CacheEntryBase::toMemorySegment` keeps what the segment and the handle
list hold and adds to their ends. -/
def AppendsOnly
    (baseToMemorySegment : ExternalSegmentType → ExternalSegmentTypeHandleList →
      ExternalSegmentType × ExternalSegmentTypeHandleList) : Prop :=
  ∀ segment objectPointers, ∃ objects handles,
    baseToMemorySegment segment objectPointers = (segment ++ objects, objectPointers ++ handles)

/-- A base class that writes nothing and whose `fromMemorySegment` returns
`eFromMemorySegmentRetCodeOk`; used to evaluate the entry on concrete inputs. -/
def emptyBaseToMemorySegment (segment : ExternalSegmentType)
    (objectPointers : ExternalSegmentTypeHandleList) :
    ExternalSegmentType × ExternalSegmentTypeHandleList :=
  (segment, objectPointers)

/-- The `fromMemorySegment` of the base class that writes nothing. -/
def emptyBaseFromMemorySegment (_isLockedForWriting : Bool) (_segment : ExternalSegmentType)
    (_objectPointers : ExternalSegmentTypeHandleList) (_start _end : Nat) : Outcome :=
  .returned .eFromMemorySegmentRetCodeOk

/-! ## Further definitions of the region solver -/

/-- The four band loops of `getMinimalRectsToRenderFromTilesState`, from
`RectI bboxX = bboxM` to the sixteen assertions, without the pushes to
`rectsToRender`: the result is `(bboxX, bboxA, bboxB, bboxC, bboxD)` as the
assertions find them. -/
def peelBands (stateMap : TileStateHeader) (bboxM : RectI) :
    Option (RectI × RectI × RectI × RectI × RectI) :=
  let bboxX := bboxM
  let bboxA : RectI := { bboxX with y2 := bboxX.y1 }
  match peelBottom stateMap (rowFuel bboxX) bboxX.y1 (bboxX, bboxA) with
  | none => none
  | some (bboxX, bboxA) =>
    let bboxB : RectI := { bboxX with y1 := bboxX.y2 }
    match peelTop stateMap (rowFuel bboxX) (bboxX.y2 - stateMap.tileSizeY) (bboxX, bboxB) with
    | none => none
    | some (bboxX, bboxB) =>
      let bboxC : RectI := { bboxX with x2 := bboxX.x1 }
      match (if bboxX.y1 < bboxX.y2 then peelLeft stateMap (colFuel bboxX) bboxX.x1 (bboxX, bboxC)
             else some (bboxX, bboxC)) with
      | none => none
      | some (bboxX, bboxC) =>
        let bboxD : RectI := { bboxX with x1 := bboxX.x2 }
        match (if bboxX.y1 < bboxX.y2 then
                 peelRight stateMap (colFuel bboxX) (bboxX.x2 - stateMap.tileSizeX) (bboxX, bboxD)
               else some (bboxX, bboxD)) with
        | none => none
        | some (bboxX, bboxD) => some (bboxX, bboxA, bboxB, bboxC, bboxD)

/-- Every tile of the tile row `y` with origin in `[x1, x2)` exists and has a
status that passes `test`. -/
def RowAll (g : TileStateHeader) (test : TileStatus → Bool) (x1 x2 y : Int) : Prop :=
  ∀ x, g.tileSizeX ∣ x → x1 ≤ x → x < x2 → ∃ t, g.getTileAt x y = some t ∧ test t.status = true

/-- The grid `g'` has the tile sizes and the bounds of `g` and, tile by tile,
the bounds of `g` and the status `NotRendered` exactly where `g` has it: it
differs from `g` in that tiles `Pending` in the one may be `Rendered` in the
other. -/
def SameNotRendered (g g' : TileStateHeader) : Prop :=
  g'.tileSizeX = g.tileSizeX ∧ g'.tileSizeY = g.tileSizeY ∧ g'.bounds = g.bounds ∧
  g'.boundsRoundedToTileSize = g.boundsRoundedToTileSize ∧
  g'.tiles.map (fun t => (t.bounds, isNotRendered t.status)) =
    g.tiles.map (fun t => (t.bounds, isNotRendered t.status))

instance (g g' : TileStateHeader) : Decidable (SameNotRendered g g') := by
  unfold SameNotRendered; infer_instance

/-- Scenario B with the three `Rendered` tiles `Pending`, `Rendered`, `Pending`. -/
def scenarioBPending : TileStateHeader :=
  { tileSizeX := 64, tileSizeY := 64, bounds := ⟨0, 0, 100, 100⟩,
    boundsRoundedToTileSize := ⟨0, 0, 128, 128⟩,
    tiles := [⟨⟨0, 0, 64, 64⟩, eTileStatusPending⟩, ⟨⟨64, 0, 100, 64⟩, eTileStatusRendered⟩,
              ⟨⟨0, 64, 64, 100⟩, eTileStatusPending⟩,
              ⟨⟨64, 64, 100, 100⟩, eTileStatusNotRendered⟩] }

/-- The grid `g'` has the tile sizes, the bounds and the number of tiles of `g`,
and every tile that is `NotRendered` in `g'` is `NotRendered` in `g`. -/
def FewerNotRendered (g g' : TileStateHeader) : Prop :=
  g'.tileSizeX = g.tileSizeX ∧ g'.tileSizeY = g.tileSizeY ∧ g'.bounds = g.bounds ∧
  g'.boundsRoundedToTileSize = g.boundsRoundedToTileSize ∧
  g'.tiles.length = g.tiles.length ∧
  ∀ (i : Nat) (t t' : TileState), g.tiles[i]? = some t → g'.tiles[i]? = some t' →
    t'.status = eTileStatusNotRendered → t.status = eTileStatusNotRendered

/-- The grid after the write `tile.status = eTileStatusRendered` on every tile
whose bounds intersect at least one rectangle of `rects`. -/
def markRendered (g : TileStateHeader) (rects : List RectI) : TileStateHeader :=
  { g with
    tiles := g.tiles.map (fun t =>
      if rects.any (fun r => (t.bounds.intersect r RectI.null).1) then
        { t with status := eTileStatusRendered }
      else t) }

/-! ## The solvers as state transformers

For the statements about two calls in a row the solvers are written a second
time, from the same source, with the memory they can reach passed from
statement to statement: the grid behind the reference `stateMap` and the list
behind the pointer `rectsToRender`. Every function returns its value together
with the memory after it, `none` when an assertion fails or the fuel runs out. -/

/-- The memory a call of a solver can reach: the grid behind `stateMap` and the
list behind `rectsToRender`. -/
structure SolverMemory where
  /-- The grid, header and tiles. -/
  stateMap : TileStateHeader
  /-- The list of rectangles. -/
  rectsToRender : List RectI
  deriving DecidableEq

/-- The statements `const TileState* tile = stateMap.getTileAt(x, y);` and the
read of `tile->status` that follows in every scan. -/
def readStatusRun (x y : Int) (m : SolverMemory) : Option (TileStatus × SolverMemory) :=
  match m.stateMap.getTileAt x y with
  | none => none
  | some tile => some (tile.status, m)

/-- Inner loop over one tile row, `for (x = x1; x < x2; x += tileSizeX)`. -/
def scanRowRun (hit : TileStatus → Bool) (y x2 : Int) :
    Nat → Int → SolverMemory → Option (Bool × SolverMemory)
  | 0, _, _ => none
  | fuel + 1, x, m =>
    if x < x2 then
      match readStatusRun x y m with
      | none => none
      | some (status, m) =>
        if hit status then some (true, m)
        else scanRowRun hit y x2 fuel (x + m.stateMap.tileSizeX) m
    else some (false, m)

/-- Inner loop over one tile column, `for (y = y1; y < y2; y += tileSizeY)`. -/
def scanColRun (hit : TileStatus → Bool) (x y2 : Int) :
    Nat → Int → SolverMemory → Option (Bool × SolverMemory)
  | 0, _, _ => none
  | fuel + 1, y, m =>
    if y < y2 then
      match readStatusRun x y m with
      | none => none
      | some (status, m) =>
        if hit status then some (true, m)
        else scanColRun hit x y2 fuel (y + m.stateMap.tileSizeY) m
    else some (false, m)

/-- The row scan as the outer loops call it, over `[r.x1, r.x2)`. -/
def rowHasRun (hit : TileStatus → Bool) (r : RectI) (y : Int) (m : SolverMemory) :
    Option (Bool × SolverMemory) :=
  scanRowRun hit y r.x2 ((r.x2 - r.x1).toNat + 1) r.x1 m

/-- The column scan as the outer loops call it, over `[r.y1, r.y2)`. -/
def colHasRun (hit : TileStatus → Bool) (r : RectI) (x : Int) (m : SolverMemory) :
    Option (Bool × SolverMemory) :=
  scanColRun hit x r.y2 ((r.y2 - r.y1).toNat + 1) r.y1 m

/-- Search for rendered lines from bottom to top. -/
def shrinkBottomRun (hit : TileStatus → Bool) :
    Nat → Int → RectI → SolverMemory → Option (RectI × SolverMemory)
  | 0, _, _, _ => none
  | fuel + 1, y, r, m =>
    if y < r.y2 then
      match rowHasRun hit r y m with
      | none => none
      | some (hasTileOnLine, m) =>
        if !hasTileOnLine then
          shrinkBottomRun hit fuel (y + m.stateMap.tileSizeY)
            { r with y1 := r.y1 + m.stateMap.tileSizeY } m
        else some (r, m)
    else some (r, m)

/-- Search for rendered lines from top to bottom. -/
def shrinkTopRun (hit : TileStatus → Bool) :
    Nat → Int → RectI → SolverMemory → Option (RectI × SolverMemory)
  | 0, _, _, _ => none
  | fuel + 1, y, r, m =>
    if y ≥ r.y1 then
      match rowHasRun hit r y m with
      | none => none
      | some (hasTileOnLine, m) =>
        if !hasTileOnLine then
          shrinkTopRun hit fuel (y - m.stateMap.tileSizeY)
            { r with y2 := r.y2 - m.stateMap.tileSizeY } m
        else some (r, m)
    else some (r, m)

/-- Search for rendered columns from left to right. -/
def shrinkLeftRun (hit : TileStatus → Bool) :
    Nat → Int → RectI → SolverMemory → Option (RectI × SolverMemory)
  | 0, _, _, _ => none
  | fuel + 1, x, r, m =>
    if x < r.x2 then
      match colHasRun hit r x m with
      | none => none
      | some (hasTileOnCol, m) =>
        if !hasTileOnCol then
          shrinkLeftRun hit fuel (x + m.stateMap.tileSizeX)
            { r with x1 := r.x1 + m.stateMap.tileSizeX } m
        else some (r, m)
    else some (r, m)

/-- Search for rendered columns from right to left. -/
def shrinkRightRun (hit : TileStatus → Bool) :
    Nat → Int → RectI → SolverMemory → Option (RectI × SolverMemory)
  | 0, _, _, _ => none
  | fuel + 1, x, r, m =>
    if x ≥ r.x1 then
      match colHasRun hit r x m with
      | none => none
      | some (hasTileOnCol, m) =>
        if !hasTileOnCol then
          shrinkRightRun hit fuel (x - m.stateMap.tileSizeX)
            { r with x2 := r.x2 - m.stateMap.tileSizeX } m
        else some (r, m)
    else some (r, m)

/-- The function `ImageTilesState::getMinimalBboxToRenderFromTilesState(roi, stateMap)`
as a state transformer: the returned rectangle and the memory after the call. -/
def getMinimalBboxToRenderFromTilesStateRun (roi : RectI) (m : SolverMemory) :
    Option (RectI × SolverMemory) :=
  if m.stateMap.tiles.isEmpty then some (RectI.null, m)
  else if !m.stateMap.boundsRoundedToTileSize.contains roi then none
  else
    let r0 := roi.roundToTileSize m.stateMap.tileSizeX m.stateMap.tileSizeY
    match shrinkBottomRun isNotRendered (rowFuel r0) r0.y1 r0 m with
    | none => none
    | some (r1, m) =>
      match shrinkTopRun isNotRendered (rowFuel r1) (r1.y2 - m.stateMap.tileSizeY) r1 m with
      | none => none
      | some (r2, m) =>
        if r2.isNull then some (r2, m)
        else
          match shrinkLeftRun isNotRendered (colFuel r2) r2.x1 r2 m with
          | none => none
          | some (r3, m) =>
            if r3.isNull then some (r3, m)
            else
              match shrinkRightRun isNotRendered (colFuel r3) (r3.x2 - m.stateMap.tileSizeX) r3 m with
              | none => none
              | some (r4, m) => some ((r4.intersect m.stateMap.bounds RectI.null).2, m)

/-- The block
`if ( !bbox.isNull() ) { RectI i; bbox.intersect(roi, &i); rectsToRender->push_back(i); }`,
the one write of the solvers. -/
def pushClippedRun (bbox roi : RectI) (m : SolverMemory) : SolverMemory :=
  if !bbox.isNull then
    { m with rectsToRender := m.rectsToRender ++ [(bbox.intersect roi RectI.null).2] }
  else m

/-- Find bottom, state `(bboxX, bboxA)`. -/
def peelBottomRun :
    Nat → Int → RectI × RectI → SolverMemory → Option ((RectI × RectI) × SolverMemory)
  | 0, _, _, _ => none
  | fuel + 1, y, (bboxX, bboxA), m =>
    if y < bboxX.y2 then
      match rowHasRun isNotNotRendered bboxX y m with
      | none => none
      | some (hasRenderedTileOnLine, m) =>
        if hasRenderedTileOnLine then some ((bboxX, bboxA), m)
        else
          let bboxX := { bboxX with y1 := bboxX.y1 + m.stateMap.tileSizeY }
          peelBottomRun fuel (y + m.stateMap.tileSizeY) (bboxX, { bboxA with y2 := bboxX.y1 }) m
    else some ((bboxX, bboxA), m)

/-- Find top, state `(bboxX, bboxB)`. -/
def peelTopRun :
    Nat → Int → RectI × RectI → SolverMemory → Option ((RectI × RectI) × SolverMemory)
  | 0, _, _, _ => none
  | fuel + 1, y, (bboxX, bboxB), m =>
    if y ≥ bboxX.y1 then
      match rowHasRun isNotNotRendered bboxX y m with
      | none => none
      | some (hasRenderedTileOnLine, m) =>
        if hasRenderedTileOnLine then some ((bboxX, bboxB), m)
        else
          let bboxX := { bboxX with y2 := bboxX.y2 - m.stateMap.tileSizeY }
          peelTopRun fuel (y - m.stateMap.tileSizeY) (bboxX, { bboxB with y1 := bboxX.y2 }) m
    else some ((bboxX, bboxB), m)

/-- Find left, state `(bboxX, bboxC)`. -/
def peelLeftRun :
    Nat → Int → RectI × RectI → SolverMemory → Option ((RectI × RectI) × SolverMemory)
  | 0, _, _, _ => none
  | fuel + 1, x, (bboxX, bboxC), m =>
    if x < bboxX.x2 then
      match colHasRun isNotNotRendered bboxX x m with
      | none => none
      | some (hasRenderedTileOnCol, m) =>
        if hasRenderedTileOnCol then some ((bboxX, bboxC), m)
        else
          let bboxX := { bboxX with x1 := bboxX.x1 + m.stateMap.tileSizeX }
          peelLeftRun fuel (x + m.stateMap.tileSizeX) (bboxX, { bboxC with x2 := bboxX.x1 }) m
    else some ((bboxX, bboxC), m)

/-- Find right, state `(bboxX, bboxD)`. -/
def peelRightRun :
    Nat → Int → RectI × RectI → SolverMemory → Option ((RectI × RectI) × SolverMemory)
  | 0, _, _, _ => none
  | fuel + 1, x, (bboxX, bboxD), m =>
    if x ≥ bboxX.x1 then
      match colHasRun isNotNotRendered bboxX x m with
      | none => none
      | some (hasRenderedTileOnCol, m) =>
        if hasRenderedTileOnCol then some ((bboxX, bboxD), m)
        else
          let bboxX := { bboxX with x2 := bboxX.x2 - m.stateMap.tileSizeX }
          peelRightRun fuel (x - m.stateMap.tileSizeX) (bboxX, { bboxD with x1 := bboxX.x2 }) m
    else some ((bboxX, bboxD), m)

/-- The function
`ImageTilesState::getMinimalRectsToRenderFromTilesState(roi, stateMap, rectsToRender)`
as a state transformer: the memory after the call. -/
def getMinimalRectsToRenderFromTilesStateRun (roi : RectI) (m : SolverMemory) :
    Option SolverMemory :=
  if m.stateMap.tiles.isEmpty then some m
  else
    match getMinimalBboxToRenderFromTilesStateRun roi m with
    | none => none
    | some (bboxM, m) =>
      if bboxM.isNull then some m
      else
        let bboxM := bboxM.roundToTileSize m.stateMap.tileSizeX m.stateMap.tileSizeY
        let bboxX := bboxM
        let bboxA : RectI := { bboxX with y2 := bboxX.y1 }
        match peelBottomRun (rowFuel bboxX) bboxX.y1 (bboxX, bboxA) m with
        | none => none
        | some ((bboxX, bboxA), m) =>
          let m := pushClippedRun bboxA roi m
          let bboxB : RectI := { bboxX with y1 := bboxX.y2 }
          match peelTopRun (rowFuel bboxX) (bboxX.y2 - m.stateMap.tileSizeY) (bboxX, bboxB) m with
          | none => none
          | some ((bboxX, bboxB), m) =>
            let m := pushClippedRun bboxB roi m
            let bboxC : RectI := { bboxX with x2 := bboxX.x1 }
            match (if bboxX.y1 < bboxX.y2 then peelLeftRun (colFuel bboxX) bboxX.x1 (bboxX, bboxC) m
                   else some ((bboxX, bboxC), m)) with
            | none => none
            | some ((bboxX, bboxC), m) =>
              let m := pushClippedRun bboxC roi m
              let bboxD : RectI := { bboxX with x1 := bboxX.x2 }
              match (if bboxX.y1 < bboxX.y2 then
                       peelRightRun (colFuel bboxX) (bboxX.x2 - m.stateMap.tileSizeX)
                         (bboxX, bboxD) m
                     else some ((bboxX, bboxD), m)) with
              | none => none
              | some ((bboxX, bboxD), m) =>
                let m := pushClippedRun bboxD roi m
                if !bandAsserts bboxM bboxX bboxA bboxB bboxC bboxD then none
                else
                  match getMinimalBboxToRenderFromTilesStateRun bboxX m with
                  | none => none
                  | some (bboxX, m) => some (pushClippedRun bboxX roi m)

/-! ## The counter of opened cache files (`Engine/AppManager.cpp`)

The members `currentCacheFilesCount` and `maxCacheFiles` of `AppManagerPrivate`
are of type `size_t`, the return type of `getNCacheFilesOpened`: natural numbers
below `2 ^ 64`, with `++` and `--` wrapping around. The mutex taken by each of
the four methods makes each call one step on the counter. -/

/-- The number of values of a `size_t`. -/
def sizeTRange : Nat := 2 ^ 64

/-- Modelled from the spec: the members of `AppManagerPrivate` that the four
methods read and write. -/
structure AppManagerPrivate where
  currentCacheFilesCount : Nat
  maxCacheFiles : Nat
deriving DecidableEq

/-- The method `AppManager::isNCacheFilesOpenedCapped()`. -/
def isNCacheFilesOpenedCapped (_imp : AppManagerPrivate) : Bool :=
  decide (_imp.currentCacheFilesCount ≥ _imp.maxCacheFiles)

/-- The method `AppManager::getNCacheFilesOpened()`. -/
def getNCacheFilesOpened (_imp : AppManagerPrivate) : Nat :=
  _imp.currentCacheFilesCount

/-- The method `AppManager::increaseNCacheFilesOpened()`; the debug output is left out.
The increment of a `size_t` is taken modulo `2 ^ 64`. -/
def increaseNCacheFilesOpened (_imp : AppManagerPrivate) : AppManagerPrivate :=
  { _imp with currentCacheFilesCount := (_imp.currentCacheFilesCount + 1) % sizeTRange }

/-- The method `AppManager::decreaseNCacheFilesOpened()`; the debug output is left out.
The decrement of a `size_t` that is zero wraps around to `2 ^ 64 - 1`. -/
def decreaseNCacheFilesOpened (_imp : AppManagerPrivate) : AppManagerPrivate :=
  { _imp with
    currentCacheFilesCount :=
      if _imp.currentCacheFilesCount = 0 then sizeTRange - 1 else _imp.currentCacheFilesCount - 1 }

/-- One call that changes the counter. -/
inductive CacheFilesCall where
  | increase
  | decrease
deriving DecidableEq

/-- The effect of one call. -/
def CacheFilesCall.run : CacheFilesCall → AppManagerPrivate → AppManagerPrivate
  | .increase, _imp => increaseNCacheFilesOpened _imp
  | .decrease, _imp => decreaseNCacheFilesOpened _imp

/-- The effect of a sequence of calls, first call first. -/
def runCacheFilesCalls (calls : List CacheFilesCall) (_imp : AppManagerPrivate) :
    AppManagerPrivate :=
  calls.foldl (fun s c => c.run s) _imp

/-- Number of `increaseNCacheFilesOpened` calls of a sequence. -/
def countIncreases (calls : List CacheFilesCall) : Nat := calls.count .increase

/-- Number of `decreaseNCacheFilesOpened` calls of a sequence. -/
def countDecreases (calls : List CacheFilesCall) : Nat := calls.count .decrease

/-- Every prefix of the sequence has at least as many increases as decreases. -/
def NeverBelowZero (calls : List CacheFilesCall) : Prop :=
  ∀ k, k ≤ calls.length → countDecreases (calls.take k) ≤ countIncreases (calls.take k)

instance (calls : List CacheFilesCall) : Decidable (NeverBelowZero calls) := by
  unfold NeverBelowZero; infer_instance

/-! ## The caches behind `getImageOrCreate` and `getTextureOrCreate` (`Engine/AppManager.cpp`)

`AppManager::getImageOrCreate` and `AppManager::getTextureOrCreate` hand their
arguments to `Cache::getOrCreate` of the node cache and of the viewer cache.
The class `Cache` is not among the sources; its `getOrCreate` is modelled from
the spec as one step made under the lock of the cache. The key types are
parameters, a thread is a number, and an entry pointer is the number of the
entry. -/

/-- Modelled from the spec: the state of an entry, in flight in the hands of
the thread that holds its locker, or published. -/
inductive EntryState where
  | pending (producer : Nat)
  | published
deriving DecidableEq

/-- Modelled from the spec: an entry of a cache. -/
structure CacheEntry (κ : Type) where
  key : κ
  id : Nat
  state : EntryState
deriving DecidableEq

/-- Modelled from the spec: a cache, its entries in the order of their creation. -/
structure Cache (κ : Type) where
  entries : List (CacheEntry κ)
deriving DecidableEq

/-- What a call of `getOrCreate` hands to its caller: the returned `bool`, true
when the entry was found, the entry stored in `*returnValue`, and whether the
locker grants the caller the exclusive right to build the entry. -/
structure GetOrCreateResult where
  found : Bool
  returnValue : Nat
  producer : Bool
deriving DecidableEq

/-- Modelled from the spec: `Cache::getOrCreate(key, params, locker, returnValue)`
called by `thread`. An entry with the key, published or in flight, is returned
as it is; when there is none a new entry is allocated, bound to the key, and the
locker makes the caller its producer. -/
def Cache.getOrCreate {κ : Type} [DecidableEq κ] (cache : Cache κ) (key : κ) (thread : Nat) :
    Cache κ × GetOrCreateResult :=
  match cache.entries.find? (fun e => decide (e.key = key)) with
  | some e => (cache, ⟨true, e.id, false⟩)
  | none =>
    ({ entries := cache.entries ++ [⟨key, cache.entries.length, .pending thread⟩] },
      ⟨false, cache.entries.length, true⟩)

/-- The caches of `AppManagerPrivate` that the two methods use. -/
structure AppManagerCaches (ImageKey FrameKey : Type) where
  _nodeCache : Cache ImageKey
  _diskCache : Cache ImageKey
  _viewerCache : Cache FrameKey

/-- The method `AppManager::getImageOrCreate(key, params, locker, returnValue)` called by
`thread`: `return _imp->_nodeCache->getOrCreate(key, params, locker, returnValue)`. -/
def getImageOrCreate {ImageKey FrameKey : Type} [DecidableEq ImageKey]
    (_imp : AppManagerCaches ImageKey FrameKey) (key : ImageKey) (thread : Nat) :
    AppManagerCaches ImageKey FrameKey × GetOrCreateResult :=
  ({ _imp with _nodeCache := (_imp._nodeCache.getOrCreate key thread).1 },
    (_imp._nodeCache.getOrCreate key thread).2)

/-- The method `AppManager::getTextureOrCreate(key, params, locker, returnValue)` called by
`thread`: `return _imp->_viewerCache->getOrCreate(key, params, locker, returnValue)`. -/
def getTextureOrCreate {ImageKey FrameKey : Type} [DecidableEq FrameKey]
    (_imp : AppManagerCaches ImageKey FrameKey) (key : FrameKey) (thread : Nat) :
    AppManagerCaches ImageKey FrameKey × GetOrCreateResult :=
  ({ _imp with _viewerCache := (_imp._viewerCache.getOrCreate key thread).1 },
    (_imp._viewerCache.getOrCreate key thread).2)

/-- The cache holds no entry with the key. -/
def Cache.Absent {κ : Type} [DecidableEq κ] (cache : Cache κ) (key : κ) : Prop :=
  cache.entries.find? (fun e => decide (e.key = key)) = none

instance {κ : Type} [DecidableEq κ] (cache : Cache κ) (key : κ) : Decidable (cache.Absent key) := by
  unfold Cache.Absent; infer_instance

/-- Caches with natural numbers as keys: the node cache holds one published
entry, of key `5`, the other caches are empty. -/
def sampleCaches : AppManagerCaches Nat Nat :=
  { _nodeCache := ⟨[⟨5, 0, .published⟩]⟩, _diskCache := ⟨[]⟩, _viewerCache := ⟨[]⟩ }

/-! ## Script-friendly names (`Engine/AppManager.cpp`)

A `std::string` is a `String` and a `char` a `Char`. The character tests are
those of the classic locale, which a default constructed `std::locale` is as
long as the global locale was not replaced. -/

/-- The test `std::isdigit(c, loc)` in the classic locale. -/
def isdigit (c : Char) : Bool := decide (48 ≤ c.toNat ∧ c.toNat ≤ 57)

/-- The test `std::isspace(c, loc)` in the classic locale: space, `\t`, `\n`,
`\v`, `\f` and `\r`. -/
def isspace (c : Char) : Bool := decide (c.toNat = 32 ∨ (9 ≤ c.toNat ∧ c.toNat ≤ 13))

/-- The test `std::isalnum(c, loc)` in the classic locale. -/
def isalnum (c : Char) : Bool :=
  isdigit c || decide (65 ≤ c.toNat ∧ c.toNat ≤ 90) || decide (97 ≤ c.toNat ∧ c.toNat ≤ 122)

/-- The loop `for (std::size_t i = 0; i < str.size(); ++i)` of
`makeNameScriptFriendlyInternal` over the characters of `str` that are left,
with `cpy` as it stands. -/
def makeNameScriptFriendlyLoop (allowDots : Bool) : List Char → String → String
  | [], cpy => cpy
  | c :: rest, cpy =>
    if cpy.isEmpty && isdigit c then
      makeNameScriptFriendlyLoop allowDots rest ((cpy.push 'p').push c)
    else if isspace c then
      makeNameScriptFriendlyLoop allowDots rest (cpy.push '_')
    else if c = '_' || isalnum c || (allowDots && c = '.') then
      makeNameScriptFriendlyLoop allowDots rest (cpy.push c)
    else
      makeNameScriptFriendlyLoop allowDots rest cpy

/-- The function `makeNameScriptFriendlyInternal(str, allowDots)`. -/
def makeNameScriptFriendlyInternal (str : String) (allowDots : Bool) : String :=
  if str = "from" then "pFrom"
  else if str = "lambda" then "pLambda"
  else makeNameScriptFriendlyLoop allowDots str.data ""

/-- The function `NATRON_PYTHON_NAMESPACE::makeNameScriptFriendlyWithDots(str)`. -/
def makeNameScriptFriendlyWithDots (str : String) : String :=
  makeNameScriptFriendlyInternal str true

/-- The function `NATRON_PYTHON_NAMESPACE::makeNameScriptFriendly(str)`. -/
def makeNameScriptFriendly (str : String) : String :=
  makeNameScriptFriendlyInternal str false

/-! ## Arithmetic of tile multiples -/

theorem step_le {T x x' : Int} (hT : 0 < T) (hx : T ∣ x) (hx' : T ∣ x') (h : x < x') :
    x + T ≤ x' := by
  obtain ⟨a, rfl⟩ := hx
  obtain ⟨b, rfl⟩ := hx'
  have hab : a < b := by
    by_contra hc
    have hba : b ≤ a := by omega
    have := Int.mul_le_mul_of_nonneg_left hba (le_of_lt hT)
    omega
  have h2 : a + 1 ≤ b := by omega
  have := Int.mul_le_mul_of_nonneg_left h2 (le_of_lt hT)
  rw [mul_add, mul_one] at this
  exact this

theorem floor_dvd (T a : Int) : T ∣ a - a % T := Int.dvd_sub_of_emod_eq rfl

theorem floor_le {T : Int} (hT : 0 < T) (a : Int) : a - a % T ≤ a := by
  have := Int.emod_nonneg a (ne_of_gt hT); omega

theorem lt_floor_add {T : Int} (hT : 0 < T) (a : Int) : a < a - a % T + T := by
  have := Int.emod_lt_of_pos a hT; omega

theorem ceil_dvd (T a : Int) : T ∣ a + (T - a % T) % T := by
  have h1 : (a + (T - a % T) % T) % T = 0 := by
    rw [Int.add_emod, Int.emod_emod_of_dvd _ (dvd_refl T), ← Int.add_emod]
    have : a + (T - a % T) = T + (a - a % T) := by ring
    rw [this]
    simp
    exact Int.dvd_sub_of_emod_eq rfl
  exact Int.dvd_of_emod_eq_zero h1

theorem le_ceil {T : Int} (hT : 0 < T) (a : Int) : a ≤ a + (T - a % T) % T := by
  have := Int.emod_nonneg (T - a % T) (ne_of_gt hT); omega

theorem ceil_lt {T : Int} (hT : 0 < T) (a : Int) : a + (T - a % T) % T < a + T := by
  have := Int.emod_lt_of_pos (T - a % T) hT; omega

theorem floor_of_dvd {T a : Int} (h : T ∣ a) : a - a % T = a := by
  rw [Int.emod_eq_zero_of_dvd h]; simp

theorem ceil_of_dvd {T a : Int} (h : T ∣ a) : a + (T - a % T) % T = a := by
  rw [Int.emod_eq_zero_of_dvd h]; simp

/-- The largest multiple of `T` below `a` is at least any multiple below `a`. -/
theorem le_floor {T s a : Int} (hT : 0 < T) (hs : T ∣ s) (h : s ≤ a) : s ≤ a - a % T := by
  by_contra hc
  have h1 : a - a % T < s := by omega
  have h2 := step_le hT (floor_dvd T a) hs h1
  have h3 := lt_floor_add hT a
  omega

/-- The smallest multiple of `T` above `a` is at most any multiple above `a`. -/
theorem ceil_le {T s a : Int} (hT : 0 < T) (hs : T ∣ s) (h : a ≤ s) : a + (T - a % T) % T ≤ s := by
  by_contra hc
  have h1 : s < a + (T - a % T) % T := by omega
  have h2 := step_le hT hs (ceil_dvd T a) h1
  have h3 := ceil_lt hT a
  omega

theorem floor_eq {T s a : Int} (hT : 0 < T) (hs : T ∣ s) (h1 : s ≤ a) (h2 : a < s + T) :
    a - a % T = s := by
  have h3 := le_floor hT hs h1
  have h4 := floor_le hT a
  by_contra hc
  have h5 : s < a - a % T := by omega
  have := step_le hT hs (floor_dvd T a) h5
  omega

theorem ceil_eq {T s a : Int} (hT : 0 < T) (hs : T ∣ s) (h1 : a ≤ s) (h2 : s < a + T) :
    a + (T - a % T) % T = s := by
  have h3 := ceil_le hT hs h1
  have h4 := le_ceil hT a
  by_contra hc
  have h5 : a + (T - a % T) % T < s := by omega
  have := step_le hT (ceil_dvd T a) hs h5
  omega

/-! ## Rounding and the rounded bounds -/

theorem WellFormed.inside_bounds {g : TileStateHeader} (hg : WellFormed g) :
    Inside g g.boundsRoundedToTileSize := by
  obtain ⟨_, _, hr, _⟩ := hg
  refine ⟨?_, le_refl _, le_refl _, le_refl _, le_refl _⟩
  rw [hr]
  exact ⟨floor_dvd _ _, ceil_dvd _ _, floor_dvd _ _, ceil_dvd _ _⟩

theorem contains_iff (r o : RectI) :
    r.contains o = true ↔ r.x1 ≤ o.x1 ∧ r.y1 ≤ o.y1 ∧ o.x2 ≤ r.x2 ∧ o.y2 ≤ r.y2 := by
  simp [RectI.contains, and_assoc]

theorem isNull_iff (r : RectI) : r.isNull = true ↔ r.x2 ≤ r.x1 ∨ r.y2 ≤ r.y1 := by
  simp [RectI.isNull]

theorem isNull_false_iff (r : RectI) : r.isNull = false ↔ r.x1 < r.x2 ∧ r.y1 < r.y2 := by
  simp [RectI.isNull]

/-- Rounding a rectangle contained in the rounded bounds gives a tile-aligned
rectangle inside the rounded bounds. -/
theorem inside_round {g : TileStateHeader} (hg : WellFormed g) {r : RectI}
    (hc : g.boundsRoundedToTileSize.contains r = true) :
    Inside g (r.roundToTileSize g.tileSizeX g.tileSizeY) := by
  obtain ⟨⟨a1, a2, a3, a4⟩, _⟩ := hg.inside_bounds
  obtain ⟨hx, hy, _, _⟩ := hg
  rw [contains_iff] at hc
  obtain ⟨c1, c2, c3, c4⟩ := hc
  refine ⟨⟨floor_dvd _ _, ceil_dvd _ _, floor_dvd _ _, ceil_dvd _ _⟩, ?_, ?_, ?_, ?_⟩
  · exact le_floor hx a1 c1
  · exact ceil_le hx a2 c3
  · exact le_floor hy a3 c2
  · exact ceil_le hy a4 c4

/-- Rounding a tile-aligned rectangle changes nothing. -/
theorem round_of_aligned {g : TileStateHeader} {r : RectI} (h : Inside g r) :
    r.roundToTileSize g.tileSizeX g.tileSizeY = r := by
  obtain ⟨⟨a1, a2, a3, a4⟩, _⟩ := h
  cases r
  simp only [RectI.roundToTileSize] at *
  rw [floor_of_dvd a1, floor_of_dvd a3, ceil_of_dvd a2, ceil_of_dvd a4]

/-! ## Tile lookup -/

theorem tileIndex_bounds {T U x1 x2 y1 y2 tx ty : Int} (hT : 0 < T) (hU : 0 < U)
    (dx1 : T ∣ x1) (dx2 : T ∣ x2) (dy1 : U ∣ y1) (dy2 : U ∣ y2) (dtx : T ∣ tx) (dty : U ∣ ty)
    (h1 : x1 ≤ tx) (h2 : tx < x2) (h3 : y1 ≤ ty) (h4 : ty < y2) :
    0 ≤ ((ty - y1).tdiv U) * ((x2 - x1).tdiv T) + (tx - x1).tdiv T ∧
    ((ty - y1).tdiv U) * ((x2 - x1).tdiv T) + (tx - x1).tdiv T <
      ((x2 - x1).tdiv T) * ((y2 - y1).tdiv U) := by
  obtain ⟨i, hi⟩ := Int.dvd_sub dtx dx1
  obtain ⟨n, hn⟩ := Int.dvd_sub dx2 dx1
  obtain ⟨j, hj⟩ := Int.dvd_sub dty dy1
  obtain ⟨m, hm⟩ := Int.dvd_sub dy2 dy1
  rw [hi, hn, hj, hm, Int.mul_tdiv_cancel_left _ (ne_of_gt hT), Int.mul_tdiv_cancel_left _ (ne_of_gt hT),
    Int.mul_tdiv_cancel_left _ (ne_of_gt hU), Int.mul_tdiv_cancel_left _ (ne_of_gt hU)]
  have i0 : 0 ≤ i := by
    by_contra hc
    have : T * i < 0 := Int.mul_neg_of_pos_of_neg hT (by omega)
    omega
  have j0 : 0 ≤ j := by
    by_contra hc
    have : U * j < 0 := Int.mul_neg_of_pos_of_neg hU (by omega)
    omega
  have iln : i < n := by
    by_contra hc
    have := Int.mul_le_mul_of_nonneg_left (show n ≤ i by omega) (le_of_lt hT)
    omega
  have jlm : j < m := by
    by_contra hc
    have := Int.mul_le_mul_of_nonneg_left (show m ≤ j by omega) (le_of_lt hU)
    omega
  constructor
  · have := Int.mul_nonneg j0 (show 0 ≤ n by omega)
    omega
  · have h5 : (j + 1) * n ≤ m * n := Int.mul_le_mul_of_nonneg_right (by omega) (by omega)
    have h6 : (j + 1) * n = j * n + n := by ring
    have h7 : n * m = m * n := by ring
    omega

/-- In a well-formed grid with tiles, `getTileAt` succeeds at every tile origin. -/
theorem getTileAt_isSome {g : TileStateHeader} (hg : WellFormed g) (hne : g.tiles ≠ [])
    {tx ty : Int} (ho : IsOrigin g tx ty) : ∃ t, g.getTileAt tx ty = some t := by
  obtain ⟨⟨a1, a2, a3, a4⟩, _⟩ := hg.inside_bounds
  obtain ⟨hx, hy, _, hlen⟩ := hg
  obtain ⟨dx, dy, o1, o2, o3, o4⟩ := ho
  have hlen : (g.tiles.length : Int) = g.tileCount := by
    rcases hlen with h | h
    · exact absurd h hne
    · exact h
  have hb := tileIndex_bounds hx hy a1 a2 a3 a4 dx dy o1 o2 o3 o4
  unfold TileStateHeader.getTileAt
  rw [if_pos ⟨Int.tmod_eq_zero_of_dvd dx, Int.tmod_eq_zero_of_dvd dy⟩]
  simp only [RectI.width]
  rw [TileStateHeader.tileCount, RectI.width, RectI.height] at hlen
  rw [if_pos ⟨hb.1, by rw [hlen]; exact hb.2⟩]
  have hlt : (((ty - g.boundsRoundedToTileSize.y1).tdiv g.tileSizeY) *
      ((g.boundsRoundedToTileSize.x2 - g.boundsRoundedToTileSize.x1).tdiv g.tileSizeX) +
      (tx - g.boundsRoundedToTileSize.x1).tdiv g.tileSizeX).toNat < g.tiles.length := by
    have := hb.2
    omega
  exact ⟨_, List.getElem?_eq_getElem hlt⟩

/-! ## The line scans -/

theorem scanRow_spec {g : TileStateHeader} (hg : WellFormed g) (hne : g.tiles ≠ [])
    (hit : TileStatus → Bool) {y x2 : Int} (hy : g.tileSizeY ∣ y)
    (hy1 : g.boundsRoundedToTileSize.y1 ≤ y) (hy2 : y < g.boundsRoundedToTileSize.y2)
    (hx2 : x2 ≤ g.boundsRoundedToTileSize.x2) :
    ∀ (fuel : Nat) (x : Int), g.tileSizeX ∣ x → g.boundsRoundedToTileSize.x1 ≤ x →
      (x2 - x).toNat < fuel →
      ∃ b, scanRow g hit y x2 fuel x = some b ∧ (b = true ↔ RowHit g hit x x2 y) := by
  intro fuel
  induction fuel with
  | zero => intro x _ _ h; omega
  | succ n ih =>
    intro x dx hx1 hf
    simp only [scanRow]
    by_cases hx : x < x2
    · rw [if_pos hx]
      obtain ⟨t, ht⟩ := getTileAt_isSome hg hne
        (show IsOrigin g x y from ⟨dx, hy, hx1, by omega, hy1, hy2⟩)
      rw [ht]
      by_cases hh : hit t.status = true
      · simp only [hh, if_true]
        exact ⟨true, rfl, by simp only [true_iff]; exact ⟨x, dx, le_refl _, hx, t, ht, hh⟩⟩
      · simp only [hh]
        have hT := hg.1
        obtain ⟨b, hb, hiff⟩ := ih (x + g.tileSizeX) (Int.dvd_add dx (dvd_refl _)) (by omega) (by omega)
        refine ⟨b, hb, hiff.trans ⟨?_, ?_⟩⟩
        · rintro ⟨x', d', l1, l2, hh'⟩
          exact ⟨x', d', by omega, l2, hh'⟩
        · rintro ⟨x', d', l1, l2, t', ht', hh'⟩
          by_cases hxx : x' = x
          · subst hxx
            rw [ht] at ht'
            cases ht'
            exact absurd hh' hh
          · have := step_le hT dx d' (by omega)
            exact ⟨x', d', this, l2, t', ht', hh'⟩
    · rw [if_neg hx]
      refine ⟨false, rfl, ?_⟩
      simp only [Bool.false_eq_true, false_iff]
      rintro ⟨x', _, l1, l2, _⟩
      omega

theorem scanCol_spec {g : TileStateHeader} (hg : WellFormed g) (hne : g.tiles ≠ [])
    (hit : TileStatus → Bool) {x y2 : Int} (hx : g.tileSizeX ∣ x)
    (hx1 : g.boundsRoundedToTileSize.x1 ≤ x) (hx2 : x < g.boundsRoundedToTileSize.x2)
    (hy2 : y2 ≤ g.boundsRoundedToTileSize.y2) :
    ∀ (fuel : Nat) (y : Int), g.tileSizeY ∣ y → g.boundsRoundedToTileSize.y1 ≤ y →
      (y2 - y).toNat < fuel →
      ∃ b, scanCol g hit x y2 fuel y = some b ∧ (b = true ↔ ColHit g hit y y2 x) := by
  intro fuel
  induction fuel with
  | zero => intro y _ _ h; omega
  | succ n ih =>
    intro y dy hy1 hf
    simp only [scanCol]
    by_cases hy : y < y2
    · rw [if_pos hy]
      obtain ⟨t, ht⟩ := getTileAt_isSome hg hne
        (show IsOrigin g x y from ⟨hx, dy, hx1, hx2, hy1, by omega⟩)
      rw [ht]
      by_cases hh : hit t.status = true
      · simp only [hh, if_true]
        exact ⟨true, rfl, by simp only [true_iff]; exact ⟨y, dy, le_refl _, hy, t, ht, hh⟩⟩
      · simp only [hh]
        have hU := hg.2.1
        obtain ⟨b, hb, hiff⟩ := ih (y + g.tileSizeY) (Int.dvd_add dy (dvd_refl _)) (by omega) (by omega)
        refine ⟨b, hb, hiff.trans ⟨?_, ?_⟩⟩
        · rintro ⟨y', d', l1, l2, hh'⟩
          exact ⟨y', d', by omega, l2, hh'⟩
        · rintro ⟨y', d', l1, l2, t', ht', hh'⟩
          by_cases hyy : y' = y
          · subst hyy
            rw [ht] at ht'
            cases ht'
            exact absurd hh' hh
          · have := step_le hU dy d' (by omega)
            exact ⟨y', d', this, l2, t', ht', hh'⟩
    · rw [if_neg hy]
      refine ⟨false, rfl, ?_⟩
      simp only [Bool.false_eq_true, false_iff]
      rintro ⟨y', _, l1, l2, _⟩
      omega

/-- The row scan over a rectangle inside the grid returns, and tells whether
the row holds a tile passing `hit`. -/
theorem rowHas_spec {g : TileStateHeader} (hg : WellFormed g) (hne : g.tiles ≠ [])
    (hit : TileStatus → Bool) {r : RectI} (hr : Inside g r) {y : Int} (hy : g.tileSizeY ∣ y)
    (hy1 : g.boundsRoundedToTileSize.y1 ≤ y) (hy2 : y < g.boundsRoundedToTileSize.y2) :
    ∃ b, rowHas g hit r y = some b ∧ (b = true ↔ RowHit g hit r.x1 r.x2 y) :=
  scanRow_spec hg hne hit hy hy1 hy2 hr.2.2.1 _ _ hr.1.1 hr.2.1 (by omega)

/-- The column scan over a rectangle inside the grid returns, and tells whether
the column holds a tile passing `hit`. -/
theorem colHas_spec {g : TileStateHeader} (hg : WellFormed g) (hne : g.tiles ≠ [])
    (hit : TileStatus → Bool) {r : RectI} (hr : Inside g r) {x : Int} (hx : g.tileSizeX ∣ x)
    (hx1 : g.boundsRoundedToTileSize.x1 ≤ x) (hx2 : x < g.boundsRoundedToTileSize.x2) :
    ∃ b, colHas g hit r x = some b ∧ (b = true ↔ ColHit g hit r.y1 r.y2 x) :=
  scanCol_spec hg hne hit hx hx1 hx2 hr.2.2.2.2 _ _ hr.1.2.2.1 hr.2.2.2.1 (by omega)

/-! ## The four shrinking loops -/

theorem shrinkBottom_spec {g : TileStateHeader} (hg : WellFormed g) (hne : g.tiles ≠ [])
    (hit : TileStatus → Bool) :
    ∀ (fuel : Nat) (y : Int) (r : RectI), Inside g r → y = r.y1 → (r.y2 - r.y1).toNat < fuel →
      ∃ r', shrinkBottom g hit fuel y r = some r' ∧ r'.x1 = r.x1 ∧ r'.x2 = r.x2 ∧ r'.y2 = r.y2 ∧
        r.y1 ≤ r'.y1 ∧ r'.y1 ≤ max r.y1 r.y2 ∧ g.tileSizeY ∣ r'.y1 ∧
        (∀ y', g.tileSizeY ∣ y' → r.y1 ≤ y' → y' < r'.y1 → ¬ RowHit g hit r.x1 r.x2 y') ∧
        (r'.y1 < r.y2 → RowHit g hit r.x1 r.x2 r'.y1) := by
  intro fuel
  induction fuel with
  | zero => intro y r _ _ h; omega
  | succ n ih =>
    intro y r hr hy hf
    subst hy
    have hU := hg.2.1
    obtain ⟨⟨a1, a2, a3, a4⟩, w1, w2, w3, w4⟩ := hr
    simp only [shrinkBottom]
    by_cases h : r.y1 < r.y2
    · rw [if_pos h]
      obtain ⟨b, hb, hiff⟩ := rowHas_spec hg hne hit ⟨⟨a1, a2, a3, a4⟩, w1, w2, w3, w4⟩ a3 w3
        (by omega)
      rw [hb]
      have hstep := step_le hU a3 a4 h
      cases b with
      | false =>
        simp only [Bool.not_false, if_true]
        obtain ⟨r', e, p1, p2, p3, p4, p5, p6, p7, p8⟩ :=
          ih (r.y1 + g.tileSizeY) ⟨r.x1, r.y1 + g.tileSizeY, r.x2, r.y2⟩
            ⟨⟨a1, a2, Int.dvd_add a3 (dvd_refl _), a4⟩, w1, w2, by dsimp only; omega, w4⟩ rfl
            (by dsimp only; omega)
        dsimp only at p1 p2 p3 p4 p5 p7 p8
        refine ⟨r', e, p1, p2, p3, by omega, by omega, p6, ?_, p8⟩
        intro y' d' l1 l2
        by_cases hyy : y' = r.y1
        · subst hyy
          intro hc
          have := hiff.2 hc
          cases this
        · exact p7 y' d' (step_le hU a3 d' (by omega)) l2
      | true =>
        simp only [Bool.not_true, Bool.false_eq_true, if_false]
        exact ⟨r, rfl, rfl, rfl, rfl, le_refl _, by omega, a3, fun y' _ l1 l2 => by omega,
          fun _ => hiff.1 rfl⟩
    · rw [if_neg h]
      exact ⟨r, rfl, rfl, rfl, rfl, le_refl _, by omega, a3, fun y' _ l1 l2 => by omega,
        fun hc => absurd hc h⟩

theorem shrinkTop_spec {g : TileStateHeader} (hg : WellFormed g) (hne : g.tiles ≠ [])
    (hit : TileStatus → Bool) :
    ∀ (fuel : Nat) (y : Int) (r : RectI), Inside g r → y = r.y2 - g.tileSizeY →
      (r.y2 - r.y1).toNat < fuel →
      ∃ r', shrinkTop g hit fuel y r = some r' ∧ r'.x1 = r.x1 ∧ r'.x2 = r.x2 ∧ r'.y1 = r.y1 ∧
        r'.y2 ≤ r.y2 ∧ min r.y1 r.y2 ≤ r'.y2 ∧ g.tileSizeY ∣ r'.y2 ∧
        (∀ y', g.tileSizeY ∣ y' → r'.y2 ≤ y' → y' < r.y2 → ¬ RowHit g hit r.x1 r.x2 y') ∧
        (r.y1 < r'.y2 → RowHit g hit r.x1 r.x2 (r'.y2 - g.tileSizeY)) := by
  intro fuel
  induction fuel with
  | zero => intro y r _ _ h; omega
  | succ n ih =>
    intro y r hr hy hf
    subst hy
    have hU := hg.2.1
    obtain ⟨⟨a1, a2, a3, a4⟩, w1, w2, w3, w4⟩ := hr
    simp only [shrinkTop]
    by_cases h : r.y2 - g.tileSizeY ≥ r.y1
    · rw [if_pos h]
      obtain ⟨b, hb, hiff⟩ := rowHas_spec hg hne hit ⟨⟨a1, a2, a3, a4⟩, w1, w2, w3, w4⟩
        (Int.dvd_sub a4 (dvd_refl _)) (by omega) (by omega)
      rw [hb]
      cases b with
      | false =>
        simp only [Bool.not_false, if_true]
        obtain ⟨r', e, p1, p2, p3, p4, p5, p6, p7, p8⟩ :=
          ih (r.y2 - g.tileSizeY - g.tileSizeY) ⟨r.x1, r.y1, r.x2, r.y2 - g.tileSizeY⟩
            ⟨⟨a1, a2, a3, Int.dvd_sub a4 (dvd_refl _)⟩, w1, w2, w3, by dsimp only; omega⟩ rfl
            (by dsimp only; omega)
        dsimp only at p1 p2 p3 p4 p5 p7 p8
        refine ⟨r', e, p1, p2, p3, by omega, by omega, p6, ?_, p8⟩
        intro y' d' l1 l2
        by_cases hyy : y' = r.y2 - g.tileSizeY
        · subst hyy
          intro hc
          have := hiff.2 hc
          cases this
        · have := step_le hU d' a4 l2
          exact p7 y' d' l1 (by omega)
      | true =>
        simp only [Bool.not_true, Bool.false_eq_true, if_false]
        exact ⟨r, rfl, rfl, rfl, rfl, le_refl _, by omega, a4, fun y' _ l1 l2 => by omega,
          fun _ => hiff.1 rfl⟩
    · rw [if_neg h]
      refine ⟨r, rfl, rfl, rfl, rfl, le_refl _, by omega, a4, fun y' _ l1 l2 => by omega, fun hc => ?_⟩
      have := step_le hU a3 a4 hc
      omega

theorem shrinkLeft_spec {g : TileStateHeader} (hg : WellFormed g) (hne : g.tiles ≠ [])
    (hit : TileStatus → Bool) :
    ∀ (fuel : Nat) (x : Int) (r : RectI), Inside g r → x = r.x1 → (r.x2 - r.x1).toNat < fuel →
      ∃ r', shrinkLeft g hit fuel x r = some r' ∧ r'.y1 = r.y1 ∧ r'.y2 = r.y2 ∧ r'.x2 = r.x2 ∧
        r.x1 ≤ r'.x1 ∧ r'.x1 ≤ max r.x1 r.x2 ∧ g.tileSizeX ∣ r'.x1 ∧
        (∀ x', g.tileSizeX ∣ x' → r.x1 ≤ x' → x' < r'.x1 → ¬ ColHit g hit r.y1 r.y2 x') ∧
        (r'.x1 < r.x2 → ColHit g hit r.y1 r.y2 r'.x1) := by
  intro fuel
  induction fuel with
  | zero => intro x r _ _ h; omega
  | succ n ih =>
    intro x r hr hx hf
    subst hx
    have hT := hg.1
    obtain ⟨⟨a1, a2, a3, a4⟩, w1, w2, w3, w4⟩ := hr
    simp only [shrinkLeft]
    by_cases h : r.x1 < r.x2
    · rw [if_pos h]
      obtain ⟨b, hb, hiff⟩ := colHas_spec hg hne hit ⟨⟨a1, a2, a3, a4⟩, w1, w2, w3, w4⟩ a1 w1
        (by omega)
      rw [hb]
      have hstep := step_le hT a1 a2 h
      cases b with
      | false =>
        simp only [Bool.not_false, if_true]
        obtain ⟨r', e, p1, p2, p3, p4, p5, p6, p7, p8⟩ :=
          ih (r.x1 + g.tileSizeX) ⟨r.x1 + g.tileSizeX, r.y1, r.x2, r.y2⟩
            ⟨⟨Int.dvd_add a1 (dvd_refl _), a2, a3, a4⟩, by dsimp only; omega, w2, w3, w4⟩ rfl
            (by dsimp only; omega)
        dsimp only at p1 p2 p3 p4 p5 p7 p8
        refine ⟨r', e, p1, p2, p3, by omega, by omega, p6, ?_, p8⟩
        intro x' d' l1 l2
        by_cases hxx : x' = r.x1
        · subst hxx
          intro hc
          have := hiff.2 hc
          cases this
        · exact p7 x' d' (step_le hT a1 d' (by omega)) l2
      | true =>
        simp only [Bool.not_true, Bool.false_eq_true, if_false]
        exact ⟨r, rfl, rfl, rfl, rfl, le_refl _, by omega, a1, fun x' _ l1 l2 => by omega,
          fun _ => hiff.1 rfl⟩
    · rw [if_neg h]
      exact ⟨r, rfl, rfl, rfl, rfl, le_refl _, by omega, a1, fun x' _ l1 l2 => by omega,
        fun hc => absurd hc h⟩

theorem shrinkRight_spec {g : TileStateHeader} (hg : WellFormed g) (hne : g.tiles ≠ [])
    (hit : TileStatus → Bool) :
    ∀ (fuel : Nat) (x : Int) (r : RectI), Inside g r → x = r.x2 - g.tileSizeX →
      (r.x2 - r.x1).toNat < fuel →
      ∃ r', shrinkRight g hit fuel x r = some r' ∧ r'.y1 = r.y1 ∧ r'.y2 = r.y2 ∧ r'.x1 = r.x1 ∧
        r'.x2 ≤ r.x2 ∧ min r.x1 r.x2 ≤ r'.x2 ∧ g.tileSizeX ∣ r'.x2 ∧
        (∀ x', g.tileSizeX ∣ x' → r'.x2 ≤ x' → x' < r.x2 → ¬ ColHit g hit r.y1 r.y2 x') ∧
        (r.x1 < r'.x2 → ColHit g hit r.y1 r.y2 (r'.x2 - g.tileSizeX)) := by
  intro fuel
  induction fuel with
  | zero => intro x r _ _ h; omega
  | succ n ih =>
    intro x r hr hx hf
    subst hx
    have hT := hg.1
    obtain ⟨⟨a1, a2, a3, a4⟩, w1, w2, w3, w4⟩ := hr
    simp only [shrinkRight]
    by_cases h : r.x2 - g.tileSizeX ≥ r.x1
    · rw [if_pos h]
      obtain ⟨b, hb, hiff⟩ := colHas_spec hg hne hit ⟨⟨a1, a2, a3, a4⟩, w1, w2, w3, w4⟩
        (Int.dvd_sub a2 (dvd_refl _)) (by omega) (by omega)
      rw [hb]
      cases b with
      | false =>
        simp only [Bool.not_false, if_true]
        obtain ⟨r', e, p1, p2, p3, p4, p5, p6, p7, p8⟩ :=
          ih (r.x2 - g.tileSizeX - g.tileSizeX) ⟨r.x1, r.y1, r.x2 - g.tileSizeX, r.y2⟩
            ⟨⟨a1, Int.dvd_sub a2 (dvd_refl _), a3, a4⟩, w1, by dsimp only; omega, w3, w4⟩ rfl
            (by dsimp only; omega)
        dsimp only at p1 p2 p3 p4 p5 p7 p8
        refine ⟨r', e, p1, p2, p3, by omega, by omega, p6, ?_, p8⟩
        intro x' d' l1 l2
        by_cases hxx : x' = r.x2 - g.tileSizeX
        · subst hxx
          intro hc
          have := hiff.2 hc
          cases this
        · have := step_le hT d' a2 l2
          exact p7 x' d' l1 (by omega)
      | true =>
        simp only [Bool.not_true, Bool.false_eq_true, if_false]
        exact ⟨r, rfl, rfl, rfl, rfl, le_refl _, by omega, a2, fun x' _ l1 l2 => by omega,
          fun _ => hiff.1 rfl⟩
    · rw [if_neg h]
      refine ⟨r, rfl, rfl, rfl, rfl, le_refl _, by omega, a2, fun x' _ l1 l2 => by omega, fun hc => ?_⟩
      have := step_le hT a1 a2 hc
      omega

/-! ## The bounding box -/

theorem tiles_isEmpty_false {g : TileStateHeader} (hne : g.tiles ≠ []) : g.tiles.isEmpty = false := by
  cases h : g.tiles with
  | nil => exact absurd h hne
  | cons a l => rfl

/-- What `getMinimalBboxToRenderFromTilesState` computes on a grid with tiles:
a tile-aligned rectangle `S` inside `roi` rounded to the tile size which is
either null, when the rounded `roi` holds no `NotRendered` tile, and is then
returned as it is, or is the tightest rectangle around the `NotRendered` tiles
of the rounded `roi` and is returned intersected with the image bounds. -/
theorem bbox_spec {g : TileStateHeader} (hg : WellFormed g) (hne : g.tiles ≠ []) {roi : RectI}
    (hc : g.boundsRoundedToTileSize.contains roi = true) :
    ∃ S, Inside g S ∧
      ((roi.roundToTileSize g.tileSizeX g.tileSizeY).x1 ≤ S.x1 ∧
       S.x2 ≤ (roi.roundToTileSize g.tileSizeX g.tileSizeY).x2 ∧
       (roi.roundToTileSize g.tileSizeX g.tileSizeY).y1 ≤ S.y1 ∧
       S.y2 ≤ (roi.roundToTileSize g.tileSizeX g.tileSizeY).y2) ∧
      ((S.isNull = true ∧ getMinimalBboxToRenderFromTilesState roi g = some S ∧
          ∀ tx ty, ¬ UnrenderedIn g (roi.roundToTileSize g.tileSizeX g.tileSizeY) tx ty) ∨
       (S.isNull = false ∧
          getMinimalBboxToRenderFromTilesState roi g = some (S.intersect g.bounds RectI.null).2 ∧
          (∀ tx ty, UnrenderedIn g (roi.roundToTileSize g.tileSizeX g.tileSizeY) tx ty →
            S.x1 ≤ tx ∧ tx + g.tileSizeX ≤ S.x2 ∧ S.y1 ≤ ty ∧ ty + g.tileSizeY ≤ S.y2) ∧
          (∃ tx, UnrenderedIn g (roi.roundToTileSize g.tileSizeX g.tileSizeY) tx S.y1) ∧
          (∃ tx, UnrenderedIn g (roi.roundToTileSize g.tileSizeX g.tileSizeY) tx
            (S.y2 - g.tileSizeY)) ∧
          (∃ ty, UnrenderedIn g (roi.roundToTileSize g.tileSizeX g.tileSizeY) S.x1 ty) ∧
          (∃ ty, UnrenderedIn g (roi.roundToTileSize g.tileSizeX g.tileSizeY)
            (S.x2 - g.tileSizeX) ty))) := by
  have hT := hg.1
  have hU := hg.2.1
  have hR := inside_round hg hc
  obtain ⟨R, hRdef⟩ : ∃ R, R = roi.roundToTileSize g.tileSizeX g.tileSizeY := ⟨_, rfl⟩
  rw [← hRdef] at hR ⊢
  obtain ⟨⟨a1, a2, a3, a4⟩, w1, w2, w3, w4⟩ := hR
  -- bottom
  obtain ⟨r1, e1, b1, b2, b3, b4, b5, b6, b7, b8⟩ :=
    shrinkBottom_spec hg hne isNotRendered (rowFuel R) R.y1 R ⟨⟨a1, a2, a3, a4⟩, w1, w2, w3, w4⟩ rfl
      (by unfold rowFuel; omega)
  have hr1 : Inside g r1 := ⟨⟨b1 ▸ a1, b2 ▸ a2, b6, b3 ▸ a4⟩, by omega, by omega, by omega, by omega⟩
  -- top
  obtain ⟨r2, e2, c1, c2, c3, c4, c5, c6, c7, c8⟩ :=
    shrinkTop_spec hg hne isNotRendered (rowFuel r1) (r1.y2 - g.tileSizeY) r1 hr1 rfl
      (by unfold rowFuel; omega)
  have hr2 : Inside g r2 :=
    ⟨⟨c1 ▸ hr1.1.1, c2 ▸ hr1.1.2.1, c3 ▸ hr1.1.2.2.1, c6⟩, by omega, by omega, by omega, by omega⟩
  rw [b1, b2] at c7 c8
  -- rows of every unrendered tile
  have rows : ∀ tx ty, UnrenderedIn g R tx ty → r1.y1 ≤ ty ∧ ty + g.tileSizeY ≤ r2.y2 := by
    rintro tx ty ⟨d1, d2, l1, l2, l3, l4, ht⟩
    have hrow : RowHit g isNotRendered R.x1 R.x2 ty := ⟨tx, d1, l1, l2, ht⟩
    have k1 : r1.y1 ≤ ty := by
      by_contra hcon
      exact b7 ty d2 l3 (by omega) hrow
    have k2 : ty < r2.y2 := by
      by_contra hcon
      exact c7 ty d2 (by omega) (by omega) hrow
    exact ⟨k1, step_le hU d2 c6 k2⟩
  have hdef : getMinimalBboxToRenderFromTilesState roi g =
      (if r2.isNull then some r2
        else
          match shrinkLeft g isNotRendered (colFuel r2) r2.x1 r2 with
          | none => none
          | some r3 =>
            if r3.isNull then some r3
            else
              match shrinkRight g isNotRendered (colFuel r3) (r3.x2 - g.tileSizeX) r3 with
              | none => none
              | some r4 => some (r4.intersect g.bounds RectI.null).2) := by
    simp only [getMinimalBboxToRenderFromTilesState, tiles_isEmpty_false hne, hc, ← hRdef, e1, e2]
    simp
  by_cases hn2 : r2.isNull = true
  · refine ⟨r2, hr2, ⟨by omega, by omega, by omega, by omega⟩, Or.inl ⟨hn2, ?_, ?_⟩⟩
    · rw [hdef, if_pos hn2]
    · intro tx ty hu
      have := rows tx ty hu
      obtain ⟨d1, d2, l1, l2, l3, l4, ht⟩ := hu
      rw [isNull_iff] at hn2
      omega
  · have hn2' : r2.isNull = false := by simpa using hn2
    have hnn := (isNull_false_iff r2).1 hn2'
    have hbot : RowHit g isNotRendered R.x1 R.x2 r1.y1 := b8 (by omega)
    have htop : RowHit g isNotRendered R.x1 R.x2 (r2.y2 - g.tileSizeY) := c8 (by omega)
    have hstep2 := step_le hU hr2.1.2.2.1 hr2.1.2.2.2 hnn.2
    -- left
    obtain ⟨r3, e3, f1, f2, f3, f4, f5, f6, f7, f8⟩ :=
      shrinkLeft_spec hg hne isNotRendered (colFuel r2) r2.x1 r2 hr2 rfl (by unfold colFuel; omega)
    have hr3 : Inside g r3 :=
      ⟨⟨f6, f3 ▸ hr2.1.2.1, f1 ▸ hr2.1.2.2.1, f2 ▸ hr2.1.2.2.2⟩, by omega, by omega, by omega, by omega⟩
    have cols1 : ∀ tx ty, UnrenderedIn g R tx ty → r3.x1 ≤ tx := by
      intro tx ty hu
      have := rows tx ty hu
      obtain ⟨d1, d2, l1, l2, l3, l4, ht⟩ := hu
      by_contra hcon
      exact f7 tx d1 (by omega) (by omega) ⟨ty, d2, by omega, by omega, ht⟩
    obtain ⟨x0, dx0, lx0, lx0', hx0⟩ := hbot
    have hu0 : UnrenderedIn g R x0 r1.y1 := ⟨dx0, b6, lx0, lx0', by omega, by omega, hx0⟩
    have hx3 := cols1 _ _ hu0
    have hn3 : r3.isNull = false := by
      rw [isNull_false_iff]; omega
    have hleft : ColHit g isNotRendered r2.y1 r2.y2 r3.x1 := f8 (by omega)
    -- right
    obtain ⟨r4, e4, g1, g2, g3, g4, g5, g6, g7, g8⟩ :=
      shrinkRight_spec hg hne isNotRendered (colFuel r3) (r3.x2 - g.tileSizeX) r3 hr3 rfl
        (by unfold colFuel; omega)
    rw [f1, f2] at g7 g8
    have hr4 : Inside g r4 :=
      ⟨⟨g3 ▸ hr3.1.1, g6, g1 ▸ hr3.1.2.2.1, g2 ▸ hr3.1.2.2.2⟩, by omega, by omega, by omega, by omega⟩
    have cols2 : ∀ tx ty, UnrenderedIn g R tx ty → tx + g.tileSizeX ≤ r4.x2 := by
      intro tx ty hu
      have := rows tx ty hu
      obtain ⟨d1, d2, l1, l2, l3, l4, ht⟩ := hu
      have k : tx < r4.x2 := by
        by_contra hcon
        exact g7 tx d1 (by omega) (by omega) ⟨ty, d2, by omega, by omega, ht⟩
      exact step_le hT d1 g6 k
    have hx4 : r3.x1 < r4.x2 := by
      by_contra hcon
      exact g7 r3.x1 f6 (by omega) (by omega) hleft
    have hright : ColHit g isNotRendered r2.y1 r2.y2 (r4.x2 - g.tileSizeX) := g8 hx4
    have hstep4 := step_le hT hr4.1.1 hr4.1.2.1 (by omega)
    have hn4 : r4.isNull = false := by
      rw [isNull_false_iff]; omega
    refine ⟨r4, hr4, ⟨by omega, by omega, by omega, by omega⟩, Or.inr ⟨hn4, ?_, ?_, ?_, ?_, ?_, ?_⟩⟩
    · rw [hdef, if_neg hn2, e3]
      simp only [hn3, Bool.false_eq_true, if_false, e4]
    · intro tx ty hu
      have := rows tx ty hu
      have := cols1 tx ty hu
      have := cols2 tx ty hu
      omega
    · have : r4.y1 = r1.y1 := by omega
      rw [this]
      exact ⟨x0, hu0⟩
    · obtain ⟨x, dx, l1, l2, hx⟩ := htop
      have : r4.y2 = r2.y2 := by omega
      rw [this]
      exact ⟨x, dx, Int.dvd_sub c6 (dvd_refl _), l1, l2, by omega, by omega, hx⟩
    · obtain ⟨y, dy, l1, l2, hy⟩ := hleft
      have : r4.x1 = r3.x1 := by omega
      rw [this]
      exact ⟨y, f6, dy, by omega, by omega, by omega, by omega, hy⟩
    · obtain ⟨y, dy, l1, l2, hy⟩ := hright
      exact ⟨y, Int.dvd_sub g6 (dvd_refl _), dy, by omega, by omega, by omega, by omega, hy⟩


theorem modify_map_status (tiles : List TileState) (b : RectI) (i : Nat) :
    (tiles.modify (fun t => { t with bounds := b }) i).map (fun t => t.status) =
      tiles.map (fun t => t.status) := by
  apply List.ext_getElem?
  intro k
  simp only [List.getElem?_map, List.getElem?_modify]
  cases tiles[k]? with
  | none => rfl
  | some t => by_cases h : i = k <;> simp [h]

theorem initRow_spec (h : TileStateHeader) (hT : 0 < h.tileSizeX) (ty : Int) :
    ∀ (k fuel : Nat) (tx : Int) (tile_i : Nat) (tiles : List TileState),
      h.boundsRoundedToTileSize.x2 - tx = h.tileSizeX * k → k < fuel →
      tile_i + k ≤ tiles.length →
      ∃ tiles', h.initRow ty fuel tx tile_i tiles = some (tile_i + k, tiles') ∧
        tiles'.length = tiles.length ∧
        tiles'.map (fun t => t.status) = tiles.map (fun t => t.status) ∧
        (∀ idx, idx < tile_i → tiles'[idx]? = tiles[idx]?) ∧
        (∀ c : Nat, c < k →
          (tiles'[tile_i + c]?).map (fun t => t.bounds) =
            some (h.clippedCell (tx + h.tileSizeX * c) ty)) := by
  intro k
  induction k with
  | zero =>
    intro fuel tx tile_i tiles hk hf hlen
    obtain ⟨f, rfl⟩ : ∃ f, fuel = f + 1 := ⟨fuel - 1, by omega⟩
    simp only [TileStateHeader.initRow]
    rw [if_neg (by simp at hk; omega)]
    exact ⟨tiles, rfl, rfl, rfl, fun _ _ => rfl, fun c hc => by omega⟩
  | succ k ih =>
    intro fuel tx tile_i tiles hk hf hlen
    obtain ⟨f, rfl⟩ : ∃ f, fuel = f + 1 := ⟨fuel - 1, by omega⟩
    simp only [TileStateHeader.initRow]
    have hk' : h.boundsRoundedToTileSize.x2 - tx = h.tileSizeX * k + h.tileSizeX := by
      rw [hk]; push_cast; ring
    have hpos : 0 ≤ h.tileSizeX * (k : Int) := Int.mul_nonneg (le_of_lt hT) (Int.ofNat_nonneg k)
    rw [if_pos (by omega), if_pos (by omega)]
    obtain ⟨tiles', e, p1, p2, p3, p4⟩ := ih f (tx + h.tileSizeX) (tile_i + 1)
      (tiles.modify (fun t => { t with bounds := h.clippedCell tx ty }) tile_i)
      (by omega) (by omega) (by rw [List.length_modify]; omega)
    refine ⟨tiles', ?_, ?_, ?_, ?_, ?_⟩
    · rw [e]; congr 2; omega
    · rw [p1, List.length_modify]
    · rw [p2, modify_map_status]
    · intro idx hidx
      rw [p3 idx (by omega), List.getElem?_modify]
      cases tiles[idx]? with
      | none => rfl
      | some t => simp [show tile_i ≠ idx by omega]
    · intro c hc
      cases c with
      | zero =>
        simp only [Nat.add_zero, Nat.cast_zero, mul_zero, add_zero]
        rw [p3 tile_i (by omega), List.getElem?_modify]
        have : tile_i < tiles.length := by omega
        rw [List.getElem?_eq_getElem this]
        simp
      | succ c =>
        have := p4 c (by omega)
        rw [show tile_i + (c + 1) = tile_i + 1 + c by omega]
        rw [this]
        congr 2
        push_cast; ring


theorem le_tile_mul {T : Int} (hT : 0 < T) (n : Nat) : (n : Int) ≤ T * n := by
  have h := Int.mul_le_mul_of_nonneg_right (show (1 : Int) ≤ T by omega) (Int.ofNat_nonneg n)
  simpa using h

theorem initRows_spec (h : TileStateHeader) (hT : 0 < h.tileSizeX) (hU : 0 < h.tileSizeY)
    (n : Nat) (hn : h.boundsRoundedToTileSize.x2 - h.boundsRoundedToTileSize.x1 = h.tileSizeX * n) :
    ∀ (m fuel : Nat) (ty : Int) (tile_i : Nat) (tiles : List TileState),
      h.boundsRoundedToTileSize.y2 - ty = h.tileSizeY * m → m < fuel →
      tile_i + m * n ≤ tiles.length →
      ∃ tiles', h.initRows fuel ty tile_i tiles = some (tile_i + m * n, tiles') ∧
        tiles'.length = tiles.length ∧
        tiles'.map (fun t => t.status) = tiles.map (fun t => t.status) ∧
        (∀ idx, idx < tile_i → tiles'[idx]? = tiles[idx]?) ∧
        (∀ j i : Nat, j < m → i < n →
          (tiles'[tile_i + j * n + i]?).map (fun t => t.bounds) =
            some (h.clippedCell (h.boundsRoundedToTileSize.x1 + h.tileSizeX * i)
              (ty + h.tileSizeY * j))) := by
  intro m
  induction m with
  | zero =>
    intro fuel ty tile_i tiles hm hf hlen
    obtain ⟨f, rfl⟩ : ∃ f, fuel = f + 1 := ⟨fuel - 1, by omega⟩
    simp only [TileStateHeader.initRows]
    rw [if_neg (by simp at hm; omega)]
    exact ⟨tiles, by simp, rfl, rfl, fun _ _ => rfl, fun j i hj => by omega⟩
  | succ m ih =>
    intro fuel ty tile_i tiles hm hf hlen
    obtain ⟨f, rfl⟩ : ∃ f, fuel = f + 1 := ⟨fuel - 1, by omega⟩
    simp only [TileStateHeader.initRows]
    have hm' : h.boundsRoundedToTileSize.y2 - ty = h.tileSizeY * m + h.tileSizeY := by
      rw [hm]; push_cast; ring
    have hpos : 0 ≤ h.tileSizeY * (m : Int) := Int.mul_nonneg (le_of_lt hU) (Int.ofNat_nonneg m)
    have hsucc : (m + 1) * n = m * n + n := by ring
    rw [if_pos (by omega)]
    have hnle := le_tile_mul hT n
    obtain ⟨tiles1, e1, q1, q2, q3, q4⟩ := initRow_spec h hT ty n
      ((h.boundsRoundedToTileSize.x2 - h.boundsRoundedToTileSize.x1).toNat + 1)
      h.boundsRoundedToTileSize.x1 tile_i tiles hn (by omega) (by omega)
    rw [e1]
    obtain ⟨tiles', e, p1, p2, p3, p4⟩ := ih f (ty + h.tileSizeY) (tile_i + n) tiles1
      (by omega) (by omega) (by omega)
    refine ⟨tiles', ?_, ?_, ?_, ?_, ?_⟩
    · simp only []
      rw [e]; congr 2; omega
    · rw [p1, q1]
    · rw [p2, q2]
    · intro idx hidx
      rw [p3 idx (by omega), q3 idx hidx]
    · intro j i hj hi
      cases j with
      | zero =>
        simp only [Nat.zero_mul, Nat.add_zero, Nat.cast_zero, mul_zero, add_zero]
        rw [p3 (tile_i + i) (by omega)]
        exact q4 i hi
      | succ j =>
        have := p4 j i (by omega) hi
        rw [show tile_i + (j + 1) * n + i = tile_i + n + j * n + i by
          rw [show (j + 1) * n = j * n + n by ring]; omega]
        rw [this]
        congr 2
        push_cast; ring


theorem initRow_length (h : TileStateHeader) (ty : Int) :
    ∀ (fuel : Nat) (tx : Int) (tile_i : Nat) (tiles : List TileState) (r : Nat × List TileState),
      h.initRow ty fuel tx tile_i tiles = some r → r.2.length = tiles.length := by
  intro fuel
  induction fuel with
  | zero => intro tx tile_i tiles r hr; simp [TileStateHeader.initRow] at hr
  | succ f ih =>
    intro tx tile_i tiles r hr
    simp only [TileStateHeader.initRow] at hr
    split at hr
    · split at hr
      · rw [ih _ _ _ _ hr, List.length_modify]
      · cases hr
    · cases hr; rfl

theorem initRows_length (h : TileStateHeader) :
    ∀ (fuel : Nat) (ty : Int) (tile_i : Nat) (tiles : List TileState) (r : Nat × List TileState),
      h.initRows fuel ty tile_i tiles = some r → r.2.length = tiles.length := by
  intro fuel
  induction fuel with
  | zero => intro ty tile_i tiles r hr; simp [TileStateHeader.initRows] at hr
  | succ f ih =>
    intro ty tile_i tiles r hr
    simp only [TileStateHeader.initRows] at hr
    split at hr
    · split at hr
      · cases hr
      · rename_i i1 t1 he
        rw [ih _ _ _ _ hr]
        exact initRow_length h ty _ _ _ _ _ he
    · cases hr; rfl

/-- What a successful `init` leaves in the header. -/
theorem init_some {old g0 : TileStateHeader} {T U : Int} {roi : RectI}
    (h : TileStateHeader.init old T U roi = some g0) :
    0 < T ∧ 0 < U ∧ g0.tileSizeX = T ∧ g0.tileSizeY = U ∧ g0.bounds = roi ∧
    g0.boundsRoundedToTileSize = roi.roundToTileSize T U ∧
    (g0.tiles.length : Int) = g0.tileCount ∧
    ∃ i, TileStateHeader.initRows
      ⟨T, U, roi, roi.roundToTileSize T U, List.replicate g0.tileCount.toNat TileState.default⟩
      (((roi.roundToTileSize T U).y2 - (roi.roundToTileSize T U).y1).toNat + 1)
      (roi.roundToTileSize T U).y1 0 (List.replicate g0.tileCount.toNat TileState.default) =
        some (i, g0.tiles) := by
  unfold TileStateHeader.init at h
  split at h
  · rename_i hpos
    simp only at h
    split at h
    · rename_i hguard
      have hcount := hguard.2
      split at h
      · cases h
      · rename_i i tiles he
        cases h
        have hl := initRows_length _ _ _ _ _ _ he
        simp only [List.length_replicate] at hl
        refine ⟨hpos.1, hpos.2, rfl, rfl, rfl, rfl, ?_, i, he⟩
        simp only [TileStateHeader.tileCount] at hcount hl ⊢
        rw [hl]
        omega
    · cases h
  · cases h


theorem exists_nat_mul {T a : Int} (hT : 0 < T) (hd : T ∣ a) (ha : 0 ≤ a) : ∃ n : Nat, a = T * n := by
  obtain ⟨k, hk⟩ := hd
  have hk0 : 0 ≤ k := by
    by_contra hc
    have : T * k < 0 := Int.mul_neg_of_pos_of_neg hT (by omega)
    omega
  exact ⟨k.toNat, by rw [Int.toNat_of_nonneg hk0]; exact hk⟩

theorem BuiltByInit.length_eq {g : TileStateHeader} (hb : BuiltByInit g) :
    0 < g.tileSizeX ∧ 0 < g.tileSizeY ∧
    g.boundsRoundedToTileSize = g.bounds.roundToTileSize g.tileSizeX g.tileSizeY ∧
    (g.tiles.length : Int) = g.tileCount := by
  unfold BuiltByInit at hb
  cases hi : TileStateHeader.init g g.tileSizeX g.tileSizeY g.bounds with
  | none => rw [hi] at hb; cases hb
  | some g0 =>
    rw [hi] at hb
    simp only [Option.map_some', Option.some.injEq, Prod.mk.injEq] at hb
    obtain ⟨s1, s2, s3, s4, s5, s6, s7, _⟩ := init_some hi
    refine ⟨s1, s2, by rw [← hb.1, s6], ?_⟩
    have hl : g.tiles.length = g0.tiles.length := by
      have := congrArg List.length hb.2
      simpa using this.symm
    rw [hl, s7]
    simp only [TileStateHeader.tileCount, s3, s4, hb.1]

theorem BuiltByInit.wellFormed {g : TileStateHeader} (hb : BuiltByInit g) : WellFormed g :=
  ⟨hb.length_eq.1, hb.length_eq.2.1, hb.length_eq.2.2.1, Or.inr hb.length_eq.2.2.2⟩

/-- A grid built by `init` that has a tile origin has tiles. -/
theorem BuiltByInit.tiles_ne_nil {g : TileStateHeader} (hb : BuiltByInit g) {tx ty : Int}
    (ho : IsOrigin g tx ty) : g.tiles ≠ [] := by
  intro hnil
  obtain ⟨⟨a1, a2, a3, a4⟩, _⟩ := hb.wellFormed.inside_bounds
  obtain ⟨hT, hU, _, hlen⟩ := hb.length_eq
  obtain ⟨dx, dy, o1, o2, o3, o4⟩ := ho
  have hbd := tileIndex_bounds hT hU a1 a2 a3 a4 dx dy o1 o2 o3 o4
  rw [hnil] at hlen
  simp only [List.length_nil, TileStateHeader.tileCount, RectI.width, RectI.height] at hlen
  have := hbd.1
  have := hbd.2
  omega

/-- In a grid built by `init` the tile at a tile origin has the bounds of its
cell clipped to the image bounds. -/
theorem BuiltByInit.tile_bounds {g : TileStateHeader} (hb : BuiltByInit g) {tx ty : Int}
    {t : TileState} (ho : IsOrigin g tx ty) (ht : g.getTileAt tx ty = some t) :
    t.bounds = g.clippedCell tx ty := by
  have hg := hb.wellFormed
  obtain ⟨⟨a1, a2, a3, a4⟩, _⟩ := hg.inside_bounds
  have hT := hg.1
  have hU := hg.2.1
  obtain ⟨dx, dy, o1, o2, o3, o4⟩ := ho
  obtain ⟨n, hn⟩ := exists_nat_mul hT (Int.dvd_sub a2 a1) (by omega)
  obtain ⟨m, hm⟩ := exists_nat_mul hU (Int.dvd_sub a4 a3) (by omega)
  obtain ⟨i, hi⟩ := exists_nat_mul hT (Int.dvd_sub dx a1) (by omega)
  obtain ⟨j, hj⟩ := exists_nat_mul hU (Int.dvd_sub dy a3) (by omega)
  have hin : i < n := by
    by_contra hc
    have := Int.mul_le_mul_of_nonneg_left (show (n : Int) ≤ i by omega) (le_of_lt hT)
    omega
  have hjm : j < m := by
    by_contra hc
    have := Int.mul_le_mul_of_nonneg_left (show (m : Int) ≤ j by omega) (le_of_lt hU)
    omega
  -- the lookup index
  have hidx : (((ty - g.boundsRoundedToTileSize.y1).tdiv g.tileSizeY) *
      (g.boundsRoundedToTileSize.width.tdiv g.tileSizeX) +
      (tx - g.boundsRoundedToTileSize.x1).tdiv g.tileSizeX).toNat = 0 + j * n + i := by
    rw [RectI.width, hi, hn, hj, Int.mul_tdiv_cancel_left _ (ne_of_gt hT),
      Int.mul_tdiv_cancel_left _ (ne_of_gt hT), Int.mul_tdiv_cancel_left _ (ne_of_gt hU)]
    have : ((j : Int) * n + i) = ((j * n + i : Nat) : Int) := by push_cast; ring
    rw [this, Int.toNat_ofNat]
    omega
  have hlook : g.tiles[0 + j * n + i]? = some t := by
    unfold TileStateHeader.getTileAt at ht
    split at ht
    · simp only at ht
      split at ht
      · rw [hidx] at ht; exact ht
      · cases ht
    · cases ht
  -- the tiles written by init
  unfold BuiltByInit at hb
  cases hi0 : TileStateHeader.init g g.tileSizeX g.tileSizeY g.bounds with
  | none => rw [hi0] at hb; cases hb
  | some g0 =>
    rw [hi0] at hb
    simp only [Option.map_some', Option.some.injEq, Prod.mk.injEq] at hb
    obtain ⟨s1, s2, s3, s4, s5, s6, s7, i0, s8⟩ := init_some hi0
    rw [← s6, hb.1] at s8
    have hcount : g0.tileCount.toNat = m * n := by
      simp only [TileStateHeader.tileCount, RectI.width, RectI.height, s3, s4, hb.1]
      rw [hn, hm, Int.mul_tdiv_cancel_left _ (ne_of_gt hT), Int.mul_tdiv_cancel_left _ (ne_of_gt hU)]
      have : ((n : Int) * m) = ((m * n : Nat) : Int) := by push_cast; ring
      rw [this, Int.toNat_ofNat]
    obtain ⟨tiles', e, p1, p2, p3, p4⟩ := initRows_spec
      ⟨g.tileSizeX, g.tileSizeY, g.bounds, g.boundsRoundedToTileSize,
        List.replicate g0.tileCount.toNat TileState.default⟩ hT hU n hn m
      ((g.boundsRoundedToTileSize.y2 - g.boundsRoundedToTileSize.y1).toNat + 1)
      g.boundsRoundedToTileSize.y1 0 (List.replicate g0.tileCount.toNat TileState.default)
      hm (by have := le_tile_mul hU m; omega) (by rw [List.length_replicate, hcount]; omega)
    rw [s8] at e
    simp only [Option.some.injEq, Prod.mk.injEq] at e
    have hcell := p4 j i hjm hin
    rw [← e.2] at hcell
    have h1 : (g.tiles.map (fun t => t.bounds))[0 + j * n + i]? = some t.bounds := by
      rw [List.getElem?_map, hlook]; rfl
    rw [hb.2.symm, List.getElem?_map, hcell] at h1
    simp only [Option.some.injEq] at h1
    rw [← h1]
    simp only [TileStateHeader.clippedCell]
    rw [show tx = g.boundsRoundedToTileSize.x1 + g.tileSizeX * i by omega,
      show ty = g.boundsRoundedToTileSize.y1 + g.tileSizeY * j by omega]


/-! ## Intersections -/

theorem intersect_of_overlap (a b out : RectI) (hx : max a.x1 b.x1 < min a.x2 b.x2)
    (hy : max a.y1 b.y1 < min a.y2 b.y2) :
    (a.intersect b out).2 = ⟨max a.x1 b.x1, max a.y1 b.y1, min a.x2 b.x2, min a.y2 b.y2⟩ := by
  unfold RectI.intersect
  simp only
  rw [if_neg]
  simp only [RectI.isNull, Bool.or_eq_true, decide_eq_true_eq, not_or, not_le]
  exact ⟨hx, hy⟩

theorem intersect_hasPixel (a b : RectI) (px py : Int) :
    (a.intersect b RectI.null).2.hasPixel px py ↔ a.hasPixel px py ∧ b.hasPixel px py := by
  unfold RectI.intersect
  simp only
  split
  · rename_i h
    simp only [RectI.isNull, Bool.or_eq_true, decide_eq_true_eq] at h
    simp only [RectI.hasPixel, RectI.null]
    omega
  · simp only [RectI.hasPixel]
    omega

theorem intersect_comm (a b out : RectI) : (a.intersect b out).2 = (b.intersect a out).2 := by
  unfold RectI.intersect
  simp only [max_comm a.x1, max_comm a.y1, min_comm a.x2, min_comm a.y2]

/-- A non-null tile-aligned rectangle inside the rounded bounds overlaps the
non-null image bounds. -/
theorem overlap_bounds {g : TileStateHeader} (hg : WellFormed g) (hbn : g.bounds.isNull = false)
    {S : RectI} (hS : Inside g S) (hSn : S.isNull = false) :
    max S.x1 g.bounds.x1 < min S.x2 g.bounds.x2 ∧ max S.y1 g.bounds.y1 < min S.y2 g.bounds.y2 := by
  obtain ⟨⟨a1, a2, a3, a4⟩, w1, w2, w3, w4⟩ := hS
  obtain ⟨hT, hU, hr, _⟩ := hg
  rw [isNull_false_iff] at hbn hSn
  have sx := step_le hT a1 a2 hSn.1
  have sy := step_le hU a3 a4 hSn.2
  rw [hr] at w1 w2 w3 w4
  simp only [RectI.roundToTileSize] at w1 w2 w3 w4
  have := lt_floor_add hT g.bounds.x1
  have := lt_floor_add hU g.bounds.y1
  have := ceil_lt hT g.bounds.x2
  have := ceil_lt hU g.bounds.y2
  omega

theorem getTileAt_nil {g : TileStateHeader} (h : g.tiles = []) (tx ty : Int) :
    g.getTileAt tx ty = none := by
  unfold TileStateHeader.getTileAt
  simp [h]

theorem smallestCover_of_spec {g : TileStateHeader} {R S : RectI} (hS : Inside g S)
    (hall : ∀ tx ty, UnrenderedIn g R tx ty →
      S.x1 ≤ tx ∧ tx + g.tileSizeX ≤ S.x2 ∧ S.y1 ≤ ty ∧ ty + g.tileSizeY ≤ S.y2)
    (hb : ∃ tx, UnrenderedIn g R tx S.y1) (ht : ∃ tx, UnrenderedIn g R tx (S.y2 - g.tileSizeY))
    (hl : ∃ ty, UnrenderedIn g R S.x1 ty) (hr : ∃ ty, UnrenderedIn g R (S.x2 - g.tileSizeX) ty) :
    SmallestCover g R S := by
  refine ⟨hS.1, hall, ?_⟩
  intro S' hS'
  obtain ⟨x, hx⟩ := hb
  obtain ⟨x', hx'⟩ := ht
  obtain ⟨y, hy⟩ := hl
  obtain ⟨y', hy'⟩ := hr
  have h1 := hS' _ _ hx
  have h2 := hS' _ _ hx'
  have h3 := hS' _ _ hy
  have h4 := hS' _ _ hy'
  unfold CellIn at h1 h2 h3 h4
  rw [contains_iff]
  omega

/-! ## The bounding box: statements -/

theorem unrenderedIn_of_cell {g : TileStateHeader} (hg : WellFormed g) {R : RectI} {tx ty : Int}
    {t : TileState} (dx : g.tileSizeX ∣ tx) (dy : g.tileSizeY ∣ ty) (hcell : CellIn g R tx ty)
    (ht : g.getTileAt tx ty = some t) (hs : t.status = eTileStatusNotRendered) :
    UnrenderedIn g R tx ty := by
  obtain ⟨c1, c2, c3, c4⟩ := hcell
  have hT := hg.1
  have hU := hg.2.1
  exact ⟨dx, dy, c1, by omega, c3, by omega, t, ht, by simp [isNotRendered, hs]⟩

/-- C1: on a grid built by `init` with positive tile sizes over non-null
bounds, for a non-null `roi` contained in the rounded bounds,
`getMinimalBboxToRenderFromTilesState` returns a rectangle that contains the
bounds of every `NotRendered` tile whose cell lies inside `roi` rounded to the
tile size. -/
theorem bbox_contains_unrendered_tiles (g : TileStateHeader) (roi : RectI)
    (hb : BuiltByInit g) (hbn : g.bounds.isNull = false)
    (hc : g.boundsRoundedToTileSize.contains roi = true) :
    ∃ r, getMinimalBboxToRenderFromTilesState roi g = some r ∧
      ∀ (tx ty : Int) (t : TileState), g.tileSizeX ∣ tx → g.tileSizeY ∣ ty →
        CellIn g (roi.roundToTileSize g.tileSizeX g.tileSizeY) tx ty →
        g.getTileAt tx ty = some t → t.status = eTileStatusNotRendered →
        r.contains t.bounds = true := by
  have hg := hb.wellFormed
  by_cases hne : g.tiles = []
  · refine ⟨RectI.null, by simp [getMinimalBboxToRenderFromTilesState, hne], ?_⟩
    intro tx ty t _ _ _ ht
    rw [getTileAt_nil hne] at ht
    cases ht
  · obtain ⟨S, hS, hSR, hcase⟩ := bbox_spec hg hne hc
    rcases hcase with ⟨_, e, hnone⟩ | ⟨hSn, e, hall, _⟩
    · refine ⟨S, e, ?_⟩
      intro tx ty t dx dy hcell ht hs
      exact absurd (unrenderedIn_of_cell hg dx dy hcell ht hs) (hnone tx ty)
    · refine ⟨_, e, ?_⟩
      intro tx ty t dx dy hcell ht hs
      have hu := unrenderedIn_of_cell hg dx dy hcell ht hs
      obtain ⟨k1, k2, k3, k4⟩ := hall tx ty hu
      obtain ⟨ox, oy⟩ := overlap_bounds hg hbn hS hSn
      rw [intersect_of_overlap _ _ _ ox oy]
      have hor : IsOrigin g tx ty := by
        obtain ⟨_, w1, w2, w3, w4⟩ := hS
        have hT := hg.1
        have hU := hg.2.1
        exact ⟨dx, dy, by omega, by omega, by omega, by omega⟩
      rw [hb.tile_bounds hor ht, contains_iff]
      simp only [TileStateHeader.clippedCell]
      omega

theorem bbox_contains_unrendered_tiles_witness :
    BuiltByInit scenarioB ∧ scenarioB.bounds.isNull = false ∧
    scenarioB.boundsRoundedToTileSize.contains ⟨0, 0, 100, 100⟩ = true ∧
    ∃ r, getMinimalBboxToRenderFromTilesState ⟨0, 0, 100, 100⟩ scenarioB = some r ∧
      ∀ (tx ty : Int) (t : TileState), scenarioB.tileSizeX ∣ tx → scenarioB.tileSizeY ∣ ty →
        CellIn scenarioB
          ((⟨0, 0, 100, 100⟩ : RectI).roundToTileSize scenarioB.tileSizeX scenarioB.tileSizeY)
          tx ty →
        scenarioB.getTileAt tx ty = some t → t.status = eTileStatusNotRendered →
        r.contains t.bounds = true :=
  ⟨by decide, by decide, by decide,
    bbox_contains_unrendered_tiles scenarioB ⟨0, 0, 100, 100⟩ (by decide) (by decide) (by decide)⟩

/-- C2: on a grid built by `init`, for a non-null `roi` contained in the
rounded bounds whose rounding holds at least one `NotRendered` tile,
`getMinimalBboxToRenderFromTilesState` returns the unrounded image bounds
intersected with the smallest tile-aligned rectangle containing the cells of
all `NotRendered` tiles of the rounded `roi`. -/
theorem bbox_is_smallest (g : TileStateHeader) (roi : RectI)
    (hb : BuiltByInit g)
    (hc : g.boundsRoundedToTileSize.contains roi = true)
    (hex : ∃ tx ty, UnrenderedIn g (roi.roundToTileSize g.tileSizeX g.tileSizeY) tx ty) :
    ∃ S, SmallestCover g (roi.roundToTileSize g.tileSizeX g.tileSizeY) S ∧
      getMinimalBboxToRenderFromTilesState roi g = some (g.bounds.intersect S RectI.null).2 := by
  have hg := hb.wellFormed
  obtain ⟨tx, ty, hu⟩ := hex
  have hne : g.tiles ≠ [] := by
    intro h
    obtain ⟨_, _, _, _, _, _, t, ht, _⟩ := hu
    rw [getTileAt_nil h] at ht
    cases ht
  obtain ⟨S, hS, hSR, hcase⟩ := bbox_spec hg hne hc
  rcases hcase with ⟨_, _, hnone⟩ | ⟨hSn, e, hall, h1, h2, h3, h4⟩
  · exact absurd hu (hnone tx ty)
  · exact ⟨S, smallestCover_of_spec hS hall h1 h2 h3 h4, by rw [e, intersect_comm]⟩

theorem bbox_is_smallest_witness :
    BuiltByInit scenarioB ∧
    scenarioB.boundsRoundedToTileSize.contains ⟨0, 0, 100, 100⟩ = true ∧
    getMinimalBboxToRenderFromTilesState ⟨0, 0, 100, 100⟩ scenarioB = some ⟨64, 64, 100, 100⟩ ∧
    ∃ S, SmallestCover scenarioB
        ((⟨0, 0, 100, 100⟩ : RectI).roundToTileSize scenarioB.tileSizeX scenarioB.tileSizeY) S ∧
      getMinimalBboxToRenderFromTilesState ⟨0, 0, 100, 100⟩ scenarioB =
        some (scenarioB.bounds.intersect S RectI.null).2 :=
  ⟨by decide, by decide, by decide,
    bbox_is_smallest scenarioB ⟨0, 0, 100, 100⟩ (by decide) (by decide)
      ⟨64, 64, by decide, by decide, by decide, by decide, by decide, by decide,
        ⟨⟨⟨64, 64, 100, 100⟩, eTileStatusNotRendered⟩, by decide, by decide⟩⟩⟩

theorem peelBottom_eq (g : TileStateHeader) :
    ∀ (fuel : Nat) (y : Int) (X A : RectI), A.y2 = X.y1 →
      peelBottom g fuel y (X, A) =
        (shrinkBottom g isNotNotRendered fuel y X).map (fun X' => (X', { A with y2 := X'.y1 })) := by
  intro fuel
  induction fuel with
  | zero => intro y X A _; rfl
  | succ n ih =>
    intro y X A hA
    simp only [peelBottom, shrinkBottom]
    split
    · cases rowHas g isNotNotRendered X y with
      | none => rfl
      | some b =>
        cases b with
        | true =>
          simp only [if_true, Bool.not_true, Bool.false_eq_true, if_false, Option.map_some']
          rw [← hA]
        | false =>
          simp only [Bool.false_eq_true, if_false, Bool.not_false, if_true]
          rw [ih _ _ _ rfl]
    · simp only [Option.map_some']
      rw [← hA]

theorem peelTop_eq (g : TileStateHeader) :
    ∀ (fuel : Nat) (y : Int) (X B : RectI), B.y1 = X.y2 →
      peelTop g fuel y (X, B) =
        (shrinkTop g isNotNotRendered fuel y X).map (fun X' => (X', { B with y1 := X'.y2 })) := by
  intro fuel
  induction fuel with
  | zero => intro y X B _; rfl
  | succ n ih =>
    intro y X B hB
    simp only [peelTop, shrinkTop]
    split
    · cases rowHas g isNotNotRendered X y with
      | none => rfl
      | some b =>
        cases b with
        | true =>
          simp only [if_true, Bool.not_true, Bool.false_eq_true, if_false, Option.map_some']
          rw [← hB]
        | false =>
          simp only [Bool.false_eq_true, if_false, Bool.not_false, if_true]
          rw [ih _ _ _ rfl]
    · simp only [Option.map_some']
      rw [← hB]

theorem peelLeft_eq (g : TileStateHeader) :
    ∀ (fuel : Nat) (x : Int) (X C : RectI), C.x2 = X.x1 →
      peelLeft g fuel x (X, C) =
        (shrinkLeft g isNotNotRendered fuel x X).map (fun X' => (X', { C with x2 := X'.x1 })) := by
  intro fuel
  induction fuel with
  | zero => intro x X C _; rfl
  | succ n ih =>
    intro x X C hC
    simp only [peelLeft, shrinkLeft]
    split
    · cases colHas g isNotNotRendered X x with
      | none => rfl
      | some b =>
        cases b with
        | true =>
          simp only [if_true, Bool.not_true, Bool.false_eq_true, if_false, Option.map_some']
          rw [← hC]
        | false =>
          simp only [Bool.false_eq_true, if_false, Bool.not_false, if_true]
          rw [ih _ _ _ rfl]
    · simp only [Option.map_some']
      rw [← hC]

theorem peelRight_eq (g : TileStateHeader) :
    ∀ (fuel : Nat) (x : Int) (X D : RectI), D.x1 = X.x2 →
      peelRight g fuel x (X, D) =
        (shrinkRight g isNotNotRendered fuel x X).map (fun X' => (X', { D with x1 := X'.x2 })) := by
  intro fuel
  induction fuel with
  | zero => intro x X D _; rfl
  | succ n ih =>
    intro x X D hD
    simp only [peelRight, shrinkRight]
    split
    · cases colHas g isNotNotRendered X x with
      | none => rfl
      | some b =>
        cases b with
        | true =>
          simp only [if_true, Bool.not_true, Bool.false_eq_true, if_false, Option.map_some']
          rw [← hD]
        | false =>
          simp only [Bool.false_eq_true, if_false, Bool.not_false, if_true]
          rw [ih _ _ _ rfl]
    · simp only [Option.map_some']
      rw [← hD]


theorem rect_eq {r : RectI} {a b c d : Int} (h1 : r.x1 = a) (h2 : r.y1 = b) (h3 : r.x2 = c)
    (h4 : r.y2 = d) : r = ⟨a, b, c, d⟩ := by
  cases r; simp_all

theorem bands_spec {g : TileStateHeader} (hg : WellFormed g) (hne : g.tiles ≠ []) {roi ret : RectI}
    (hret : getMinimalBboxToRenderFromTilesState roi g = some ret) (hnn : ret.isNull = false)
    {M : RectI} (hMdef : ret.roundToTileSize g.tileSizeX g.tileSizeY = M) (hM : Inside g M)
    (hMn : M.isNull = false) (out : List RectI) :
    ∃ (a b c d : Int) (X' : RectI), BandFacts g roi out M a b c d X' := by
  unfold BandFacts
  have hT := hg.1
  have hU := hg.2.1
  have hMn' := (isNull_false_iff M).1 hMn
  obtain ⟨⟨a1, a2, a3, a4⟩, w1, w2, w3, w4⟩ := hM
  -- bottom band
  obtain ⟨X1, e1, b1, b2, b3, b4, b5, b6, b7, b8⟩ :=
    shrinkBottom_spec hg hne isNotNotRendered (rowFuel M) M.y1 M ⟨⟨a1, a2, a3, a4⟩, w1, w2, w3, w4⟩
      rfl (by unfold rowFuel; omega)
  have hX1 : X1 = ⟨M.x1, X1.y1, M.x2, M.y2⟩ := rect_eq b1 rfl b2 b3
  generalize X1.y1 = a at hX1 b4 b5 b6 b7 b8
  subst hX1
  have f1 : peelBottom g (rowFuel M) M.y1 (M, ⟨M.x1, M.y1, M.x2, M.y1⟩) =
      some (⟨M.x1, a, M.x2, M.y2⟩, ⟨M.x1, M.y1, M.x2, a⟩) := by
    rw [peelBottom_eq g _ _ _ _ rfl, e1]; rfl
  have hX1i : Inside g ⟨M.x1, a, M.x2, M.y2⟩ :=
    ⟨⟨a1, a2, b6, a4⟩, w1, w2, by dsimp only; omega, w4⟩
  have ha : a ≤ M.y2 := by omega
  -- top band
  obtain ⟨X2, e2, c1, c2, c3, c4, c5, c6, c7, c8⟩ :=
    shrinkTop_spec hg hne isNotNotRendered (rowFuel ⟨M.x1, a, M.x2, M.y2⟩) (M.y2 - g.tileSizeY)
      ⟨M.x1, a, M.x2, M.y2⟩ hX1i rfl (by unfold rowFuel; dsimp only; omega)
  dsimp only at c1 c2 c3 c4 c5 c7 c8
  have hX2 : X2 = ⟨M.x1, a, M.x2, X2.y2⟩ := rect_eq c1 c3 c2 rfl
  generalize X2.y2 = b at hX2 c4 c5 c6 c7 c8
  subst hX2
  have f2 : peelTop g (rowFuel ⟨M.x1, a, M.x2, M.y2⟩) (M.y2 - g.tileSizeY)
      (⟨M.x1, a, M.x2, M.y2⟩, ⟨M.x1, M.y2, M.x2, M.y2⟩) =
      some (⟨M.x1, a, M.x2, b⟩, ⟨M.x1, b, M.x2, M.y2⟩) := by
    rw [peelTop_eq g _ _ _ _ rfl, e2]; rfl
  have hab : a ≤ b := by omega
  have hX2i : Inside g ⟨M.x1, a, M.x2, b⟩ :=
    ⟨⟨a1, a2, b6, c6⟩, w1, w2, by dsimp only; omega, by dsimp only; omega⟩
  by_cases hlt : a < b
  · -- left band
    obtain ⟨X3, e3, d1, d2, d3, d4, d5, d6, d7, d8⟩ :=
      shrinkLeft_spec hg hne isNotNotRendered (colFuel ⟨M.x1, a, M.x2, b⟩) M.x1
        ⟨M.x1, a, M.x2, b⟩ hX2i rfl (by unfold colFuel; dsimp only; omega)
    dsimp only at d1 d2 d3 d4 d5 d7 d8
    have hX3 : X3 = ⟨X3.x1, a, M.x2, b⟩ := rect_eq rfl d1 d3 d2
    generalize X3.x1 = c at hX3 d4 d5 d6 d7 d8
    subst hX3
    have f3 : peelLeft g (colFuel ⟨M.x1, a, M.x2, b⟩) M.x1
        (⟨M.x1, a, M.x2, b⟩, ⟨M.x1, a, M.x1, b⟩) =
        some (⟨c, a, M.x2, b⟩, ⟨M.x1, a, c, b⟩) := by
      rw [peelLeft_eq g _ _ _ _ rfl, e3]; rfl
    have hc : c ≤ M.x2 := by omega
    have hX3i : Inside g ⟨c, a, M.x2, b⟩ :=
      ⟨⟨d6, a2, b6, c6⟩, by dsimp only; omega, w2, by dsimp only; omega, by dsimp only; omega⟩
    -- right band
    obtain ⟨X4, e4, g1, g2, g3, g4, g5, g6, g7, g8⟩ :=
      shrinkRight_spec hg hne isNotNotRendered (colFuel ⟨c, a, M.x2, b⟩) (M.x2 - g.tileSizeX)
        ⟨c, a, M.x2, b⟩ hX3i rfl (by unfold colFuel; dsimp only; omega)
    dsimp only at g1 g2 g3 g4 g5 g7 g8
    have hX4 : X4 = ⟨c, a, X4.x2, b⟩ := rect_eq g3 g1 rfl g2
    generalize X4.x2 = d at hX4 g4 g5 g6 g7 g8
    subst hX4
    have f4 : peelRight g (colFuel ⟨c, a, M.x2, b⟩) (M.x2 - g.tileSizeX)
        (⟨c, a, M.x2, b⟩, ⟨M.x2, a, M.x2, b⟩) =
        some (⟨c, a, d, b⟩, ⟨d, a, M.x2, b⟩) := by
      rw [peelRight_eq g _ _ _ _ rfl, e4]; rfl
    have hX4i : Inside g ⟨c, a, d, b⟩ :=
      ⟨⟨d6, g6, b6, c6⟩, by dsimp only; omega, by dsimp only; omega, by dsimp only; omega,
        by dsimp only; omega⟩
    have hcon : g.boundsRoundedToTileSize.contains ⟨c, a, d, b⟩ = true := by
      rw [contains_iff]; exact ⟨hX4i.2.1, hX4i.2.2.2.1, hX4i.2.2.1, hX4i.2.2.2.2⟩
    obtain ⟨X', eX⟩ : ∃ X', getMinimalBboxToRenderFromTilesState ⟨c, a, d, b⟩ g = some X' := by
      obtain ⟨S, _, _, hcase⟩ := bbox_spec hg hne hcon
      rcases hcase with ⟨_, e, _⟩ | ⟨_, e, _⟩
      · exact ⟨_, e⟩
      · exact ⟨_, e⟩
    refine ⟨a, b, c, d, X', ⟨b4, hab, c4, d4, by omega, g4⟩, hX4i, eX, ?_, b7, b8, c7, fun _ => c8 hlt,
      d7, fun _ h => d8 h, g7, fun _ h => g8 h, fun h => absurd hlt h⟩
    simp only [getMinimalRectsToRenderFromTilesState, tiles_isEmpty_false hne, hret, hnn, hMdef, f1,
      f2, hlt, if_true, f3, f4, eX]
    simp [bandAsserts, RectI.bottom, RectI.top, RectI.left, RectI.right]
  · have hba : b = a := by omega
    subst hba
    have hX4i : Inside g ⟨M.x1, b, M.x2, b⟩ := hX2i
    have hcon : g.boundsRoundedToTileSize.contains ⟨M.x1, b, M.x2, b⟩ = true := by
      rw [contains_iff]; exact ⟨hX4i.2.1, hX4i.2.2.2.1, hX4i.2.2.1, hX4i.2.2.2.2⟩
    obtain ⟨X', eX⟩ : ∃ X', getMinimalBboxToRenderFromTilesState ⟨M.x1, b, M.x2, b⟩ g = some X' := by
      obtain ⟨S, _, _, hcase⟩ := bbox_spec hg hne hcon
      rcases hcase with ⟨_, e, _⟩ | ⟨_, e, _⟩
      · exact ⟨_, e⟩
      · exact ⟨_, e⟩
    refine ⟨b, b, M.x1, M.x2, X', ⟨b4, le_refl _, c4, le_refl _, by omega, le_refl _⟩, hX4i, eX, ?_,
      b7, b8, c7, fun h => absurd h hlt, fun x _ l1 l2 => by omega, fun h => absurd h hlt,
      fun x _ l1 l2 => by omega, fun h => absurd h hlt, fun _ => ⟨rfl, rfl⟩⟩
    simp only [getMinimalRectsToRenderFromTilesState, tiles_isEmpty_false hne, hret, hnn, hMdef, f1,
      f2, hlt, if_false, eX]
    simp [bandAsserts, RectI.bottom, RectI.top, RectI.left, RectI.right]


/-! ## From the bounding box to the bands -/

/-- Rounding the bounding box clipped to the image bounds gives back the
tile-aligned box. -/
theorem round_intersect {g : TileStateHeader} (hg : WellFormed g) {S : RectI} (hS : Inside g S)
    (hSn : S.isNull = false) (hn : (S.intersect g.bounds RectI.null).2.isNull = false) :
    g.bounds.isNull = false ∧
    (S.intersect g.bounds RectI.null).2 =
      ⟨max S.x1 g.bounds.x1, max S.y1 g.bounds.y1, min S.x2 g.bounds.x2, min S.y2 g.bounds.y2⟩ ∧
    (S.intersect g.bounds RectI.null).2.roundToTileSize g.tileSizeX g.tileSizeY = S := by
  obtain ⟨⟨a1, a2, a3, a4⟩, w1, w2, w3, w4⟩ := hS
  obtain ⟨hT, hU, hr, _⟩ := hg
  have hov : max S.x1 g.bounds.x1 < min S.x2 g.bounds.x2 ∧
      max S.y1 g.bounds.y1 < min S.y2 g.bounds.y2 := by
    unfold RectI.intersect at hn
    simp only at hn
    split at hn
    · simp [RectI.null, RectI.isNull] at hn
    · rename_i h
      simp only [RectI.isNull, Bool.or_eq_true, decide_eq_true_eq, not_or, not_le] at h
      exact h
  have hbn : g.bounds.isNull = false := by
    rw [isNull_false_iff]; omega
  refine ⟨hbn, intersect_of_overlap _ _ _ hov.1 hov.2, ?_⟩
  rw [intersect_of_overlap _ _ _ hov.1 hov.2]
  rw [isNull_false_iff] at hSn
  have sx := step_le hT a1 a2 hSn.1
  have sy := step_le hU a3 a4 hSn.2
  rw [hr] at w1 w2 w3 w4
  simp only [RectI.roundToTileSize] at w1 w2 w3 w4
  have := lt_floor_add hT g.bounds.x1
  have := lt_floor_add hU g.bounds.y1
  have := ceil_lt hT g.bounds.x2
  have := ceil_lt hU g.bounds.y2
  simp only [RectI.roundToTileSize]
  rw [floor_eq hT a1 (le_max_left _ _) (by omega), floor_eq hU a3 (le_max_left _ _) (by omega),
    ceil_eq hT a2 (min_le_left _ _) (by omega), ceil_eq hU a4 (min_le_left _ _) (by omega)]

/-- What `getMinimalRectsToRenderFromTilesState` does on a well-formed grid with
tiles: the bounding box `ret` is computed; when it is null nothing is appended,
and otherwise `ret` is the tile-aligned box `S` clipped to the image bounds and
the bands are peeled from `S`. -/
theorem rects_spec {g : TileStateHeader} (hg : WellFormed g) (hne : g.tiles ≠ []) {roi : RectI}
    (hc : g.boundsRoundedToTileSize.contains roi = true) (out : List RectI) :
    ∃ ret, getMinimalBboxToRenderFromTilesState roi g = some ret ∧
      (∀ tx ty, UnrenderedIn g (roi.roundToTileSize g.tileSizeX g.tileSizeY) tx ty →
        ∀ px py, tx ≤ px → px < tx + g.tileSizeX → ty ≤ py → py < ty + g.tileSizeY →
          g.bounds.hasPixel px py → ret.hasPixel px py) ∧
      ((ret.isNull = true ∧ getMinimalRectsToRenderFromTilesState roi g out = some out) ∨
       (ret.isNull = false ∧ g.bounds.isNull = false ∧
        ∃ (S : RectI) (a b c d : Int) (X' : RectI), Inside g S ∧ S.isNull = false ∧
          ret = ⟨max S.x1 g.bounds.x1, max S.y1 g.bounds.y1,
            min S.x2 g.bounds.x2, min S.y2 g.bounds.y2⟩ ∧
          ((roi.roundToTileSize g.tileSizeX g.tileSizeY).x1 ≤ S.x1 ∧
            S.x2 ≤ (roi.roundToTileSize g.tileSizeX g.tileSizeY).x2 ∧
            (roi.roundToTileSize g.tileSizeX g.tileSizeY).y1 ≤ S.y1 ∧
            S.y2 ≤ (roi.roundToTileSize g.tileSizeX g.tileSizeY).y2) ∧
          SmallestCover g (roi.roundToTileSize g.tileSizeX g.tileSizeY) S ∧
          (∃ tx, UnrenderedIn g (roi.roundToTileSize g.tileSizeX g.tileSizeY) tx S.y1) ∧
          BandFacts g roi out S a b c d X')) := by
  obtain ⟨S, hS, hSR, hcase⟩ := bbox_spec hg hne hc
  rcases hcase with ⟨hn, e, hnone⟩ | ⟨hSn, e, hall, h1, h2, h3, h4⟩
  · refine ⟨S, e, fun tx ty hu => absurd hu (hnone tx ty), Or.inl ⟨hn, ?_⟩⟩
    simp [getMinimalRectsToRenderFromTilesState, tiles_isEmpty_false hne, e, hn]
  · refine ⟨_, e, ?_, ?_⟩
    · intro tx ty hu px py l1 l2 l3 l4 hp
      rw [intersect_hasPixel]
      obtain ⟨k1, k2, k3, k4⟩ := hall tx ty hu
      exact ⟨⟨by omega, by omega, by omega, by omega⟩, hp⟩
    · by_cases hn : (S.intersect g.bounds RectI.null).2.isNull = true
      · left
        refine ⟨hn, ?_⟩
        simp [getMinimalRectsToRenderFromTilesState, tiles_isEmpty_false hne, e, hn]
      · have hn' : (S.intersect g.bounds RectI.null).2.isNull = false := by simpa using hn
        obtain ⟨hbn, heq, hround⟩ := round_intersect hg hS hSn hn'
        obtain ⟨a, b, c, d, X', hbands⟩ := bands_spec hg hne e hn' hround hS hSn out
        exact Or.inr ⟨hn', hbn, S, a, b, c, d, X', hS, hSn, heq, hSR,
          smallestCover_of_spec hS hall h1 h2 h3 h4, h1, hbands⟩


/-! ## Pixels of the pushed rectangles -/

theorem hasPixel_not_null {r : RectI} {px py : Int} (h : r.hasPixel px py) : r.isNull = false := by
  rw [isNull_false_iff]
  unfold RectI.hasPixel at h
  omega

theorem isNull_of_no_pixel {r : RectI} (h : ∀ px py, ¬ r.hasPixel px py) : r.isNull = true := by
  by_contra hc
  have hn : r.isNull = false := by simpa using hc
  rw [isNull_false_iff] at hn
  exact h r.x1 r.y1 ⟨le_refl _, hn.1, le_refl _, hn.2⟩

theorem pushClipped_eq (r roi : RectI) (l : List RectI) :
    pushClipped r roi l = l ++ (if r.isNull then [] else [(r.intersect roi RectI.null).2]) := by
  unfold pushClipped
  cases r.isNull <;> simp

theorem covered_push_self {r roi : RectI} (l : List RectI) {px py : Int} (hr : r.hasPixel px py)
    (hroi : roi.hasPixel px py) : ∃ q ∈ pushClipped r roi l, q.hasPixel px py := by
  refine ⟨(r.intersect roi RectI.null).2, ?_, (intersect_hasPixel r roi px py).2 ⟨hr, hroi⟩⟩
  rw [pushClipped_eq, hasPixel_not_null hr]
  simp

theorem covered_push_mono {r roi : RectI} {l : List RectI} {px py : Int}
    (h : ∃ q ∈ l, q.hasPixel px py) : ∃ q ∈ pushClipped r roi l, q.hasPixel px py := by
  obtain ⟨q, hq, hp⟩ := h
  refine ⟨q, ?_, hp⟩
  rw [pushClipped_eq]
  exact List.mem_append_left _ hq

theorem contains_of_inside {g : TileStateHeader} {r : RectI} (h : Inside g r) :
    g.boundsRoundedToTileSize.contains r = true := by
  rw [contains_iff]; exact ⟨h.2.1, h.2.2.2.1, h.2.2.1, h.2.2.2.2⟩

/-- The bounding box covers the part inside the image bounds of the cell of
every `NotRendered` tile of the rounded `roi`. -/
theorem bbox_covers {g : TileStateHeader} (hg : WellFormed g) (hne : g.tiles ≠ []) {roi ret : RectI}
    (hc : g.boundsRoundedToTileSize.contains roi = true)
    (e : getMinimalBboxToRenderFromTilesState roi g = some ret) {tx ty : Int}
    (hu : UnrenderedIn g (roi.roundToTileSize g.tileSizeX g.tileSizeY) tx ty) {px py : Int}
    (l1 : tx ≤ px) (l2 : px < tx + g.tileSizeX) (l3 : ty ≤ py) (l4 : py < ty + g.tileSizeY)
    (hp : g.bounds.hasPixel px py) : ret.hasPixel px py := by
  obtain ⟨r, e', hcov, _⟩ := rects_spec hg hne hc []
  rw [e] at e'
  cases e'
  exact hcov tx ty hu px py l1 l2 l3 l4 hp

/-- The bounding box of a tile-aligned rectangle has no pixel outside of it. -/
theorem bbox_pixel_subset {g : TileStateHeader} (hg : WellFormed g) (hne : g.tiles ≠ [])
    {r X' : RectI} (hr : Inside g r) (e : getMinimalBboxToRenderFromTilesState r g = some X')
    {px py : Int} (hp : X'.hasPixel px py) : r.hasPixel px py := by
  obtain ⟨S, hS, hSR, hcase⟩ := bbox_spec hg hne (contains_of_inside hr)
  rw [round_of_aligned hr] at hSR hcase
  rcases hcase with ⟨hn, e', _⟩ | ⟨_, e', _⟩
  · rw [e] at e'
    cases e'
    rw [hasPixel_not_null hp] at hn
    cases hn
  · rw [e] at e'
    cases e'
    have := ((intersect_hasPixel S g.bounds px py).1 hp).1
    unfold RectI.hasPixel at this ⊢
    omega

theorem rects_nil {g : TileStateHeader} (h : g.tiles = []) (roi : RectI) (out : List RectI) :
    getMinimalRectsToRenderFromTilesState roi g out = some out := by
  simp [getMinimalRectsToRenderFromTilesState, h]

/-- The rectangles appended by `getMinimalRectsToRenderFromTilesState` cover the
bounds, clipped to `roi`, of the `NotRendered` tiles of the rounded `roi`. -/
theorem rects_cover_core (g : TileStateHeader) (roi : RectI) (hb : BuiltByInit g)
    (hc : g.boundsRoundedToTileSize.contains roi = true) :
    ∃ rs, getMinimalRectsToRenderFromTilesState roi g [] = some rs ∧
      ∀ (tx ty : Int) (t : TileState), g.tileSizeX ∣ tx → g.tileSizeY ∣ ty →
        CellIn g (roi.roundToTileSize g.tileSizeX g.tileSizeY) tx ty →
        g.getTileAt tx ty = some t → t.status = eTileStatusNotRendered →
        ∀ px py : Int, t.bounds.hasPixel px py → roi.hasPixel px py →
          ∃ r ∈ rs, r.hasPixel px py := by
  have hg := hb.wellFormed
  have hT := hg.1
  have hU := hg.2.1
  by_cases hne : g.tiles = []
  · refine ⟨[], rects_nil hne roi [], ?_⟩
    intro tx ty t _ _ _ ht
    rw [getTileAt_nil hne] at ht
    cases ht
  · obtain ⟨ret, e, hcov, hcase⟩ := rects_spec hg hne hc []
    -- every pixel in question lies in the bounding box
    have key : ∀ (tx ty : Int) (t : TileState), g.tileSizeX ∣ tx → g.tileSizeY ∣ ty →
        CellIn g (roi.roundToTileSize g.tileSizeX g.tileSizeY) tx ty →
        g.getTileAt tx ty = some t → t.status = eTileStatusNotRendered →
        ∀ px py : Int, t.bounds.hasPixel px py →
          UnrenderedIn g (roi.roundToTileSize g.tileSizeX g.tileSizeY) tx ty ∧
          (tx ≤ px ∧ px < tx + g.tileSizeX ∧ ty ≤ py ∧ py < ty + g.tileSizeY) ∧
          g.bounds.hasPixel px py := by
      intro tx ty t dx dy hcell ht hs px py hp
      have hu := unrenderedIn_of_cell hg dx dy hcell ht hs
      obtain ⟨_, w1, w2, w3, w4⟩ := inside_round hg hc
      obtain ⟨c1, c2, c3, c4⟩ := hcell
      have hor : IsOrigin g tx ty := ⟨dx, dy, by omega, by omega, by omega, by omega⟩
      rw [hb.tile_bounds hor ht] at hp
      simp only [TileStateHeader.clippedCell, RectI.hasPixel] at hp
      refine ⟨hu, by omega, ?_⟩
      unfold RectI.hasPixel
      omega
    rcases hcase with ⟨hn, er⟩ | ⟨hnn, hbn, S, a, b, c, d, X', hS, hSn, hret, hSR, ⟨_, hall, hmin⟩, _, hbands⟩
    · refine ⟨[], er, ?_⟩
      intro tx ty t dx dy hcell ht hs px py hp _
      obtain ⟨hu, ⟨l1, l2, l3, l4⟩, hpb⟩ := key tx ty t dx dy hcell ht hs px py hp
      have := hasPixel_not_null (hcov tx ty hu px py l1 l2 l3 l4 hpb)
      rw [this] at hn
      cases hn
    · obtain ⟨hord, hXi, eX, er, _⟩ := hbands
      refine ⟨_, er, ?_⟩
      intro tx ty t dx dy hcell ht hs px py hp hproi
      obtain ⟨hu, ⟨l1, l2, l3, l4⟩, hpb⟩ := key tx ty t dx dy hcell ht hs px py hp
      obtain ⟨k1, k2, k3, k4⟩ := hall tx ty hu
      obtain ⟨dc, dd, da, db⟩ := hXi.1
      dsimp only at dc dd da db
      by_cases h1 : ty < a
      · have := step_le hU dy da h1
        exact covered_push_mono (covered_push_mono (covered_push_mono (covered_push_mono
          (covered_push_self [] (r := ⟨S.x1, S.y1, S.x2, a⟩)
            ⟨by dsimp only; omega, by dsimp only; omega, by dsimp only; omega, by dsimp only; omega⟩
            hproi))))
      · by_cases h2 : b ≤ ty
        · exact covered_push_mono (covered_push_mono (covered_push_mono
            (covered_push_self _ (r := ⟨S.x1, b, S.x2, S.y2⟩)
              ⟨by dsimp only; omega, by dsimp only; omega, by dsimp only; omega,
                by dsimp only; omega⟩ hproi)))
        · have hyb := step_le hU dy db (by omega)
          by_cases h3 : tx < c
          · have := step_le hT dx dc h3
            exact covered_push_mono (covered_push_mono
              (covered_push_self _ (r := ⟨S.x1, a, c, b⟩)
                ⟨by dsimp only; omega, by dsimp only; omega, by dsimp only; omega,
                  by dsimp only; omega⟩ hproi))
          · by_cases h4 : d ≤ tx
            · exact covered_push_mono
                (covered_push_self _ (r := ⟨d, a, S.x2, b⟩)
                  ⟨by dsimp only; omega, by dsimp only; omega, by dsimp only; omega,
                    by dsimp only; omega⟩ hproi)
            · have hxd := step_le hT dx dd (by omega)
              have hcX := contains_of_inside hXi
              have huX : UnrenderedIn g
                  ((⟨c, a, d, b⟩ : RectI).roundToTileSize g.tileSizeX g.tileSizeY) tx ty := by
                rw [round_of_aligned hXi]
                exact ⟨dx, dy, by dsimp only; omega, by dsimp only; omega, by dsimp only; omega,
                  by dsimp only; omega, hu.2.2.2.2.2.2⟩
              exact covered_push_self _ (bbox_covers hg hne hcX eX huX l1 l2 l3 l4 hpb) hproi


theorem pushClipped_sublist (r roi : RectI) {l l' : List RectI} (h : l.Sublist l') :
    (pushClipped r roi l).Sublist (l' ++ [(r.intersect roi RectI.null).2]) := by
  rw [pushClipped_eq]
  cases r.isNull with
  | true => simpa using h.trans (List.sublist_append_left _ _)
  | false =>
    simpa using List.Sublist.append h (List.Sublist.refl [(r.intersect roi RectI.null).2])

theorem clipped_disjoint {p q : RectI} (roi : RectI)
    (h : ∀ px py, p.hasPixel px py → q.hasPixel px py → False) :
    ((p.intersect roi RectI.null).2.intersect (q.intersect roi RectI.null).2 RectI.null).2.isNull
      = true := by
  apply isNull_of_no_pixel
  intro px py hp
  rw [intersect_hasPixel, intersect_hasPixel, intersect_hasPixel] at hp
  exact h px py hp.1.1 hp.2.1

/-- The rectangles appended by `getMinimalRectsToRenderFromTilesState` are
pairwise disjoint. -/
theorem rects_pairwise_core (g : TileStateHeader) (roi : RectI) (hg : WellFormed g)
    (hc : g.boundsRoundedToTileSize.contains roi = true) :
    ∃ rs, getMinimalRectsToRenderFromTilesState roi g [] = some rs ∧
      rs.Pairwise (fun p q => (p.intersect q RectI.null).2.isNull = true) := by
  by_cases hne : g.tiles = []
  · exact ⟨[], rects_nil hne roi [], List.Pairwise.nil⟩
  · obtain ⟨ret, e, hcov, hcase⟩ := rects_spec hg hne hc []
    rcases hcase with ⟨hn, er⟩ | ⟨hnn, hbn, S, a, b, c, d, X', hS, hSn, hret, hSR, ⟨_, hall, hmin⟩, _, hbands⟩
    · exact ⟨[], er, List.Pairwise.nil⟩
    · obtain ⟨hord, hXi, eX, er, _⟩ := hbands
      refine ⟨_, er, ?_⟩
      have hsub := pushClipped_sublist X' roi (pushClipped_sublist ⟨d, a, S.x2, b⟩ roi
        (pushClipped_sublist ⟨S.x1, a, c, b⟩ roi (pushClipped_sublist ⟨S.x1, b, S.x2, S.y2⟩ roi
        (pushClipped_sublist ⟨S.x1, S.y1, S.x2, a⟩ roi (List.Sublist.refl [])))))
      refine List.Pairwise.sublist hsub ?_
      have hX : ∀ px py, X'.hasPixel px py → (⟨c, a, d, b⟩ : RectI).hasPixel px py :=
        fun px py hp => bbox_pixel_subset hg hne hXi eX hp
      simp only [List.nil_append, List.cons_append, List.pairwise_cons, List.mem_cons,
        List.mem_singleton, forall_eq_or_imp, forall_eq, List.not_mem_nil, false_imp_iff,
        implies_true, List.Pairwise.nil, and_true]
      refine ⟨⟨?_, ?_, ?_, ?_⟩, ⟨?_, ?_, ?_⟩, ⟨?_, ?_⟩, ?_⟩ <;> apply clipped_disjoint <;>
        intro px py h1 h2 <;>
        first
          | (simp only [RectI.hasPixel] at h1 h2; omega)
          | (have h3 := hX px py h2; simp only [RectI.hasPixel] at h1 h3; omega)


theorem clip_dims (r roi : RectI) :
    ((r.intersect roi RectI.null).2.x2 - (r.intersect roi RectI.null).2.x1).toNat ≤
        (min r.x2 roi.x2 - max r.x1 roi.x1).toNat ∧
    ((r.intersect roi RectI.null).2.y2 - (r.intersect roi RectI.null).2.y1).toNat ≤
        (min r.y2 roi.y2 - max r.y1 roi.y1).toNat := by
  unfold RectI.intersect
  simp only
  split
  · simp [RectI.null]
  · exact ⟨le_refl _, le_refl _⟩

/-- With non-null image bounds, the coordinates of the bounding box of a
tile-aligned rectangle lie inside the rectangle. -/
theorem bbox_coords_subset {g : TileStateHeader} (hg : WellFormed g) (hne : g.tiles ≠ [])
    (hbn : g.bounds.isNull = false) {r X' : RectI} (hr : Inside g r)
    (e : getMinimalBboxToRenderFromTilesState r g = some X') :
    r.x1 ≤ X'.x1 ∧ X'.x2 ≤ r.x2 ∧ r.y1 ≤ X'.y1 ∧ X'.y2 ≤ r.y2 := by
  obtain ⟨S, hS, hSR, hcase⟩ := bbox_spec hg hne (contains_of_inside hr)
  rw [round_of_aligned hr] at hSR hcase
  rcases hcase with ⟨hn, e', _⟩ | ⟨hSn, e', _⟩
  · rw [e] at e'
    cases e'
    exact hSR
  · rw [e] at e'
    cases e'
    obtain ⟨ox, oy⟩ := overlap_bounds hg hbn hS hSn
    rw [intersect_of_overlap _ _ _ ox oy]
    dsimp only
    omega

theorem five_area_le {W H wA hA wB hB wC hC wD hD wX hX : Nat} (hm : Nat) (h1 : wA ≤ W) (h2 : wB ≤ W)
    (h3 : wC + wD + wX ≤ W) (h4 : hC ≤ hm) (h5 : hD ≤ hm) (h6 : hX ≤ hm) (h7 : hA + hB + hm ≤ H) :
    wA * hA + wB * hB + wC * hC + wD * hD + wX * hX ≤ W * H := by
  have t1 : wA * hA ≤ W * hA := Nat.mul_le_mul_right _ h1
  have t2 : wB * hB ≤ W * hB := Nat.mul_le_mul_right _ h2
  have t3 : wC * hC ≤ wC * hm := Nat.mul_le_mul_left _ h4
  have t4 : wD * hD ≤ wD * hm := Nat.mul_le_mul_left _ h5
  have t5 : wX * hX ≤ wX * hm := Nat.mul_le_mul_left _ h6
  have t6 : (wC + wD + wX) * hm ≤ W * hm := Nat.mul_le_mul_right _ h3
  have t7 : W * (hA + hB + hm) ≤ W * H := Nat.mul_le_mul_left _ h7
  rw [Nat.add_mul, Nat.add_mul] at t6
  rw [Nat.mul_add, Nat.mul_add] at t7
  omega

theorem span_le {w : Nat} {S1 S2 r1 r2 b1 b2 : Int} (h : w ≤ (min S2 r2 - max S1 r1).toNat)
    (hb1 : b1 ≤ r1) (hb2 : r2 ≤ b2) : w ≤ (min S2 b2 - max S1 b1).toNat := by
  omega

theorem span3_le {wC wD wX : Nat} {S1 S2 c d X1 X2 r1 r2 b1 b2 : Int}
    (hC : wC ≤ (min c r2 - max S1 r1).toNat) (hD : wD ≤ (min S2 r2 - max d r1).toNat)
    (hX : wX ≤ (min X2 r2 - max X1 r1).toNat) (h1 : c ≤ X1) (h2 : X2 ≤ d)
    (hS1 : S1 ≤ c) (hcd : c ≤ d) (hS2 : d ≤ S2) (hb1 : b1 ≤ r1) (hb2 : r2 ≤ b2) :
    wC + wD + wX ≤ (min S2 b2 - max S1 b1).toNat := by
  omega

theorem span_mid_le {w : Nat} {c d X1 X2 r1 r2 : Int} (hX : w ≤ (min X2 r2 - max X1 r1).toNat)
    (h1 : c ≤ X1) (h2 : X2 ≤ d) : w ≤ (min d r2 - max c r1).toNat := by
  omega

theorem contains_bounds_rounded {g : TileStateHeader} (hg : WellFormed g) {roi : RectI}
    (hcb : g.bounds.contains roi = true) : g.boundsRoundedToTileSize.contains roi = true := by
  obtain ⟨hT, hU, hr, _⟩ := hg
  rw [contains_iff] at hcb ⊢
  rw [hr]
  simp only [RectI.roundToTileSize]
  have := floor_le hT g.bounds.x1
  have := floor_le hU g.bounds.y1
  have := le_ceil hT g.bounds.x2
  have := le_ceil hU g.bounds.y2
  omega

/-- For a `roi` inside the image bounds, the areas of the appended rectangles
sum to at most the area of the bounding box. -/
theorem rects_area_core (g : TileStateHeader) (roi : RectI) (hg : WellFormed g)
    (hcb : g.bounds.contains roi = true) :
    ∃ r rs, getMinimalBboxToRenderFromTilesState roi g = some r ∧
      getMinimalRectsToRenderFromTilesState roi g [] = some rs ∧ totalArea rs ≤ r.area := by
  have hc := contains_bounds_rounded hg hcb
  by_cases hne : g.tiles = []
  · exact ⟨RectI.null, [], by simp [getMinimalBboxToRenderFromTilesState, hne], rects_nil hne roi [],
      by simp [totalArea]⟩
  · obtain ⟨ret, e, hcov, hcase⟩ := rects_spec hg hne hc []
    rcases hcase with ⟨hn, er⟩ |
      ⟨hnn, hbn, S, a, b, c, d, X', hS, hSn, hret, hSR, ⟨_, hall, hmin⟩, _, hbands⟩
    · exact ⟨ret, [], e, er, by simp [totalArea]⟩
    · obtain ⟨hord, hXi, eX, er, _⟩ := hbands
      refine ⟨ret, _, e, er, ?_⟩
      have hsub := pushClipped_sublist X' roi (pushClipped_sublist ⟨d, a, S.x2, b⟩ roi
        (pushClipped_sublist ⟨S.x1, a, c, b⟩ roi (pushClipped_sublist ⟨S.x1, b, S.x2, S.y2⟩ roi
        (pushClipped_sublist ⟨S.x1, S.y1, S.x2, a⟩ roi (List.Sublist.refl [])))))
      have hle := List.Sublist.sum_le_sum (hsub.map RectI.area) (fun _ _ => Nat.zero_le _)
      refine le_trans hle ?_
      simp only [List.nil_append, List.cons_append, List.map_cons, List.map_nil, List.sum_cons,
        List.sum_nil, Nat.add_zero, RectI.area, ← Nat.add_assoc]
      obtain ⟨xA, yA⟩ := clip_dims ⟨S.x1, S.y1, S.x2, a⟩ roi
      obtain ⟨xB, yB⟩ := clip_dims ⟨S.x1, b, S.x2, S.y2⟩ roi
      obtain ⟨xC, yC⟩ := clip_dims ⟨S.x1, a, c, b⟩ roi
      obtain ⟨xD, yD⟩ := clip_dims ⟨d, a, S.x2, b⟩ roi
      obtain ⟨xX, yX⟩ := clip_dims X' roi
      obtain ⟨s1, s2, s3, s4⟩ := bbox_coords_subset hg hne hbn hXi eX
      dsimp only at xA yA xB yB xC yC xD yD s1 s2 s3 s4
      rw [contains_iff] at hcb
      rw [hret]
      dsimp only
      apply five_area_le (min b roi.y2 - max a roi.y1).toNat
      · exact span_le xA hcb.1 hcb.2.2.1
      · exact span_le xB hcb.1 hcb.2.2.1
      · exact span3_le xC xD xX s1 s2 hord.2.2.2.1 hord.2.2.2.2.1 hord.2.2.2.2.2 hcb.1 hcb.2.2.1
      · exact yC
      · exact yD
      · exact span_mid_le yX s3 s4
      · exact span3_le yA yB (le_refl _) (le_refl _) (le_refl _) hord.1 hord.2.1 hord.2.2.1
          hcb.2.1 hcb.2.2.2


/-! ## Where the appended rectangles lie -/

theorem mem_pushClipped {q r roi : RectI} {l : List RectI} (h : q ∈ pushClipped r roi l) :
    q ∈ l ∨ q = (r.intersect roi RectI.null).2 := by
  rw [pushClipped_eq] at h
  rcases List.mem_append.1 h with h | h
  · exact Or.inl h
  · right
    split at h
    · cases h
    · simpa using h

/-- For a `roi` inside the image bounds, every pixel of an appended rectangle
lies in `roi` and in the bounding box. -/
theorem rects_subset_core (g : TileStateHeader) (roi : RectI) (hg : WellFormed g)
    (hcb : g.bounds.contains roi = true) :
    ∃ r rs, getMinimalBboxToRenderFromTilesState roi g = some r ∧
      getMinimalRectsToRenderFromTilesState roi g [] = some rs ∧
      ∀ q ∈ rs, ∀ px py : Int, q.hasPixel px py → roi.hasPixel px py ∧ r.hasPixel px py := by
  have hc := contains_bounds_rounded hg hcb
  by_cases hne : g.tiles = []
  · exact ⟨RectI.null, [], by simp [getMinimalBboxToRenderFromTilesState, hne], rects_nil hne roi [],
      fun q hq => by cases hq⟩
  · obtain ⟨ret, e, hcov, hcase⟩ := rects_spec hg hne hc []
    rcases hcase with ⟨hn, er⟩ |
      ⟨hnn, hbn, S, a, b, c, d, X', hS, hSn, hret, hSR, ⟨_, hall, hmin⟩, _, hbands⟩
    · exact ⟨ret, [], e, er, fun q hq => by cases hq⟩
    · obtain ⟨hord, hXi, eX, er, _⟩ := hbands
      refine ⟨ret, _, e, er, ?_⟩
      intro q hq px py hp
      rw [contains_iff] at hcb
      have hX : ∀ px py, X'.hasPixel px py → (⟨c, a, d, b⟩ : RectI).hasPixel px py :=
        fun px py hp => bbox_pixel_subset hg hne hXi eX hp
      have fin : ∀ r : RectI, (r.x1 ≥ S.x1 ∧ r.x2 ≤ S.x2 ∧ r.y1 ≥ S.y1 ∧ r.y2 ≤ S.y2) →
          (r.intersect roi RectI.null).2.hasPixel px py → roi.hasPixel px py ∧ ret.hasPixel px py := by
        intro r hr hpr
        rw [intersect_hasPixel] at hpr
        refine ⟨hpr.2, ?_⟩
        rw [hret]
        have h1 := hpr.1
        have h2 := hpr.2
        simp only [RectI.hasPixel] at h1 h2 ⊢
        omega
      rcases mem_pushClipped hq with hq | rfl
      · rcases mem_pushClipped hq with hq | rfl
        · rcases mem_pushClipped hq with hq | rfl
          · rcases mem_pushClipped hq with hq | rfl
            · rcases mem_pushClipped hq with hq | rfl
              · cases hq
              · exact fin _ ⟨by dsimp only; omega, by dsimp only; omega, by dsimp only; omega,
                  by dsimp only; omega⟩ hp
            · exact fin _ ⟨by dsimp only; omega, by dsimp only; omega, by dsimp only; omega,
                by dsimp only; omega⟩ hp
          · exact fin _ ⟨by dsimp only; omega, by dsimp only; omega, by dsimp only; omega,
              by dsimp only; omega⟩ hp
        · exact fin _ ⟨by dsimp only; omega, by dsimp only; omega, by dsimp only; omega,
            by dsimp only; omega⟩ hp
      · rw [intersect_hasPixel] at hp
        have h1 := hX px py hp.1
        have h2 := hp.2
        refine ⟨hp.2, ?_⟩
        rw [hret]
        simp only [RectI.hasPixel] at h1 h2 ⊢
        omega

/-- A pixel of the bounding box lies in the smallest tile-aligned rectangle
around the `NotRendered` tiles of the rounded `roi`. -/
theorem bbox_pixel_in_cover {g : TileStateHeader} (hg : WellFormed g) (hne : g.tiles ≠ [])
    {roi r : RectI} (hc : g.boundsRoundedToTileSize.contains roi = true)
    (e : getMinimalBboxToRenderFromTilesState roi g = some r) {px py : Int}
    (hp : r.hasPixel px py) :
    ∃ S, SmallestCover g (roi.roundToTileSize g.tileSizeX g.tileSizeY) S ∧ S.hasPixel px py := by
  obtain ⟨S, hS, hSR, hcase⟩ := bbox_spec hg hne hc
  rcases hcase with ⟨hn, e', _⟩ | ⟨hSn, e', hall, h1, h2, h3, h4⟩
  · rw [e] at e'
    cases e'
    rw [hasPixel_not_null hp] at hn
    cases hn
  · rw [e] at e'
    cases e'
    exact ⟨S, smallestCover_of_spec hS hall h1 h2 h3 h4, ((intersect_hasPixel _ _ _ _).1 hp).1⟩

/-- The bounding box is no larger than `roi` rounded to the tile size. -/
theorem bbox_area_le {g : TileStateHeader} (hg : WellFormed g) {roi r : RectI}
    (hc : g.boundsRoundedToTileSize.contains roi = true)
    (e : getMinimalBboxToRenderFromTilesState roi g = some r) :
    r.area ≤ (roi.roundToTileSize g.tileSizeX g.tileSizeY).area := by
  by_cases hne : g.tiles = []
  · simp [getMinimalBboxToRenderFromTilesState, hne] at e
    subst e
    simp [RectI.area, RectI.null]
  · obtain ⟨S, hS, hSR, hcase⟩ := bbox_spec hg hne hc
    have hSa : S.area ≤ (roi.roundToTileSize g.tileSizeX g.tileSizeY).area := by
      unfold RectI.area
      exact Nat.mul_le_mul (by omega) (by omega)
    rcases hcase with ⟨hn, e', _⟩ | ⟨hSn, e', _⟩
    · rw [e] at e'
      cases e'
      exact hSa
    · rw [e] at e'
      cases e'
      refine le_trans ?_ hSa
      obtain ⟨dx, dy⟩ := clip_dims S g.bounds
      unfold RectI.area
      exact Nat.mul_le_mul (by omega) (by omega)

/-- The cell of a tile that shares a pixel with `roi` lies in `roi` rounded to
the tile size. -/
theorem cell_in_round {g : TileStateHeader} (hg : WellFormed g) {roi : RectI} {tx ty px py : Int}
    (dx : g.tileSizeX ∣ tx) (dy : g.tileSizeY ∣ ty) (l1 : tx ≤ px) (l2 : px < tx + g.tileSizeX)
    (l3 : ty ≤ py) (l4 : py < ty + g.tileSizeY) (hp : roi.hasPixel px py) :
    CellIn g (roi.roundToTileSize g.tileSizeX g.tileSizeY) tx ty := by
  obtain ⟨hT, hU, _, _⟩ := hg
  obtain ⟨p1, p2, p3, p4⟩ := hp
  simp only [CellIn, RectI.roundToTileSize]
  have f1 := floor_le hT roi.x1
  have f2 := floor_le hU roi.y1
  have f3 := le_ceil hT roi.x2
  have f4 := le_ceil hU roi.y2
  refine ⟨?_, ?_, ?_, ?_⟩
  · by_contra hcon
    have := step_le hT dx (floor_dvd _ roi.x1) (by omega)
    omega
  · exact step_le hT dx (ceil_dvd _ roi.x2) (by omega)
  · by_contra hcon
    have := step_le hU dy (floor_dvd _ roi.y1) (by omega)
    omega
  · exact step_le hU dy (ceil_dvd _ roi.y2) (by omega)


/-- C4: on a grid built by `init`, for a `roi` contained in the rounded bounds,
the rectangles appended by `getMinimalRectsToRenderFromTilesState` cover
everything that still needs computing: for every `NotRendered` tile whose cell
lies in `roi` rounded to the tile size, every pixel of the tile bounds
intersected with `roi` lies in at least one returned rectangle. -/
theorem rects_cover_unrendered (g : TileStateHeader) (roi : RectI) (hb : BuiltByInit g)
    (hc : g.boundsRoundedToTileSize.contains roi = true) :
    ∃ rs, getMinimalRectsToRenderFromTilesState roi g [] = some rs ∧
      ∀ (tx ty : Int) (t : TileState), g.tileSizeX ∣ tx → g.tileSizeY ∣ ty →
        CellIn g (roi.roundToTileSize g.tileSizeX g.tileSizeY) tx ty →
        g.getTileAt tx ty = some t → t.status = eTileStatusNotRendered →
        ∀ px py : Int, t.bounds.hasPixel px py → roi.hasPixel px py →
          ∃ r ∈ rs, r.hasPixel px py :=
  rects_cover_core g roi hb hc

theorem rects_cover_unrendered_witness :
    BuiltByInit scenarioB ∧ scenarioB.boundsRoundedToTileSize.contains ⟨0, 0, 100, 100⟩ = true ∧
    ∃ rs, getMinimalRectsToRenderFromTilesState ⟨0, 0, 100, 100⟩ scenarioB [] = some rs ∧
      ∀ (tx ty : Int) (t : TileState), scenarioB.tileSizeX ∣ tx → scenarioB.tileSizeY ∣ ty →
        CellIn scenarioB
          ((⟨0, 0, 100, 100⟩ : RectI).roundToTileSize scenarioB.tileSizeX scenarioB.tileSizeY)
          tx ty →
        scenarioB.getTileAt tx ty = some t → t.status = eTileStatusNotRendered →
        ∀ px py : Int, t.bounds.hasPixel px py → (⟨0, 0, 100, 100⟩ : RectI).hasPixel px py →
          ∃ r ∈ rs, r.hasPixel px py :=
  ⟨by decide, by decide,
    rects_cover_unrendered scenarioB ⟨0, 0, 100, 100⟩ (by decide) (by decide)⟩

/-- C5: on a grid built by `init`, for a `roi` contained in the rounded bounds,
the rectangles appended by one call of `getMinimalRectsToRenderFromTilesState`
to an empty list are pairwise disjoint: any two of them have a null
intersection. -/
theorem rects_pairwise_disjoint (g : TileStateHeader) (roi : RectI) (hb : BuiltByInit g)
    (hc : g.boundsRoundedToTileSize.contains roi = true) :
    ∃ rs, getMinimalRectsToRenderFromTilesState roi g [] = some rs ∧
      rs.Pairwise (fun p q => (p.intersect q RectI.null).2.isNull = true) :=
  rects_pairwise_core g roi hb.wellFormed hc

theorem rects_pairwise_disjoint_witness :
    BuiltByInit marginGrid ∧ marginGrid.boundsRoundedToTileSize.contains ⟨3, 0, 4, 10⟩ = true ∧
    ∃ rs, getMinimalRectsToRenderFromTilesState ⟨3, 0, 4, 10⟩ marginGrid [] = some rs ∧
      rs.Pairwise (fun p q => (p.intersect q RectI.null).2.isNull = true) :=
  ⟨by decide, by decide,
    rects_pairwise_disjoint marginGrid ⟨3, 0, 4, 10⟩ (by decide) (by decide)⟩

/-- C8, the code at the failing input: on the grid `marginGrid` with
`roi = (3,0,4,10)`, a non-null rectangle inside the rounded bounds that lies
beside the image bounds, the bounding box of the part `(2,2,4,8)` left by the
bands is `(2,4,3,6)`, which is non-null and does not meet `roi`; the call
appends three rectangles and the last one is the null rectangle `(0,0,0,0)`,
which is not contained in `roi`. -/
theorem rects_pushes_null_rect :
    BuiltByInit marginGrid ∧ (⟨3, 0, 4, 10⟩ : RectI).isNull = false ∧
    marginGrid.boundsRoundedToTileSize.contains ⟨3, 0, 4, 10⟩ = true ∧
    getMinimalBboxToRenderFromTilesState ⟨2, 2, 4, 8⟩ marginGrid = some ⟨2, 4, 3, 6⟩ ∧
    getMinimalRectsToRenderFromTilesState ⟨3, 0, 4, 10⟩ marginGrid [] =
      some [⟨3, 0, 4, 2⟩, ⟨3, 8, 4, 10⟩, ⟨0, 0, 0, 0⟩] ∧
    (⟨0, 0, 0, 0⟩ : RectI).isNull = true ∧
    (⟨3, 0, 4, 10⟩ : RectI).contains ⟨0, 0, 0, 0⟩ = false := by
  decide

/-- C9: on a grid built by `init` in which the `NotRendered` tiles are exactly
the tiles of the tile rows `[ya, yb)`, a run that lies strictly between the
bottom tile row and the top tile row (so every other row, the bottom and the
top row among them, holds no `NotRendered` tile, as when these two rows are
fully `Rendered`), with `roi` the image bounds,
`getMinimalRectsToRenderFromTilesState` returns rectangles whose union is
exactly the middle band clipped to the image bounds, which are pairwise
disjoint, and whose areas sum to at most the area of `roi` rounded to the tile
size. -/
theorem rects_middle_band (g : TileStateHeader) (ya yb : Int) (hb : BuiltByInit g)
    (hya : g.tileSizeY ∣ ya) (hyb : g.tileSizeY ∣ yb)
    (h1 : g.boundsRoundedToTileSize.y1 < ya) (h3 : yb < g.boundsRoundedToTileSize.y2)
    (hNR : ∀ (tx ty : Int) (t : TileState), IsOrigin g tx ty → g.getTileAt tx ty = some t →
      (t.status = eTileStatusNotRendered ↔ ya ≤ ty ∧ ty < yb)) :
    ∃ rs, getMinimalRectsToRenderFromTilesState g.bounds g [] = some rs ∧
      (∀ px py : Int, (∃ q ∈ rs, q.hasPixel px py) ↔
        ((⟨g.boundsRoundedToTileSize.x1, ya, g.boundsRoundedToTileSize.x2, yb⟩ : RectI).hasPixel
            px py ∧ g.bounds.hasPixel px py)) ∧
      rs.Pairwise (fun p q => (p.intersect q RectI.null).2.isNull = true) ∧
      totalArea rs ≤ (g.bounds.roundToTileSize g.tileSizeX g.tileSizeY).area := by
  have hg := hb.wellFormed
  have hT := hg.1
  have hU := hg.2.1
  have hround := hg.2.2.1
  obtain ⟨⟨a1, a2, a3, a4⟩, _⟩ := hg.inside_bounds
  have hcb : g.bounds.contains g.bounds = true := by rw [contains_iff]; simp
  have hc := contains_bounds_rounded hg hcb
  obtain ⟨r, rs, e, er, harea⟩ := rects_area_core g g.bounds hg hcb
  obtain ⟨rs2, er2, hpair⟩ := rects_pairwise_core g g.bounds hg hc
  obtain ⟨rs3, er3, hcover⟩ := rects_cover_core g g.bounds hb hc
  obtain ⟨r4, rs4, e4, er4, hsub⟩ := rects_subset_core g g.bounds hg hcb
  rw [er] at er2 er3 er4
  rw [e] at e4
  cases er2
  cases er3
  cases er4
  cases e4
  refine ⟨rs, er, ?_, hpair, le_trans harea (bbox_area_le hg hc e)⟩
  intro px py
  constructor
  · rintro ⟨q, hq, hp⟩
    obtain ⟨hpb, hpr⟩ := hsub q hq px py hp
    refine ⟨?_, hpb⟩
    have hne : g.tiles ≠ [] := by
      intro hnil
      rw [rects_nil hnil] at er
      cases er
      cases hq
    obtain ⟨S, ⟨_, _, hmin⟩, hpS⟩ := bbox_pixel_in_cover hg hne hc e hpr
    have hband : ∀ tx ty, UnrenderedIn g (g.bounds.roundToTileSize g.tileSizeX g.tileSizeY) tx ty →
        CellIn g ⟨g.boundsRoundedToTileSize.x1, ya, g.boundsRoundedToTileSize.x2, yb⟩ tx ty := by
      rintro tx ty ⟨dx, dy, l1, l2, l3, l4, t, ht, hs⟩
      rw [← hround] at l1 l2 l3 l4
      have hs' : t.status = eTileStatusNotRendered := by simpa [isNotRendered] using hs
      obtain ⟨k1, k2⟩ := (hNR tx ty t ⟨dx, dy, l1, l2, l3, l4⟩ ht).1 hs'
      exact ⟨l1, step_le hT dx a2 l2, k1, step_le hU dy hyb k2⟩
    have hcon := hmin _ hband
    rw [contains_iff] at hcon
    dsimp only at hcon
    simp only [RectI.hasPixel] at hpS ⊢
    omega
  · rintro ⟨⟨p1, p2, p3, p4⟩, hpb⟩
    dsimp only at p1 p2 p3 p4
    have fx1 := floor_le hT px
    have fx2 := lt_floor_add hT px
    have fy1 := floor_le hU py
    have fy2 := lt_floor_add hU py
    have ho : IsOrigin g (px - px % g.tileSizeX) (py - py % g.tileSizeY) :=
      ⟨floor_dvd _ _, floor_dvd _ _, le_floor hT a1 p1, by omega,
        le_floor hU a3 (by omega), by omega⟩
    have hne := hb.tiles_ne_nil ho
    obtain ⟨t, ht⟩ := getTileAt_isSome hg hne ho
    have hs : t.status = eTileStatusNotRendered :=
      (hNR _ _ t ho ht).2 ⟨le_floor hU hya p3, by omega⟩
    have hcell := cell_in_round hg (floor_dvd g.tileSizeX px) (floor_dvd g.tileSizeY py) fx1 fx2
      fy1 fy2 hpb
    refine hcover _ _ t (floor_dvd _ _) (floor_dvd _ _) hcell ht hs px py ?_ hpb
    rw [hb.tile_bounds ho ht]
    obtain ⟨q1, q2, q3, q4⟩ := hpb
    simp only [TileStateHeader.clippedCell, RectI.hasPixel]
    omega

theorem rects_middle_band_witness :
    BuiltByInit scenarioC ∧
    ∃ rs, getMinimalRectsToRenderFromTilesState scenarioC.bounds scenarioC [] = some rs ∧
      (∀ px py : Int, (∃ q ∈ rs, q.hasPixel px py) ↔
        ((⟨scenarioC.boundsRoundedToTileSize.x1, 2, scenarioC.boundsRoundedToTileSize.x2, 4⟩ :
            RectI).hasPixel px py ∧ scenarioC.bounds.hasPixel px py)) ∧
      rs.Pairwise (fun p q => (p.intersect q RectI.null).2.isNull = true) ∧
      totalArea rs ≤ (scenarioC.bounds.roundToTileSize scenarioC.tileSizeX
        scenarioC.tileSizeY).area :=
  ⟨by decide,
    rects_middle_band scenarioC 2 4 (by decide) (by decide) (by decide) (by decide) (by decide) (by
      intro tx ty t ho ht
      obtain ⟨dx, dy, o1, o2, o3, o4⟩ := ho
      simp only [scenarioC] at dx dy o1 o2 o3 o4
      have hx : tx = 0 ∨ tx = 2 := by omega
      have hy : ty = 0 ∨ ty = 2 ∨ ty = 4 := by omega
      rcases hx with rfl | rfl <;> rcases hy with rfl | rfl | rfl
      · have e : scenarioC.getTileAt 0 0 = some ⟨⟨0, 0, 2, 2⟩, eTileStatusRendered⟩ := by decide
        rw [e] at ht; cases ht; decide
      · have e : scenarioC.getTileAt 0 2 = some ⟨⟨0, 2, 2, 4⟩, eTileStatusNotRendered⟩ := by decide
        rw [e] at ht; cases ht; decide
      · have e : scenarioC.getTileAt 0 4 = some ⟨⟨0, 4, 2, 6⟩, eTileStatusRendered⟩ := by decide
        rw [e] at ht; cases ht; decide
      · have e : scenarioC.getTileAt 2 0 = some ⟨⟨2, 0, 3, 2⟩, eTileStatusRendered⟩ := by decide
        rw [e] at ht; cases ht; decide
      · have e : scenarioC.getTileAt 2 2 = some ⟨⟨2, 2, 3, 4⟩, eTileStatusNotRendered⟩ := by decide
        rw [e] at ht; cases ht; decide
      · have e : scenarioC.getTileAt 2 4 = some ⟨⟨2, 4, 3, 6⟩, eTileStatusRendered⟩ := by decide
        rw [e] at ht; cases ht; decide)⟩

/-- For positive tile sizes and a non-null rectangle with which every value
`init` computes in `int` is the value of an `int`, `init` runs through: the
rounded bounds hold `n` tile columns and `m` tile rows, the filling loops end
with `tile_i = m * n`, which is the number of tiles, every tile keeps the
status `NotRendered` and receives the bounds of its clipped cell. -/
theorem init_total (old : TileStateHeader) {T U : Int} {roi : RectI} (hT : 0 < T) (hU : 0 < U)
    (hroi : roi.isNull = false) (hfit : TileStateHeader.initFitsInt T U roi) :
    ∃ (g : TileStateHeader) (n m : Nat),
      TileStateHeader.init old T U roi = some g ∧
      g.tileSizeX = T ∧ g.tileSizeY = U ∧ g.bounds = roi ∧
      g.boundsRoundedToTileSize = roi.roundToTileSize T U ∧
      g.boundsRoundedToTileSize.width = T * n ∧ g.boundsRoundedToTileSize.height = U * m ∧
      0 < n ∧ 0 < m ∧ g.tiles.length = m * n ∧
      TileStateHeader.initRows
          ⟨T, U, roi, roi.roundToTileSize T U, List.replicate (m * n) TileState.default⟩
          (((roi.roundToTileSize T U).y2 - (roi.roundToTileSize T U).y1).toNat + 1)
          (roi.roundToTileSize T U).y1 0 (List.replicate (m * n) TileState.default) =
        some (m * n, g.tiles) ∧
      g.tiles.map (fun t => t.status) = List.replicate (m * n) eTileStatusNotRendered ∧
      (∀ j i : Nat, j < m → i < n →
        (g.tiles[j * n + i]?).map (fun t => t.bounds) =
          some (g.clippedCell ((roi.roundToTileSize T U).x1 + T * i)
            ((roi.roundToTileSize T U).y1 + U * j))) := by
  rw [isNull_false_iff] at hroi
  have f1 := floor_le hT roi.x1
  have f2 := floor_le hU roi.y1
  have f3 := le_ceil hT roi.x2
  have f4 := le_ceil hU roi.y2
  obtain ⟨R, hR⟩ : ∃ R, R = roi.roundToTileSize T U := ⟨_, rfl⟩
  have hx1 : R.x1 = roi.x1 - roi.x1 % T := by rw [hR]; rfl
  have hy1 : R.y1 = roi.y1 - roi.y1 % U := by rw [hR]; rfl
  have hx2 : R.x2 = roi.x2 + (T - roi.x2 % T) % T := by rw [hR]; rfl
  have hy2 : R.y2 = roi.y2 + (U - roi.y2 % U) % U := by rw [hR]; rfl
  have d1 : T ∣ R.x1 := by rw [hx1]; exact floor_dvd _ _
  have d2 : T ∣ R.x2 := by rw [hx2]; exact ceil_dvd _ _
  have d3 : U ∣ R.y1 := by rw [hy1]; exact floor_dvd _ _
  have d4 : U ∣ R.y2 := by rw [hy2]; exact ceil_dvd _ _
  obtain ⟨n, hn⟩ := exists_nat_mul hT (Int.dvd_sub d2 d1) (by omega)
  obtain ⟨m, hm⟩ := exists_nat_mul hU (Int.dvd_sub d4 d3) (by omega)
  have hn0 : 0 < n := by
    by_contra hc
    have : n = 0 := by omega
    subst this
    simp at hn
    omega
  have hm0 : 0 < m := by
    by_contra hc
    have : m = 0 := by omega
    subst this
    simp at hm
    omega
  have hcount : (R.width.tdiv T) * (R.height.tdiv U) = ((m * n : Nat) : Int) := by
    rw [RectI.width, RectI.height, hn, hm, Int.mul_tdiv_cancel_left _ (ne_of_gt hT),
      Int.mul_tdiv_cancel_left _ (ne_of_gt hU)]
    push_cast; ring
  obtain ⟨tiles', e, p1, p2, p3, p4⟩ := initRows_spec
    ⟨T, U, roi, R, List.replicate (m * n) TileState.default⟩ hT hU n hn m
    ((R.y2 - R.y1).toNat + 1) R.y1 0 (List.replicate (m * n) TileState.default)
    hm (by have := le_tile_mul hU m; omega) (by rw [List.length_replicate]; omega)
  simp only [Nat.zero_add] at e p4
  rw [← hR]
  refine ⟨⟨T, U, roi, R, tiles'⟩, n, m, ?_, rfl, rfl, rfl, rfl, ?_, ?_, hn0, hm0, ?_, e, ?_, ?_⟩
  · unfold TileStateHeader.init
    rw [if_pos ⟨hT, hU⟩]
    simp only [hfit, true_and, TileStateHeader.tileCount, ← hR, hcount, Int.toNat_ofNat,
      Int.ofNat_nonneg, if_true, Nat.cast_nonneg, e]
  · exact hn
  · exact hm
  · rw [p1, List.length_replicate]
  · rw [p2]
    simp [TileState.default]
  · intro j i hj hi
    exact p4 j i hj hi

theorem init_irrelevant_old (old old' : TileStateHeader) (T U : Int) (roi : RectI) :
    TileStateHeader.init old T U roi = TileStateHeader.init old' T U roi := rfl

theorem builtByInit_of_init {old g : TileStateHeader} {T U : Int} {roi : RectI}
    (h : TileStateHeader.init old T U roi = some g) : BuiltByInit g := by
  obtain ⟨_, _, s3, s4, s5, _⟩ := init_some h
  unfold BuiltByInit
  rw [s3, s4, s5, init_irrelevant_old g old, h]
  rfl

/-- C11 as stated fails: `init(1, 1, (0,0,65536,65536))` has positive tile sizes
and a non-null `roi`, the rounded bounds are `(0,0,65536,65536)` and the number
of tiles `65536 * 65536 = 4294967296` is not the value of an `int`; `init` does
not run through. -/
theorem init_tile_count_overflows :
    (0 : Int) < 1 ∧ (⟨0, 0, 65536, 65536⟩ : RectI).isNull = false ∧
    (⟨0, 0, 65536, 65536⟩ : RectI).roundToTileSize 1 1 = ⟨0, 0, 65536, 65536⟩ ∧
    ((⟨0, 0, 65536, 65536⟩ : RectI).width.tdiv 1) * ((⟨0, 0, 65536, 65536⟩ : RectI).height.tdiv 1) =
      4294967296 ∧
    ¬ fitsInt 4294967296 ∧
    TileStateHeader.init scenarioA 1 1 ⟨0, 0, 65536, 65536⟩ = none ∧
    ¬ ∀ (old : TileStateHeader) (T U : Int) (roi : RectI), 0 < T → 0 < U → roi.isNull = false →
      ∃ g, TileStateHeader.init old T U roi = some g ∧
        (g.tiles.length : Int) =
          (g.boundsRoundedToTileSize.width.tdiv g.tileSizeX) *
            (g.boundsRoundedToTileSize.height.tdiv g.tileSizeY) := by
  refine ⟨by decide, by decide, by decide, by decide, by decide, by decide, ?_⟩
  intro h
  obtain ⟨g, e, _⟩ := h scenarioA 1 1 ⟨0, 0, 65536, 65536⟩ (by decide) (by decide) (by decide)
  have hnone : TileStateHeader.init scenarioA 1 1 ⟨0, 0, 65536, 65536⟩ = none := by decide
  rw [hnone] at e
  cases e

/-- C11, amended: for positive tile sizes and a non-null `roi` with which every
value `init` computes in `int` is the value of an `int`, `init` runs through
(the assertion `tile_i < tiles.size()` never fails), the number of tiles is
`(boundsRoundedToTileSize.width() / tileSizeX) * (boundsRoundedToTileSize.height() / tileSizeY)`
with both divisions exact, and the filling loops end with `tile_i` equal to
that number, having visited exactly that many tiles. -/
theorem init_tile_count (old : TileStateHeader) (T U : Int) (roi : RectI) (hT : 0 < T) (hU : 0 < U)
    (hroi : roi.isNull = false) (hfit : TileStateHeader.initFitsInt T U roi) :
    ∃ g, TileStateHeader.init old T U roi = some g ∧
      (g.tiles.length : Int) =
        (g.boundsRoundedToTileSize.width.tdiv g.tileSizeX) *
          (g.boundsRoundedToTileSize.height.tdiv g.tileSizeY) ∧
      g.tileSizeX ∣ g.boundsRoundedToTileSize.width ∧
      g.tileSizeY ∣ g.boundsRoundedToTileSize.height ∧
      TileStateHeader.initRows
          ⟨T, U, roi, roi.roundToTileSize T U, List.replicate g.tiles.length TileState.default⟩
          (((roi.roundToTileSize T U).y2 - (roi.roundToTileSize T U).y1).toNat + 1)
          (roi.roundToTileSize T U).y1 0 (List.replicate g.tiles.length TileState.default) =
        some (g.tiles.length, g.tiles) := by
  obtain ⟨g, n, m, e, s1, s2, s3, s4, s5, s6, hn, hm, hl, hrun, _⟩ :=
    init_total old hT hU hroi hfit
  refine ⟨g, e, ?_, ?_, ?_, ?_⟩
  · rw [s5, s6, s1, s2, Int.mul_tdiv_cancel_left _ (ne_of_gt hT),
      Int.mul_tdiv_cancel_left _ (ne_of_gt hU), hl]
    push_cast; ring
  · rw [s5, s1]; exact Dvd.intro _ rfl
  · rw [s6, s2]; exact Dvd.intro _ rfl
  · rw [hl]; exact hrun

theorem init_tile_count_witness :
    (0 : Int) < 64 ∧ (⟨0, 0, 100, 100⟩ : RectI).isNull = false ∧
    TileStateHeader.initFitsInt 64 64 ⟨0, 0, 100, 100⟩ ∧
    TileStateHeader.init scenarioB 64 64 ⟨0, 0, 100, 100⟩ = some scenarioA ∧
    scenarioA.tiles.length = 4 ∧
    ∃ g, TileStateHeader.init scenarioB 64 64 ⟨0, 0, 100, 100⟩ = some g ∧
      (g.tiles.length : Int) =
        (g.boundsRoundedToTileSize.width.tdiv g.tileSizeX) *
          (g.boundsRoundedToTileSize.height.tdiv g.tileSizeY) ∧
      g.tileSizeX ∣ g.boundsRoundedToTileSize.width ∧
      g.tileSizeY ∣ g.boundsRoundedToTileSize.height ∧
      TileStateHeader.initRows
          ⟨64, 64, ⟨0, 0, 100, 100⟩, (⟨0, 0, 100, 100⟩ : RectI).roundToTileSize 64 64,
            List.replicate g.tiles.length TileState.default⟩
          ((((⟨0, 0, 100, 100⟩ : RectI).roundToTileSize 64 64).y2 -
            ((⟨0, 0, 100, 100⟩ : RectI).roundToTileSize 64 64).y1).toNat + 1)
          ((⟨0, 0, 100, 100⟩ : RectI).roundToTileSize 64 64).y1 0
          (List.replicate g.tiles.length TileState.default) =
        some (g.tiles.length, g.tiles) :=
  ⟨by decide, by decide, by decide, by decide, by decide,
    init_tile_count scenarioB 64 64 ⟨0, 0, 100, 100⟩ (by decide) (by decide) (by decide)
      (by decide)⟩

/-- C12 as stated fails: after `init(1, 1, (0,0,65536,65536))`, whose tile
sizes are positive and whose `roi` is not null, there is no grid to look a tile
up in, for the number of tiles `4294967296` is not the value of an `int` and
`init` does not run through. -/
theorem init_tile_bounds_overflows :
    (0 : Int) < 1 ∧ (⟨0, 0, 65536, 65536⟩ : RectI).isNull = false ∧
    ¬ TileStateHeader.initFitsInt 1 1 ⟨0, 0, 65536, 65536⟩ ∧
    TileStateHeader.init scenarioB 1 1 ⟨0, 0, 65536, 65536⟩ = none ∧
    ¬ ∀ (old : TileStateHeader) (T U : Int) (roi : RectI), 0 < T → 0 < U → roi.isNull = false →
      ∃ g, TileStateHeader.init old T U roi = some g ∧
        ∀ tx ty : Int, IsOrigin g tx ty →
          ∃ t, g.getTileAt tx ty = some t ∧
            (⟨tx, ty, tx + T, ty + U⟩ : RectI).intersect roi RectI.null = (true, t.bounds) := by
  refine ⟨by decide, by decide, by decide, by decide, ?_⟩
  intro h
  obtain ⟨g, e, _⟩ := h scenarioB 1 1 ⟨0, 0, 65536, 65536⟩ (by decide) (by decide) (by decide)
  have hnone : TileStateHeader.init scenarioB 1 1 ⟨0, 0, 65536, 65536⟩ = none := by decide
  rw [hnone] at e
  cases e

/-- C12, amended: for positive tile sizes and a non-null `roi` with which every
value `init` computes in `int` is the value of an `int`, after `init` the tile
`getTileAt(tx, ty)` exists at every tile-aligned origin inside the rounded
bounds, and its bounds are the intersection of the cell
`[tx, tx+tileSizeX) x [ty, ty+tileSizeY)` with the unrounded `roi`. -/
theorem init_tile_bounds (old : TileStateHeader) (T U : Int) (roi : RectI) (hT : 0 < T)
    (hU : 0 < U) (hroi : roi.isNull = false) (hfit : TileStateHeader.initFitsInt T U roi) :
    ∃ g, TileStateHeader.init old T U roi = some g ∧
      ∀ tx ty : Int, IsOrigin g tx ty →
        ∃ t, g.getTileAt tx ty = some t ∧
          (⟨tx, ty, tx + T, ty + U⟩ : RectI).intersect roi RectI.null = (true, t.bounds) := by
  obtain ⟨g, n, m, e, s1, s2, s3, s4, _⟩ := init_total old hT hU hroi hfit
  refine ⟨g, e, ?_⟩
  intro tx ty ho
  have hb := builtByInit_of_init e
  have hg := hb.wellFormed
  obtain ⟨t, ht⟩ := getTileAt_isSome hg (hb.tiles_ne_nil ho) ho
  refine ⟨t, ht, ?_⟩
  rw [hb.tile_bounds ho ht]
  obtain ⟨dx, dy, o1, o2, o3, o4⟩ := ho
  obtain ⟨⟨_, a2, _, a4⟩, _⟩ := hg.inside_bounds
  rw [isNull_false_iff] at hroi
  have sx := step_le hT (s1 ▸ dx) (s1 ▸ a2) o2
  have sy := step_le hU (s2 ▸ dy) (s2 ▸ a4) o4
  rw [s4] at o1 o3 sx sy
  simp only [RectI.roundToTileSize] at o1 o3 sx sy
  have q1 := lt_floor_add hT roi.x1
  have q2 := lt_floor_add hU roi.y1
  have q3 := ceil_lt hT roi.x2
  have q4 := ceil_lt hU roi.y2
  unfold RectI.intersect
  simp only [TileStateHeader.clippedCell, s1, s2, s3]
  rw [if_neg]
  simp only [RectI.isNull, Bool.or_eq_true, decide_eq_true_eq, not_or, not_le]
  omega

theorem init_tile_bounds_witness :
    (0 : Int) < 64 ∧ (⟨0, 0, 100, 100⟩ : RectI).isNull = false ∧
    TileStateHeader.initFitsInt 64 64 ⟨0, 0, 100, 100⟩ ∧
    TileStateHeader.init scenarioB 64 64 ⟨0, 0, 100, 100⟩ = some scenarioA ∧
    scenarioA.boundsRoundedToTileSize = ⟨0, 0, 128, 128⟩ ∧ scenarioA.tiles.length = 4 ∧
    (scenarioA.getTileAt 64 64).map (fun t => t.bounds) = some ⟨64, 64, 100, 100⟩ ∧
    ∃ g, TileStateHeader.init scenarioB 64 64 ⟨0, 0, 100, 100⟩ = some g ∧
      ∀ tx ty : Int, IsOrigin g tx ty →
        ∃ t, g.getTileAt tx ty = some t ∧
          (⟨tx, ty, tx + 64, ty + 64⟩ : RectI).intersect ⟨0, 0, 100, 100⟩ RectI.null =
            (true, t.bounds) :=
  ⟨by decide, by decide, by decide, by decide, by decide, by decide, by decide,
    init_tile_bounds scenarioB 64 64 ⟨0, 0, 100, 100⟩ (by decide) (by decide) (by decide)
      (by decide)⟩

/-- C13 as stated fails: `init(1, 1, (0,0,65536,65536))`, called on a header
that holds `Rendered` tiles, does not run through and leaves no grid, for the
number of tiles `4294967296` is not the value of an `int`. -/
theorem init_all_not_rendered_overflows :
    (0 : Int) < 1 ∧ (⟨0, 0, 65536, 65536⟩ : RectI).isNull = false ∧
    ¬ TileStateHeader.initFitsInt 1 1 ⟨0, 0, 65536, 65536⟩ ∧
    TileStateHeader.init scenarioC 1 1 ⟨0, 0, 65536, 65536⟩ = none ∧
    ¬ ∀ (old : TileStateHeader) (T U : Int) (roi : RectI), 0 < T → 0 < U → roi.isNull = false →
      ∃ g, TileStateHeader.init old T U roi = some g ∧
        ∀ t ∈ g.tiles, t.status = eTileStatusNotRendered := by
  refine ⟨by decide, by decide, by decide, by decide, ?_⟩
  intro h
  obtain ⟨g, e, _⟩ := h scenarioC 1 1 ⟨0, 0, 65536, 65536⟩ (by decide) (by decide) (by decide)
  have hnone : TileStateHeader.init scenarioC 1 1 ⟨0, 0, 65536, 65536⟩ = none := by decide
  rw [hnone] at e
  cases e

/-- C13, amended: for positive tile sizes and a non-null `roi` with which every
value `init` computes in `int` is the value of an `int`, right after `init`
every tile of the grid has status `NotRendered`, whatever the header held
before the call, tiles that were `Rendered` or `Pending` included. -/
theorem init_all_not_rendered (old : TileStateHeader) (T U : Int) (roi : RectI) (hT : 0 < T)
    (hU : 0 < U) (hroi : roi.isNull = false) (hfit : TileStateHeader.initFitsInt T U roi) :
    ∃ g, TileStateHeader.init old T U roi = some g ∧
      ∀ t ∈ g.tiles, t.status = eTileStatusNotRendered := by
  obtain ⟨g, n, m, e, _, _, _, _, _, _, _, _, _, _, hst, _⟩ := init_total old hT hU hroi hfit
  refine ⟨g, e, ?_⟩
  intro t ht
  have hmem : t.status ∈ g.tiles.map (fun t => t.status) := List.mem_map_of_mem _ ht
  rw [hst] at hmem
  exact (List.mem_replicate.1 hmem).2

theorem init_all_not_rendered_witness :
    (0 : Int) < 64 ∧ (⟨0, 0, 100, 100⟩ : RectI).isNull = false ∧
    TileStateHeader.initFitsInt 64 64 ⟨0, 0, 100, 100⟩ ∧
    (∃ t ∈ scenarioB.tiles, t.status = eTileStatusRendered) ∧
    ∃ g, TileStateHeader.init scenarioB 64 64 ⟨0, 0, 100, 100⟩ = some g ∧
      ∀ t ∈ g.tiles, t.status = eTileStatusNotRendered :=
  ⟨by decide, by decide, by decide, by decide,
    init_all_not_rendered scenarioB 64 64 ⟨0, 0, 100, 100⟩ (by decide) (by decide) (by decide)
      (by decide)⟩

/-! ## Every lookup of the solver is made at a tile origin -/

theorem scanRowLookups_origin {g : TileStateHeader} (hT : 0 < g.tileSizeX)
    (hit : TileStatus → Bool) {y x2 : Int} (hy : g.tileSizeY ∣ y)
    (hy1 : g.boundsRoundedToTileSize.y1 ≤ y) (hy2 : y < g.boundsRoundedToTileSize.y2)
    (hx2 : x2 ≤ g.boundsRoundedToTileSize.x2) :
    ∀ (fuel : Nat) (x : Int), g.tileSizeX ∣ x → g.boundsRoundedToTileSize.x1 ≤ x →
      ∀ p ∈ scanRowLookups g hit y x2 fuel x, IsOrigin g p.1 p.2 := by
  intro fuel
  induction fuel with
  | zero => intro x _ _ p hp; simp [scanRowLookups] at hp
  | succ n ih =>
    intro x dx hx1 p hp
    simp only [scanRowLookups] at hp
    split at hp
    · rename_i hx
      rcases List.mem_cons.1 hp with rfl | hp
      · exact ⟨dx, hy, hx1, by omega, hy1, hy2⟩
      · split at hp
        · cases hp
        · split at hp
          · cases hp
          · exact ih (x + g.tileSizeX) (Int.dvd_add dx (dvd_refl _)) (by omega) p hp
    · cases hp

theorem scanColLookups_origin {g : TileStateHeader} (hU : 0 < g.tileSizeY)
    (hit : TileStatus → Bool) {x y2 : Int} (hx : g.tileSizeX ∣ x)
    (hx1 : g.boundsRoundedToTileSize.x1 ≤ x) (hx2 : x < g.boundsRoundedToTileSize.x2)
    (hy2 : y2 ≤ g.boundsRoundedToTileSize.y2) :
    ∀ (fuel : Nat) (y : Int), g.tileSizeY ∣ y → g.boundsRoundedToTileSize.y1 ≤ y →
      ∀ p ∈ scanColLookups g hit x y2 fuel y, IsOrigin g p.1 p.2 := by
  intro fuel
  induction fuel with
  | zero => intro y _ _ p hp; simp [scanColLookups] at hp
  | succ n ih =>
    intro y dy hy1 p hp
    simp only [scanColLookups] at hp
    split at hp
    · rename_i hy
      rcases List.mem_cons.1 hp with rfl | hp
      · exact ⟨hx, dy, hx1, hx2, hy1, by omega⟩
      · split at hp
        · cases hp
        · split at hp
          · cases hp
          · exact ih (y + g.tileSizeY) (Int.dvd_add dy (dvd_refl _)) (by omega) p hp
    · cases hp

theorem rowLookups_origin {g : TileStateHeader} (hg : WellFormed g) (hit : TileStatus → Bool)
    {r : RectI} (hr : Inside g r) {y : Int} (hy : g.tileSizeY ∣ y)
    (hy1 : g.boundsRoundedToTileSize.y1 ≤ y) (hy2 : y < g.boundsRoundedToTileSize.y2) :
    ∀ p ∈ rowLookups g hit r y, IsOrigin g p.1 p.2 :=
  scanRowLookups_origin hg.1 hit hy hy1 hy2 hr.2.2.1 _ _ hr.1.1 hr.2.1

theorem colLookups_origin {g : TileStateHeader} (hg : WellFormed g) (hit : TileStatus → Bool)
    {r : RectI} (hr : Inside g r) {x : Int} (hx : g.tileSizeX ∣ x)
    (hx1 : g.boundsRoundedToTileSize.x1 ≤ x) (hx2 : x < g.boundsRoundedToTileSize.x2) :
    ∀ p ∈ colLookups g hit r x, IsOrigin g p.1 p.2 :=
  scanColLookups_origin hg.2.1 hit hx hx1 hx2 hr.2.2.2.2 _ _ hr.1.2.2.1 hr.2.2.2.1

theorem shrinkBottomLookups_origin {g : TileStateHeader} (hg : WellFormed g)
    (hit : TileStatus → Bool) :
    ∀ (fuel : Nat) (y : Int) (r : RectI), Inside g r → y = r.y1 →
      ∀ p ∈ shrinkBottomLookups g hit fuel y r, IsOrigin g p.1 p.2 := by
  intro fuel
  induction fuel with
  | zero => intro y r _ _ p hp; simp [shrinkBottomLookups] at hp
  | succ n ih =>
    intro y r hr hy p hp
    subst hy
    obtain ⟨⟨a1, a2, a3, a4⟩, w1, w2, w3, w4⟩ := hr
    simp only [shrinkBottomLookups] at hp
    split at hp
    · rename_i hlt
      rcases List.mem_append.1 hp with hp | hp
      · exact rowLookups_origin hg hit ⟨⟨a1, a2, a3, a4⟩, w1, w2, w3, w4⟩ a3 w3 (by omega) p hp
      · split at hp
        · cases hp
        · split at hp
          · exact ih (r.y1 + g.tileSizeY) ⟨r.x1, r.y1 + g.tileSizeY, r.x2, r.y2⟩
              ⟨⟨a1, a2, Int.dvd_add a3 (dvd_refl _), a4⟩, w1, w2,
                by have := hg.2.1; dsimp only; omega, w4⟩ rfl p hp
          · cases hp
    · cases hp

theorem shrinkTopLookups_origin {g : TileStateHeader} (hg : WellFormed g)
    (hit : TileStatus → Bool) :
    ∀ (fuel : Nat) (y : Int) (r : RectI), Inside g r → y = r.y2 - g.tileSizeY →
      ∀ p ∈ shrinkTopLookups g hit fuel y r, IsOrigin g p.1 p.2 := by
  intro fuel
  induction fuel with
  | zero => intro y r _ _ p hp; simp [shrinkTopLookups] at hp
  | succ n ih =>
    intro y r hr hy p hp
    subst hy
    have hU := hg.2.1
    obtain ⟨⟨a1, a2, a3, a4⟩, w1, w2, w3, w4⟩ := hr
    simp only [shrinkTopLookups] at hp
    split at hp
    · rename_i hge
      rcases List.mem_append.1 hp with hp | hp
      · exact rowLookups_origin hg hit ⟨⟨a1, a2, a3, a4⟩, w1, w2, w3, w4⟩
          (Int.dvd_sub a4 (dvd_refl _)) (by omega) (by omega) p hp
      · split at hp
        · cases hp
        · split at hp
          · exact ih (r.y2 - g.tileSizeY - g.tileSizeY) ⟨r.x1, r.y1, r.x2, r.y2 - g.tileSizeY⟩
              ⟨⟨a1, a2, a3, Int.dvd_sub a4 (dvd_refl _)⟩, w1, w2, w3,
                by dsimp only; omega⟩ rfl p hp
          · cases hp
    · cases hp

theorem shrinkLeftLookups_origin {g : TileStateHeader} (hg : WellFormed g)
    (hit : TileStatus → Bool) :
    ∀ (fuel : Nat) (x : Int) (r : RectI), Inside g r → x = r.x1 →
      ∀ p ∈ shrinkLeftLookups g hit fuel x r, IsOrigin g p.1 p.2 := by
  intro fuel
  induction fuel with
  | zero => intro x r _ _ p hp; simp [shrinkLeftLookups] at hp
  | succ n ih =>
    intro x r hr hx p hp
    subst hx
    obtain ⟨⟨a1, a2, a3, a4⟩, w1, w2, w3, w4⟩ := hr
    simp only [shrinkLeftLookups] at hp
    split at hp
    · rename_i hlt
      rcases List.mem_append.1 hp with hp | hp
      · exact colLookups_origin hg hit ⟨⟨a1, a2, a3, a4⟩, w1, w2, w3, w4⟩ a1 w1 (by omega) p hp
      · split at hp
        · cases hp
        · split at hp
          · exact ih (r.x1 + g.tileSizeX) ⟨r.x1 + g.tileSizeX, r.y1, r.x2, r.y2⟩
              ⟨⟨Int.dvd_add a1 (dvd_refl _), a2, a3, a4⟩,
                by have := hg.1; dsimp only; omega, w2, w3, w4⟩ rfl p hp
          · cases hp
    · cases hp

theorem shrinkRightLookups_origin {g : TileStateHeader} (hg : WellFormed g)
    (hit : TileStatus → Bool) :
    ∀ (fuel : Nat) (x : Int) (r : RectI), Inside g r → x = r.x2 - g.tileSizeX →
      ∀ p ∈ shrinkRightLookups g hit fuel x r, IsOrigin g p.1 p.2 := by
  intro fuel
  induction fuel with
  | zero => intro x r _ _ p hp; simp [shrinkRightLookups] at hp
  | succ n ih =>
    intro x r hr hx p hp
    subst hx
    have hT := hg.1
    obtain ⟨⟨a1, a2, a3, a4⟩, w1, w2, w3, w4⟩ := hr
    simp only [shrinkRightLookups] at hp
    split at hp
    · rename_i hge
      rcases List.mem_append.1 hp with hp | hp
      · exact colLookups_origin hg hit ⟨⟨a1, a2, a3, a4⟩, w1, w2, w3, w4⟩
          (Int.dvd_sub a2 (dvd_refl _)) (by omega) (by omega) p hp
      · split at hp
        · cases hp
        · split at hp
          · exact ih (r.x2 - g.tileSizeX - g.tileSizeX) ⟨r.x1, r.y1, r.x2 - g.tileSizeX, r.y2⟩
              ⟨⟨a1, Int.dvd_sub a2 (dvd_refl _), a3, a4⟩, w1, by dsimp only; omega,
                w3, w4⟩ rfl p hp
          · cases hp
    · cases hp

theorem shrinkBottom_inside {g : TileStateHeader} (hg : WellFormed g) (hit : TileStatus → Bool) :
    ∀ (fuel : Nat) (y : Int) (r r' : RectI), Inside g r →
      shrinkBottom g hit fuel y r = some r' → Inside g r' := by
  intro fuel
  induction fuel with
  | zero => intro y r r' _ h; simp [shrinkBottom] at h
  | succ n ih =>
    intro y r r' hr h
    obtain ⟨⟨a1, a2, a3, a4⟩, w1, w2, w3, w4⟩ := hr
    simp only [shrinkBottom] at h
    split at h
    · split at h
      · cases h
      · split at h
        · exact ih (y + g.tileSizeY) ⟨r.x1, r.y1 + g.tileSizeY, r.x2, r.y2⟩ r'
            ⟨⟨a1, a2, Int.dvd_add a3 (dvd_refl _), a4⟩, w1, w2,
              by have := hg.2.1; dsimp only; omega, w4⟩ h
        · cases h; exact ⟨⟨a1, a2, a3, a4⟩, w1, w2, w3, w4⟩
    · cases h; exact ⟨⟨a1, a2, a3, a4⟩, w1, w2, w3, w4⟩

theorem shrinkTop_inside {g : TileStateHeader} (hg : WellFormed g) (hit : TileStatus → Bool) :
    ∀ (fuel : Nat) (y : Int) (r r' : RectI), Inside g r →
      shrinkTop g hit fuel y r = some r' → Inside g r' := by
  intro fuel
  induction fuel with
  | zero => intro y r r' _ h; simp [shrinkTop] at h
  | succ n ih =>
    intro y r r' hr h
    obtain ⟨⟨a1, a2, a3, a4⟩, w1, w2, w3, w4⟩ := hr
    simp only [shrinkTop] at h
    split at h
    · split at h
      · cases h
      · split at h
        · exact ih (y - g.tileSizeY) ⟨r.x1, r.y1, r.x2, r.y2 - g.tileSizeY⟩ r'
            ⟨⟨a1, a2, a3, Int.dvd_sub a4 (dvd_refl _)⟩, w1, w2, w3,
              by have := hg.2.1; dsimp only; omega⟩ h
        · cases h; exact ⟨⟨a1, a2, a3, a4⟩, w1, w2, w3, w4⟩
    · cases h; exact ⟨⟨a1, a2, a3, a4⟩, w1, w2, w3, w4⟩

theorem shrinkLeft_inside {g : TileStateHeader} (hg : WellFormed g) (hit : TileStatus → Bool) :
    ∀ (fuel : Nat) (x : Int) (r r' : RectI), Inside g r →
      shrinkLeft g hit fuel x r = some r' → Inside g r' := by
  intro fuel
  induction fuel with
  | zero => intro x r r' _ h; simp [shrinkLeft] at h
  | succ n ih =>
    intro x r r' hr h
    obtain ⟨⟨a1, a2, a3, a4⟩, w1, w2, w3, w4⟩ := hr
    simp only [shrinkLeft] at h
    split at h
    · split at h
      · cases h
      · split at h
        · exact ih (x + g.tileSizeX) ⟨r.x1 + g.tileSizeX, r.y1, r.x2, r.y2⟩ r'
            ⟨⟨Int.dvd_add a1 (dvd_refl _), a2, a3, a4⟩,
              by have := hg.1; dsimp only; omega, w2, w3, w4⟩ h
        · cases h; exact ⟨⟨a1, a2, a3, a4⟩, w1, w2, w3, w4⟩
    · cases h; exact ⟨⟨a1, a2, a3, a4⟩, w1, w2, w3, w4⟩

theorem shrinkRight_inside {g : TileStateHeader} (hg : WellFormed g) (hit : TileStatus → Bool) :
    ∀ (fuel : Nat) (x : Int) (r r' : RectI), Inside g r →
      shrinkRight g hit fuel x r = some r' → Inside g r' := by
  intro fuel
  induction fuel with
  | zero => intro x r r' _ h; simp [shrinkRight] at h
  | succ n ih =>
    intro x r r' hr h
    obtain ⟨⟨a1, a2, a3, a4⟩, w1, w2, w3, w4⟩ := hr
    simp only [shrinkRight] at h
    split at h
    · split at h
      · cases h
      · split at h
        · exact ih (x - g.tileSizeX) ⟨r.x1, r.y1, r.x2 - g.tileSizeX, r.y2⟩ r'
            ⟨⟨a1, Int.dvd_sub a2 (dvd_refl _), a3, a4⟩, w1,
              by have := hg.1; dsimp only; omega, w3, w4⟩ h
        · cases h; exact ⟨⟨a1, a2, a3, a4⟩, w1, w2, w3, w4⟩
    · cases h; exact ⟨⟨a1, a2, a3, a4⟩, w1, w2, w3, w4⟩

theorem peelBottomLookups_eq (g : TileStateHeader) :
    ∀ (fuel : Nat) (y : Int) (X A : RectI),
      peelBottomLookups g fuel y (X, A) = shrinkBottomLookups g isNotNotRendered fuel y X := by
  intro fuel
  induction fuel with
  | zero => intro y X A; rfl
  | succ n ih =>
    intro y X A
    simp only [peelBottomLookups, shrinkBottomLookups]
    split
    · cases rowHas g isNotNotRendered X y with
      | none => rfl
      | some b =>
        cases b with
        | true => simp
        | false =>
          simp only [Bool.false_eq_true, if_false, Bool.not_false, if_true]
          rw [ih]
    · rfl

theorem peelTopLookups_eq (g : TileStateHeader) :
    ∀ (fuel : Nat) (y : Int) (X B : RectI),
      peelTopLookups g fuel y (X, B) = shrinkTopLookups g isNotNotRendered fuel y X := by
  intro fuel
  induction fuel with
  | zero => intro y X B; rfl
  | succ n ih =>
    intro y X B
    simp only [peelTopLookups, shrinkTopLookups]
    split
    · cases rowHas g isNotNotRendered X y with
      | none => rfl
      | some b =>
        cases b with
        | true => simp
        | false =>
          simp only [Bool.false_eq_true, if_false, Bool.not_false, if_true]
          rw [ih]
    · rfl

theorem peelLeftLookups_eq (g : TileStateHeader) :
    ∀ (fuel : Nat) (x : Int) (X C : RectI),
      peelLeftLookups g fuel x (X, C) = shrinkLeftLookups g isNotNotRendered fuel x X := by
  intro fuel
  induction fuel with
  | zero => intro x X C; rfl
  | succ n ih =>
    intro x X C
    simp only [peelLeftLookups, shrinkLeftLookups]
    split
    · cases colHas g isNotNotRendered X x with
      | none => rfl
      | some b =>
        cases b with
        | true => simp
        | false =>
          simp only [Bool.false_eq_true, if_false, Bool.not_false, if_true]
          rw [ih]
    · rfl

theorem peelRightLookups_eq (g : TileStateHeader) :
    ∀ (fuel : Nat) (x : Int) (X D : RectI),
      peelRightLookups g fuel x (X, D) = shrinkRightLookups g isNotNotRendered fuel x X := by
  intro fuel
  induction fuel with
  | zero => intro x X D; rfl
  | succ n ih =>
    intro x X D
    simp only [peelRightLookups, shrinkRightLookups]
    split
    · cases colHas g isNotNotRendered X x with
      | none => rfl
      | some b =>
        cases b with
        | true => simp
        | false =>
          simp only [Bool.false_eq_true, if_false, Bool.not_false, if_true]
          rw [ih]
    · rfl

/-- Every lookup of `getMinimalBboxToRenderFromTilesState` is made at a tile
origin of the grid. -/
theorem bboxLookups_origin {g : TileStateHeader} (hg : WellFormed g) {roi : RectI}
    (hc : g.boundsRoundedToTileSize.contains roi = true) :
    ∀ p ∈ bboxLookups roi g, IsOrigin g p.1 p.2 := by
  intro p hp
  by_cases hne : g.tiles = []
  · simp [bboxLookups, hne] at hp
  have hR := inside_round hg hc
  simp only [bboxLookups, tiles_isEmpty_false hne, hc, Bool.false_eq_true, if_false,
    Bool.not_true] at hp
  rcases List.mem_append.1 hp with hp | hp
  · exact shrinkBottomLookups_origin hg _ _ _ _ hR rfl p hp
  cases e1 : shrinkBottom g isNotRendered
      (rowFuel (roi.roundToTileSize g.tileSizeX g.tileSizeY))
      (roi.roundToTileSize g.tileSizeX g.tileSizeY).y1
      (roi.roundToTileSize g.tileSizeX g.tileSizeY) with
  | none => rw [e1] at hp; cases hp
  | some r1 =>
    rw [e1] at hp
    have h1 := shrinkBottom_inside hg _ _ _ _ _ hR e1
    simp only at hp
    rcases List.mem_append.1 hp with hp | hp
    · exact shrinkTopLookups_origin hg _ _ _ _ h1 rfl p hp
    cases e2 : shrinkTop g isNotRendered (rowFuel r1) (r1.y2 - g.tileSizeY) r1 with
    | none => rw [e2] at hp; cases hp
    | some r2 =>
      rw [e2] at hp
      have h2 := shrinkTop_inside hg _ _ _ _ _ h1 e2
      simp only at hp
      split at hp
      · cases hp
      rcases List.mem_append.1 hp with hp | hp
      · exact shrinkLeftLookups_origin hg _ _ _ _ h2 rfl p hp
      cases e3 : shrinkLeft g isNotRendered (colFuel r2) r2.x1 r2 with
      | none => rw [e3] at hp; cases hp
      | some r3 =>
        rw [e3] at hp
        have h3 := shrinkLeft_inside hg _ _ _ _ _ h2 e3
        simp only at hp
        split at hp
        · cases hp
        exact shrinkRightLookups_origin hg _ _ _ _ h3 rfl p hp

/-- Every lookup of `getMinimalRectsToRenderFromTilesState` is made at a tile
origin of the grid. -/
theorem rectsLookups_origin {g : TileStateHeader} (hg : WellFormed g) {roi : RectI}
    (hc : g.boundsRoundedToTileSize.contains roi = true) :
    ∀ p ∈ rectsLookups roi g, IsOrigin g p.1 p.2 := by
  intro p hp
  by_cases hne : g.tiles = []
  · simp [rectsLookups, hne] at hp
  simp only [rectsLookups, tiles_isEmpty_false hne, Bool.false_eq_true, if_false] at hp
  rcases List.mem_append.1 hp with hp | hp
  · exact bboxLookups_origin hg hc p hp
  obtain ⟨S, hS, _, hcase⟩ := bbox_spec hg hne hc
  rcases hcase with ⟨hn, e, _⟩ | ⟨hSn, e, _⟩
  · rw [e] at hp; simp only [hn, if_true] at hp; cases hp
  rw [e] at hp
  simp only at hp
  split at hp
  · cases hp
  rename_i hnn
  have hn' : (S.intersect g.bounds RectI.null).2.isNull = false := by simpa using hnn
  obtain ⟨_, _, hround⟩ := round_intersect hg hS hSn hn'
  rw [hround] at hp
  rw [peelBottomLookups_eq, peelBottom_eq _ _ _ _ _ rfl] at hp
  rcases List.mem_append.1 hp with hp | hp
  · exact shrinkBottomLookups_origin hg _ _ _ _ hS rfl p hp
  cases e1 : shrinkBottom g isNotNotRendered (rowFuel S) S.y1 S with
  | none => rw [e1] at hp; cases hp
  | some X1 =>
    rw [e1] at hp
    have h1 := shrinkBottom_inside hg _ _ _ _ _ hS e1
    simp only [Option.map_some'] at hp
    rw [peelTopLookups_eq, peelTop_eq _ _ _ _ _ rfl] at hp
    rcases List.mem_append.1 hp with hp | hp
    · exact shrinkTopLookups_origin hg _ _ _ _ h1 rfl p hp
    cases e2 : shrinkTop g isNotNotRendered (rowFuel X1) (X1.y2 - g.tileSizeY) X1 with
    | none => rw [e2] at hp; cases hp
    | some X2 =>
      rw [e2] at hp
      have h2 := shrinkTop_inside hg _ _ _ _ _ h1 e2
      simp only [Option.map_some'] at hp
      by_cases hy : X2.y1 < X2.y2
      · simp only [hy, if_true] at hp
        rw [peelLeftLookups_eq, peelLeft_eq _ _ _ _ _ rfl] at hp
        rcases List.mem_append.1 hp with hp | hp
        · exact shrinkLeftLookups_origin hg _ _ _ _ h2 rfl p hp
        cases e3 : shrinkLeft g isNotNotRendered (colFuel X2) X2.x1 X2 with
        | none => rw [e3] at hp; cases hp
        | some X3 =>
          rw [e3] at hp
          have h3 := shrinkLeft_inside hg _ _ _ _ _ h2 e3
          simp only [Option.map_some'] at hp
          by_cases hy3 : X3.y1 < X3.y2
          · simp only [hy3, if_true] at hp
            rw [peelRightLookups_eq, peelRight_eq _ _ _ _ _ rfl] at hp
            rcases List.mem_append.1 hp with hp | hp
            · exact shrinkRightLookups_origin hg _ _ _ _ h3 rfl p hp
            cases e4 : shrinkRight g isNotNotRendered (colFuel X3) (X3.x2 - g.tileSizeX) X3 with
            | none => rw [e4] at hp; cases hp
            | some X4 =>
              rw [e4] at hp
              have h4 := shrinkRight_inside hg _ _ _ _ _ h3 e4
              simp only [Option.map_some'] at hp
              exact bboxLookups_origin hg (contains_of_inside h4) p hp
          · simp only [hy3, if_false, List.nil_append] at hp
            exact bboxLookups_origin hg (contains_of_inside h3) p hp
      · simp only [hy, if_false, List.nil_append] at hp
        exact bboxLookups_origin hg (contains_of_inside h2) p hp

/-- A lookup at a tile origin of a grid built by `init` computes an index in
`[0, tiles.size())` and passes both assertions of `getTileAt`. -/
theorem origin_lookup_ok {g : TileStateHeader} (hb : BuiltByInit g) {tx ty : Int}
    (ho : IsOrigin g tx ty) :
    0 ≤ g.tileIndex tx ty ∧ g.tileIndex tx ty < (g.tiles.length : Int) ∧
    ∃ t, g.getTileAt tx ty = some t := by
  have hg := hb.wellFormed
  obtain ⟨⟨a1, a2, a3, a4⟩, _⟩ := hg.inside_bounds
  obtain ⟨hT, hU, _, hlen⟩ := hb.length_eq
  have hne := hb.tiles_ne_nil ho
  obtain ⟨dx, dy, o1, o2, o3, o4⟩ := ho
  have hbd := tileIndex_bounds hT hU a1 a2 a3 a4 dx dy o1 o2 o3 o4
  refine ⟨hbd.1, ?_, getTileAt_isSome hg hne ⟨dx, dy, o1, o2, o3, o4⟩⟩
  rw [hlen]
  exact hbd.2

/-- C14: on a grid built by `init`, for a `roi` contained in the rounded bounds,
`getMinimalBboxToRenderFromTilesState` and `getMinimalRectsToRenderFromTilesState`
both run to their end, and every `getTileAt` lookup they perform is made at a
tile-aligned coordinate inside the rounded bounds, where the row-major index is
in `[0, tiles.size())` and `getTileAt` returns a tile. -/
theorem lookups_in_range (g : TileStateHeader) (roi : RectI) (hb : BuiltByInit g)
    (hc : g.boundsRoundedToTileSize.contains roi = true) :
    (∃ r, getMinimalBboxToRenderFromTilesState roi g = some r) ∧
    (∃ rs, getMinimalRectsToRenderFromTilesState roi g [] = some rs) ∧
    ∀ p ∈ bboxLookups roi g ++ rectsLookups roi g,
      (g.tileSizeX ∣ p.1 ∧ g.tileSizeY ∣ p.2 ∧
        g.boundsRoundedToTileSize.x1 ≤ p.1 ∧ p.1 < g.boundsRoundedToTileSize.x2 ∧
        g.boundsRoundedToTileSize.y1 ≤ p.2 ∧ p.2 < g.boundsRoundedToTileSize.y2) ∧
      0 ≤ g.tileIndex p.1 p.2 ∧ g.tileIndex p.1 p.2 < (g.tiles.length : Int) ∧
      ∃ t, g.getTileAt p.1 p.2 = some t := by
  have hg := hb.wellFormed
  refine ⟨?_, ?_, ?_⟩
  · by_cases hne : g.tiles = []
    · exact ⟨RectI.null, by simp [getMinimalBboxToRenderFromTilesState, hne]⟩
    · obtain ⟨ret, e, _⟩ := rects_spec hg hne hc []
      exact ⟨ret, e⟩
  · exact ⟨_, (rects_cover_core g roi hb hc).choose_spec.1⟩
  · intro p hp
    have ho : IsOrigin g p.1 p.2 := by
      rcases List.mem_append.1 hp with hp | hp
      · exact bboxLookups_origin hg hc p hp
      · exact rectsLookups_origin hg hc p hp
    exact ⟨ho, origin_lookup_ok hb ho⟩

theorem lookups_in_range_witness :
    BuiltByInit scenarioB ∧ scenarioB.boundsRoundedToTileSize.contains ⟨0, 0, 100, 100⟩ = true ∧
    bboxLookups ⟨0, 0, 100, 100⟩ scenarioB =
      [(0, 0), (64, 0), (0, 64), (64, 64), (0, 64), (64, 64), (0, 64), (64, 64), (64, 64)] ∧
    (∃ r, getMinimalBboxToRenderFromTilesState ⟨0, 0, 100, 100⟩ scenarioB = some r) ∧
    (∃ rs, getMinimalRectsToRenderFromTilesState ⟨0, 0, 100, 100⟩ scenarioB [] = some rs) ∧
    ∀ p ∈ bboxLookups ⟨0, 0, 100, 100⟩ scenarioB ++ rectsLookups ⟨0, 0, 100, 100⟩ scenarioB,
      (scenarioB.tileSizeX ∣ p.1 ∧ scenarioB.tileSizeY ∣ p.2 ∧
        scenarioB.boundsRoundedToTileSize.x1 ≤ p.1 ∧ p.1 < scenarioB.boundsRoundedToTileSize.x2 ∧
        scenarioB.boundsRoundedToTileSize.y1 ≤ p.2 ∧ p.2 < scenarioB.boundsRoundedToTileSize.y2) ∧
      0 ≤ scenarioB.tileIndex p.1 p.2 ∧
      scenarioB.tileIndex p.1 p.2 < (scenarioB.tiles.length : Int) ∧
      ∃ t, scenarioB.getTileAt p.1 p.2 = some t :=
  ⟨by decide, by decide, by decide,
    lookups_in_range scenarioB ⟨0, 0, 100, 100⟩ (by decide) (by decide)⟩

/-! ## The rectangles around a source rectangle, rounding to the tile size -/

/-- C15: when `srcBounds` is a rectangle, `x1 ≤ x2` and `y1 ≤ y2` (the
specification takes inverted rectangles for malformed), and is contained in
`biggerBounds`, the rectangles `A`, `B`, `C`, `D` of `getABCDRectangles` and
`srcBounds` tile `biggerBounds`: any two of the five have a null intersection,
and a pixel lies in `biggerBounds` exactly when it lies in one of the five. -/
theorem abcd_tile_bigger (srcBounds biggerBounds : RectI)
    (hx : srcBounds.x1 ≤ srcBounds.x2) (hy : srcBounds.y1 ≤ srcBounds.y2)
    (hc : biggerBounds.contains srcBounds = true) :
    [(getABCDRectangles srcBounds biggerBounds).1, (getABCDRectangles srcBounds biggerBounds).2.1,
      (getABCDRectangles srcBounds biggerBounds).2.2.1,
      (getABCDRectangles srcBounds biggerBounds).2.2.2, srcBounds].Pairwise
        (fun p q => (p.intersect q RectI.null).2.isNull = true) ∧
    ∀ px py : Int, biggerBounds.hasPixel px py ↔
      ((getABCDRectangles srcBounds biggerBounds).1.hasPixel px py ∨
       (getABCDRectangles srcBounds biggerBounds).2.1.hasPixel px py ∨
       (getABCDRectangles srcBounds biggerBounds).2.2.1.hasPixel px py ∨
       (getABCDRectangles srcBounds biggerBounds).2.2.2.hasPixel px py ∨
       srcBounds.hasPixel px py) := by
  rw [contains_iff] at hc
  constructor
  · simp only [getABCDRectangles, List.pairwise_cons, List.mem_cons, List.mem_singleton,
      forall_eq_or_imp, forall_eq, List.not_mem_nil, false_imp_iff, implies_true,
      List.Pairwise.nil, and_true]
    refine ⟨⟨?_, ?_, ?_, ?_⟩, ⟨?_, ?_, ?_⟩, ⟨?_, ?_⟩, ?_⟩ <;> apply isNull_of_no_pixel <;>
      intro px py hp <;> rw [intersect_hasPixel] at hp <;>
      simp only [RectI.hasPixel] at hp <;> omega
  · intro px py
    simp only [getABCDRectangles, RectI.hasPixel]
    omega

theorem abcd_tile_bigger_witness :
    (⟨2, 3, 5, 7⟩ : RectI).x1 ≤ (⟨2, 3, 5, 7⟩ : RectI).x2 ∧
    (⟨2, 3, 5, 7⟩ : RectI).y1 ≤ (⟨2, 3, 5, 7⟩ : RectI).y2 ∧
    (⟨0, 0, 10, 10⟩ : RectI).contains ⟨2, 3, 5, 7⟩ = true ∧
    getABCDRectangles ⟨2, 3, 5, 7⟩ ⟨0, 0, 10, 10⟩ =
      (⟨0, 7, 10, 10⟩, ⟨5, 3, 10, 7⟩, ⟨0, 0, 10, 3⟩, ⟨0, 3, 2, 7⟩) ∧
    [(getABCDRectangles ⟨2, 3, 5, 7⟩ ⟨0, 0, 10, 10⟩).1, (getABCDRectangles ⟨2, 3, 5, 7⟩ ⟨0, 0, 10, 10⟩).2.1,
      (getABCDRectangles ⟨2, 3, 5, 7⟩ ⟨0, 0, 10, 10⟩).2.2.1,
      (getABCDRectangles ⟨2, 3, 5, 7⟩ ⟨0, 0, 10, 10⟩).2.2.2, ⟨2, 3, 5, 7⟩].Pairwise
        (fun p q => (p.intersect q RectI.null).2.isNull = true) ∧
    ∀ px py : Int, (⟨0, 0, 10, 10⟩ : RectI).hasPixel px py ↔
      ((getABCDRectangles ⟨2, 3, 5, 7⟩ ⟨0, 0, 10, 10⟩).1.hasPixel px py ∨
       (getABCDRectangles ⟨2, 3, 5, 7⟩ ⟨0, 0, 10, 10⟩).2.1.hasPixel px py ∨
       (getABCDRectangles ⟨2, 3, 5, 7⟩ ⟨0, 0, 10, 10⟩).2.2.1.hasPixel px py ∨
       (getABCDRectangles ⟨2, 3, 5, 7⟩ ⟨0, 0, 10, 10⟩).2.2.2.hasPixel px py ∨
       (⟨2, 3, 5, 7⟩ : RectI).hasPixel px py) :=
  ⟨by decide, by decide, by decide, by decide,
    abcd_tile_bigger ⟨2, 3, 5, 7⟩ ⟨0, 0, 10, 10⟩ (by decide) (by decide) (by decide)⟩

/-- C16: for positive tile sizes, `roundToTileSize` moves `x1` and `y1` to the
largest multiple of the tile size that is at most the original, and `x2` and
`y2` to the smallest multiple that is at least the original, negative
coordinates included; so the rounded rectangle contains the original, each
side moves by less than one tile, and rounding a rounded rectangle changes
nothing. -/
theorem roundToTileSize_spec (r : RectI) (T U : Int) (hT : 0 < T) (hU : 0 < U) :
    (T ∣ (r.roundToTileSize T U).x1 ∧ (r.roundToTileSize T U).x1 ≤ r.x1 ∧
      ∀ m, T ∣ m → m ≤ r.x1 → m ≤ (r.roundToTileSize T U).x1) ∧
    (U ∣ (r.roundToTileSize T U).y1 ∧ (r.roundToTileSize T U).y1 ≤ r.y1 ∧
      ∀ m, U ∣ m → m ≤ r.y1 → m ≤ (r.roundToTileSize T U).y1) ∧
    (T ∣ (r.roundToTileSize T U).x2 ∧ r.x2 ≤ (r.roundToTileSize T U).x2 ∧
      ∀ m, T ∣ m → r.x2 ≤ m → (r.roundToTileSize T U).x2 ≤ m) ∧
    (U ∣ (r.roundToTileSize T U).y2 ∧ r.y2 ≤ (r.roundToTileSize T U).y2 ∧
      ∀ m, U ∣ m → r.y2 ≤ m → (r.roundToTileSize T U).y2 ≤ m) ∧
    (r.roundToTileSize T U).contains r = true ∧
    (r.x1 - (r.roundToTileSize T U).x1 < T ∧ r.y1 - (r.roundToTileSize T U).y1 < U ∧
      (r.roundToTileSize T U).x2 - r.x2 < T ∧ (r.roundToTileSize T U).y2 - r.y2 < U) ∧
    (r.roundToTileSize T U).roundToTileSize T U = r.roundToTileSize T U := by
  have f1 := floor_le hT r.x1
  have f2 := floor_le hU r.y1
  have f3 := le_ceil hT r.x2
  have f4 := le_ceil hU r.y2
  have g1 := lt_floor_add hT r.x1
  have g2 := lt_floor_add hU r.y1
  have g3 := ceil_lt hT r.x2
  have g4 := ceil_lt hU r.y2
  refine ⟨⟨floor_dvd _ _, f1, fun m hm h => le_floor hT hm h⟩,
    ⟨floor_dvd _ _, f2, fun m hm h => le_floor hU hm h⟩,
    ⟨ceil_dvd _ _, f3, fun m hm h => ceil_le hT hm h⟩,
    ⟨ceil_dvd _ _, f4, fun m hm h => ceil_le hU hm h⟩, ?_, ?_, ?_⟩
  · rw [contains_iff]
    exact ⟨f1, f2, f3, f4⟩
  · simp only [RectI.roundToTileSize]
    omega
  · simp only [RectI.roundToTileSize]
    rw [floor_of_dvd (floor_dvd T r.x1), floor_of_dvd (floor_dvd U r.y1),
      ceil_of_dvd (ceil_dvd T r.x2), ceil_of_dvd (ceil_dvd U r.y2)]

theorem roundToTileSize_spec_witness :
    (0 : Int) < 4 ∧ (⟨-5, -7, 3, 9⟩ : RectI).roundToTileSize 4 4 = ⟨-8, -8, 4, 12⟩ ∧
    (((4 : Int) ∣ ((⟨-5, -7, 3, 9⟩ : RectI).roundToTileSize 4 4).x1 ∧
      ((⟨-5, -7, 3, 9⟩ : RectI).roundToTileSize 4 4).x1 ≤ (⟨-5, -7, 3, 9⟩ : RectI).x1 ∧
      ∀ m, (4 : Int) ∣ m → m ≤ (⟨-5, -7, 3, 9⟩ : RectI).x1 →
        m ≤ ((⟨-5, -7, 3, 9⟩ : RectI).roundToTileSize 4 4).x1) ∧
    ((4 : Int) ∣ ((⟨-5, -7, 3, 9⟩ : RectI).roundToTileSize 4 4).y1 ∧
      ((⟨-5, -7, 3, 9⟩ : RectI).roundToTileSize 4 4).y1 ≤ (⟨-5, -7, 3, 9⟩ : RectI).y1 ∧
      ∀ m, (4 : Int) ∣ m → m ≤ (⟨-5, -7, 3, 9⟩ : RectI).y1 →
        m ≤ ((⟨-5, -7, 3, 9⟩ : RectI).roundToTileSize 4 4).y1) ∧
    ((4 : Int) ∣ ((⟨-5, -7, 3, 9⟩ : RectI).roundToTileSize 4 4).x2 ∧
      (⟨-5, -7, 3, 9⟩ : RectI).x2 ≤ ((⟨-5, -7, 3, 9⟩ : RectI).roundToTileSize 4 4).x2 ∧
      ∀ m, (4 : Int) ∣ m → (⟨-5, -7, 3, 9⟩ : RectI).x2 ≤ m →
        ((⟨-5, -7, 3, 9⟩ : RectI).roundToTileSize 4 4).x2 ≤ m) ∧
    ((4 : Int) ∣ ((⟨-5, -7, 3, 9⟩ : RectI).roundToTileSize 4 4).y2 ∧
      (⟨-5, -7, 3, 9⟩ : RectI).y2 ≤ ((⟨-5, -7, 3, 9⟩ : RectI).roundToTileSize 4 4).y2 ∧
      ∀ m, (4 : Int) ∣ m → (⟨-5, -7, 3, 9⟩ : RectI).y2 ≤ m →
        ((⟨-5, -7, 3, 9⟩ : RectI).roundToTileSize 4 4).y2 ≤ m) ∧
    ((⟨-5, -7, 3, 9⟩ : RectI).roundToTileSize 4 4).contains ⟨-5, -7, 3, 9⟩ = true ∧
    ((⟨-5, -7, 3, 9⟩ : RectI).x1 - ((⟨-5, -7, 3, 9⟩ : RectI).roundToTileSize 4 4).x1 < 4 ∧
      (⟨-5, -7, 3, 9⟩ : RectI).y1 - ((⟨-5, -7, 3, 9⟩ : RectI).roundToTileSize 4 4).y1 < 4 ∧
      ((⟨-5, -7, 3, 9⟩ : RectI).roundToTileSize 4 4).x2 - (⟨-5, -7, 3, 9⟩ : RectI).x2 < 4 ∧
      ((⟨-5, -7, 3, 9⟩ : RectI).roundToTileSize 4 4).y2 - (⟨-5, -7, 3, 9⟩ : RectI).y2 < 4) ∧
    ((⟨-5, -7, 3, 9⟩ : RectI).roundToTileSize 4 4).roundToTileSize 4 4 =
      (⟨-5, -7, 3, 9⟩ : RectI).roundToTileSize 4 4) :=
  ⟨by decide, by decide, roundToTileSize_spec ⟨-5, -7, 3, 9⟩ 4 4 (by decide) (by decide)⟩

/-! ## Serialisation of the expression key and result -/

theorem read_first (s : ExternalSegmentType) (a b : SharedObject) (rest : ExternalSegmentType) :
    readAnonymousSharedObject s.length (s ++ a :: b :: rest) = some a := by
  unfold readAnonymousSharedObject
  rw [List.getElem?_append_right (le_refl _)]
  simp

theorem read_second (s : ExternalSegmentType) (a b : SharedObject) (rest : ExternalSegmentType) :
    readAnonymousSharedObject (s.length + 1) (s ++ a :: b :: rest) = some b := by
  unfold readAnonymousSharedObject
  rw [List.getElem?_append_right (Nat.le_succ _)]
  simp

theorem key_toMemorySegment_eq (k : KnobExpressionKey) (segment : ExternalSegmentType)
    (objectPointers : ExternalSegmentTypeHandleList) :
    k.toMemorySegment segment objectPointers =
      (segment ++ SharedObject.shmData k._data :: SharedObject.string k._knobScriptName :: [],
        objectPointers ++ [segment.length, segment.length + 1]) := by
  simp [KnobExpressionKey.toMemorySegment, writeAnonymousSharedObject]

theorem key_roundTrip_eq (k receiver : KnobExpressionKey) (segment : ExternalSegmentType) :
    k.roundTrip receiver segment = ⟨k, [0, 1], .noReturnStatement⟩ := by
  simp only [KnobExpressionKey.roundTrip, key_toMemorySegment_eq, KnobExpressionKey.fromMemorySegment,
    List.nil_append, List.length_cons, List.length_nil, List.getElem?_cons_zero,
    List.getElem?_cons_succ, Option.bind_some, Option.some_bind, read_first, read_second, Nat.zero_add,
    List.cons_append]
  simp

/-- C17, the code on the handles of a key: whatever the key `k`, the segment
written to and the key that receives the data, `fromMemorySegment` on the
handle list produced by `k.toMemorySegment` reads the two handles in order,
assigns the `nodeTimeViewVariantHash`, the `dimension` and the script name of
`k`, and then reaches the end of its body without a `return` statement. The
function is declared to return a `FromMemorySegmentRetCodeEnum`: the call
returns no value, neither the failure code nor another, and its behaviour is
undefined, so that the language guarantees nothing about the key after it; the
assignments are those executed before the end of the body. -/
theorem key_round_trip_no_return :
    ((KnobExpressionKey.create 7 1 "a").roundTrip (KnobExpressionKey.create 0 0 "") [] =
      ⟨KnobExpressionKey.create 7 1 "a", [0, 1], .noReturnStatement⟩) ∧
    ∀ (k receiver : KnobExpressionKey) (segment : ExternalSegmentType),
      (k.roundTrip receiver segment).outcome = .noReturnStatement ∧
      (∀ code, (k.roundTrip receiver segment).outcome ≠ .returned code) ∧
      (k.roundTrip receiver segment).reads = [0, 1] ∧
      (k.roundTrip receiver segment).self._data.nodeTimeViewVariantHash =
        k._data.nodeTimeViewVariantHash ∧
      (k.roundTrip receiver segment).self._data.dimension = k._data.dimension ∧
      (k.roundTrip receiver segment).self._knobScriptName = k._knobScriptName := by
  refine ⟨by decide, ?_⟩
  intro k receiver segment
  rw [key_roundTrip_eq]
  refine ⟨rfl, ?_, rfl, rfl, rfl, rfl⟩
  intro code h
  cases h

theorem result_roundTrip_string {baseTo : ExternalSegmentType → ExternalSegmentTypeHandleList →
      ExternalSegmentType × ExternalSegmentTypeHandleList}
    (baseFrom : Bool → ExternalSegmentType → ExternalSegmentTypeHandleList → Nat → Nat → Outcome)
    (hbase : AppendsOnly baseTo) (e receiver : KnobExpressionResult) (lock : Bool)
    (segment : ExternalSegmentType) (hs : e._stringResult ≠ "") :
    (KnobExpressionResult.roundTrip baseTo baseFrom e receiver lock segment).self =
      { receiver with _stringResult := e._stringResult } ∧
    (KnobExpressionResult.roundTrip baseTo baseFrom e receiver lock segment).reads = [0, 1] := by
  have hemp : e._stringResult.isEmpty = false := by
    cases h : e._stringResult.isEmpty with
    | false => rfl
    | true => exact absurd ((String.isEmpty_iff _).1 h) hs
  obtain ⟨objects, handles, hb⟩ := hbase
    (segment ++ SharedObject.int 1 :: SharedObject.string e._stringResult :: [])
    [segment.length, segment.length + 1]
  have hto : e.toMemorySegment baseTo segment [] =
      (segment ++ SharedObject.int 1 :: SharedObject.string e._stringResult :: objects,
        segment.length :: (segment.length + 1) :: handles) := by
    simp only [KnobExpressionResult.toMemorySegment, hemp, writeAnonymousSharedObject,
      KnobExpressionResultTypeEnum.toInt, Bool.not_false, if_true, List.nil_append,
      List.length_append, List.length_cons, List.length_nil, List.append_assoc, List.cons_append]
    rw [hb]
    simp
  simp only [KnobExpressionResult.roundTrip, hto, KnobExpressionResult.fromMemorySegment,
    List.length_cons, List.getElem?_cons_zero, List.getElem?_cons_succ, Option.bind_some,
    Option.some_bind, read_first, read_second, Nat.zero_add, KnobExpressionResultTypeEnum.toInt]
  simp

theorem result_roundTrip_pod {baseTo : ExternalSegmentType → ExternalSegmentTypeHandleList →
      ExternalSegmentType × ExternalSegmentTypeHandleList}
    (baseFrom : Bool → ExternalSegmentType → ExternalSegmentTypeHandleList → Nat → Nat → Outcome)
    (hbase : AppendsOnly baseTo) (e receiver : KnobExpressionResult) (lock : Bool)
    (segment : ExternalSegmentType) (hs : e._stringResult = "") :
    (KnobExpressionResult.roundTrip baseTo baseFrom e receiver lock segment).self =
      { receiver with _valueResult := e._valueResult } ∧
    (KnobExpressionResult.roundTrip baseTo baseFrom e receiver lock segment).reads = [0, 1] := by
  have hemp : e._stringResult.isEmpty = true := (String.isEmpty_iff _).2 hs
  obtain ⟨objects, handles, hb⟩ := hbase
    (segment ++ SharedObject.int 0 :: SharedObject.double e._valueResult :: [])
    [segment.length, segment.length + 1]
  have hto : e.toMemorySegment baseTo segment [] =
      (segment ++ SharedObject.int 0 :: SharedObject.double e._valueResult :: objects,
        segment.length :: (segment.length + 1) :: handles) := by
    simp only [KnobExpressionResult.toMemorySegment, hemp, writeAnonymousSharedObject,
      KnobExpressionResultTypeEnum.toInt, Bool.not_true, Bool.false_eq_true, if_false,
      List.nil_append,
      List.length_append, List.length_cons, List.length_nil, List.append_assoc, List.cons_append]
    rw [hb]
    simp
  simp only [KnobExpressionResult.roundTrip, hto, KnobExpressionResult.fromMemorySegment,
    List.length_cons, List.getElem?_cons_zero, List.getElem?_cons_succ, Option.bind_some,
    Option.some_bind, read_first, read_second, Nat.zero_add, KnobExpressionResultTypeEnum.toInt]
  simp

theorem appendsOnly_empty : AppendsOnly emptyBaseToMemorySegment :=
  fun segment objectPointers => ⟨[], [], by simp [emptyBaseToMemorySegment]⟩

/-- C18 as stated fails: an entry that stores the value with bits `1` and the
string `a` writes the type `eKnobExpressionResultTypeString` and the string
only; read into an entry created with the value with bits `0`, `getResult`
gives the value with bits `0`. -/
theorem result_round_trip_drops_value :
    (((KnobExpressionResult.mk "" ⟨0⟩).setResult ⟨1⟩ "a").toMemorySegment
        emptyBaseToMemorySegment [] [] = ([.int 1, .string "a"], [0, 1])) ∧
    ((KnobExpressionResult.roundTrip emptyBaseToMemorySegment emptyBaseFromMemorySegment
        ((KnobExpressionResult.mk "" ⟨0⟩).setResult ⟨1⟩ "a") (KnobExpressionResult.mk "" ⟨0⟩)
        false []).self.getResult (some ⟨0⟩) (some "") = (some ⟨0⟩, some "a")) ∧
    ¬ ∀ (baseTo : ExternalSegmentType → ExternalSegmentTypeHandleList →
          ExternalSegmentType × ExternalSegmentTypeHandleList)
        (baseFrom : Bool → ExternalSegmentType → ExternalSegmentTypeHandleList → Nat → Nat →
          Outcome)
        (e receiver : KnobExpressionResult) (value : Double) (valueAsString : String)
        (lock : Bool) (segment : ExternalSegmentType),
        AppendsOnly baseTo →
        (KnobExpressionResult.roundTrip baseTo baseFrom (e.setResult value valueAsString) receiver
          lock segment).self.getResult (some ⟨0⟩) (some "") = (some value, some valueAsString) := by
  refine ⟨by decide, by decide, ?_⟩
  intro h
  have h1 := h emptyBaseToMemorySegment emptyBaseFromMemorySegment ⟨"", ⟨0⟩⟩ ⟨"", ⟨0⟩⟩ ⟨1⟩ "a"
    false [] appendsOnly_empty
  revert h1
  decide

/-- C18, amended: the entry is serialised as a variant. When the string stored
by `setResult` is not empty, `fromMemorySegment` on the handle list produced by
`toMemorySegment` reproduces the string and leaves the value of the receiving
entry as it was; when the string is empty it reproduces the value and leaves
the string of the receiving entry as it was, which is the empty string for a
receiving entry whose string is empty. The base class `toMemorySegment` is any
function that only adds to the segment and to the handle list. -/
theorem result_round_trip_variant
    (baseTo : ExternalSegmentType → ExternalSegmentTypeHandleList →
      ExternalSegmentType × ExternalSegmentTypeHandleList)
    (baseFrom : Bool → ExternalSegmentType → ExternalSegmentTypeHandleList → Nat → Nat → Outcome)
    (hbase : AppendsOnly baseTo) (e receiver : KnobExpressionResult) (value : Double)
    (valueAsString : String) (lock : Bool) (segment : ExternalSegmentType) (v0 : Double)
    (s0 : String) :
    (e.setResult value valueAsString).getResult (some v0) (some s0) =
      (some value, some valueAsString) ∧
    (valueAsString ≠ "" →
      (KnobExpressionResult.roundTrip baseTo baseFrom (e.setResult value valueAsString) receiver
        lock segment).self.getResult (some v0) (some s0) =
        (some receiver._valueResult, some valueAsString)) ∧
    (valueAsString = "" →
      (KnobExpressionResult.roundTrip baseTo baseFrom (e.setResult value valueAsString) receiver
        lock segment).self.getResult (some v0) (some s0) =
        (some value, some receiver._stringResult)) ∧
    (receiver._stringResult = "" →
      ((KnobExpressionResult.roundTrip baseTo baseFrom (e.setResult value valueAsString) receiver
        lock segment).self.getResult (some v0) (some s0)).2 = some valueAsString) ∧
    (KnobExpressionResult.roundTrip baseTo baseFrom (e.setResult value valueAsString) receiver
      lock segment).reads = [0, 1] := by
  have hstr : (e.setResult value valueAsString)._stringResult = valueAsString := rfl
  have hval : (e.setResult value valueAsString)._valueResult = value := rfl
  refine ⟨rfl, ?_, ?_, ?_, ?_⟩
  · intro hs
    rw [(result_roundTrip_string baseFrom hbase _ receiver lock segment (by rw [hstr]; exact hs)).1]
    rfl
  · intro hs
    rw [(result_roundTrip_pod baseFrom hbase _ receiver lock segment (by rw [hstr]; exact hs)).1]
    rfl
  · intro hr
    by_cases hs : valueAsString = ""
    · rw [(result_roundTrip_pod baseFrom hbase _ receiver lock segment (by rw [hstr]; exact hs)).1]
      simp [KnobExpressionResult.getResult, hr, hs]
    · rw [(result_roundTrip_string baseFrom hbase _ receiver lock segment
        (by rw [hstr]; exact hs)).1]
      rfl
  · by_cases hs : valueAsString = ""
    · exact (result_roundTrip_pod baseFrom hbase _ receiver lock segment
        (by rw [hstr]; exact hs)).2
    · exact (result_roundTrip_string baseFrom hbase _ receiver lock segment
        (by rw [hstr]; exact hs)).2

theorem result_round_trip_variant_witness :
    AppendsOnly emptyBaseToMemorySegment ∧
    (((KnobExpressionResult.mk "" ⟨0⟩).setResult ⟨1⟩ "a").getResult (some ⟨5⟩) (some "z") =
      (some ⟨1⟩, some "a")) ∧
    ("a" ≠ "" →
      (KnobExpressionResult.roundTrip emptyBaseToMemorySegment emptyBaseFromMemorySegment
        ((KnobExpressionResult.mk "" ⟨0⟩).setResult ⟨1⟩ "a") (KnobExpressionResult.mk "" ⟨7⟩)
        false []).self.getResult (some ⟨5⟩) (some "z") =
        (some (KnobExpressionResult.mk "" ⟨7⟩)._valueResult, some "a")) ∧
    ("a" = "" →
      (KnobExpressionResult.roundTrip emptyBaseToMemorySegment emptyBaseFromMemorySegment
        ((KnobExpressionResult.mk "" ⟨0⟩).setResult ⟨1⟩ "a") (KnobExpressionResult.mk "" ⟨7⟩)
        false []).self.getResult (some ⟨5⟩) (some "z") =
        (some ⟨1⟩, some (KnobExpressionResult.mk "" ⟨7⟩)._stringResult)) ∧
    ((KnobExpressionResult.mk "" ⟨7⟩)._stringResult = "" →
      ((KnobExpressionResult.roundTrip emptyBaseToMemorySegment emptyBaseFromMemorySegment
        ((KnobExpressionResult.mk "" ⟨0⟩).setResult ⟨1⟩ "a") (KnobExpressionResult.mk "" ⟨7⟩)
        false []).self.getResult (some ⟨5⟩) (some "z")).2 = some "a") ∧
    (KnobExpressionResult.roundTrip emptyBaseToMemorySegment emptyBaseFromMemorySegment
      ((KnobExpressionResult.mk "" ⟨0⟩).setResult ⟨1⟩ "a") (KnobExpressionResult.mk "" ⟨7⟩)
      false []).reads = [0, 1] :=
  ⟨fun segment objectPointers => ⟨[], [], by simp [emptyBaseToMemorySegment]⟩,
    result_round_trip_variant emptyBaseToMemorySegment emptyBaseFromMemorySegment
      (fun segment objectPointers => ⟨[], [], by simp [emptyBaseToMemorySegment]⟩) ⟨"", ⟨0⟩⟩ ⟨"", ⟨7⟩⟩ ⟨1⟩ "a" false [] ⟨5⟩ "z"⟩

theorem key_fromMemorySegment_cases (self : KnobExpressionKey) (segment : ExternalSegmentType)
    (objectPointers : ExternalSegmentTypeHandleList) (start n : Nat) :
    (n = 0 ∧ self.fromMemorySegment segment objectPointers start (start + n) =
      ⟨self, [], .returned .eFromMemorySegmentRetCodeFailed⟩) ∨
    (0 < n ∧ (∀ data, (objectPointers[start]?).bind
        (fun handle => readAnonymousSharedObject handle segment) ≠ some (.shmData data)) ∧
      self.fromMemorySegment segment objectPointers start (start + n) =
        ⟨self, [start], .undefinedRead⟩) ∨
    (n = 1 ∧ ∃ data, (objectPointers[start]?).bind
        (fun handle => readAnonymousSharedObject handle segment) = some (.shmData data) ∧
      self.fromMemorySegment segment objectPointers start (start + n) =
        ⟨{ self with _data := data }, [start], .returned .eFromMemorySegmentRetCodeFailed⟩) ∨
    (2 ≤ n ∧ (self.fromMemorySegment segment objectPointers start (start + n)).reads =
        [start, start + 1] ∧
      ((self.fromMemorySegment segment objectPointers start (start + n)).outcome =
          .noReturnStatement ∨
        (self.fromMemorySegment segment objectPointers start (start + n)).outcome =
          .undefinedRead)) := by
  cases hd : (objectPointers[start]?).bind
      (fun handle => readAnonymousSharedObject handle segment) with
  | none =>
    rcases Nat.eq_zero_or_pos n with h | h
    · subst h; left; simp [KnobExpressionKey.fromMemorySegment]
    · right; left
      have hne : ¬ start = start + n := by omega
      refine ⟨h, fun data => by simp, ?_⟩
      simp [KnobExpressionKey.fromMemorySegment, hd, hne]
  | some o =>
    rcases Nat.eq_zero_or_pos n with h | h
    · subst h; left; simp [KnobExpressionKey.fromMemorySegment]
    · have hne : ¬ start = start + n := by omega
      cases o with
      | shmData data =>
        by_cases h1 : n = 1
        · subst h1
          right; right; left
          exact ⟨rfl, data, rfl, by simp [KnobExpressionKey.fromMemorySegment, hd]⟩
        · right; right; right
          have hne1 : ¬ start + 1 = start + n := by omega
          refine ⟨by omega, ?_⟩
          cases hd2 : (objectPointers[start + 1]?).bind
              (fun handle => readAnonymousSharedObject handle segment) with
          | none => simp [KnobExpressionKey.fromMemorySegment, hd, hd2, hne, hne1]
          | some o2 =>
            cases o2 <;> simp [KnobExpressionKey.fromMemorySegment, hd, hd2, hne, hne1]
      | string x =>
        right; left
        refine ⟨h, fun data => by simp, ?_⟩
        simp [KnobExpressionKey.fromMemorySegment, hd, hne]
      | int x =>
        right; left
        refine ⟨h, fun data => by simp, ?_⟩
        simp [KnobExpressionKey.fromMemorySegment, hd, hne]
      | double x =>
        right; left
        refine ⟨h, fun data => by simp, ?_⟩
        simp [KnobExpressionKey.fromMemorySegment, hd, hne]

theorem key_fromMemorySegment_reads (self : KnobExpressionKey) (segment : ExternalSegmentType)
    (objectPointers : ExternalSegmentTypeHandleList) (start n : Nat) :
    ∀ i ∈ (self.fromMemorySegment segment objectPointers start (start + n)).reads,
      start ≤ i ∧ i < start + n := by
  intro i hi
  rcases key_fromMemorySegment_cases self segment objectPointers start n with
    ⟨_, e⟩ | ⟨h, _, e⟩ | ⟨h, _, _, e⟩ | ⟨h, e, _⟩
  · rw [e] at hi; cases hi
  · rw [e] at hi; simp only [List.mem_singleton] at hi; omega
  · rw [e] at hi; simp only [List.mem_singleton] at hi; omega
  · rw [e] at hi
    simp only [List.mem_cons, List.mem_singleton, List.not_mem_nil, or_false] at hi
    omega

theorem key_fromMemorySegment_failed_iff (self : KnobExpressionKey) (segment : ExternalSegmentType)
    (objectPointers : ExternalSegmentTypeHandleList) (start n : Nat) :
    ((self.fromMemorySegment segment objectPointers start (start + n)).outcome =
        .returned .eFromMemorySegmentRetCodeFailed → n < 2) ∧
    (n = 0 → (self.fromMemorySegment segment objectPointers start (start + n)).outcome =
        .returned .eFromMemorySegmentRetCodeFailed) ∧
    (n = 1 → ∀ data, (objectPointers[start]?).bind
          (fun handle => readAnonymousSharedObject handle segment) = some (.shmData data) →
      (self.fromMemorySegment segment objectPointers start (start + n)).outcome =
        .returned .eFromMemorySegmentRetCodeFailed) ∧
    (2 ≤ n → ∀ code, (self.fromMemorySegment segment objectPointers start (start + n)).outcome ≠
        .returned code) := by
  rcases key_fromMemorySegment_cases self segment objectPointers start n with
    ⟨h, e⟩ | ⟨h, hno, e⟩ | ⟨h, data, hd, e⟩ | ⟨h, _, e⟩
  · refine ⟨fun _ => by omega, fun _ => by rw [e], fun h1 => by omega, fun h2 => by omega⟩
  · refine ⟨fun h1 => ?_, fun h1 => by omega, fun _ data hd => absurd hd (hno data), ?_⟩
    · rw [e] at h1; cases h1
    · intro _ code hc; rw [e] at hc; cases hc
  · refine ⟨fun _ => by omega, fun h1 => by omega, fun _ _ _ => by rw [e], fun h2 => by omega⟩
  · refine ⟨fun h1 => ?_, fun h1 => by omega, fun h1 => by omega, fun _ code hc => ?_⟩
    · rcases e with e | e <;> rw [e] at h1 <;> cases h1
    · rcases e with e | e <;> rw [e] at hc <;> cases hc

/-- C19, the code on a range with two handles: `fromMemorySegment` on the two
handles that `toMemorySegment` of the key `(7, 1, a)` wrote reads both handles,
fills the key and reaches the end of its body without a `return` statement,
and so it is for every key and every segment; on no range with two handles or
more does the function return a value. The other parts of the claim hold: every
read is at a position in `[start, end)`, the failure code is returned on the
empty range and on a range of one handle to a `ShmData`, and on no range with
two handles or more. -/
theorem key_fromMemorySegment_no_return :
    ((KnobExpressionKey.create 7 1 "a").toMemorySegment [] [] =
      ([.shmData ⟨7, 1⟩, .string "a"], [0, 1])) ∧
    ((KnobExpressionKey.create 0 0 "").fromMemorySegment [.shmData ⟨7, 1⟩, .string "a"] [0, 1] 0 2 =
      ⟨KnobExpressionKey.create 7 1 "a", [0, 1], .noReturnStatement⟩) ∧
    (∀ (k receiver : KnobExpressionKey) (segment : ExternalSegmentType),
      (k.roundTrip receiver segment).outcome = .noReturnStatement) ∧
    (∀ (self : KnobExpressionKey) (segment : ExternalSegmentType)
        (objectPointers : ExternalSegmentTypeHandleList) (start n : Nat),
      (∀ i ∈ (self.fromMemorySegment segment objectPointers start (start + n)).reads,
        start ≤ i ∧ i < start + n) ∧
      ((self.fromMemorySegment segment objectPointers start (start + n)).outcome =
        .returned .eFromMemorySegmentRetCodeFailed → n < 2) ∧
      (n = 0 → (self.fromMemorySegment segment objectPointers start (start + n)).outcome =
        .returned .eFromMemorySegmentRetCodeFailed) ∧
      (n = 1 → ∀ data, (objectPointers[start]?).bind
            (fun handle => readAnonymousSharedObject handle segment) = some (.shmData data) →
        (self.fromMemorySegment segment objectPointers start (start + n)).outcome =
          .returned .eFromMemorySegmentRetCodeFailed) ∧
      (2 ≤ n → ∀ code, (self.fromMemorySegment segment objectPointers start (start + n)).outcome ≠
        .returned code)) := by
  refine ⟨by decide, by decide, ?_, ?_⟩
  · intro k receiver segment
    rw [key_roundTrip_eq]
  · intro self segment objectPointers start n
    exact ⟨key_fromMemorySegment_reads self segment objectPointers start n,
      key_fromMemorySegment_failed_iff self segment objectPointers start n⟩

theorem result_fromMemorySegment_truncated_core
    (baseFrom : Bool → ExternalSegmentType → ExternalSegmentTypeHandleList → Nat → Nat → Outcome)
    (self : KnobExpressionResult) (lock : Bool) (segment : ExternalSegmentType)
    (objectPointers : ExternalSegmentTypeHandleList) (start n : Nat) (hn : n < 2) :
    (∀ code, (self.fromMemorySegment baseFrom lock segment objectPointers start
      (start + n)).outcome ≠ .returned code) ∧
    (∀ i ∈ (self.fromMemorySegment baseFrom lock segment objectPointers start (start + n)).reads,
      start ≤ i ∧ i < start + n) ∧
    (self.fromMemorySegment baseFrom lock segment objectPointers start (start + n)).self = self ∧
    (n = 0 → (self.fromMemorySegment baseFrom lock segment objectPointers start
      (start + n)).outcome = .threwBadAlloc) ∧
    (∀ type_i, (objectPointers[start]?).bind
        (fun handle => readAnonymousSharedObject handle segment) = some (.int type_i) →
      (self.fromMemorySegment baseFrom lock segment objectPointers start
        (start + n)).outcome = .threwBadAlloc) := by
  have hcases : n = 0 ∨ n = 1 := by omega
  rcases hcases with h | h
  · subst h
    simp [KnobExpressionResult.fromMemorySegment]
  · subst h
    cases hd : (objectPointers[start]?).bind
        (fun handle => readAnonymousSharedObject handle segment) with
    | none => simp [KnobExpressionResult.fromMemorySegment, hd]
    | some o =>
      cases o <;> simp [KnobExpressionResult.fromMemorySegment, hd]

/-- C20, the code on a truncated range: on the empty range and on a range of
one handle `fromMemorySegment` of the entry executes `throw std::bad_alloc()`,
where `KnobExpressionKey::fromMemorySegment` returns
`eFromMemorySegmentRetCodeFailed` at the same two checks; on no range of fewer
than two handles does the function of the entry return a value, so the claim
that it returns a failure value fails. The other part of the claim holds:
every read is at a position in `[start, end)`. -/
theorem result_fromMemorySegment_throws :
    ((KnobExpressionResult.mk "" ⟨0⟩).fromMemorySegment emptyBaseFromMemorySegment false [] [] 0 0 =
      ⟨KnobExpressionResult.mk "" ⟨0⟩, [], .threwBadAlloc⟩) ∧
    ((KnobExpressionResult.mk "" ⟨0⟩).fromMemorySegment emptyBaseFromMemorySegment false
        [.int 1, .string "a"] [0, 1] 0 1 =
      ⟨KnobExpressionResult.mk "" ⟨0⟩, [0], .threwBadAlloc⟩) ∧
    ((KnobExpressionKey.create 0 0 "").fromMemorySegment [] [] 0 0).outcome =
      .returned .eFromMemorySegmentRetCodeFailed ∧
    ((KnobExpressionKey.create 0 0 "").fromMemorySegment [.shmData ⟨7, 1⟩, .string "a"] [0, 1] 0
      1).outcome = .returned .eFromMemorySegmentRetCodeFailed ∧
    (∀ (baseFrom : Bool → ExternalSegmentType → ExternalSegmentTypeHandleList → Nat → Nat →
          Outcome)
        (self : KnobExpressionResult) (lock : Bool) (segment : ExternalSegmentType)
        (objectPointers : ExternalSegmentTypeHandleList) (start n : Nat), n < 2 →
      (∀ code, (self.fromMemorySegment baseFrom lock segment objectPointers start
        (start + n)).outcome ≠ .returned code) ∧
      (∀ i ∈ (self.fromMemorySegment baseFrom lock segment objectPointers start (start + n)).reads,
        start ≤ i ∧ i < start + n) ∧
      (n = 0 → (self.fromMemorySegment baseFrom lock segment objectPointers start
        (start + n)).outcome = .threwBadAlloc) ∧
      (∀ type_i, (objectPointers[start]?).bind
          (fun handle => readAnonymousSharedObject handle segment) = some (.int type_i) →
        (self.fromMemorySegment baseFrom lock segment objectPointers start
          (start + n)).outcome = .threwBadAlloc)) ∧
    ¬ ∀ (baseFrom : Bool → ExternalSegmentType → ExternalSegmentTypeHandleList → Nat → Nat →
          Outcome)
        (self : KnobExpressionResult) (lock : Bool) (segment : ExternalSegmentType)
        (objectPointers : ExternalSegmentTypeHandleList) (start n : Nat), n < 2 →
        ∃ code, (self.fromMemorySegment baseFrom lock segment objectPointers start
          (start + n)).outcome = .returned code := by
  refine ⟨by decide, by decide, by decide, by decide, ?_, ?_⟩
  · intro baseFrom self lock segment objectPointers start n hn
    obtain ⟨h1, h2, _, h4, h5⟩ :=
      result_fromMemorySegment_truncated_core baseFrom self lock segment objectPointers start n hn
    exact ⟨h1, h2, h4, h5⟩
  · intro h
    obtain ⟨code, hc⟩ := h emptyBaseFromMemorySegment ⟨"", ⟨0⟩⟩ false [] [] 0 0 (by decide)
    revert hc
    cases code <;> decide

/-! ## The counter of opened cache files -/

theorem sizeTRange_eq : sizeTRange = 18446744073709551616 := by
  unfold sizeTRange; norm_num

theorem runCacheFilesCalls_count :
    ∀ (calls : List CacheFilesCall) (imp : AppManagerPrivate),
      imp.currentCacheFilesCount < sizeTRange →
      (runCacheFilesCalls calls imp).maxCacheFiles = imp.maxCacheFiles ∧
      (runCacheFilesCalls calls imp).currentCacheFilesCount < sizeTRange ∧
      ((runCacheFilesCalls calls imp).currentCacheFilesCount : Int) =
        ((imp.currentCacheFilesCount : Int) + countIncreases calls - countDecreases calls) %
          (sizeTRange : Int) := by
  intro calls
  induction calls with
  | nil =>
    intro imp h
    simp only [runCacheFilesCalls, List.foldl_nil, countIncreases, countDecreases, List.count_nil,
      sizeTRange_eq] at h ⊢
    refine ⟨trivial, h, ?_⟩
    push_cast
    omega
  | cons c cs ih =>
    intro imp h
    cases c with
    | increase =>
      have h1 : (increaseNCacheFilesOpened imp).currentCacheFilesCount < sizeTRange := by
        simp only [increaseNCacheFilesOpened, sizeTRange_eq]; omega
      obtain ⟨e1, e2, e3⟩ := ih (increaseNCacheFilesOpened imp) h1
      have hrun : runCacheFilesCalls (.increase :: cs) imp =
          runCacheFilesCalls cs (increaseNCacheFilesOpened imp) := by
        simp only [runCacheFilesCalls, List.foldl_cons, CacheFilesCall.run]
      rw [hrun]
      have e0 : (increaseNCacheFilesOpened imp).maxCacheFiles = imp.maxCacheFiles := by
        simp only [increaseNCacheFilesOpened]
      refine ⟨e1.trans e0, e2, ?_⟩
      rw [e3]
      simp only [increaseNCacheFilesOpened, countIncreases, countDecreases, sizeTRange_eq,
        List.count_cons_self, List.count_cons_of_ne (by decide : CacheFilesCall.decrease ≠ .increase)]
      push_cast
      omega
    | decrease =>
      have h1 : (decreaseNCacheFilesOpened imp).currentCacheFilesCount < sizeTRange := by
        simp only [decreaseNCacheFilesOpened, sizeTRange_eq] at h ⊢
        split <;> omega
      obtain ⟨e1, e2, e3⟩ := ih (decreaseNCacheFilesOpened imp) h1
      have hrun : runCacheFilesCalls (.decrease :: cs) imp =
          runCacheFilesCalls cs (decreaseNCacheFilesOpened imp) := by
        simp only [runCacheFilesCalls, List.foldl_cons, CacheFilesCall.run]
      rw [hrun]
      have e0 : (decreaseNCacheFilesOpened imp).maxCacheFiles = imp.maxCacheFiles := by
        simp only [decreaseNCacheFilesOpened]
      refine ⟨e1.trans e0, e2, ?_⟩
      rw [e3]
      simp only [decreaseNCacheFilesOpened, countIncreases, countDecreases, sizeTRange_eq,
        List.count_cons_self, List.count_cons_of_ne (by decide : CacheFilesCall.increase ≠ .decrease)]
      simp only [sizeTRange_eq] at h
      split <;> push_cast <;> omega

/-- C21: starting from a counter of zero, after a sequence of
`increaseNCacheFilesOpened` / `decreaseNCacheFilesOpened` calls of which every
prefix has at least as many increases as decreases, `getNCacheFilesOpened` is
the number of increases minus the number of decreases, reduced modulo `2 ^ 64`
as a `size_t` is; when that number is below `2 ^ 64` it is returned as it is,
and `isNCacheFilesOpenedCapped` returns true exactly when it is at least the
configured maximum. -/
theorem cacheFilesOpened_counts (maxCacheFiles : Nat) (calls : List CacheFilesCall)
    (h : NeverBelowZero calls) :
    countDecreases calls ≤ countIncreases calls ∧
    getNCacheFilesOpened (runCacheFilesCalls calls ⟨0, maxCacheFiles⟩) =
      (countIncreases calls - countDecreases calls) % sizeTRange ∧
    (countIncreases calls - countDecreases calls < sizeTRange →
      getNCacheFilesOpened (runCacheFilesCalls calls ⟨0, maxCacheFiles⟩) =
        countIncreases calls - countDecreases calls ∧
      (isNCacheFilesOpenedCapped (runCacheFilesCalls calls ⟨0, maxCacheFiles⟩) = true ↔
        countIncreases calls - countDecreases calls ≥ maxCacheFiles)) := by
  have hle : countDecreases calls ≤ countIncreases calls := by
    have := h calls.length (le_refl _)
    rwa [List.take_length] at this
  obtain ⟨e1, e2, e3⟩ := runCacheFilesCalls_count calls ⟨0, maxCacheFiles⟩
    (by rw [sizeTRange_eq]; norm_num)
  have hget : getNCacheFilesOpened (runCacheFilesCalls calls ⟨0, maxCacheFiles⟩) =
      (countIncreases calls - countDecreases calls) % sizeTRange := by
    simp only [getNCacheFilesOpened, sizeTRange_eq] at e3 ⊢
    push_cast at e3
    omega
  refine ⟨hle, hget, ?_⟩
  intro hlt
  have hexact : getNCacheFilesOpened (runCacheFilesCalls calls ⟨0, maxCacheFiles⟩) =
      countIncreases calls - countDecreases calls := by
    rw [hget, Nat.mod_eq_of_lt hlt]
  refine ⟨hexact, ?_⟩
  simp only [isNCacheFilesOpenedCapped, decide_eq_true_eq, e1]
  simp only [getNCacheFilesOpened] at hexact
  rw [hexact]

theorem cacheFilesOpened_counts_witness :
    NeverBelowZero [.increase, .increase, .decrease, .increase] ∧
    getNCacheFilesOpened (runCacheFilesCalls [.increase, .increase, .decrease, .increase] ⟨0, 2⟩) = 2 ∧
    isNCacheFilesOpenedCapped
      (runCacheFilesCalls [.increase, .increase, .decrease, .increase] ⟨0, 2⟩) = true ∧
    isNCacheFilesOpenedCapped
      (runCacheFilesCalls [.increase, .increase, .decrease, .increase] ⟨0, 3⟩) = false ∧
    (countDecreases [.increase, .increase, .decrease, .increase] ≤
      countIncreases [.increase, .increase, .decrease, .increase] ∧
    getNCacheFilesOpened (runCacheFilesCalls [.increase, .increase, .decrease, .increase] ⟨0, 2⟩) =
      (countIncreases [.increase, .increase, .decrease, .increase] -
        countDecreases [.increase, .increase, .decrease, .increase]) % sizeTRange ∧
    (countIncreases [.increase, .increase, .decrease, .increase] -
        countDecreases [.increase, .increase, .decrease, .increase] < sizeTRange →
      getNCacheFilesOpened
          (runCacheFilesCalls [.increase, .increase, .decrease, .increase] ⟨0, 2⟩) =
        countIncreases [.increase, .increase, .decrease, .increase] -
          countDecreases [.increase, .increase, .decrease, .increase] ∧
      (isNCacheFilesOpenedCapped
          (runCacheFilesCalls [.increase, .increase, .decrease, .increase] ⟨0, 2⟩) = true ↔
        countIncreases [.increase, .increase, .decrease, .increase] -
          countDecreases [.increase, .increase, .decrease, .increase] ≥ 2))) :=
  ⟨by decide, by decide, by decide, by decide,
    cacheFilesOpened_counts 2 [.increase, .increase, .decrease, .increase] (by decide)⟩

/-! ## Two calls of a solver -/

/-- The rectangles `getMinimalRectsToRenderFromTilesState` appends do not depend
on the list they are appended to. -/
theorem rects_append (roi : RectI) (g : TileStateHeader) (out : List RectI) :
    getMinimalRectsToRenderFromTilesState roi g out =
      (getMinimalRectsToRenderFromTilesState roi g []).map (fun app => out ++ app) := by
  simp only [getMinimalRectsToRenderFromTilesState, pushClipped_eq]
  repeat' split
  all_goals simp_all

theorem scanRowRun_eq (hit : TileStatus → Bool) (y x2 : Int) (m : SolverMemory) :
    ∀ (fuel : Nat) (x : Int),
      scanRowRun hit y x2 fuel x m = (scanRow m.stateMap hit y x2 fuel x).map (fun b => (b, m)) := by
  intro fuel
  induction fuel with
  | zero => intro x; rfl
  | succ n ih =>
    intro x
    simp only [scanRowRun, scanRow, readStatusRun]
    split
    · cases h : m.stateMap.getTileAt x y with
      | none => rfl
      | some tile =>
        simp only
        split
        · rfl
        · exact ih _
    · rfl

theorem scanColRun_eq (hit : TileStatus → Bool) (x y2 : Int) (m : SolverMemory) :
    ∀ (fuel : Nat) (y : Int),
      scanColRun hit x y2 fuel y m = (scanCol m.stateMap hit x y2 fuel y).map (fun b => (b, m)) := by
  intro fuel
  induction fuel with
  | zero => intro y; rfl
  | succ n ih =>
    intro y
    simp only [scanColRun, scanCol, readStatusRun]
    split
    · cases h : m.stateMap.getTileAt x y with
      | none => rfl
      | some tile =>
        simp only
        split
        · rfl
        · exact ih _
    · rfl

theorem rowHasRun_eq (hit : TileStatus → Bool) (r : RectI) (y : Int) (m : SolverMemory) :
    rowHasRun hit r y m = (rowHas m.stateMap hit r y).map (fun b => (b, m)) :=
  scanRowRun_eq hit y r.x2 m _ _

theorem colHasRun_eq (hit : TileStatus → Bool) (r : RectI) (x : Int) (m : SolverMemory) :
    colHasRun hit r x m = (colHas m.stateMap hit r x).map (fun b => (b, m)) :=
  scanColRun_eq hit x r.y2 m _ _

theorem shrinkBottomRun_eq (hit : TileStatus → Bool) (m : SolverMemory) :
    ∀ (fuel : Nat) (y : Int) (r : RectI),
      shrinkBottomRun hit fuel y r m =
        (shrinkBottom m.stateMap hit fuel y r).map (fun ret => (ret, m)) := by
  intro fuel
  induction fuel with
  | zero => intro y r; rfl
  | succ n ih =>
    intro y r
    simp only [shrinkBottomRun, shrinkBottom, rowHasRun_eq]
    split
    · cases h : rowHas m.stateMap hit r y with
      | none => rfl
      | some b =>
        simp only [Option.map_some']
        split
        · exact ih _ _
        · rfl
    · rfl

theorem shrinkTopRun_eq (hit : TileStatus → Bool) (m : SolverMemory) :
    ∀ (fuel : Nat) (y : Int) (r : RectI),
      shrinkTopRun hit fuel y r m =
        (shrinkTop m.stateMap hit fuel y r).map (fun ret => (ret, m)) := by
  intro fuel
  induction fuel with
  | zero => intro y r; rfl
  | succ n ih =>
    intro y r
    simp only [shrinkTopRun, shrinkTop, rowHasRun_eq]
    split
    · cases h : rowHas m.stateMap hit r y with
      | none => rfl
      | some b =>
        simp only [Option.map_some']
        split
        · exact ih _ _
        · rfl
    · rfl

theorem shrinkLeftRun_eq (hit : TileStatus → Bool) (m : SolverMemory) :
    ∀ (fuel : Nat) (x : Int) (r : RectI),
      shrinkLeftRun hit fuel x r m =
        (shrinkLeft m.stateMap hit fuel x r).map (fun ret => (ret, m)) := by
  intro fuel
  induction fuel with
  | zero => intro x r; rfl
  | succ n ih =>
    intro x r
    simp only [shrinkLeftRun, shrinkLeft, colHasRun_eq]
    split
    · cases h : colHas m.stateMap hit r x with
      | none => rfl
      | some b =>
        simp only [Option.map_some']
        split
        · exact ih _ _
        · rfl
    · rfl

theorem shrinkRightRun_eq (hit : TileStatus → Bool) (m : SolverMemory) :
    ∀ (fuel : Nat) (x : Int) (r : RectI),
      shrinkRightRun hit fuel x r m =
        (shrinkRight m.stateMap hit fuel x r).map (fun ret => (ret, m)) := by
  intro fuel
  induction fuel with
  | zero => intro x r; rfl
  | succ n ih =>
    intro x r
    simp only [shrinkRightRun, shrinkRight, colHasRun_eq]
    split
    · cases h : colHas m.stateMap hit r x with
      | none => rfl
      | some b =>
        simp only [Option.map_some']
        split
        · exact ih _ _
        · rfl
    · rfl

theorem bboxRun_eq (roi : RectI) (m : SolverMemory) :
    getMinimalBboxToRenderFromTilesStateRun roi m =
      (getMinimalBboxToRenderFromTilesState roi m.stateMap).map (fun ret => (ret, m)) := by
  simp only [getMinimalBboxToRenderFromTilesStateRun, getMinimalBboxToRenderFromTilesState,
    shrinkBottomRun_eq, shrinkTopRun_eq, shrinkLeftRun_eq, shrinkRightRun_eq]
  repeat' split
  all_goals simp_all

theorem peelBottomRun_eq (m : SolverMemory) :
    ∀ (fuel : Nat) (y : Int) (s : RectI × RectI),
      peelBottomRun fuel y s m = (peelBottom m.stateMap fuel y s).map (fun ret => (ret, m)) := by
  intro fuel
  induction fuel with
  | zero => intro y s; rfl
  | succ n ih =>
    intro y s
    obtain ⟨bboxX, bboxA⟩ := s
    simp only [peelBottomRun, peelBottom, rowHasRun_eq]
    split
    · cases h : rowHas m.stateMap isNotNotRendered bboxX y with
      | none => rfl
      | some b =>
        simp only [Option.map_some']
        split
        · rfl
        · exact ih _ _
    · rfl

theorem peelTopRun_eq (m : SolverMemory) :
    ∀ (fuel : Nat) (y : Int) (s : RectI × RectI),
      peelTopRun fuel y s m = (peelTop m.stateMap fuel y s).map (fun ret => (ret, m)) := by
  intro fuel
  induction fuel with
  | zero => intro y s; rfl
  | succ n ih =>
    intro y s
    obtain ⟨bboxX, bboxB⟩ := s
    simp only [peelTopRun, peelTop, rowHasRun_eq]
    split
    · cases h : rowHas m.stateMap isNotNotRendered bboxX y with
      | none => rfl
      | some b =>
        simp only [Option.map_some']
        split
        · rfl
        · exact ih _ _
    · rfl

theorem peelLeftRun_eq (m : SolverMemory) :
    ∀ (fuel : Nat) (x : Int) (s : RectI × RectI),
      peelLeftRun fuel x s m = (peelLeft m.stateMap fuel x s).map (fun ret => (ret, m)) := by
  intro fuel
  induction fuel with
  | zero => intro x s; rfl
  | succ n ih =>
    intro x s
    obtain ⟨bboxX, bboxC⟩ := s
    simp only [peelLeftRun, peelLeft, colHasRun_eq]
    split
    · cases h : colHas m.stateMap isNotNotRendered bboxX x with
      | none => rfl
      | some b =>
        simp only [Option.map_some']
        split
        · rfl
        · exact ih _ _
    · rfl

theorem peelRightRun_eq (m : SolverMemory) :
    ∀ (fuel : Nat) (x : Int) (s : RectI × RectI),
      peelRightRun fuel x s m = (peelRight m.stateMap fuel x s).map (fun ret => (ret, m)) := by
  intro fuel
  induction fuel with
  | zero => intro x s; rfl
  | succ n ih =>
    intro x s
    obtain ⟨bboxX, bboxD⟩ := s
    simp only [peelRightRun, peelRight, colHasRun_eq]
    split
    · cases h : colHas m.stateMap isNotNotRendered bboxX x with
      | none => rfl
      | some b =>
        simp only [Option.map_some']
        split
        · rfl
        · exact ih _ _
    · rfl

theorem pushClippedRun_eq (bbox roi : RectI) (m : SolverMemory) :
    pushClippedRun bbox roi m = ⟨m.stateMap, pushClipped bbox roi m.rectsToRender⟩ := by
  simp only [pushClippedRun, pushClipped]
  split <;> rfl

theorem rectsRun_eq (roi : RectI) (m : SolverMemory) :
    getMinimalRectsToRenderFromTilesStateRun roi m =
      (getMinimalRectsToRenderFromTilesState roi m.stateMap m.rectsToRender).map
        (fun out => ⟨m.stateMap, out⟩) := by
  obtain ⟨g, out⟩ := m
  simp only [getMinimalRectsToRenderFromTilesStateRun, getMinimalRectsToRenderFromTilesState,
    bboxRun_eq, peelBottomRun_eq, peelTopRun_eq, peelLeftRun_eq, peelRightRun_eq,
    pushClippedRun_eq]
  by_cases he : g.tiles.isEmpty = true
  · simp only [he, if_true, Option.map_some']
  · simp only [he, Bool.false_eq_true, if_false]
    cases h1 : getMinimalBboxToRenderFromTilesState roi g with
    | none => rfl
    | some bboxM =>
      simp only [Option.map_some']
      by_cases hn : bboxM.isNull = true
      · simp only [hn, if_true, Option.map_some']
      · simp only [hn, Bool.false_eq_true, if_false]
        cases h2 : peelBottom g (rowFuel (bboxM.roundToTileSize g.tileSizeX g.tileSizeY))
            (bboxM.roundToTileSize g.tileSizeX g.tileSizeY).y1
            (bboxM.roundToTileSize g.tileSizeX g.tileSizeY,
              { bboxM.roundToTileSize g.tileSizeX g.tileSizeY with
                y2 := (bboxM.roundToTileSize g.tileSizeX g.tileSizeY).y1 }) with
        | none => rfl
        | some s2 =>
          obtain ⟨bboxX2, bboxA⟩ := s2
          simp only [Option.map_some']
          cases h3 : peelTop g (rowFuel bboxX2) (bboxX2.y2 - g.tileSizeY)
              (bboxX2, { bboxX2 with y1 := bboxX2.y2 }) with
          | none => rfl
          | some s3 =>
            obtain ⟨bboxX3, bboxB⟩ := s3
            simp only [Option.map_some']
            have h4 : (if bboxX3.y1 < bboxX3.y2 then
                  Option.map (fun ret => (ret, (⟨g, pushClipped bboxB roi
                    (pushClipped bboxA roi out)⟩ : SolverMemory)))
                    (peelLeft g (colFuel bboxX3) bboxX3.x1 (bboxX3, { bboxX3 with x2 := bboxX3.x1 }))
                else some ((bboxX3, { bboxX3 with x2 := bboxX3.x1 }),
                  ⟨g, pushClipped bboxB roi (pushClipped bboxA roi out)⟩)) =
                Option.map (fun ret => (ret, (⟨g, pushClipped bboxB roi
                    (pushClipped bboxA roi out)⟩ : SolverMemory)))
                  (if bboxX3.y1 < bboxX3.y2 then
                    peelLeft g (colFuel bboxX3) bboxX3.x1 (bboxX3, { bboxX3 with x2 := bboxX3.x1 })
                  else some (bboxX3, { bboxX3 with x2 := bboxX3.x1 })) := by
              split <;> rfl
            rw [h4]
            cases h5 : (if bboxX3.y1 < bboxX3.y2 then
                    peelLeft g (colFuel bboxX3) bboxX3.x1 (bboxX3, { bboxX3 with x2 := bboxX3.x1 })
                  else some (bboxX3, { bboxX3 with x2 := bboxX3.x1 })) with
            | none => rfl
            | some s5 =>
              obtain ⟨bboxX5, bboxC⟩ := s5
              simp only [Option.map_some']
              have h6 : (if bboxX5.y1 < bboxX5.y2 then
                    Option.map (fun ret => (ret, (⟨g, pushClipped bboxC roi (pushClipped bboxB roi
                      (pushClipped bboxA roi out))⟩ : SolverMemory)))
                      (peelRight g (colFuel bboxX5) (bboxX5.x2 - g.tileSizeX)
                        (bboxX5, { bboxX5 with x1 := bboxX5.x2 }))
                  else some ((bboxX5, { bboxX5 with x1 := bboxX5.x2 }),
                    ⟨g, pushClipped bboxC roi (pushClipped bboxB roi
                      (pushClipped bboxA roi out))⟩)) =
                  Option.map (fun ret => (ret, (⟨g, pushClipped bboxC roi (pushClipped bboxB roi
                      (pushClipped bboxA roi out))⟩ : SolverMemory)))
                    (if bboxX5.y1 < bboxX5.y2 then
                      peelRight g (colFuel bboxX5) (bboxX5.x2 - g.tileSizeX)
                        (bboxX5, { bboxX5 with x1 := bboxX5.x2 })
                    else some (bboxX5, { bboxX5 with x1 := bboxX5.x2 })) := by
                split <;> rfl
              rw [h6]
              cases h7 : (if bboxX5.y1 < bboxX5.y2 then
                      peelRight g (colFuel bboxX5) (bboxX5.x2 - g.tileSizeX)
                        (bboxX5, { bboxX5 with x1 := bboxX5.x2 })
                    else some (bboxX5, { bboxX5 with x1 := bboxX5.x2 })) with
              | none => rfl
              | some s7 =>
                obtain ⟨bboxX7, bboxD⟩ := s7
                simp only [Option.map_some']
                split
                · rfl
                · cases h8 : getMinimalBboxToRenderFromTilesState bboxX7 g with
                  | none => rfl
                  | some bboxX8 => rfl

/-- C22: run as state transformers on the memory they can reach, the solvers
leave the grid as it was, tile statuses and bounds included:
`getMinimalBboxToRenderFromTilesState` returns the rectangle of the function
`getMinimalBboxToRenderFromTilesState` above and leaves the whole memory
unchanged, `getMinimalRectsToRenderFromTilesState` leaves the grid unchanged and
the list it was given extended by rectangles that do not depend on that list.
So a second call on the memory left by the first returns the same rectangle,
and appends the same rectangles in the same order; a call of one solver does
not change what the other returns. On scenario B both calls run through; with
the write `getTileAt(64, 64)->status = eTileStatusRendered` between two calls
the second call returns another rectangle. -/
theorem solvers_leave_grid (roi : RectI) (m : SolverMemory) :
    getMinimalBboxToRenderFromTilesStateRun roi m =
      (getMinimalBboxToRenderFromTilesState roi m.stateMap).map (fun ret => (ret, m)) ∧
    getMinimalRectsToRenderFromTilesStateRun roi m =
      (getMinimalRectsToRenderFromTilesState roi m.stateMap m.rectsToRender).map
        (fun out => ⟨m.stateMap, out⟩) ∧
    (∀ (ret : RectI) (m1 : SolverMemory),
      getMinimalBboxToRenderFromTilesStateRun roi m = some (ret, m1) →
        m1 = m ∧ m1.stateMap.tiles = m.stateMap.tiles ∧
        getMinimalBboxToRenderFromTilesStateRun roi m1 = some (ret, m1) ∧
        getMinimalRectsToRenderFromTilesStateRun roi m1 =
          getMinimalRectsToRenderFromTilesStateRun roi m) ∧
    (∀ m1 : SolverMemory, getMinimalRectsToRenderFromTilesStateRun roi m = some m1 →
        m1.stateMap = m.stateMap ∧ m1.stateMap.tiles = m.stateMap.tiles ∧
        (∃ app, m1.rectsToRender = m.rectsToRender ++ app ∧
          getMinimalRectsToRenderFromTilesStateRun roi m1 =
            some ⟨m.stateMap, m1.rectsToRender ++ app⟩ ∧
          ∀ out, getMinimalRectsToRenderFromTilesStateRun roi ⟨m1.stateMap, out⟩ =
            some ⟨m.stateMap, out ++ app⟩) ∧
        (getMinimalBboxToRenderFromTilesStateRun roi m1).map Prod.fst =
          (getMinimalBboxToRenderFromTilesStateRun roi m).map Prod.fst) ∧
    getMinimalBboxToRenderFromTilesStateRun ⟨0, 0, 100, 100⟩ ⟨scenarioB, []⟩ =
      some (⟨64, 64, 100, 100⟩, ⟨scenarioB, []⟩) ∧
    getMinimalRectsToRenderFromTilesStateRun ⟨0, 0, 100, 100⟩ ⟨scenarioB, []⟩ =
      some ⟨scenarioB, [⟨64, 64, 100, 100⟩]⟩ ∧
    getMinimalRectsToRenderFromTilesStateRun ⟨0, 0, 100, 100⟩ ⟨scenarioB, [⟨64, 64, 100, 100⟩]⟩ =
      some ⟨scenarioB, [⟨64, 64, 100, 100⟩, ⟨64, 64, 100, 100⟩]⟩ ∧
    (getMinimalBboxToRenderFromTilesStateRun ⟨0, 0, 100, 100⟩
      ⟨scenarioB.setStatusAt 64 64 eTileStatusRendered, []⟩).map Prod.fst =
      some ⟨0, 128, 128, 128⟩ := by
  refine ⟨bboxRun_eq roi m, rectsRun_eq roi m, ?_, ?_, by decide, by decide, by decide,
    by decide⟩
  · intro ret m1 h
    have h1 : m1 = m := by
      rw [bboxRun_eq] at h
      cases hb : getMinimalBboxToRenderFromTilesState roi m.stateMap with
      | none => rw [hb] at h; cases h
      | some r =>
        rw [hb] at h
        simp only [Option.map_some', Option.some.injEq, Prod.mk.injEq] at h
        exact h.2.symm
    subst h1
    exact ⟨rfl, rfl, h, rfl⟩
  · intro m1 h
    rw [rectsRun_eq] at h
    cases hr : getMinimalRectsToRenderFromTilesState roi m.stateMap m.rectsToRender with
    | none => rw [hr] at h; cases h
    | some l =>
      rw [hr] at h
      simp only [Option.map_some', Option.some.injEq] at h
      subst h
      have ha := rects_append roi m.stateMap m.rectsToRender
      rw [hr] at ha
      cases h0 : getMinimalRectsToRenderFromTilesState roi m.stateMap [] with
      | none => rw [h0] at ha; cases ha
      | some app =>
        rw [h0] at ha
        simp only [Option.map_some', Option.some.injEq] at ha
        have hout : ∀ out, getMinimalRectsToRenderFromTilesStateRun roi ⟨m.stateMap, out⟩ =
            some ⟨m.stateMap, out ++ app⟩ := by
          intro out
          rw [rectsRun_eq, rects_append, h0]
          rfl
        refine ⟨rfl, rfl, ⟨app, ha, hout _, hout⟩, ?_⟩
        rw [bboxRun_eq, bboxRun_eq]
        simp only [Option.map_map]
        rfl

/-! ## One producer for two requests of a key -/

theorem getOrCreate_twice {κ : Type} [DecidableEq κ] (cache : Cache κ) (key : κ)
    (thread1 thread2 : Nat) (h : cache.Absent key) :
    (cache.getOrCreate key thread1).2 = ⟨false, cache.entries.length, true⟩ ∧
    ((cache.getOrCreate key thread1).1.getOrCreate key thread2).2 =
      ⟨true, cache.entries.length, false⟩ ∧
    ((cache.getOrCreate key thread1).1.getOrCreate key thread2).1.entries =
      cache.entries ++ [⟨key, cache.entries.length, .pending thread1⟩] := by
  unfold Cache.Absent at h
  have h1 : cache.getOrCreate key thread1 =
      ({ entries := cache.entries ++ [⟨key, cache.entries.length, .pending thread1⟩] },
        ⟨false, cache.entries.length, true⟩) := by
    simp only [Cache.getOrCreate, h]
  have h2 : (cache.entries ++ [(⟨key, cache.entries.length, .pending thread1⟩ : CacheEntry κ)]).find?
      (fun e => decide (e.key = key)) = some ⟨key, cache.entries.length, .pending thread1⟩ := by
    rw [List.find?_append, h]
    simp
  rw [h1]
  simp only [Cache.getOrCreate, h2]
  exact ⟨trivial, trivial, trivial⟩

/-- C23, on the model of `Cache::getOrCreate`: when two threads call
`getImageOrCreate`, or `getTextureOrCreate`, with the same key, the second before
the first has published and the cache holding no entry of the key, the first
caller is made the producer and the second is not, both receive the same
entry, and the cache holds that one entry for the key, in flight in the hands
of the first caller. -/
theorem getOrCreate_one_producer {ImageKey FrameKey : Type} [DecidableEq ImageKey]
    [DecidableEq FrameKey] (imp : AppManagerCaches ImageKey FrameKey) (imageKey : ImageKey)
    (frameKey : FrameKey) (thread1 thread2 : Nat) (hImage : imp._nodeCache.Absent imageKey)
    (hFrame : imp._viewerCache.Absent frameKey) :
    ((getImageOrCreate imp imageKey thread1).2.producer = true ∧
      (getImageOrCreate (getImageOrCreate imp imageKey thread1).1 imageKey thread2).2.producer =
        false ∧
      (getImageOrCreate (getImageOrCreate imp imageKey thread1).1 imageKey thread2).2.returnValue =
        (getImageOrCreate imp imageKey thread1).2.returnValue ∧
      (getImageOrCreate (getImageOrCreate imp imageKey thread1).1 imageKey
          thread2).1._nodeCache.entries =
        imp._nodeCache.entries ++
          [⟨imageKey, (getImageOrCreate imp imageKey thread1).2.returnValue, .pending thread1⟩]) ∧
    ((getTextureOrCreate imp frameKey thread1).2.producer = true ∧
      (getTextureOrCreate (getTextureOrCreate imp frameKey thread1).1 frameKey
          thread2).2.producer = false ∧
      (getTextureOrCreate (getTextureOrCreate imp frameKey thread1).1 frameKey
          thread2).2.returnValue =
        (getTextureOrCreate imp frameKey thread1).2.returnValue ∧
      (getTextureOrCreate (getTextureOrCreate imp frameKey thread1).1 frameKey
          thread2).1._viewerCache.entries =
        imp._viewerCache.entries ++
          [⟨frameKey, (getTextureOrCreate imp frameKey thread1).2.returnValue,
            .pending thread1⟩]) := by
  constructor
  · obtain ⟨e1, e2, e3⟩ := getOrCreate_twice imp._nodeCache imageKey thread1 thread2 hImage
    simp only [getImageOrCreate, e1, e2, e3]
    exact ⟨trivial, trivial, trivial, trivial⟩
  · obtain ⟨e1, e2, e3⟩ := getOrCreate_twice imp._viewerCache frameKey thread1 thread2 hFrame
    simp only [getTextureOrCreate, e1, e2, e3]
    exact ⟨trivial, trivial, trivial, trivial⟩

theorem getOrCreate_one_producer_witness :
    (sampleCaches._nodeCache.Absent 7 ∧ sampleCaches._viewerCache.Absent 7) ∧
    (getImageOrCreate sampleCaches 7 1).2 = ⟨false, 1, true⟩ ∧
    (getImageOrCreate (getImageOrCreate sampleCaches 7 1).1 7 2).2 = ⟨true, 1, false⟩ ∧
    (getImageOrCreate sampleCaches 5 1).2 = ⟨true, 0, false⟩ ∧
    ((getImageOrCreate sampleCaches 7 1).2.producer = true ∧
      (getImageOrCreate (getImageOrCreate sampleCaches 7 1).1 7 2).2.producer = false ∧
      (getImageOrCreate (getImageOrCreate sampleCaches 7 1).1 7 2).2.returnValue =
        (getImageOrCreate sampleCaches 7 1).2.returnValue ∧
      (getImageOrCreate (getImageOrCreate sampleCaches 7 1).1 7 2).1._nodeCache.entries =
        sampleCaches._nodeCache.entries ++
          [⟨7, (getImageOrCreate sampleCaches 7 1).2.returnValue, .pending 1⟩]) ∧
    ((getTextureOrCreate sampleCaches 7 1).2.producer = true ∧
      (getTextureOrCreate (getTextureOrCreate sampleCaches 7 1).1 7 2).2.producer = false ∧
      (getTextureOrCreate (getTextureOrCreate sampleCaches 7 1).1 7 2).2.returnValue =
        (getTextureOrCreate sampleCaches 7 1).2.returnValue ∧
      (getTextureOrCreate (getTextureOrCreate sampleCaches 7 1).1 7 2).1._viewerCache.entries =
        sampleCaches._viewerCache.entries ++
          [⟨7, (getTextureOrCreate sampleCaches 7 1).2.returnValue, .pending 1⟩]) :=
  ⟨by decide, by decide, by decide, by decide,
    getOrCreate_one_producer sampleCaches 7 7 1 2 (by decide) (by decide)⟩

/-! ## The bands at the sixteen assertions -/

/-- The function `getMinimalRectsToRenderFromTilesState` is the band loops
`peelBands`, the sixteen assertions and the pushes of the five rectangles. -/
theorem rects_eq_peelBands (roi : RectI) (g : TileStateHeader) (out : List RectI) :
    getMinimalRectsToRenderFromTilesState roi g out =
      if g.tiles.isEmpty then some out
      else
        match getMinimalBboxToRenderFromTilesState roi g with
        | none => none
        | some bboxM =>
          if bboxM.isNull then some out
          else
            match peelBands g (bboxM.roundToTileSize g.tileSizeX g.tileSizeY) with
            | none => none
            | some (bboxX, bboxA, bboxB, bboxC, bboxD) =>
              if !bandAsserts (bboxM.roundToTileSize g.tileSizeX g.tileSizeY) bboxX bboxA bboxB
                  bboxC bboxD then none
              else
                match getMinimalBboxToRenderFromTilesState bboxX g with
                | none => none
                | some bboxX =>
                  some (pushClipped bboxX roi (pushClipped bboxD roi (pushClipped bboxC roi
                    (pushClipped bboxB roi (pushClipped bboxA roi out))))) := by
  simp only [getMinimalRectsToRenderFromTilesState, peelBands]
  repeat' split
  all_goals simp_all

/-- What the band loops do on a non-null tile-aligned box `M` inside the rounded
bounds: the bands are `A = [M.x1,M.x2) × [M.y1,a)`, `B = [M.x1,M.x2) × [b,M.y2)`,
`C = [M.x1,c) × [a,b)`, `D = [d,M.x2) × [a,b)` and the rest is `[c,d) × [a,b)`;
no peeled row or column holds a tile that is not `NotRendered`, and each band
stops at a row or column that holds one, or at the end of the box. -/
theorem peelBands_spec {g : TileStateHeader} (hg : WellFormed g) (hne : g.tiles ≠ []) {M : RectI}
    (hM : Inside g M) (hMn : M.isNull = false) :
    ∃ (a b c d : Int),
      peelBands g M = some (⟨c, a, d, b⟩, ⟨M.x1, M.y1, M.x2, a⟩, ⟨M.x1, b, M.x2, M.y2⟩,
        ⟨M.x1, a, c, b⟩, ⟨d, a, M.x2, b⟩) ∧
      (M.y1 ≤ a ∧ a ≤ b ∧ b ≤ M.y2 ∧ M.x1 ≤ c ∧ c ≤ d ∧ d ≤ M.x2) ∧
      Inside g ⟨c, a, d, b⟩ ∧
      (∀ y, g.tileSizeY ∣ y → M.y1 ≤ y → y < a → ¬ RowHit g isNotNotRendered M.x1 M.x2 y) ∧
      (a < M.y2 → RowHit g isNotNotRendered M.x1 M.x2 a) ∧
      (∀ y, g.tileSizeY ∣ y → b ≤ y → y < M.y2 → ¬ RowHit g isNotNotRendered M.x1 M.x2 y) ∧
      (a < b → RowHit g isNotNotRendered M.x1 M.x2 (b - g.tileSizeY)) ∧
      (∀ x, g.tileSizeX ∣ x → M.x1 ≤ x → x < c → ¬ ColHit g isNotNotRendered a b x) ∧
      (a < b → c < M.x2 → ColHit g isNotNotRendered a b c) ∧
      (∀ x, g.tileSizeX ∣ x → d ≤ x → x < M.x2 → ¬ ColHit g isNotNotRendered a b x) ∧
      (a < b → c < d → ColHit g isNotNotRendered a b (d - g.tileSizeX)) ∧
      (¬ a < b → c = M.x1 ∧ d = M.x2) := by
  have hT := hg.1
  have hU := hg.2.1
  have hMn' := (isNull_false_iff M).1 hMn
  obtain ⟨⟨a1, a2, a3, a4⟩, w1, w2, w3, w4⟩ := hM
  -- bottom band
  obtain ⟨X1, e1, b1, b2, b3, b4, b5, b6, b7, b8⟩ :=
    shrinkBottom_spec hg hne isNotNotRendered (rowFuel M) M.y1 M ⟨⟨a1, a2, a3, a4⟩, w1, w2, w3, w4⟩
      rfl (by unfold rowFuel; omega)
  have hX1 : X1 = ⟨M.x1, X1.y1, M.x2, M.y2⟩ := rect_eq b1 rfl b2 b3
  generalize X1.y1 = a at hX1 b4 b5 b6 b7 b8
  subst hX1
  have f1 : peelBottom g (rowFuel M) M.y1 (M, ⟨M.x1, M.y1, M.x2, M.y1⟩) =
      some (⟨M.x1, a, M.x2, M.y2⟩, ⟨M.x1, M.y1, M.x2, a⟩) := by
    rw [peelBottom_eq g _ _ _ _ rfl, e1]; rfl
  have hX1i : Inside g ⟨M.x1, a, M.x2, M.y2⟩ :=
    ⟨⟨a1, a2, b6, a4⟩, w1, w2, by dsimp only; omega, w4⟩
  have ha : a ≤ M.y2 := by omega
  -- top band
  obtain ⟨X2, e2, c1, c2, c3, c4, c5, c6, c7, c8⟩ :=
    shrinkTop_spec hg hne isNotNotRendered (rowFuel ⟨M.x1, a, M.x2, M.y2⟩) (M.y2 - g.tileSizeY)
      ⟨M.x1, a, M.x2, M.y2⟩ hX1i rfl (by unfold rowFuel; dsimp only; omega)
  dsimp only at c1 c2 c3 c4 c5 c7 c8
  have hX2 : X2 = ⟨M.x1, a, M.x2, X2.y2⟩ := rect_eq c1 c3 c2 rfl
  generalize X2.y2 = b at hX2 c4 c5 c6 c7 c8
  subst hX2
  have f2 : peelTop g (rowFuel ⟨M.x1, a, M.x2, M.y2⟩) (M.y2 - g.tileSizeY)
      (⟨M.x1, a, M.x2, M.y2⟩, ⟨M.x1, M.y2, M.x2, M.y2⟩) =
      some (⟨M.x1, a, M.x2, b⟩, ⟨M.x1, b, M.x2, M.y2⟩) := by
    rw [peelTop_eq g _ _ _ _ rfl, e2]; rfl
  have hab : a ≤ b := by omega
  have hX2i : Inside g ⟨M.x1, a, M.x2, b⟩ :=
    ⟨⟨a1, a2, b6, c6⟩, w1, w2, by dsimp only; omega, by dsimp only; omega⟩
  by_cases hlt : a < b
  · -- left band
    obtain ⟨X3, e3, d1, d2, d3, d4, d5, d6, d7, d8⟩ :=
      shrinkLeft_spec hg hne isNotNotRendered (colFuel ⟨M.x1, a, M.x2, b⟩) M.x1
        ⟨M.x1, a, M.x2, b⟩ hX2i rfl (by unfold colFuel; dsimp only; omega)
    dsimp only at d1 d2 d3 d4 d5 d7 d8
    have hX3 : X3 = ⟨X3.x1, a, M.x2, b⟩ := rect_eq rfl d1 d3 d2
    generalize X3.x1 = c at hX3 d4 d5 d6 d7 d8
    subst hX3
    have f3 : peelLeft g (colFuel ⟨M.x1, a, M.x2, b⟩) M.x1
        (⟨M.x1, a, M.x2, b⟩, ⟨M.x1, a, M.x1, b⟩) =
        some (⟨c, a, M.x2, b⟩, ⟨M.x1, a, c, b⟩) := by
      rw [peelLeft_eq g _ _ _ _ rfl, e3]; rfl
    have hc : c ≤ M.x2 := by omega
    have hX3i : Inside g ⟨c, a, M.x2, b⟩ :=
      ⟨⟨d6, a2, b6, c6⟩, by dsimp only; omega, w2, by dsimp only; omega, by dsimp only; omega⟩
    -- right band
    obtain ⟨X4, e4, g1, g2, g3, g4, g5, g6, g7, g8⟩ :=
      shrinkRight_spec hg hne isNotNotRendered (colFuel ⟨c, a, M.x2, b⟩) (M.x2 - g.tileSizeX)
        ⟨c, a, M.x2, b⟩ hX3i rfl (by unfold colFuel; dsimp only; omega)
    dsimp only at g1 g2 g3 g4 g5 g7 g8
    have hX4 : X4 = ⟨c, a, X4.x2, b⟩ := rect_eq g3 g1 rfl g2
    generalize X4.x2 = d at hX4 g4 g5 g6 g7 g8
    subst hX4
    have f4 : peelRight g (colFuel ⟨c, a, M.x2, b⟩) (M.x2 - g.tileSizeX)
        (⟨c, a, M.x2, b⟩, ⟨M.x2, a, M.x2, b⟩) =
        some (⟨c, a, d, b⟩, ⟨d, a, M.x2, b⟩) := by
      rw [peelRight_eq g _ _ _ _ rfl, e4]; rfl
    have hX4i : Inside g ⟨c, a, d, b⟩ :=
      ⟨⟨d6, g6, b6, c6⟩, by dsimp only; omega, by dsimp only; omega, by dsimp only; omega,
        by dsimp only; omega⟩
    refine ⟨a, b, c, d, ?_, ⟨b4, hab, c4, d4, by omega, g4⟩, hX4i, b7, b8, c7, fun _ => c8 hlt,
      d7, fun _ h => d8 h, g7, fun _ h => g8 h, fun h => absurd hlt h⟩
    simp only [peelBands, f1, f2, hlt, if_true, f3, f4]
  · have hba : b = a := by omega
    subst hba
    refine ⟨b, b, M.x1, M.x2, ?_, ⟨b4, le_refl _, c4, le_refl _, by omega, le_refl _⟩, hX2i,
      b7, b8, c7, fun h => absurd h hlt, fun x _ l1 l2 => by omega, fun h => absurd h hlt,
      fun x _ l1 l2 => by omega, fun h => absurd h hlt, fun _ => ⟨rfl, rfl⟩⟩
    simp only [peelBands, f1, f2, hlt, if_false]

theorem rowAll_of_not_hit {g : TileStateHeader} (hg : WellFormed g) (hne : g.tiles ≠ [])
    {M : RectI} (hM : Inside g M) {y : Int} (dy : g.tileSizeY ∣ y) (h1 : M.y1 ≤ y) (h2 : y < M.y2)
    (h : ¬ RowHit g isNotNotRendered M.x1 M.x2 y) : RowAll g isNotRendered M.x1 M.x2 y := by
  intro x dx l1 l2
  obtain ⟨_, w1, w2, w3, w4⟩ := hM
  obtain ⟨t, ht⟩ := getTileAt_isSome hg hne
    (show IsOrigin g x y from ⟨dx, dy, by omega, by omega, by omega, by omega⟩)
  refine ⟨t, ht, ?_⟩
  by_contra hc
  apply h
  refine ⟨x, dx, l1, l2, t, ht, ?_⟩
  cases hs : t.status <;> simp_all [isNotRendered, isNotNotRendered]

theorem not_rowAll_of_hit {g : TileStateHeader} {x1 x2 y : Int}
    (h : RowHit g isNotNotRendered x1 x2 y) : ¬ RowAll g isNotRendered x1 x2 y := by
  intro hall
  obtain ⟨x, dx, l1, l2, t, ht, hs⟩ := h
  obtain ⟨t', ht', hs'⟩ := hall x dx l1 l2
  rw [ht] at ht'
  cases ht'
  cases hst : t.status <;> simp_all [isNotRendered, isNotNotRendered]

/-- The rounded bounding box of a grid built by `init` is a non-null tile-aligned
box inside the rounded bounds, on which the band loops run to their end. -/
theorem bands_of_bbox {g : TileStateHeader} {roi ret : RectI} (hb : BuiltByInit g)
    (hc : g.boundsRoundedToTileSize.contains roi = true)
    (hret : getMinimalBboxToRenderFromTilesState roi g = some ret) (hnn : ret.isNull = false) :
    g.tiles ≠ [] ∧ Inside g (ret.roundToTileSize g.tileSizeX g.tileSizeY) ∧
    (ret.roundToTileSize g.tileSizeX g.tileSizeY).isNull = false := by
  have hg := hb.wellFormed
  have hne : g.tiles ≠ [] := by
    intro hnil
    simp only [getMinimalBboxToRenderFromTilesState, hnil, List.isEmpty_nil, if_true,
      Option.some.injEq] at hret
    rw [← hret] at hnn
    revert hnn
    decide
  obtain ⟨S, hS, _, hcase⟩ := bbox_spec hg hne hc
  rcases hcase with ⟨hn, e, _⟩ | ⟨hSn, e, _⟩
  · rw [e] at hret
    cases hret
    rw [hn] at hnn
    cases hnn
  · rw [e] at hret
    cases hret
    obtain ⟨_, _, hround⟩ := round_intersect hg hS hSn hnn
    rw [hround]
    exact ⟨hne, hS, hSn⟩

/-- C24: on a grid built by `init`, for a `roi` contained in the rounded bounds
whose bounding box `ret` is not null, the band loops run to their end on
`bboxM`, which is `ret` rounded to the tile size, and the sixteen assertions
hold for the rectangles they leave: `A` and `B` span the width of `bboxM` at its
bottom and top, `C` and `D` span the height of `X` at its left and right, any
two of `A`, `B`, `C`, `D`, `X` have a null intersection and a pixel lies in
`bboxM` exactly when it lies in one of the five; the function itself runs to
its end. -/
theorem bands_asserts_hold (g : TileStateHeader) (roi ret : RectI) (rectsToRender : List RectI)
    (hb : BuiltByInit g) (hc : g.boundsRoundedToTileSize.contains roi = true)
    (hret : getMinimalBboxToRenderFromTilesState roi g = some ret) (hnn : ret.isNull = false) :
    ∃ bboxX bboxA bboxB bboxC bboxD : RectI,
      peelBands g (ret.roundToTileSize g.tileSizeX g.tileSizeY) =
        some (bboxX, bboxA, bboxB, bboxC, bboxD) ∧
      bandAsserts (ret.roundToTileSize g.tileSizeX g.tileSizeY) bboxX bboxA bboxB bboxC bboxD =
        true ∧
      (bboxA.x1 = (ret.roundToTileSize g.tileSizeX g.tileSizeY).x1 ∧
        bboxA.x2 = (ret.roundToTileSize g.tileSizeX g.tileSizeY).x2 ∧
        bboxA.y1 = (ret.roundToTileSize g.tileSizeX g.tileSizeY).y1 ∧ bboxA.y2 = bboxX.y1) ∧
      (bboxB.x1 = (ret.roundToTileSize g.tileSizeX g.tileSizeY).x1 ∧
        bboxB.x2 = (ret.roundToTileSize g.tileSizeX g.tileSizeY).x2 ∧
        bboxB.y2 = (ret.roundToTileSize g.tileSizeX g.tileSizeY).y2 ∧ bboxB.y1 = bboxX.y2) ∧
      (bboxC.y1 = bboxX.y1 ∧ bboxC.y2 = bboxX.y2 ∧
        bboxC.x1 = (ret.roundToTileSize g.tileSizeX g.tileSizeY).x1 ∧ bboxC.x2 = bboxX.x1) ∧
      (bboxD.y1 = bboxX.y1 ∧ bboxD.y2 = bboxX.y2 ∧ bboxD.x1 = bboxX.x2 ∧
        bboxD.x2 = (ret.roundToTileSize g.tileSizeX g.tileSizeY).x2) ∧
      [bboxA, bboxB, bboxC, bboxD, bboxX].Pairwise
        (fun p q => (p.intersect q RectI.null).2.isNull = true) ∧
      (∀ px py : Int, (ret.roundToTileSize g.tileSizeX g.tileSizeY).hasPixel px py ↔
        (bboxA.hasPixel px py ∨ bboxB.hasPixel px py ∨ bboxC.hasPixel px py ∨
          bboxD.hasPixel px py ∨ bboxX.hasPixel px py)) ∧
      ∃ rs, getMinimalRectsToRenderFromTilesState roi g rectsToRender = some rs := by
  have hg := hb.wellFormed
  obtain ⟨hne, hM, hMn⟩ := bands_of_bbox hb hc hret hnn
  obtain ⟨M, hMdef⟩ : ∃ M, M = ret.roundToTileSize g.tileSizeX g.tileSizeY := ⟨_, rfl⟩
  rw [← hMdef] at hM hMn ⊢
  obtain ⟨a, b, c, d, e, ⟨o1, o2, o3, o4, o5, o6⟩, hXi, _⟩ := peelBands_spec hg hne hM hMn
  have hMn' := (isNull_false_iff M).1 hMn
  have hass : bandAsserts M ⟨c, a, d, b⟩ ⟨M.x1, M.y1, M.x2, a⟩ ⟨M.x1, b, M.x2, M.y2⟩
      ⟨M.x1, a, c, b⟩ ⟨d, a, M.x2, b⟩ = true := by
    simp [bandAsserts, RectI.bottom, RectI.top, RectI.left, RectI.right]
  refine ⟨_, _, _, _, _, e, hass, ⟨rfl, rfl, rfl, rfl⟩, ⟨rfl, rfl, rfl, rfl⟩,
    ⟨rfl, rfl, rfl, rfl⟩, ⟨rfl, rfl, rfl, rfl⟩, ?_, ?_, ?_⟩
  · simp only [List.pairwise_cons, List.mem_cons, List.mem_singleton,
      forall_eq_or_imp, forall_eq, List.not_mem_nil, false_imp_iff, implies_true,
      List.Pairwise.nil, and_true]
    refine ⟨⟨?_, ?_, ?_, ?_⟩, ⟨?_, ?_, ?_⟩, ⟨?_, ?_⟩, ?_⟩ <;> apply isNull_of_no_pixel <;>
      intro px py hp <;> rw [intersect_hasPixel] at hp <;>
      simp only [RectI.hasPixel] at hp <;> omega
  · intro px py
    simp only [RectI.hasPixel]
    omega
  · have hcon := contains_of_inside hXi
    obtain ⟨X', eX⟩ : ∃ X', getMinimalBboxToRenderFromTilesState ⟨c, a, d, b⟩ g = some X' := by
      obtain ⟨S, _, _, hcase⟩ := bbox_spec hg hne hcon
      rcases hcase with ⟨_, e, _⟩ | ⟨_, e, _⟩
      · exact ⟨_, e⟩
      · exact ⟨_, e⟩
    rw [rects_eq_peelBands]
    simp only [tiles_isEmpty_false hne, hret, hnn, ← hMdef, e, hass, eX]
    exact ⟨_, rfl⟩

theorem bands_asserts_hold_witness :
    BuiltByInit marginGrid ∧ marginGrid.boundsRoundedToTileSize.contains ⟨0, 0, 3, 10⟩ = true ∧
    getMinimalBboxToRenderFromTilesState ⟨0, 0, 3, 10⟩ marginGrid = some ⟨2, 0, 3, 10⟩ ∧
    (⟨2, 0, 3, 10⟩ : RectI).isNull = false ∧
    peelBands marginGrid ((⟨2, 0, 3, 10⟩ : RectI).roundToTileSize 2 2) =
      some (⟨2, 2, 4, 8⟩, ⟨2, 0, 4, 2⟩, ⟨2, 8, 4, 10⟩, ⟨2, 2, 2, 8⟩, ⟨4, 2, 4, 8⟩) ∧
    ∃ bboxX bboxA bboxB bboxC bboxD : RectI,
      peelBands marginGrid
          ((⟨2, 0, 3, 10⟩ : RectI).roundToTileSize marginGrid.tileSizeX marginGrid.tileSizeY) =
        some (bboxX, bboxA, bboxB, bboxC, bboxD) ∧
      bandAsserts
          ((⟨2, 0, 3, 10⟩ : RectI).roundToTileSize marginGrid.tileSizeX marginGrid.tileSizeY)
          bboxX bboxA bboxB bboxC bboxD = true ∧
      (bboxA.x1 =
          ((⟨2, 0, 3, 10⟩ : RectI).roundToTileSize marginGrid.tileSizeX marginGrid.tileSizeY).x1 ∧
        bboxA.x2 =
          ((⟨2, 0, 3, 10⟩ : RectI).roundToTileSize marginGrid.tileSizeX marginGrid.tileSizeY).x2 ∧
        bboxA.y1 =
          ((⟨2, 0, 3, 10⟩ : RectI).roundToTileSize marginGrid.tileSizeX marginGrid.tileSizeY).y1 ∧
        bboxA.y2 = bboxX.y1) ∧
      (bboxB.x1 =
          ((⟨2, 0, 3, 10⟩ : RectI).roundToTileSize marginGrid.tileSizeX marginGrid.tileSizeY).x1 ∧
        bboxB.x2 =
          ((⟨2, 0, 3, 10⟩ : RectI).roundToTileSize marginGrid.tileSizeX marginGrid.tileSizeY).x2 ∧
        bboxB.y2 =
          ((⟨2, 0, 3, 10⟩ : RectI).roundToTileSize marginGrid.tileSizeX marginGrid.tileSizeY).y2 ∧
        bboxB.y1 = bboxX.y2) ∧
      (bboxC.y1 = bboxX.y1 ∧ bboxC.y2 = bboxX.y2 ∧
        bboxC.x1 =
          ((⟨2, 0, 3, 10⟩ : RectI).roundToTileSize marginGrid.tileSizeX marginGrid.tileSizeY).x1 ∧
        bboxC.x2 = bboxX.x1) ∧
      (bboxD.y1 = bboxX.y1 ∧ bboxD.y2 = bboxX.y2 ∧ bboxD.x1 = bboxX.x2 ∧
        bboxD.x2 =
          ((⟨2, 0, 3, 10⟩ : RectI).roundToTileSize marginGrid.tileSizeX marginGrid.tileSizeY).x2) ∧
      [bboxA, bboxB, bboxC, bboxD, bboxX].Pairwise
        (fun p q => (p.intersect q RectI.null).2.isNull = true) ∧
      (∀ px py : Int,
        ((⟨2, 0, 3, 10⟩ : RectI).roundToTileSize marginGrid.tileSizeX
          marginGrid.tileSizeY).hasPixel px py ↔
        (bboxA.hasPixel px py ∨ bboxB.hasPixel px py ∨ bboxC.hasPixel px py ∨
          bboxD.hasPixel px py ∨ bboxX.hasPixel px py)) ∧
      ∃ rs, getMinimalRectsToRenderFromTilesState ⟨0, 0, 3, 10⟩ marginGrid [] = some rs :=
  ⟨by decide, by decide, by decide, by decide, by decide,
    bands_asserts_hold marginGrid ⟨0, 0, 3, 10⟩ ⟨2, 0, 3, 10⟩ [] (by decide) (by decide)
      (by decide) (by decide)⟩

/-- C25 as stated fails: the band loops move a row to `A` when it holds no tile
with a status other than `NotRendered`. On Scenario B the rounded bounding box
is `(64,64,128,128)`, its one tile is `NotRendered`, and `A` is the whole box. -/
theorem bands_hold_unrendered_rows :
    BuiltByInit scenarioB ∧ scenarioB.boundsRoundedToTileSize.contains ⟨0, 0, 100, 100⟩ = true ∧
    getMinimalBboxToRenderFromTilesState ⟨0, 0, 100, 100⟩ scenarioB = some ⟨64, 64, 100, 100⟩ ∧
    (⟨64, 64, 100, 100⟩ : RectI).roundToTileSize 64 64 = ⟨64, 64, 128, 128⟩ ∧
    peelBands scenarioB ⟨64, 64, 128, 128⟩ =
      some (⟨64, 128, 128, 128⟩, ⟨64, 64, 128, 128⟩, ⟨64, 128, 128, 128⟩, ⟨64, 128, 64, 128⟩,
        ⟨128, 128, 128, 128⟩) ∧
    scenarioB.getTileAt 64 64 = some ⟨⟨64, 64, 100, 100⟩, eTileStatusNotRendered⟩ ∧
    ¬ ∀ (g : TileStateHeader) (roi ret bboxX bboxA bboxB bboxC bboxD : RectI),
        BuiltByInit g → g.boundsRoundedToTileSize.contains roi = true →
        getMinimalBboxToRenderFromTilesState roi g = some ret → ret.isNull = false →
        peelBands g (ret.roundToTileSize g.tileSizeX g.tileSizeY) =
          some (bboxX, bboxA, bboxB, bboxC, bboxD) →
        ∀ y, g.tileSizeY ∣ y → bboxA.y1 ≤ y → y < bboxA.y2 →
          RowAll g isNotNotRendered bboxA.x1 bboxA.x2 y := by
  refine ⟨by decide, by decide, by decide, by decide, by decide, by decide, ?_⟩
  intro h
  have h1 := h scenarioB ⟨0, 0, 100, 100⟩ ⟨64, 64, 100, 100⟩ ⟨64, 128, 128, 128⟩
    ⟨64, 64, 128, 128⟩ ⟨64, 128, 128, 128⟩ ⟨64, 128, 64, 128⟩ ⟨128, 128, 128, 128⟩
    (by decide) (by decide) (by decide) (by decide) (by decide) 64 (dvd_refl _) (by decide)
    (by decide) 64 (dvd_refl _) (by decide) (by decide)
  obtain ⟨t, ht, hs⟩ := h1
  have e : scenarioB.getTileAt 64 64 = some ⟨⟨64, 64, 100, 100⟩, eTileStatusNotRendered⟩ := by
    decide
  rw [e] at ht
  cases ht
  revert hs
  decide

/-- C25, amended: on a grid built by `init`, for a `roi` contained in the
rounded bounds whose bounding box `ret` is not null, with `bboxM` the box `ret`
rounded to the tile size: the band `A` spans the width of `bboxM` from its
bottom, every tile of every tile row of `A` is `NotRendered`, and the row above
`A`, when `A` does not reach the top of `bboxM`, holds a tile that is not
`NotRendered`; the band `B` spans the width of `bboxM` down from its top and
lies above `A`, every tile of every tile row of `B` is `NotRendered`, and the
row below `B`, when `B` does not reach `A`, holds a tile that is not
`NotRendered`. -/
theorem bands_are_unrendered_runs (g : TileStateHeader) (roi ret : RectI)
    (hb : BuiltByInit g) (hc : g.boundsRoundedToTileSize.contains roi = true)
    (hret : getMinimalBboxToRenderFromTilesState roi g = some ret) (hnn : ret.isNull = false) :
    ∃ bboxX bboxA bboxB bboxC bboxD : RectI,
      peelBands g (ret.roundToTileSize g.tileSizeX g.tileSizeY) =
        some (bboxX, bboxA, bboxB, bboxC, bboxD) ∧
      (bboxA.x1 = (ret.roundToTileSize g.tileSizeX g.tileSizeY).x1 ∧
        bboxA.x2 = (ret.roundToTileSize g.tileSizeX g.tileSizeY).x2 ∧
        bboxA.y1 = (ret.roundToTileSize g.tileSizeX g.tileSizeY).y1 ∧
        bboxA.y2 ≤ (ret.roundToTileSize g.tileSizeX g.tileSizeY).y2) ∧
      (∀ y, g.tileSizeY ∣ y → bboxA.y1 ≤ y → y < bboxA.y2 →
        RowAll g isNotRendered bboxA.x1 bboxA.x2 y) ∧
      (bboxA.y2 < (ret.roundToTileSize g.tileSizeX g.tileSizeY).y2 →
        ¬ RowAll g isNotRendered bboxA.x1 bboxA.x2 bboxA.y2) ∧
      (bboxB.x1 = (ret.roundToTileSize g.tileSizeX g.tileSizeY).x1 ∧
        bboxB.x2 = (ret.roundToTileSize g.tileSizeX g.tileSizeY).x2 ∧
        bboxB.y2 = (ret.roundToTileSize g.tileSizeX g.tileSizeY).y2 ∧
        bboxA.y2 ≤ bboxB.y1) ∧
      (∀ y, g.tileSizeY ∣ y → bboxB.y1 ≤ y → y < bboxB.y2 →
        RowAll g isNotRendered bboxB.x1 bboxB.x2 y) ∧
      (bboxA.y2 < bboxB.y1 →
        ¬ RowAll g isNotRendered bboxB.x1 bboxB.x2 (bboxB.y1 - g.tileSizeY)) := by
  have hg := hb.wellFormed
  obtain ⟨hne, hM, hMn⟩ := bands_of_bbox hb hc hret hnn
  obtain ⟨M, hMdef⟩ : ∃ M, M = ret.roundToTileSize g.tileSizeX g.tileSizeY := ⟨_, rfl⟩
  rw [← hMdef] at hM hMn ⊢
  obtain ⟨a, b, c, d, e, ⟨o1, o2, o3, o4, o5, o6⟩, hXi, r1, r2, r3, r4, _⟩ :=
    peelBands_spec hg hne hM hMn
  refine ⟨_, _, _, _, _, e, ⟨rfl, rfl, rfl, by dsimp only; omega⟩, ?_, ?_,
    ⟨rfl, rfl, rfl, o2⟩, ?_, ?_⟩
  · intro y dy l1 l2
    exact rowAll_of_not_hit hg hne hM dy l1 (by dsimp only at l2; omega) (r1 y dy l1 l2)
  · intro h
    exact not_rowAll_of_hit (r2 h)
  · intro y dy l1 l2
    exact rowAll_of_not_hit hg hne hM dy (by dsimp only at l1; omega) l2 (r3 y dy l1 l2)
  · intro h
    exact not_rowAll_of_hit (r4 h)

theorem bands_are_unrendered_runs_witness :
    BuiltByInit marginGrid ∧ marginGrid.boundsRoundedToTileSize.contains ⟨0, 0, 3, 10⟩ = true ∧
    getMinimalBboxToRenderFromTilesState ⟨0, 0, 3, 10⟩ marginGrid = some ⟨2, 0, 3, 10⟩ ∧
    (⟨2, 0, 3, 10⟩ : RectI).isNull = false ∧
    peelBands marginGrid ((⟨2, 0, 3, 10⟩ : RectI).roundToTileSize 2 2) =
      some (⟨2, 2, 4, 8⟩, ⟨2, 0, 4, 2⟩, ⟨2, 8, 4, 10⟩, ⟨2, 2, 2, 8⟩, ⟨4, 2, 4, 8⟩) ∧
    ∃ bboxX bboxA bboxB bboxC bboxD : RectI,
      peelBands marginGrid
          ((⟨2, 0, 3, 10⟩ : RectI).roundToTileSize marginGrid.tileSizeX marginGrid.tileSizeY) =
        some (bboxX, bboxA, bboxB, bboxC, bboxD) ∧
      (bboxA.x1 =
          ((⟨2, 0, 3, 10⟩ : RectI).roundToTileSize marginGrid.tileSizeX marginGrid.tileSizeY).x1 ∧
        bboxA.x2 =
          ((⟨2, 0, 3, 10⟩ : RectI).roundToTileSize marginGrid.tileSizeX marginGrid.tileSizeY).x2 ∧
        bboxA.y1 =
          ((⟨2, 0, 3, 10⟩ : RectI).roundToTileSize marginGrid.tileSizeX marginGrid.tileSizeY).y1 ∧
        bboxA.y2 ≤
          ((⟨2, 0, 3, 10⟩ : RectI).roundToTileSize marginGrid.tileSizeX marginGrid.tileSizeY).y2) ∧
      (∀ y, marginGrid.tileSizeY ∣ y → bboxA.y1 ≤ y → y < bboxA.y2 →
        RowAll marginGrid isNotRendered bboxA.x1 bboxA.x2 y) ∧
      (bboxA.y2 <
          ((⟨2, 0, 3, 10⟩ : RectI).roundToTileSize marginGrid.tileSizeX marginGrid.tileSizeY).y2 →
        ¬ RowAll marginGrid isNotRendered bboxA.x1 bboxA.x2 bboxA.y2) ∧
      (bboxB.x1 =
          ((⟨2, 0, 3, 10⟩ : RectI).roundToTileSize marginGrid.tileSizeX marginGrid.tileSizeY).x1 ∧
        bboxB.x2 =
          ((⟨2, 0, 3, 10⟩ : RectI).roundToTileSize marginGrid.tileSizeX marginGrid.tileSizeY).x2 ∧
        bboxB.y2 =
          ((⟨2, 0, 3, 10⟩ : RectI).roundToTileSize marginGrid.tileSizeX marginGrid.tileSizeY).y2 ∧
        bboxA.y2 ≤ bboxB.y1) ∧
      (∀ y, marginGrid.tileSizeY ∣ y → bboxB.y1 ≤ y → y < bboxB.y2 →
        RowAll marginGrid isNotRendered bboxB.x1 bboxB.x2 y) ∧
      (bboxA.y2 < bboxB.y1 →
        ¬ RowAll marginGrid isNotRendered bboxB.x1 bboxB.x2 (bboxB.y1 - marginGrid.tileSizeY)) :=
  ⟨by decide, by decide, by decide, by decide, by decide,
    bands_are_unrendered_runs marginGrid ⟨0, 0, 3, 10⟩ ⟨2, 0, 3, 10⟩ (by decide) (by decide)
      (by decide) (by decide)⟩

/-! ## The solvers read the tiles through the test for `NotRendered` only -/

theorem getTileAt_same {g g' : TileStateHeader} (h : SameNotRendered g g') (x y : Int) :
    (g'.getTileAt x y).map (fun t => isNotRendered t.status) =
      (g.getTileAt x y).map (fun t => isNotRendered t.status) := by
  obtain ⟨h1, h2, _, h4, h5⟩ := h
  have hlen : g'.tiles.length = g.tiles.length := by
    have := congrArg List.length h5
    simpa using this
  have hget : ∀ i : Nat, (g'.tiles[i]?).map (fun t => isNotRendered t.status) =
      (g.tiles[i]?).map (fun t => isNotRendered t.status) := by
    intro i
    have := congrArg (fun l => (l[i]?).map Prod.snd) h5
    simpa [List.getElem?_map, Option.map_map, Function.comp_def] using this
  unfold TileStateHeader.getTileAt
  rw [h1, h2, h4, hlen]
  split
  · dsimp only
    split
    · exact hget _
    · rfl
  · rfl

theorem hit_same {g g' : TileStateHeader} (h : SameNotRendered g g') (hit : TileStatus → Bool)
    (hh : ∀ s s', isNotRendered s = isNotRendered s' → hit s = hit s') (x y : Int) :
    (g'.getTileAt x y).map (fun t => hit t.status) =
      (g.getTileAt x y).map (fun t => hit t.status) := by
  have := getTileAt_same h x y
  cases e' : g'.getTileAt x y with
  | none =>
    cases e : g.getTileAt x y with
    | none => rfl
    | some t => rw [e', e] at this; cases this
  | some t' =>
    cases e : g.getTileAt x y with
    | none => rw [e', e] at this; cases this
    | some t =>
      rw [e', e] at this
      simp only [Option.map_some', Option.some.injEq] at this ⊢
      exact hh _ _ this

theorem scanRow_same {g g' : TileStateHeader} (h : SameNotRendered g g') (hit : TileStatus → Bool)
    (hh : ∀ s s', isNotRendered s = isNotRendered s' → hit s = hit s') (y x2 : Int) :
    ∀ (fuel : Nat) (x : Int), scanRow g' hit y x2 fuel x = scanRow g hit y x2 fuel x := by
  intro fuel
  induction fuel with
  | zero => intro x; rfl
  | succ n ih =>
    intro x
    have hk := hit_same h hit hh x y
    simp only [scanRow]
    split
    · cases e' : g'.getTileAt x y with
      | none =>
        cases e : g.getTileAt x y with
        | none => rfl
        | some t => rw [e', e] at hk; cases hk
      | some t' =>
        cases e : g.getTileAt x y with
        | none => rw [e', e] at hk; cases hk
        | some t =>
          rw [e', e] at hk
          simp only [Option.map_some', Option.some.injEq] at hk
          simp only [hk, ih, h.1]
    · rfl

theorem scanCol_same {g g' : TileStateHeader} (h : SameNotRendered g g') (hit : TileStatus → Bool)
    (hh : ∀ s s', isNotRendered s = isNotRendered s' → hit s = hit s') (x y2 : Int) :
    ∀ (fuel : Nat) (y : Int), scanCol g' hit x y2 fuel y = scanCol g hit x y2 fuel y := by
  intro fuel
  induction fuel with
  | zero => intro y; rfl
  | succ n ih =>
    intro y
    have hk := hit_same h hit hh x y
    simp only [scanCol]
    split
    · cases e' : g'.getTileAt x y with
      | none =>
        cases e : g.getTileAt x y with
        | none => rfl
        | some t => rw [e', e] at hk; cases hk
      | some t' =>
        cases e : g.getTileAt x y with
        | none => rw [e', e] at hk; cases hk
        | some t =>
          rw [e', e] at hk
          simp only [Option.map_some', Option.some.injEq] at hk
          simp only [hk, ih, h.2.1]
    · rfl

theorem rowHas_same {g g' : TileStateHeader} (h : SameNotRendered g g') (hit : TileStatus → Bool)
    (hh : ∀ s s', isNotRendered s = isNotRendered s' → hit s = hit s') (r : RectI) (y : Int) :
    rowHas g' hit r y = rowHas g hit r y :=
  scanRow_same h hit hh _ _ _ _

theorem colHas_same {g g' : TileStateHeader} (h : SameNotRendered g g') (hit : TileStatus → Bool)
    (hh : ∀ s s', isNotRendered s = isNotRendered s' → hit s = hit s') (r : RectI) (x : Int) :
    colHas g' hit r x = colHas g hit r x :=
  scanCol_same h hit hh _ _ _ _

theorem shrinkBottom_same {g g' : TileStateHeader} (h : SameNotRendered g g')
    (hit : TileStatus → Bool)
    (hh : ∀ s s', isNotRendered s = isNotRendered s' → hit s = hit s') :
    ∀ (fuel : Nat) (y : Int) (r : RectI),
      shrinkBottom g' hit fuel y r = shrinkBottom g hit fuel y r := by
  intro fuel
  induction fuel with
  | zero => intro y r; rfl
  | succ n ih => intro y r; simp only [shrinkBottom, rowHas_same h hit hh, ih, h.2.1]

theorem shrinkTop_same {g g' : TileStateHeader} (h : SameNotRendered g g')
    (hit : TileStatus → Bool)
    (hh : ∀ s s', isNotRendered s = isNotRendered s' → hit s = hit s') :
    ∀ (fuel : Nat) (y : Int) (r : RectI),
      shrinkTop g' hit fuel y r = shrinkTop g hit fuel y r := by
  intro fuel
  induction fuel with
  | zero => intro y r; rfl
  | succ n ih => intro y r; simp only [shrinkTop, rowHas_same h hit hh, ih, h.2.1]

theorem shrinkLeft_same {g g' : TileStateHeader} (h : SameNotRendered g g')
    (hit : TileStatus → Bool)
    (hh : ∀ s s', isNotRendered s = isNotRendered s' → hit s = hit s') :
    ∀ (fuel : Nat) (x : Int) (r : RectI),
      shrinkLeft g' hit fuel x r = shrinkLeft g hit fuel x r := by
  intro fuel
  induction fuel with
  | zero => intro x r; rfl
  | succ n ih => intro x r; simp only [shrinkLeft, colHas_same h hit hh, ih, h.1]

theorem shrinkRight_same {g g' : TileStateHeader} (h : SameNotRendered g g')
    (hit : TileStatus → Bool)
    (hh : ∀ s s', isNotRendered s = isNotRendered s' → hit s = hit s') :
    ∀ (fuel : Nat) (x : Int) (r : RectI),
      shrinkRight g' hit fuel x r = shrinkRight g hit fuel x r := by
  intro fuel
  induction fuel with
  | zero => intro x r; rfl
  | succ n ih => intro x r; simp only [shrinkRight, colHas_same h hit hh, ih, h.1]

theorem isNotRendered_respects :
    ∀ s s', isNotRendered s = isNotRendered s' → isNotRendered s = isNotRendered s' :=
  fun _ _ h => h

theorem isNotNotRendered_respects :
    ∀ s s', isNotRendered s = isNotRendered s' → isNotNotRendered s = isNotNotRendered s' := by
  intro s s' h
  cases s <;> cases s' <;> simp_all [isNotRendered, isNotNotRendered]

theorem tiles_isEmpty_same {g g' : TileStateHeader} (h : SameNotRendered g g') :
    g'.tiles.isEmpty = g.tiles.isEmpty := by
  have := congrArg List.length h.2.2.2.2
  simp only [List.length_map] at this
  cases hg : g.tiles with
  | nil => rw [hg] at this; simp [List.length_eq_zero.1 this]
  | cons a l =>
    rw [hg] at this
    cases hg' : g'.tiles with
    | nil => rw [hg'] at this; simp at this
    | cons a' l' => rfl

theorem bbox_same {g g' : TileStateHeader} (h : SameNotRendered g g') (roi : RectI) :
    getMinimalBboxToRenderFromTilesState roi g' = getMinimalBboxToRenderFromTilesState roi g := by
  simp only [getMinimalBboxToRenderFromTilesState, tiles_isEmpty_same h, h.1, h.2.1, h.2.2.1,
    h.2.2.2.1, shrinkBottom_same h _ isNotRendered_respects,
    shrinkTop_same h _ isNotRendered_respects, shrinkLeft_same h _ isNotRendered_respects,
    shrinkRight_same h _ isNotRendered_respects]

theorem peelBottom_same {g g' : TileStateHeader} (h : SameNotRendered g g') :
    ∀ (fuel : Nat) (y : Int) (s : RectI × RectI), peelBottom g' fuel y s = peelBottom g fuel y s := by
  intro fuel
  induction fuel with
  | zero => intro y s; rfl
  | succ n ih =>
    intro y s
    obtain ⟨X, A⟩ := s
    simp only [peelBottom, rowHas_same h _ isNotNotRendered_respects, ih, h.2.1]

theorem peelTop_same {g g' : TileStateHeader} (h : SameNotRendered g g') :
    ∀ (fuel : Nat) (y : Int) (s : RectI × RectI), peelTop g' fuel y s = peelTop g fuel y s := by
  intro fuel
  induction fuel with
  | zero => intro y s; rfl
  | succ n ih =>
    intro y s
    obtain ⟨X, B⟩ := s
    simp only [peelTop, rowHas_same h _ isNotNotRendered_respects, ih, h.2.1]

theorem peelLeft_same {g g' : TileStateHeader} (h : SameNotRendered g g') :
    ∀ (fuel : Nat) (x : Int) (s : RectI × RectI), peelLeft g' fuel x s = peelLeft g fuel x s := by
  intro fuel
  induction fuel with
  | zero => intro x s; rfl
  | succ n ih =>
    intro x s
    obtain ⟨X, C⟩ := s
    simp only [peelLeft, colHas_same h _ isNotNotRendered_respects, ih, h.1]

theorem peelRight_same {g g' : TileStateHeader} (h : SameNotRendered g g') :
    ∀ (fuel : Nat) (x : Int) (s : RectI × RectI), peelRight g' fuel x s = peelRight g fuel x s := by
  intro fuel
  induction fuel with
  | zero => intro x s; rfl
  | succ n ih =>
    intro x s
    obtain ⟨X, D⟩ := s
    simp only [peelRight, colHas_same h _ isNotNotRendered_respects, ih, h.1]

theorem rects_same {g g' : TileStateHeader} (h : SameNotRendered g g') (roi : RectI)
    (out : List RectI) :
    getMinimalRectsToRenderFromTilesState roi g' out =
      getMinimalRectsToRenderFromTilesState roi g out := by
  simp only [getMinimalRectsToRenderFromTilesState, tiles_isEmpty_same h, bbox_same h, h.1, h.2.1,
    peelBottom_same h, peelTop_same h, peelLeft_same h, peelRight_same h]

/-- C26: when the grid `g'` has the sizes and bounds of `g` and, tile by tile,
the status `NotRendered` exactly where `g` has it, so that the two differ only
in tiles that are `Pending` in the one and `Rendered` in the other, then
`getMinimalBboxToRenderFromTilesState` gives the same result on both and
`getMinimalRectsToRenderFromTilesState` the same list, for every `roi`. -/
theorem solvers_ignore_pending_rendered (g g' : TileStateHeader) (roi : RectI)
    (rectsToRender : List RectI) (h : SameNotRendered g g') :
    getMinimalBboxToRenderFromTilesState roi g' = getMinimalBboxToRenderFromTilesState roi g ∧
    getMinimalRectsToRenderFromTilesState roi g' rectsToRender =
      getMinimalRectsToRenderFromTilesState roi g rectsToRender :=
  ⟨bbox_same h roi, rects_same h roi rectsToRender⟩

theorem solvers_ignore_pending_rendered_witness :
    SameNotRendered scenarioB scenarioBPending ∧ scenarioB ≠ scenarioBPending ∧
    getMinimalBboxToRenderFromTilesState ⟨0, 0, 100, 100⟩ scenarioBPending =
      some ⟨64, 64, 100, 100⟩ ∧
    getMinimalBboxToRenderFromTilesState ⟨0, 0, 100, 100⟩ scenarioBPending =
      getMinimalBboxToRenderFromTilesState ⟨0, 0, 100, 100⟩ scenarioB ∧
    getMinimalRectsToRenderFromTilesState ⟨0, 0, 100, 100⟩ scenarioBPending [] =
      getMinimalRectsToRenderFromTilesState ⟨0, 0, 100, 100⟩ scenarioB [] :=
  ⟨by decide, by decide, by decide,
    solvers_ignore_pending_rendered scenarioB scenarioBPending ⟨0, 0, 100, 100⟩ [] (by decide)⟩

/-! ## Grids with fewer `NotRendered` tiles -/

theorem wellFormed_fewer {g g' : TileStateHeader} (h : FewerNotRendered g g')
    (hg : WellFormed g) : WellFormed g' ∧ (g.tiles ≠ [] → g'.tiles ≠ []) := by
  obtain ⟨h1, h2, h3, h4, h5, _⟩ := h
  obtain ⟨hT, hU, hr, hlen⟩ := hg
  refine ⟨⟨by rw [h1]; exact hT, by rw [h2]; exact hU, by rw [h4, h3, h1, h2]; exact hr, ?_⟩, ?_⟩
  · rcases hlen with hl | hl
    · left
      rw [hl] at h5
      exact List.length_eq_zero.1 h5
    · right
      rw [h5, hl]
      simp only [TileStateHeader.tileCount, h1, h2, h4]
  · intro hne hnil
    rw [hnil] at h5
    exact hne (List.length_eq_zero.1 h5.symm)

theorem getTileAt_markRendered (g : TileStateHeader) (rects : List RectI) (x y : Int) :
    (markRendered g rects).getTileAt x y =
      (g.getTileAt x y).map (fun t =>
        if rects.any (fun r => (t.bounds.intersect r RectI.null).1) then
          { t with status := eTileStatusRendered }
        else t) := by
  unfold TileStateHeader.getTileAt markRendered
  simp only [List.length_map, List.getElem?_map]
  split
  · split
    · rfl
    · rfl
  · rfl

theorem markRendered_fewer (g : TileStateHeader) (rects : List RectI) :
    FewerNotRendered g (markRendered g rects) := by
  refine ⟨rfl, rfl, rfl, rfl, by simp [markRendered], ?_⟩
  intro i t t' ht ht' hs
  simp only [markRendered, List.getElem?_map, ht, Option.map_some', Option.some.injEq] at ht'
  split at ht'
  · rw [← ht'] at hs
    cases hs
  · rw [← ht'] at hs
    exact hs

theorem intersect_true_of_pixel {a b : RectI} {px py : Int} (ha : a.hasPixel px py)
    (hb : b.hasPixel px py) (out : RectI) : (a.intersect b out).1 = true := by
  unfold RectI.intersect
  simp only
  rw [if_neg]
  simp only [RectI.isNull, Bool.or_eq_true, decide_eq_true_eq, not_or, not_le]
  unfold RectI.hasPixel at ha hb
  omega

/-- A tile of the rounded `roi` has a pixel of its bounds in `roi`, when `roi`
is not null and lies in the image bounds. -/
theorem tile_pixel_in_roi {g : TileStateHeader} (hg : WellFormed g) {roi : RectI}
    (hroi : roi.isNull = false) (hcb : g.bounds.contains roi = true) {tx ty : Int}
    (dx : g.tileSizeX ∣ tx) (dy : g.tileSizeY ∣ ty)
    (l1 : (roi.roundToTileSize g.tileSizeX g.tileSizeY).x1 ≤ tx)
    (l2 : tx < (roi.roundToTileSize g.tileSizeX g.tileSizeY).x2)
    (l3 : (roi.roundToTileSize g.tileSizeX g.tileSizeY).y1 ≤ ty)
    (l4 : ty < (roi.roundToTileSize g.tileSizeX g.tileSizeY).y2) :
    CellIn g (roi.roundToTileSize g.tileSizeX g.tileSizeY) tx ty ∧
    (g.clippedCell tx ty).hasPixel (max tx roi.x1) (max ty roi.y1) ∧
    roi.hasPixel (max tx roi.x1) (max ty roi.y1) := by
  obtain ⟨hT, hU, _, _⟩ := hg
  rw [isNull_false_iff] at hroi
  rw [contains_iff] at hcb
  have sx := step_le hT dx (ceil_dvd g.tileSizeX roi.x2) l2
  have sy := step_le hU dy (ceil_dvd g.tileSizeY roi.y2) l4
  simp only [RectI.roundToTileSize] at l1 l2 l3 l4
  have q1 := lt_floor_add hT roi.x1
  have q2 := lt_floor_add hU roi.y1
  have q3 := ceil_lt hT roi.x2
  have q4 := ceil_lt hU roi.y2
  refine ⟨⟨?_, ?_, ?_, ?_⟩, ?_, ?_⟩
  · simp only [RectI.roundToTileSize]; exact l1
  · simp only [RectI.roundToTileSize]; exact sx
  · simp only [RectI.roundToTileSize]; exact l3
  · simp only [RectI.roundToTileSize]; exact sy
  · simp only [TileStateHeader.clippedCell, RectI.hasPixel]
    omega
  · simp only [RectI.hasPixel]
    omega

/-- C27: on a grid built by `init`, for a non-null `roi` contained in the image
bounds, let `rs` be the rectangles `getMinimalRectsToRenderFromTilesState`
returns. Once every tile whose bounds intersect a rectangle of `rs` is marked
`Rendered`, a second call returns no rectangle and
`getMinimalBboxToRenderFromTilesState` returns a null rectangle. -/
theorem render_progress (g : TileStateHeader) (roi : RectI) (rs : List RectI)
    (hb : BuiltByInit g) (hroi : roi.isNull = false) (hcb : g.bounds.contains roi = true)
    (hrs : getMinimalRectsToRenderFromTilesState roi g [] = some rs) :
    getMinimalRectsToRenderFromTilesState roi (markRendered g rs) [] = some [] ∧
    ∃ r, getMinimalBboxToRenderFromTilesState roi (markRendered g rs) = some r ∧
      r.isNull = true := by
  have hg := hb.wellFormed
  have hc := contains_bounds_rounded hg hcb
  by_cases hne : g.tiles = []
  · have hne' : (markRendered g rs).tiles = [] := by simp [markRendered, hne]
    exact ⟨rects_nil hne' roi [], RectI.null,
      by simp [getMinimalBboxToRenderFromTilesState, hne'], by decide⟩
  obtain ⟨hg', hne'⟩ := wellFormed_fewer (markRendered_fewer g rs) hg
  have hc' : (markRendered g rs).boundsRoundedToTileSize.contains roi = true := hc
  have hno : ∀ tx ty, ¬ UnrenderedIn (markRendered g rs)
      (roi.roundToTileSize g.tileSizeX g.tileSizeY) tx ty := by
    intro tx ty hu
    obtain ⟨dx, dy, l1, l2, l3, l4, t', ht', hs'⟩ := hu
    have dx' : g.tileSizeX ∣ tx := dx
    have dy' : g.tileSizeY ∣ ty := dy
    rw [getTileAt_markRendered] at ht'
    cases ht : g.getTileAt tx ty with
    | none => rw [ht] at ht'; cases ht'
    | some t =>
      rw [ht] at ht'
      simp only [Option.map_some', Option.some.injEq] at ht'
      obtain ⟨hcell, hp1, hp2⟩ := tile_pixel_in_roi hg hroi hcb dx' dy' l1 l2 l3 l4
      have hR := inside_round hg hc
      have ho : IsOrigin g tx ty := by
        obtain ⟨_, w1, w2, w3, w4⟩ := hR
        exact ⟨dx', dy', by omega, by omega, by omega, by omega⟩
      have hbd := hb.tile_bounds ho ht
      by_cases hany : rs.any (fun r => (t.bounds.intersect r RectI.null).1) = true
      · rw [if_pos hany] at ht'
        rw [← ht'] at hs'
        simp [isNotRendered] at hs'
      · rw [if_neg hany] at ht'
        rw [← ht'] at hs'
        have hst : t.status = eTileStatusNotRendered := by
          simpa [isNotRendered] using hs'
        obtain ⟨rs0, e0, hcov⟩ := rects_cover_core g roi hb hc
        rw [hrs] at e0
        cases e0
        obtain ⟨r, hr, hpr⟩ := hcov tx ty t dx' dy' hcell ht hst _ _ (by rw [hbd]; exact hp1) hp2
        apply hany
        rw [List.any_eq_true]
        exact ⟨r, hr, intersect_true_of_pixel (by rw [hbd]; exact hp1) hpr _⟩
  obtain ⟨S, _, _, hcase⟩ := bbox_spec hg' (hne' hne) hc'
  rcases hcase with ⟨hn, e, _⟩ | ⟨_, _, _, ⟨x, hx⟩, _⟩
  · refine ⟨?_, S, e, hn⟩
    simp [getMinimalRectsToRenderFromTilesState, tiles_isEmpty_false (hne' hne), e, hn]
  · exact absurd hx (hno _ _)

theorem render_progress_witness :
    BuiltByInit scenarioC ∧ (⟨0, 0, 3, 6⟩ : RectI).isNull = false ∧
    scenarioC.bounds.contains ⟨0, 0, 3, 6⟩ = true ∧
    getMinimalRectsToRenderFromTilesState ⟨0, 0, 3, 6⟩ scenarioC [] = some [⟨0, 2, 3, 4⟩] ∧
    (markRendered scenarioC [⟨0, 2, 3, 4⟩]).tiles.map (fun t => t.status) =
      [eTileStatusRendered, eTileStatusRendered, eTileStatusRendered, eTileStatusRendered,
        eTileStatusRendered, eTileStatusRendered] ∧
    getMinimalRectsToRenderFromTilesState ⟨0, 0, 3, 6⟩ (markRendered scenarioC [⟨0, 2, 3, 4⟩]) [] =
      some [] ∧
    ∃ r, getMinimalBboxToRenderFromTilesState ⟨0, 0, 3, 6⟩
        (markRendered scenarioC [⟨0, 2, 3, 4⟩]) = some r ∧ r.isNull = true :=
  ⟨by decide, by decide, by decide, by decide, by decide,
    render_progress scenarioC ⟨0, 0, 3, 6⟩ [⟨0, 2, 3, 4⟩] (by decide) (by decide) (by decide)
      (by decide)⟩

/-! ## The tiles of `init` partition the image bounds -/

theorem mul_step {T : Int} (hT : 0 < T) {i i' : Nat} (h : i < i') : T * i + T ≤ T * i' := by
  have h1 : ((i : Int) + 1) ≤ i' := by omega
  have h2 := Int.mul_le_mul_of_nonneg_left h1 (le_of_lt hT)
  rw [mul_add, mul_one] at h2
  exact h2

theorem index_decomp {n m k : Nat} (hn : 0 < n) (hk : k < m * n) :
    k / n < m ∧ k % n < n ∧ k / n * n + k % n = k := by
  refine ⟨?_, Nat.mod_lt _ hn, ?_⟩
  · exact Nat.div_lt_of_lt_mul (by rw [Nat.mul_comm]; exact hk)
  · rw [Nat.mul_comm]; exact Nat.div_add_mod k n

theorem index_inj {n i j i' j' : Nat} (hi : i < n) (hi' : i' < n)
    (h : j * n + i = j' * n + i') : i = i' ∧ j = j' := by
  have hn : 0 < n := by omega
  have h1 : (j * n + i) / n = j := by
    rw [Nat.add_comm, Nat.add_mul_div_right _ _ hn, Nat.div_eq_of_lt hi, Nat.zero_add]
  have h2 : (j' * n + i') / n = j' := by
    rw [Nat.add_comm, Nat.add_mul_div_right _ _ hn, Nat.div_eq_of_lt hi', Nat.zero_add]
  have h3 : (j * n + i) % n = i := by
    rw [Nat.add_comm, Nat.add_mul_mod_self_right, Nat.mod_eq_of_lt hi]
  have h4 : (j' * n + i') % n = i' := by
    rw [Nat.add_comm, Nat.add_mul_mod_self_right, Nat.mod_eq_of_lt hi']
  rw [h] at h1 h3
  exact ⟨by omega, by omega⟩

/-- The clipped cells of two distinct tiles of the grid have no common pixel. -/
theorem cells_disjoint {g : TileStateHeader} (hT : 0 < g.tileSizeX) (hU : 0 < g.tileSizeY)
    (x0 y0 : Int) {i j i' j' : Nat} (h : i ≠ i' ∨ j ≠ j') (px py : Int) :
    ¬ ((g.clippedCell (x0 + g.tileSizeX * i) (y0 + g.tileSizeY * j)).hasPixel px py ∧
      (g.clippedCell (x0 + g.tileSizeX * i') (y0 + g.tileSizeY * j')).hasPixel px py) := by
  simp only [TileStateHeader.clippedCell, RectI.hasPixel]
  rcases h with h | h
  · rcases Nat.lt_or_gt_of_ne h with h | h
    · have := mul_step hT h
      omega
    · have := mul_step hT h
      omega
  · rcases Nat.lt_or_gt_of_ne h with h | h
    · have := mul_step hU h
      omega
    · have := mul_step hU h
      omega

/-- The grid `init` builds, tile by tile: tile `k` of the `m * n` tiles has the
clipped cell of column `k % n` and row `k / n` as bounds. -/
theorem init_cells (old : TileStateHeader) {T U : Int} {roi : RectI} (hT : 0 < T) (hU : 0 < U)
    (hroi : roi.isNull = false) (hfit : TileStateHeader.initFitsInt T U roi) :
    ∃ (g : TileStateHeader) (n m : Nat),
      TileStateHeader.init old T U roi = some g ∧
      g.tileSizeX = T ∧ g.tileSizeY = U ∧ g.bounds = roi ∧
      g.boundsRoundedToTileSize = roi.roundToTileSize T U ∧
      (roi.roundToTileSize T U).x2 = (roi.roundToTileSize T U).x1 + T * n ∧
      (roi.roundToTileSize T U).y2 = (roi.roundToTileSize T U).y1 + U * m ∧
      0 < n ∧ 0 < m ∧ g.tiles.length = m * n ∧
      (∀ (k : Nat) (t : TileState), g.tiles[k]? = some t →
        k < m * n ∧
        t.bounds = g.clippedCell ((roi.roundToTileSize T U).x1 + T * (k % n : Nat))
          ((roi.roundToTileSize T U).y1 + U * (k / n : Nat))) ∧
      (∀ j i : Nat, j < m → i < n → ∃ t, g.tiles[j * n + i]? = some t ∧
        t.bounds = g.clippedCell ((roi.roundToTileSize T U).x1 + T * i)
          ((roi.roundToTileSize T U).y1 + U * j)) := by
  obtain ⟨g, n, m, e, s1, s2, s3, s4, s5, s6, hn, hm, hl, _, _, hbd⟩ :=
    init_total old hT hU hroi hfit
  have hcell : ∀ j i : Nat, j < m → i < n → ∃ t, g.tiles[j * n + i]? = some t ∧
      t.bounds = g.clippedCell ((roi.roundToTileSize T U).x1 + T * i)
        ((roi.roundToTileSize T U).y1 + U * j) := by
    intro j i hj hi
    have := hbd j i hj hi
    cases ht : g.tiles[j * n + i]? with
    | none => rw [ht] at this; cases this
    | some t =>
      rw [ht] at this
      simp only [Option.map_some', Option.some.injEq] at this
      exact ⟨t, rfl, this⟩
  refine ⟨g, n, m, e, s1, s2, s3, s4, ?_, ?_, hn, hm, hl, ?_, hcell⟩
  · rw [s4] at s5; simp only [RectI.width] at s5; omega
  · rw [s4] at s6; simp only [RectI.height] at s6; omega
  · intro k t ht
    have hk : k < m * n := by
      rw [← hl]
      exact (List.getElem?_eq_some.1 ht).1
    obtain ⟨d1, d2, d3⟩ := index_decomp hn hk
    refine ⟨hk, ?_⟩
    obtain ⟨t0, ht0, hb0⟩ := hcell (k / n) (k % n) d1 d2
    rw [d3, ht] at ht0
    cases ht0
    exact hb0

theorem origin_coords {T x1 n tx : Int} (hT : 0 < T) (d1 : T ∣ x1) (dx : T ∣ tx) (l1 : x1 ≤ tx)
    (l2 : tx < x1 + T * n) : ∃ i : Nat, tx = x1 + T * i ∧ (i : Int) < n := by
  obtain ⟨i, hi⟩ := exists_nat_mul hT (Int.dvd_sub dx d1) (by omega)
  refine ⟨i, by omega, ?_⟩
  by_contra hc
  have h1 : n ≤ (i : Int) := by omega
  have h2 := Int.mul_le_mul_of_nonneg_left h1 (le_of_lt hT)
  omega

theorem pixel_column {T x1 px : Int} {n : Nat} (hT : 0 < T) (l1 : x1 ≤ px)
    (l2 : px < x1 + T * n) : ∃ i : Nat, i < n ∧ x1 + T * i ≤ px ∧ px < x1 + T * i + T := by
  have h1 := Int.emod_nonneg (px - x1) (ne_of_gt hT)
  have h2 := Int.emod_lt_of_pos (px - x1) hT
  have h3 := Int.ediv_add_emod (px - x1) T
  have h4 : 0 ≤ (px - x1) / T := Int.ediv_nonneg (by omega) (le_of_lt hT)
  obtain ⟨i, hi⟩ := Int.eq_ofNat_of_zero_le h4
  rw [hi] at h3
  refine ⟨i, ?_, by omega, by omega⟩
  by_contra hc
  have h5 : (n : Int) ≤ i := by omega
  have h6 := Int.mul_le_mul_of_nonneg_left h5 (le_of_lt hT)
  omega

/-- C29 as stated fails: `init(1, 1, (0,0,65536,65536))` creates no tiles that
could partition `roi`, for the number of tiles `4294967296` is not the value of
an `int` and `init` does not run through. -/
theorem init_tiles_partition_overflows :
    (0 : Int) < 1 ∧ (⟨0, 0, 65536, 65536⟩ : RectI).isNull = false ∧
    ¬ TileStateHeader.initFitsInt 1 1 ⟨0, 0, 65536, 65536⟩ ∧
    TileStateHeader.init cornerGrid 1 1 ⟨0, 0, 65536, 65536⟩ = none ∧
    ¬ ∀ (old : TileStateHeader) (T U : Int) (roi : RectI), 0 < T → 0 < U → roi.isNull = false →
      ∃ g, TileStateHeader.init old T U roi = some g ∧
        (∀ t ∈ g.tiles, t.bounds.isNull = false) ∧
        (∀ px py : Int, roi.hasPixel px py ↔ ∃ t ∈ g.tiles, t.bounds.hasPixel px py) := by
  refine ⟨by decide, by decide, by decide, by decide, ?_⟩
  intro h
  obtain ⟨g, e, _⟩ := h cornerGrid 1 1 ⟨0, 0, 65536, 65536⟩ (by decide) (by decide) (by decide)
  have hnone : TileStateHeader.init cornerGrid 1 1 ⟨0, 0, 65536, 65536⟩ = none := by decide
  rw [hnone] at e
  cases e

/-- C29, amended: for positive tile sizes and a non-null `roi` with which every
value `init` computes in `int` is the value of an `int`, the tiles `init`
creates partition `roi`: the bounds of every tile are non-null, the bounds of
two distinct tiles have an empty intersection, a pixel lies in `roi` exactly
when it lies in the bounds of a tile, and two tile origins with the same index
are the same origin. -/
theorem init_tiles_partition (old : TileStateHeader) (T U : Int) (roi : RectI) (hT : 0 < T)
    (hU : 0 < U) (hroi : roi.isNull = false) (hfit : TileStateHeader.initFitsInt T U roi) :
    ∃ g, TileStateHeader.init old T U roi = some g ∧
      (∀ t ∈ g.tiles, t.bounds.isNull = false) ∧
      (∀ (k k' : Nat) (t t' : TileState), k ≠ k' → g.tiles[k]? = some t →
        g.tiles[k']? = some t' → t.bounds.intersect t'.bounds RectI.null = (false, RectI.null)) ∧
      (∀ px py : Int, roi.hasPixel px py ↔ ∃ t ∈ g.tiles, t.bounds.hasPixel px py) ∧
      (∀ tx ty tx' ty' : Int, IsOrigin g tx ty → IsOrigin g tx' ty' →
        g.tileIndex tx ty = g.tileIndex tx' ty' → tx = tx' ∧ ty = ty') := by
  obtain ⟨g, n, m, e, s1, s2, s3, s4, s5, s6, hn, hm, hl, hk, hcell⟩ :=
    init_cells old hT hU hroi hfit
  have hroi' := (isNull_false_iff roi).1 hroi
  obtain ⟨R, hR⟩ : ∃ R, R = roi.roundToTileSize T U := ⟨_, rfl⟩
  have hx1 : R.x1 = roi.x1 - roi.x1 % T := by rw [hR]; rfl
  have hy1 : R.y1 = roi.y1 - roi.y1 % U := by rw [hR]; rfl
  have hx2 : R.x2 = roi.x2 + (T - roi.x2 % T) % T := by rw [hR]; rfl
  have hy2 : R.y2 = roi.y2 + (U - roi.y2 % U) % U := by rw [hR]; rfl
  rw [← hR] at s4 s5 s6 hk hcell
  have f1 := floor_le hT roi.x1
  have f2 := floor_le hU roi.y1
  have f3 := le_ceil hT roi.x2
  have f4 := le_ceil hU roi.y2
  have q1 := lt_floor_add hT roi.x1
  have q2 := lt_floor_add hU roi.y1
  have q3 := ceil_lt hT roi.x2
  have q4 := ceil_lt hU roi.y2
  have hnonnull : ∀ i j : Nat, i < n → j < m →
      (g.clippedCell (R.x1 + T * i) (R.y1 + U * j)).isNull = false := by
    intro i j hi hj
    have a1 := mul_step hT hi
    have a2 := mul_step hU hj
    have a3 : 0 ≤ T * (i : Int) := Int.mul_nonneg (le_of_lt hT) (Int.ofNat_nonneg i)
    have a4 : 0 ≤ U * (j : Int) := Int.mul_nonneg (le_of_lt hU) (Int.ofNat_nonneg j)
    rw [isNull_false_iff]
    simp only [TileStateHeader.clippedCell, s1, s2, s3]
    omega
  refine ⟨g, e, ?_, ?_, ?_, ?_⟩
  · intro t ht
    obtain ⟨k, hkt⟩ := List.mem_iff_getElem?.1 ht
    obtain ⟨hklt, hb⟩ := hk k t hkt
    obtain ⟨d1, d2, _⟩ := index_decomp hn hklt
    rw [hb]
    exact hnonnull _ _ d2 d1
  · intro k k' t t' hne ht ht'
    obtain ⟨hklt, hb⟩ := hk k t ht
    obtain ⟨hklt', hb'⟩ := hk k' t' ht'
    obtain ⟨_, _, d3⟩ := index_decomp hn hklt
    obtain ⟨_, _, d3'⟩ := index_decomp hn hklt'
    have hij : k % n ≠ k' % n ∨ k / n ≠ k' / n := by
      by_contra hc
      have h1 : k % n = k' % n := by omega
      have h2 : k / n = k' / n := by omega
      rw [h1, h2] at d3
      omega
    have hdis := cells_disjoint (s1 ▸ hT) (s2 ▸ hU) R.x1 R.y1 hij
    rw [s1, s2] at hdis
    rw [hb, hb']
    unfold RectI.intersect
    simp only
    split
    · rfl
    · rename_i hnn
      exfalso
      simp only [RectI.isNull, Bool.or_eq_true, decide_eq_true_eq, not_or, not_le] at hnn
      refine hdis (max (g.clippedCell (R.x1 + T * (k % n : Nat)) (R.y1 + U * (k / n : Nat))).x1
        (g.clippedCell (R.x1 + T * (k' % n : Nat)) (R.y1 + U * (k' / n : Nat))).x1)
        (max (g.clippedCell (R.x1 + T * (k % n : Nat)) (R.y1 + U * (k / n : Nat))).y1
        (g.clippedCell (R.x1 + T * (k' % n : Nat)) (R.y1 + U * (k' / n : Nat))).y1) ?_
      simp only [RectI.hasPixel]
      omega
  · intro px py
    constructor
    · intro hp
      obtain ⟨p1, p2, p3, p4⟩ := hp
      obtain ⟨i, hi, c1, c2⟩ := pixel_column hT (show R.x1 ≤ px by omega)
        (show px < R.x1 + T * n by omega)
      obtain ⟨j, hj, c3, c4⟩ := pixel_column hU (show R.y1 ≤ py by omega)
        (show py < R.y1 + U * m by omega)
      obtain ⟨t, ht, hb⟩ := hcell j i hj hi
      refine ⟨t, List.mem_iff_getElem?.2 ⟨_, ht⟩, ?_⟩
      rw [hb]
      simp only [TileStateHeader.clippedCell, RectI.hasPixel, s1, s2, s3]
      omega
    · rintro ⟨t, ht, hp⟩
      obtain ⟨k, hkt⟩ := List.mem_iff_getElem?.1 ht
      obtain ⟨_, hb⟩ := hk k t hkt
      rw [hb] at hp
      simp only [TileStateHeader.clippedCell, RectI.hasPixel, s1, s2, s3] at hp ⊢
      omega
  · intro tx ty tx' ty' ho ho' hidx
    obtain ⟨dx, dy, o1, o2, o3, o4⟩ := ho
    obtain ⟨dx', dy', o1', o2', o3', o4'⟩ := ho'
    rw [s1] at dx dx'
    rw [s2] at dy dy'
    rw [s4] at o1 o2 o3 o4 o1' o2' o3' o4'
    have dR1 : T ∣ R.x1 := by rw [hx1]; exact floor_dvd _ _
    have dR2 : U ∣ R.y1 := by rw [hy1]; exact floor_dvd _ _
    obtain ⟨i, hi, hin⟩ := origin_coords hT dR1 dx o1
      (show tx < R.x1 + T * (n : Int) by omega)
    obtain ⟨j, hj, hjm⟩ := origin_coords hU dR2 dy o3
      (show ty < R.y1 + U * (m : Int) by omega)
    obtain ⟨i', hi', hin'⟩ := origin_coords hT dR1 dx' o1'
      (show tx' < R.x1 + T * (n : Int) by omega)
    obtain ⟨j', hj', hjm'⟩ := origin_coords hU dR2 dy' o3'
      (show ty' < R.y1 + U * (m : Int) by omega)
    have hw : R.width = T * n := by
      simp only [RectI.width]; omega
    have key : ∀ (a b : Nat), g.tileIndex (R.x1 + T * a) (R.y1 + U * b) = (b : Int) * n + a := by
      intro a b
      simp only [TileStateHeader.tileIndex, s1, s2, s4]
      rw [hw, add_sub_cancel_left, add_sub_cancel_left,
        Int.mul_tdiv_cancel_left _ (ne_of_gt hU), Int.mul_tdiv_cancel_left _ (ne_of_gt hT),
        Int.mul_tdiv_cancel_left _ (ne_of_gt hT)]
    rw [hi, hj, hi', hj', key, key] at hidx
    have hnat : j * n + i = j' * n + i' := by exact_mod_cast hidx
    obtain ⟨e1, e2⟩ := index_inj (show i < n by omega) (show i' < n by omega) hnat
    subst e1 e2
    exact ⟨by omega, by omega⟩

theorem init_tiles_partition_witness :
    (0 : Int) < 64 ∧ (⟨0, 0, 100, 100⟩ : RectI).isNull = false ∧
    TileStateHeader.initFitsInt 64 64 ⟨0, 0, 100, 100⟩ ∧
    TileStateHeader.init scenarioB 64 64 ⟨0, 0, 100, 100⟩ = some scenarioA ∧
    scenarioA.tiles.map (fun t => t.bounds) =
      [⟨0, 0, 64, 64⟩, ⟨64, 0, 100, 64⟩, ⟨0, 64, 64, 100⟩, ⟨64, 64, 100, 100⟩] ∧
    ∃ g, TileStateHeader.init scenarioB 64 64 ⟨0, 0, 100, 100⟩ = some g ∧
      (∀ t ∈ g.tiles, t.bounds.isNull = false) ∧
      (∀ (k k' : Nat) (t t' : TileState), k ≠ k' → g.tiles[k]? = some t →
        g.tiles[k']? = some t' → t.bounds.intersect t'.bounds RectI.null = (false, RectI.null)) ∧
      (∀ px py : Int, (⟨0, 0, 100, 100⟩ : RectI).hasPixel px py ↔
        ∃ t ∈ g.tiles, t.bounds.hasPixel px py) ∧
      (∀ tx ty tx' ty' : Int, IsOrigin g tx ty → IsOrigin g tx' ty' →
        g.tileIndex tx ty = g.tileIndex tx' ty' → tx = tx' ∧ ty = ty') :=
  ⟨by decide, by decide, by decide, by decide, by decide,
    init_tiles_partition scenarioB 64 64 ⟨0, 0, 100, 100⟩ (by decide) (by decide) (by decide)
      (by decide)⟩

/-! ## Script-friendly names -/

/-- C30, the code on inputs that hold a character Python does not allow: the
test for the names `from` and `lambda` is made on the input as it is given, and
the characters are removed after it, so `f-rom` and `from!` give `from` and
`lamb-da` gives `lambda`, with and without dots; the two names themselves are
renamed. -/
theorem makeNameScriptFriendly_returns_reserved :
    makeNameScriptFriendly "from" = "pFrom" ∧ makeNameScriptFriendly "lambda" = "pLambda" ∧
    makeNameScriptFriendly "f-rom" = "from" ∧ makeNameScriptFriendly "from!" = "from" ∧
    makeNameScriptFriendly "from." = "from" ∧ makeNameScriptFriendly "lamb-da" = "lambda" ∧
    makeNameScriptFriendlyWithDots "f-rom" = "from" ∧
    makeNameScriptFriendlyWithDots "lamb-da" = "lambda" ∧
    ¬ ∀ str : String, makeNameScriptFriendly str ≠ "from" ∧ makeNameScriptFriendly str ≠ "lambda" ∧
      makeNameScriptFriendlyWithDots str ≠ "from" ∧
      makeNameScriptFriendlyWithDots str ≠ "lambda" := by
  refine ⟨by decide, by decide, by decide, by decide, by decide, by decide, by decide, by decide, ?_⟩
  intro h
  exact (h "f-rom").1 (by decide)

end Natron
